import Mathlib

/-!
# ACPM IPC mailbox transport (drivers/soc/samsung/acpm/acpm_ipc.c)

A shallow embedding of the ring-buffer protocol of `acpm_ipc.c`: sequence-number
allocation, the transmit path `__acpm_ipc_send_data`, the response matcher
`check_response` and the indirect-payload step `enqueue_indirection_cmd`.

Conventions of the embedding.

* Machine words are natural numbers; arithmetic that can overflow is truncated with
  `u32` / `u64`.
* A ring (`buff_info`) keeps the two index words `front` and `rear` of shared memory and
  its slot memory `base`, addressed by slot number and 32-bit word number: the address
  `base + size * i` of the source is slot `i`, and a copy of `size` bytes moves the first
  `size / 4` words of a slot.
* Shared memory is stable during one host routine; the coprocessor acts in separate
  steps (`fw_consume`, and the step `fw` that `__acpm_ipc_send_data` lets happen between
  ringing the doorbell and waiting for the answer).
* Everything the host does to the outside world (register writes, subscriber callbacks,
  lock operations, diagnostic calls) is appended to the event log `Hw.events`.
-/

namespace AcpmIpc

/-- Truncation to an unsigned 32-bit word. -/
def u32 (n : Nat) : Nat := n % 2 ^ 32

/-- Truncation to an unsigned 64-bit word. -/
def u64 (n : Nat) : Nat := n % 2 ^ 64

/-- Modelled from the spec: `SEQUENCE_NUM_MAX` of the header `acpm_ipc.h`, which is not
among the sources; sequence numbers are six bits wide, 1..63 are used and 0 is
reserved. -/
def SEQUENCE_NUM_MAX : Nat := 64

/-- Modelled from the spec: the errno value behind the `Timeout` failure (Linux
`ETIMEDOUT`). -/
def ETIMEDOUT : Int := 110

/-- Modelled from the spec: the errno value behind the `BadMessage` failure (Linux
`EIO`). -/
def EIO : Int := 5

/-- Modelled from the spec: Linux `EINVAL`, returned for an indirect command without a
payload. -/
def EINVAL : Int := 22

/-- Constants of `acpm_ipc.h` whose values the sources do not show: the bit positions of
the sequence-number field and of the indirection flag in command word 0, and the length
of one timeout window in nanoseconds. -/
structure Consts where
  ACPM_IPC_PROTOCOL_SEQ_NUM : Nat
  ACPM_IPC_PROTOCOL_INDIRECTION : Nat
  IPC_TIMEOUT : Nat

/-- Mailbox registers written by the transport. -/
inductive Reg where
  | INTGR0
  | INTCR1
  | INTGR1
  | INTMR1
  deriving DecidableEq

/-- Effects of the host that are visible outside the channel state, in program order. -/
inductive Event where
  | mutex_lock_wait (id : Nat)
  | mutex_unlock_wait (id : Nat)
  | spin_lock_tx (id : Nat)
  | spin_unlock_tx (id : Nat)
  | spin_lock_rx (id : Nat)
  | spin_unlock_rx (id : Nat)
  | writel (val : Nat) (reg : Reg)
  | ipc_callback (handler : Nat) (client : Nat) (cmd : List Nat) (size : Nat)
  | complete (id : Nat)
  | wait_for_completion (id : Nat)
  | acpm_log_print
  | acpm_log_idx_update
  | acpm_ramdump
  | queue_work
  | dump_stack
  | msleep (ms : Nat)
  | dbg_snapshot_expire_watchdog
  | udelay (us : Nat)
  | usleep_range (lo hi : Nat)
  deriving DecidableEq

/-- One direction of a channel (`struct buff_info`): index words, slot memory, the
indirect-payload buffer and the geometry published by the firmware. -/
structure buff_info where
  rear : Nat
  front : Nat
  base : Nat → Nat → Nat
  direction : Nat → Nat
  size : Nat
  len : Nat

/-- A registered subscriber (`struct callback_info`); `ipc_callback = none` is a null
handler. -/
structure callback_info where
  ipc_callback : Option Nat
  client : Nat
  deriving DecidableEq

/-- Per-channel descriptor (`struct acpm_ipc_ch`). `list` is the subscriber list in
iteration order, `seq_num_flag` the in-flight array indexed by sequence number. -/
structure acpm_ipc_ch where
  rx_ch : buff_info
  tx_ch : buff_info
  list : List callback_info
  id : Nat
  type : Nat
  seq_num : Nat
  cmd : Nat → Nat
  polling : Bool
  interrupt : Bool
  seq_num_flag : Nat → Nat

/-- The caller's command descriptor (`struct ipc_config`); a null `cmd` or
`indirection_base` pointer is `none`. -/
structure ipc_config where
  cmd : Option (Nat → Nat)
  indirection_base : Option (Nat → Nat)
  indirection_size : Nat
  response : Bool
  indirection : Bool

/-- Driver-wide state outside the channel: the interrupt status register, the debug
switches, the scheduler clock (the value of its k-th reading) and the event log. -/
structure Hw where
  INTSR1 : Nat
  debug_log_level : Nat
  is_acpm_stop_log : Bool
  clk : Nat → Nat
  nclk : Nat
  events : List Event

/-- The state one transport routine works on. -/
structure St where
  ch : acpm_ipc_ch
  cfg : ipc_config
  hw : Hw

/-- How a routine ends: it returns a value, reaches `BUG()`, dereferences an invalid
pointer, or is still looping when the fuel of the model runs out. -/
inductive Result (β α : Type) where
  | ret (v : β) (s : α)
  | bug (s : α)
  | fault
  | hang

/-- Append an event to the log. -/
def emit (e : Event) (hw : Hw) : Hw := { hw with events := hw.events ++ [e] }

/-- Emit an event in a full state. -/
def St.emit (s : St) (e : Event) : St := { s with hw := AcpmIpc.emit e s.hw }

/-- One reading of `sched_clock()`. -/
def sched_clock (hw : Hw) : Nat × Hw := (hw.clk hw.nclk, { hw with nclk := hw.nclk + 1 })

/-- Modelled from the spec: `memcpy_align_4` of `acpm_ipc.h` (whole-slot copies made of
aligned 4-byte transfers): the first `n / 4` words of `dest` are replaced by those of
`src`. -/
def memcpy_align_4 (dest src : Nat → Nat) (n : Nat) : Nat → Nat :=
  fun k => if k < n / 4 then src k else dest k

/-- Modelled from the spec: the bounded spin `UNTIL_EQUAL(arg0, arg1, flag)` of
`acpm_ipc.h`: `arg1` is re-evaluated at each of the `spins + 1` polls that fit in the
timeout window (the first poll always takes place); the resulting flag is true exactly
when no poll saw `arg1 = arg0`. -/
def UNTIL_EQUAL (arg0 : Bool) (arg1 : Nat → Bool) (spins : Nat) : Bool :=
  !((List.range (spins + 1)).any (fun k => arg1 k == arg0))

/-- The six-bit sequence field of a command word. -/
def seq_field (K : Consts) (w : Nat) : Nat := (w >>> K.ACPM_IPC_PROTOCOL_SEQ_NUM) &&& 0x3f

/-- The first `size / 4` words of slot `i`: the message stored there. -/
def slot_words (b : buff_info) (i : Nat) : List Nat :=
  (List.range (b.size / 4)).map (b.base i)

/-- Sequence allocation, the do/while loop of `__acpm_ipc_send_data`. The last argument
is `SEQUENCE_NUM_MAX - seq_cnt`; when it is 0 the loop has reached `BUG()` (`none`). -/
def seq_num_scan (flag : Nat → Nat) : Nat → Nat → Option Nat
  | _, 0 => none
  | tmp_seq_num, left + 1 =>
    let tmp1 := if u32 (tmp_seq_num + 1) = SEQUENCE_NUM_MAX then 1 else u32 (tmp_seq_num + 1)
    if flag tmp1 ≠ 0 then seq_num_scan flag tmp1 left else some tmp1

/-- The allocation step for a channel: scan from `channel->seq_num` with `seq_cnt = 0`. -/
def alloc_seq_num (ch : acpm_ipc_ch) : Option Nat :=
  seq_num_scan ch.seq_num_flag ch.seq_num SEQUENCE_NUM_MAX

/-- Pointwise update of a word array or slot table. -/
def upd {α : Type} (f : Nat → α) (i : Nat) (v : α) : Nat → α :=
  fun k => if k = i then v else f k

/-- The part of the state that lives in shared memory or in the mailbox and that the
coprocessor can change: the consumer index of the TX ring, the producer index and the
slots of the RX ring, and the interrupt status. -/
structure Shared where
  tx_rear : Nat
  rx_front : Nat
  rx_base : Nat → Nat → Nat
  INTSR1 : Nat

/-- What the coprocessor currently sees. -/
def St.shared (s : St) : Shared :=
  { tx_rear := s.ch.tx_ch.rear, rx_front := s.ch.rx_ch.front,
    rx_base := s.ch.rx_ch.base, INTSR1 := s.hw.INTSR1 }

/-- Run one coprocessor step `fw` on the shared part of the state. -/
def fw_step (fw : Shared → Shared) (s : St) : St :=
  let v := fw s.shared
  { s with
    ch := { s.ch with
      tx_ch := { s.ch.tx_ch with rear := v.tx_rear }
      rx_ch := { s.ch.rx_ch with front := v.rx_front, base := v.rx_base } }
    hw := { s.hw with INTSR1 := v.INTSR1 } }

/-- The coprocessor consumes one command: TX rear advances by one modulo the slot count,
only while the ring is not empty. -/
def fw_consume (ch : acpm_ipc_ch) : acpm_ipc_ch :=
  if ch.tx_ch.rear ≠ ch.tx_ch.front then
    { ch with tx_ch := { ch.tx_ch with rear := (ch.tx_ch.rear + 1) % ch.tx_ch.len } }
  else ch

/-- Invoke every subscriber of the list that has a handler, in list order
(`list_for_each_entry` with the `cb->ipc_callback` test). -/
def run_callbacks (list : List callback_info) (cmd : List Nat) (size : Nat) (hw : Hw) : Hw :=
  list.foldl (fun h cb =>
    match cb.ipc_callback with
    | some f => emit (.ipc_callback f cb.client cmd size) h
    | none => h) hw

/-- A write to the pending-clear register `INTCR1`: the written bits are cleared in the
interrupt status. -/
def write_INTCR1 (val : Nat) (hw : Hw) : Hw :=
  emit (.writel val .INTCR1) { hw with INTSR1 := hw.INTSR1 &&& (0xFFFFFFFF ^^^ u32 val) }

/-- The `while (i != front)` scan of `check_response`: `some (some i)` is the first slot,
from `i` on, whose sequence field equals that of `cmd0`; `some none` means `front` was
reached; `none` means the scan is still running when the fuel is used up. -/
def rx_scan (K : Consts) (rx : buff_info) (cmd0 front : Nat) : Nat → Nat → Option (Option Nat)
  | 0, _ => none
  | fuel + 1, i =>
    if i = front then some none
    else if seq_field K (rx.base i 0) = seq_field K cmd0 then some (some i)
    else rx_scan K rx cmd0 front fuel (u32 (i + 1) % rx.len)

/-- The body of the match branch of `check_response`, for a match found at slot `i`. -/
def check_response_hit (K : Consts) (s : St) (cmd : Nat → Nat) (i : Nat) : St :=
  let ch := s.ch
  let rx := ch.rx_ch
  let rear := rx.rear
  let tmp_seq_num := seq_field K (rx.base i 0)
  let cfg_cmd := memcpy_align_4 cmd (rx.base i) rx.size
  let ch_cmd := memcpy_align_4 ch.cmd (rx.base i) rx.size
  let base1 := if i ≠ rear then upd rx.base i (memcpy_align_4 (rx.base i) (rx.base rear) rx.size)
    else rx.base
  let hw1 := run_callbacks ch.list ((List.range (rx.size / 4)).map ch_cmd) rx.size s.hw
  let rear1 := u32 (rear + 1) % rx.len
  let front := rx.front
  let hw2 := if !ch.interrupt && rear1 == front then write_INTCR1 (u32 (1 <<< ch.id)) hw1 else hw1
  { ch := { ch with
      rx_ch := { rx with base := base1, rear := rear1 }
      cmd := ch_cmd
      seq_num_flag := upd ch.seq_num_flag tmp_seq_num 0 }
    cfg := { s.cfg with cmd := some cfg_cmd }
    hw := hw2 }

/-- The routine `check_response(channel, cfg)`: returns `false` when a response carrying
the sequence number of `cfg->cmd[0]` was found and consumed, `true` otherwise. The scan
gets `len + 2` steps, which is enough whenever the loop of the source terminates. -/
def check_response (K : Consts) (s : St) : Result Bool St :=
  let s0 := s.emit (.spin_lock_rx s.ch.id)
  let front := s.ch.rx_ch.front
  let rear := s.ch.rx_ch.rear
  match s.cfg.cmd with
  | none =>
    if rear = front then .ret true (s0.emit (.spin_unlock_rx s.ch.id)) else .fault
  | some cmd =>
    match rx_scan K s.ch.rx_ch (cmd 0) front (s.ch.rx_ch.len + 2) rear with
    | none => .hang
    | some none => .ret true (s0.emit (.spin_unlock_rx s.ch.id))
    | some (some i) => .ret false ((check_response_hit K s0 cmd i).emit (.spin_unlock_rx s.ch.id))

/-- The `while (rear != front)` loop of `enqueue_indirection_cmd`: `some true` when the
bounded wait for an earlier indirect command timed out, `some false` when `front` was
reached, `none` when the loop is still running after `fuel` rounds. -/
def indirection_scan (K : Consts) (spins : Nat) (tx : buff_info) (front : Nat) :
    Nat → Nat → Option Bool
  | 0, _ => none
  | fuel + 1, rear =>
    if rear = front then some false
    else if tx.base rear 0 &&& u32 (1 <<< K.ACPM_IPC_PROTOCOL_INDIRECTION) ≠ 0 then
      if UNTIL_EQUAL true (fun _ => decide (rear ≠ tx.rear)) spins then some true
      else indirection_scan K spins tx front fuel tx.rear
    else indirection_scan K spins tx front fuel (if tx.len = u32 (rear + 1) then 0 else u32 (rear + 1))

/-- The routine `enqueue_indirection_cmd(channel, cfg)`. -/
def enqueue_indirection_cmd (K : Consts) (spins fuel : Nat) (s : St) : Result Int St :=
  if s.cfg.indirection then
    match indirection_scan K spins s.ch.tx_ch s.ch.tx_ch.front fuel s.ch.tx_ch.rear with
    | none => .hang
    | some true => .ret (-ETIMEDOUT) (s.emit .acpm_log_print)
    | some false =>
      match s.cfg.indirection_base with
      | some src =>
        .ret 0 { s with ch := { s.ch with tx_ch := { s.ch.tx_ch with
          direction := memcpy_align_4 s.ch.tx_ch.direction src s.cfg.indirection_size } } }
      | none => .ret (-EINVAL) s
  else .ret 0 s

/-- The scan loop of `enqueue_indirection_cmd` while the coprocessor runs: `rear_at t` is
the value that a read of the shared TX rear index returns at tick `t`. The first read (the
one before the loop) is tick 0; the polls of the bounded spin started at tick `t` are the
ticks `t + 1 .. t + 1 + spins`, and the re-read that follows a successful spin is tick
`t + spins + 2`. The pending slots themselves are not rewritten. The result carries the
tick of the last read of the rear index. -/
def indirection_scan_live (K : Consts) (spins : Nat) (tx : buff_info) (front : Nat)
    (rear_at : Nat → Nat) : Nat → Nat → Nat → Option (Bool × Nat)
  | 0, _, _ => none
  | fuel + 1, t, rear =>
    if rear = front then some (false, t)
    else if tx.base rear 0 &&& u32 (1 <<< K.ACPM_IPC_PROTOCOL_INDIRECTION) ≠ 0 then
      if UNTIL_EQUAL true (fun k => decide (rear ≠ rear_at (t + 1 + k))) spins then
        some (true, t + 1 + spins)
      else indirection_scan_live K spins tx front rear_at fuel (t + spins + 2)
        (rear_at (t + spins + 2))
    else indirection_scan_live K spins tx front rear_at fuel t
      (if tx.len = u32 (rear + 1) then 0 else u32 (rear + 1))

/-- The common tail of the early exits of `__acpm_ipc_send_data`: release the transmit
lock, then the round-trip lock when it was taken. -/
def tx_unlock_exit (s : St) : St :=
  let s1 := s.emit (.spin_unlock_tx s.ch.id)
  if s.ch.interrupt && s.cfg.response then s1.emit (.mutex_unlock_wait s.ch.id) else s1

/-- Command word 0 with its sequence field replaced by `seq_num`
(`cmd[0] &= ~(0x3f << SEQ); cmd[0] |= (seq_num & 0x3f) << SEQ`). -/
def pack_seq_num (K : Consts) (w seq_num : Nat) : Nat :=
  (w &&& (0xFFFFFFFF ^^^ u32 (0x3f <<< K.ACPM_IPC_PROTOCOL_SEQ_NUM))) |||
    u32 ((seq_num &&& 0x3f) <<< K.ACPM_IPC_PROTOCOL_SEQ_NUM)

/-- The index that follows `front` in a ring of `len` slots, as computed at the head of
`__acpm_ipc_send_data`. -/
def next_index (front len : Nat) : Nat :=
  if u32 (front + 1) ≥ len then 0 else u32 (front + 1)

/-- The section of `__acpm_ipc_send_data` that runs under the transmit lock, from taking
the locks to ringing the doorbell. `ret (some v)` means the routine returned `v` from
this section; `ret none` means the command was published and the routine goes on to the
wait section. -/
def tx_section (K : Consts) (spins fuel : Nat) (s : St) : Result (Option Int) St :=
  let s1 := if s.ch.interrupt && s.cfg.response then s.emit (.mutex_lock_wait s.ch.id) else s
  let s2 := s1.emit (.spin_lock_tx s.ch.id)
  let front := s.ch.tx_ch.front
  let tmp_index := next_index front s.ch.tx_ch.len
  if UNTIL_EQUAL true (fun _ => decide (tmp_index ≠ s.ch.tx_ch.rear)) spins then
    let s3 := s2.emit .acpm_log_print
    .ret (some (-ETIMEDOUT)) (tx_unlock_exit { s3 with hw := { s3.hw with debug_log_level := 1 } })
  else
    match s.cfg.cmd with
    | none => .ret (some (- EIO)) (tx_unlock_exit s2)
    | some cmd =>
      match alloc_seq_num s.ch with
      | none => .bug s2
      | some tmp_seq_num =>
        let flag1 := if s.ch.polling && s.cfg.response
          then upd s.ch.seq_num_flag tmp_seq_num (u32 (cmd 0 ||| (1 <<< 31)))
          else s.ch.seq_num_flag
        let cmd1 := upd cmd 0 (pack_seq_num K (cmd 0) tmp_seq_num)
        let base1 := upd s.ch.tx_ch.base front
          (memcpy_align_4 (s.ch.tx_ch.base front) cmd1 s.ch.tx_ch.size)
        let cmd2 := upd (upd (upd cmd1 1 0) 2 0) 3 0
        let s3 : St :=
          { ch := { s.ch with
              seq_num := tmp_seq_num
              seq_num_flag := flag1
              tx_ch := { s.ch.tx_ch with base := base1 } }
            cfg := { s.cfg with cmd := some cmd2 }
            hw := s2.hw }
        match enqueue_indirection_cmd K spins fuel s3 with
        | .ret v s4 =>
          if v ≠ 0 then .ret (some v) (tx_unlock_exit s4)
          else
            let s5 : St :=
              { s4 with ch := { s4.ch with tx_ch := { s4.ch.tx_ch with front := tmp_index } } }
            let s6 := s5.emit (.writel (u32 (u32 (1 <<< s.ch.id) <<< 16)) .INTGR0)
            .ret none (s6.emit (.spin_unlock_tx s.ch.id))
        | .bug s4 => .bug s4
        | .fault => .fault
        | .hang => .hang

/-- The delay taken by one round of the polling wait. -/
def poll_delay (w_mode : Bool) (s : St) : St :=
  if w_mode then s.emit (.usleep_range 50 100) else s.emit (.udelay 10)

/-- The polling wait of `__acpm_ipc_send_data` (label `retry` and the `while` loop), one
round of the loop per unit of fuel. Returns `timeout_flag`. -/
def poll_wait (K : Consts) (w_mode : Bool) : Nat → Nat → Nat → St → Result Bool St
  | 0, _, _, _ => .hang
  | fuel + 1, timeout, retry_cnt, s =>
    let round (s1 : St) : Result Bool St :=
      let (now, hw1) := sched_clock s1.hw
      let s2 : St := { s1 with hw := hw1 }
      if timeout < now then
        if retry_cnt > 5 then .ret true s2
        else if retry_cnt > 0 then
          let (t, hw2) := sched_clock s2.hw
          poll_wait K w_mode fuel (u64 (t + K.IPC_TIMEOUT)) (u32 (retry_cnt + 1)) { s2 with hw := hw2 }
        else poll_wait K w_mode fuel timeout (u32 (retry_cnt + 1)) s2
      else poll_wait K w_mode fuel timeout retry_cnt (poll_delay w_mode s2)
    if s.hw.INTSR1 &&& u32 (1 <<< s.ch.id) = 0 then round s
    else
      match check_response K s with
      | .ret true s1 => round s1
      | .ret false s1 => .ret false s1
      | .bug s1 => .bug s1
      | .fault => .fault
      | .hang => .hang

/-- The interrupt wait of `__acpm_ipc_send_data` (the `do ... while (check_response)`
loop). Returns `timeout_flag`. -/
def intr_wait (K : Consts) : Nat → Nat → St → Result Bool St
  | 0, _, _ => .hang
  | fuel + 1, timeout, s =>
    let s1 := s.emit (.wait_for_completion s.ch.id)
    let (now, hw1) := sched_clock s1.hw
    let s2 : St := { s1 with hw := hw1 }
    if timeout < now then .ret true s2
    else
      match check_response K s2 with
      | .ret true s3 => intr_wait K fuel timeout s3
      | .ret false s3 => .ret false s3
      | .bug s3 => .bug s3
      | .fault => .fault
      | .hang => .hang

/-- The end of `__acpm_ipc_send_data` after a wait that did not time out, or after the
timeout diagnostics: refresh the firmware log and return 0. -/
def send_epilogue (s : St) : Result Int St :=
  if !s.hw.is_acpm_stop_log then
    if s.hw.debug_log_level ≠ 0 then .ret 0 (s.emit .queue_work)
    else .ret 0 (s.emit .acpm_log_idx_update)
  else .ret 0 s

/-- The `if (timeout_flag)` block of `__acpm_ipc_send_data` followed by the epilogue. -/
def send_finish (K : Consts) (timeout_flag : Bool) (s : St) : Result Int St :=
  if timeout_flag then
    match check_response K s with
    | .ret false s1 => .ret 0 s1
    | .ret true s1 =>
      let s3 : St := { s1 with hw := { s1.hw with debug_log_level := 1 } }
      let s4 : St := s3.emit .acpm_log_print
      let s5 : St := { s4 with hw := { s4.hw with debug_log_level := 0 } }
      let s6 := (((s5.emit .acpm_ramdump).emit .dump_stack).emit (.msleep 1000)).emit
        .dbg_snapshot_expire_watchdog
      send_epilogue s6
    | .bug s1 => .bug s1
    | .fault => .fault
    | .hang => .hang
  else send_epilogue s

/-- The section of `__acpm_ipc_send_data` after the transmit lock is released: polling
wait, interrupt wait or immediate return. When the routine waits, the coprocessor step
`fw` (its reaction to the doorbell) takes place before the first look at the RX ring. -/
def wait_section (K : Consts) (fuel : Nat) (fw : Shared → Shared) (w_mode : Bool) (s0 : St) :
    Result Int St :=
  if s0.ch.polling && s0.cfg.response && !s0.ch.interrupt then
    let s := fw_step fw s0
    let (t, hw1) := sched_clock s.hw
    match poll_wait K w_mode fuel (u64 (t + K.IPC_TIMEOUT)) 0 { s with hw := hw1 } with
    | .ret flag s1 => send_finish K flag s1
    | .bug s1 => .bug s1
    | .fault => .fault
    | .hang => .hang
  else if s0.ch.interrupt && s0.cfg.response then
    let s := fw_step fw s0
    let (t, hw1) := sched_clock s.hw
    match intr_wait K fuel (u64 (t + K.IPC_TIMEOUT * 5)) { s with hw := hw1 } with
    | .ret flag s1 => send_finish K flag (s1.emit (.mutex_unlock_wait s.ch.id))
    | .bug s1 => .bug s1
    | .fault => .fault
    | .hang => .hang
  else .ret 0 s0

/-- The body of `__acpm_ipc_send_data` for the channel selected by `channel_id`, after
the entry guard: transmit section, then wait section. `spins` bounds the spin waits, `fuel` the loops that the source does not bound
by itself. -/
def send_data (K : Consts) (spins fuel : Nat) (fw : Shared → Shared) (w_mode : Bool) (s : St) :
    Result Int St :=
  match tx_section K spins fuel s with
  | .ret (some v) s1 => .ret v s1
  | .ret none s1 => wait_section K fuel fw w_mode s1
  | .bug s1 => .bug s1
  | .fault => .fault
  | .hang => .hang

/-- The driver instance (`struct acpm_ipc_info`) as far as the send path uses it. -/
structure acpm_ipc_info where
  num_channels : Nat
  channel : List acpm_ipc_ch
  hw : Hw

/-- The routine `__acpm_ipc_send_data(channel_id, cfg, w_mode)`. A null `cfg` is `none`.
After the entry guard the channel array is indexed: an index outside the array is an
invalid access. A null `cfg` is dereferenced first in `channel->interrupt && cfg->response`
when the channel is an interrupt channel (the `&&` does not evaluate `cfg->response`
otherwise), else in `!cfg->cmd`, after the full-ring check, which returns `-ETIMEDOUT`
before that when the ring stays full. The result state carries the updated driver
instance and the caller's descriptor. -/
def __acpm_ipc_send_data (K : Consts) (spins fuel : Nat) (fw : Shared → Shared)
    (ipc : acpm_ipc_info) (channel_id : Nat) (cfg : Option ipc_config) (w_mode : Bool) :
    Result Int (acpm_ipc_info × Option ipc_config) :=
  if channel_id ≥ ipc.num_channels && cfg.isNone then .ret (- EIO) (ipc, cfg)
  else
    match ipc.channel[channel_id]?, cfg with
    | some ch, some c =>
      match send_data K spins fuel fw w_mode { ch := ch, cfg := c, hw := ipc.hw } with
      | .ret v s =>
        .ret v ({ ipc with channel := ipc.channel.set channel_id s.ch, hw := s.hw }, some s.cfg)
      | .bug s =>
        .bug ({ ipc with channel := ipc.channel.set channel_id s.ch, hw := s.hw }, some s.cfg)
      | .fault => .fault
      | .hang => .hang
    | some ch, none =>
      if ch.interrupt then .fault
      else if UNTIL_EQUAL true
          (fun _ => decide (next_index ch.tx_ch.front ch.tx_ch.len ≠ ch.tx_ch.rear)) spins then
        .ret (-ETIMEDOUT) ({ ipc with hw := { ipc.hw with
          debug_log_level := 1
          events := ipc.hw.events ++
            [.spin_lock_tx ch.id, .acpm_log_print, .spin_unlock_tx ch.id] } }, none)
      else .fault
    | none, _ => .fault

/-! ## Drain, registration and the synchronous wrapper -/

/-- Modelled from the spec: the errno value behind the `NotFound` failure of
`request_channel` (Linux `ENODEV`). -/
def ENODEV : Int := 19

/-- Modelled from the spec: Linux `ENOENT`, returned when the descriptor carries no
channel identifier. -/
def ENOENT : Int := 2

/-- Modelled from the spec: Linux `ENOMEM`, returned when the subscription cannot be
allocated. -/
def ENOMEM : Int := 12

/-- The events of invoking every subscriber of the list that has a handler, in list
order, with the message `cmd`. -/
def callback_events (list : List callback_info) (cmd : List Nat) (size : Nat) : List Event :=
  list.filterMap (fun cb => cb.ipc_callback.map (fun f => Event.ipc_callback f cb.client cmd size))

/-- The `while (rear != front)` loop of `dequeue_policy`, one round per unit of fuel;
`none` when the loop is still running after `fuel` rounds. The channel keeps the local
`rear` of the source, which is written back in every round. -/
def dequeue_loop : Nat → acpm_ipc_ch → Hw → Option (acpm_ipc_ch × Hw)
  | 0, _, _ => none
  | fuel + 1, ch, hw =>
    if ch.rx_ch.rear = ch.rx_ch.front then some (ch, hw)
    else
      let ch_cmd := memcpy_align_4 ch.cmd (ch.rx_ch.base ch.rx_ch.rear) ch.rx_ch.size
      let hw1 := run_callbacks ch.list ((List.range (ch.rx_ch.size / 4)).map ch_cmd)
        ch.rx_ch.size hw
      let rear1 := u32 (ch.rx_ch.rear + 1) % ch.rx_ch.len
      let hw2 := if !ch.polling then emit (.complete ch.id) hw1 else hw1
      let rx1 : buff_info := { ch.rx_ch with rear := rear1 }
      dequeue_loop fuel { ch with cmd := ch_cmd, rx_ch := rx1 } hw2

/-- The routine `dequeue_policy(channel)`. `TYPE_BUFFER` is the value of that constant of
`acpm_ipc.h`, which the sources do not show. The loop gets `len + 2` rounds, which is
enough whenever the loop of the source terminates. -/
def dequeue_policy (TYPE_BUFFER : Nat) (ch : acpm_ipc_ch) (hw : Hw) :
    Result Unit (acpm_ipc_ch × Hw) :=
  let hw0 := emit (.spin_lock_rx ch.id) hw
  if ch.type = TYPE_BUFFER then
    let ch_cmd := memcpy_align_4 ch.cmd (ch.rx_ch.base 0) ch.rx_ch.size
    let hw1 := emit (.spin_unlock_rx ch.id) hw0
    .ret () ({ ch with cmd := ch_cmd },
      run_callbacks ch.list ((List.range (ch.rx_ch.size / 4)).map ch_cmd) ch.rx_ch.size hw1)
  else
    match dequeue_loop (ch.rx_ch.len + 2) ch hw0 with
    | none => .hang
    | some r => .ret () (r.1, emit (.spin_unlock_rx ch.id) (emit .acpm_log_idx_update r.2))

/-- A device-tree node as the registration routines use it: its identity (the address
that is stored as `cb->client`) and the value of its `acpm-ipc-channel` property, if
it has one. -/
structure device_node where
  addr : Nat
  acpm_ipc_channel : Option Nat

/-- The `for` loop of `acpm_ipc_request_channel` from index `i` on, with `left` channels
still to visit. `handler = none` is a null handler; `alloc_ok` tells whether
`devm_kzalloc` succeeds. The second component of the result is what was stored through
the `id` and `size` pointers, if anything. -/
def request_channel_scan (ipc : acpm_ipc_info) (np : device_node) (handler : Option Nat)
    (alloc_ok : Bool) (req_ch_id : Nat) :
    Nat → Nat → Result Int (acpm_ipc_info × Option (Nat × Nat))
  | 0, _ => .ret (-ENODEV) (ipc, none)
  | left + 1, i =>
    match ipc.channel[i]? with
    | none => .fault
    | some ch =>
      if ch.id = req_ch_id then
        match handler with
        | some h =>
          if alloc_ok then
            let cb : callback_info := { ipc_callback := some h, client := np.addr }
            .ret 0 ({ ipc with channel := ipc.channel.set i { ch with list := cb :: ch.list } },
              some (ch.id, ch.tx_ch.size))
          else .ret (-ENOMEM) (ipc, some (ch.id, ch.tx_ch.size))
        | none => .ret 0 (ipc, some (ch.id, ch.tx_ch.size))
      else request_channel_scan ipc np handler alloc_ok req_ch_id left (i + 1)

/-- The routine `acpm_ipc_request_channel(np, handler, id, size)`. It is declared
`unsigned int`; the value is given as the `int` its callers store it in. Taking and
releasing `ch_lock` around `list_add` is not recorded. -/
def acpm_ipc_request_channel (ipc : acpm_ipc_info) (np : Option device_node)
    (handler : Option Nat) (alloc_ok : Bool) :
    Result Int (acpm_ipc_info × Option (Nat × Nat)) :=
  match np with
  | none => .ret (-ENODEV) (ipc, none)
  | some n =>
    match n.acpm_ipc_channel with
    | none => .ret (-ENOENT) (ipc, none)
    | some req_ch_id => request_channel_scan ipc n handler alloc_ok req_ch_id ipc.num_channels 0

/-- The `list_for_each_entry` loop of `acpm_ipc_release_channel`: unlink the first
subscription whose client is `np`, then stop. -/
def release_scan (np : Option Nat) : List callback_info → List callback_info
  | [] => []
  | cb :: rest => if some cb.client = np then rest else cb :: release_scan np rest

/-- The routine `acpm_ipc_release_channel(np, channel_id)`; `np` is given by its address
(`none` for a null pointer). -/
def acpm_ipc_release_channel (ipc : acpm_ipc_info) (np : Option Nat) (channel_id : Nat) :
    Result Int acpm_ipc_info :=
  match ipc.channel[channel_id]? with
  | none => .fault
  | some ch =>
    .ret 0 { ipc with
      channel := ipc.channel.set channel_id { ch with list := release_scan np ch.list } }

/-- The routine `acpm_ipc_send_data(channel_id, cfg)`. -/
def acpm_ipc_send_data (K : Consts) (spins fuel : Nat) (fw : Shared → Shared)
    (ipc : acpm_ipc_info) (channel_id : Nat) (cfg : Option ipc_config) :
    Result Int (acpm_ipc_info × Option ipc_config) :=
  __acpm_ipc_send_data K spins fuel fw ipc channel_id cfg false

/-- The routine `acpm_ipc_send_data_sync(channel_id, cfg)`. `completed` is the value
returned by `wait_for_completion_interruptible_timeout`: 0 when the 50 ms pass without
the completion being signalled. -/
def acpm_ipc_send_data_sync (K : Consts) (spins fuel : Nat) (fw : Shared → Shared)
    (completed : Int) (ipc : acpm_ipc_info) (channel_id : Nat) (cfg : Option ipc_config) :
    Result Int (acpm_ipc_info × Option ipc_config) :=
  match acpm_ipc_send_data K spins fuel fw ipc channel_id cfg with
  | .ret ret st =>
    if ret = 0 then
      match st.1.channel[channel_id]?, st.2 with
      | some channel, some c =>
        if !channel.polling && c.response then
          let ipc2 : acpm_ipc_info :=
            { st.1 with hw := emit (.wait_for_completion channel.id) st.1.hw }
          if completed = 0 then .ret (-ETIMEDOUT) (ipc2, st.2) else .ret 0 (ipc2, st.2)
        else .ret ret st
      | _, _ => .fault
    else .ret ret st
  | .bug st => .bug st
  | .fault => .fault
  | .hang => .hang

/-! ## Interrupt handlers and the busy probe -/

/-- The loop of `acpm_ipc_irq_handler` from channel index `i` on, with `left` channels
still to visit. `status` is the value of `INTSR1` read before the loop; the last argument
is `ipc->intr_status` (a field of the driver instance that the send path does not use,
carried next to it). -/
def irq_handler_loop (TYPE_BUFFER status : Nat) :
    Nat → Nat → acpm_ipc_info → Nat → Result Unit (acpm_ipc_info × Nat)
  | 0, _, ipc, intr_status => .ret () (ipc, intr_status)
  | left + 1, i, ipc, intr_status =>
    match ipc.channel[i]? with
    | none => .fault
    | some ch =>
      if status &&& u32 (1 <<< ch.id) ≠ 0 then
        if ch.interrupt then
          let hw1 := write_INTCR1 (u32 (1 <<< ch.id)) ipc.hw
          irq_handler_loop TYPE_BUFFER status left (i + 1)
            { ipc with hw := emit (.complete ch.id) hw1 } intr_status
        else if !ch.polling then
          let hw1 := write_INTCR1 (u32 (1 <<< ch.id)) ipc.hw
          match dequeue_policy TYPE_BUFFER ch hw1 with
          | .ret _ r =>
            irq_handler_loop TYPE_BUFFER status left (i + 1)
              { ipc with channel := ipc.channel.set i r.1, hw := r.2 } (u32 (1 <<< i))
          | .bug _ => .fault
          | .fault => .fault
          | .hang => .hang
        else irq_handler_loop TYPE_BUFFER status left (i + 1) ipc intr_status
      else irq_handler_loop TYPE_BUFFER status left (i + 1) ipc intr_status

/-- The routine `acpm_ipc_irq_handler(irq, data)`, the top half: the result carries the
driver instance and the final `ipc->intr_status`. -/
def acpm_ipc_irq_handler (TYPE_BUFFER : Nat) (ipc : acpm_ipc_info) :
    Result Unit (acpm_ipc_info × Nat) :=
  let status := ipc.hw.INTSR1
  irq_handler_loop TYPE_BUFFER status ipc.num_channels 0 ipc 0

/-- The routine `is_acpm_ipc_busy(ch_id)`; an index outside the channel array is an
invalid access (`none`). -/
def is_acpm_ipc_busy (ipc : acpm_ipc_info) (ch_id : Nat) : Option Bool :=
  match ipc.channel[ch_id]? with
  | none => none
  | some channel =>
    let tx_front := channel.tx_ch.front
    let tx_rear := channel.tx_ch.rear
    let rx_front := channel.rx_ch.front
    some (!(decide (tx_front = tx_rear) && decide (tx_front = rx_front)))

/-- The polling wait of `__acpm_ipc_send_data` with a record of its deadlines: the same
loop as `poll_wait`, which in addition returns the list of the deadlines computed at the
label `retry` when the loop jumps back to it (`timeout = sched_clock() + IPC_TIMEOUT`
after `++retry_cnt; goto retry`), in the order in which they were armed. -/
def poll_wait_log (K : Consts) (w_mode : Bool) :
    Nat → Nat → Nat → St → Result Bool St × List Nat
  | 0, _, _, _ => (.hang, [])
  | fuel + 1, timeout, retry_cnt, s =>
    let round (s1 : St) : Result Bool St × List Nat :=
      let (now, hw1) := sched_clock s1.hw
      let s2 : St := { s1 with hw := hw1 }
      if timeout < now then
        if retry_cnt > 5 then (.ret true s2, [])
        else if retry_cnt > 0 then
          let (t, hw2) := sched_clock s2.hw
          let r := poll_wait_log K w_mode fuel (u64 (t + K.IPC_TIMEOUT)) (u32 (retry_cnt + 1))
            { s2 with hw := hw2 }
          (r.1, u64 (t + K.IPC_TIMEOUT) :: r.2)
        else poll_wait_log K w_mode fuel timeout (u32 (retry_cnt + 1)) s2
      else poll_wait_log K w_mode fuel timeout retry_cnt (poll_delay w_mode s2)
    if s.hw.INTSR1 &&& u32 (1 <<< s.ch.id) = 0 then round s
    else
      match check_response K s with
      | .ret true s1 => round s1
      | .ret false s1 => (.ret false s1, [])
      | .bug s1 => (.bug s1, [])
      | .fault => (.fault, [])
      | .hang => (.hang, [])

/-- Two callers of `__acpm_ipc_send_data` on one channel: the channel and the hardware
are shared, each caller (named by a `Bool`) has its own command descriptor. -/
structure Duo where
  ch : acpm_ipc_ch
  hw : Hw
  cfg : Bool → ipc_config

/-- The state as caller `w` sees it. -/
def Duo.view (d : Duo) (w : Bool) : St := { ch := d.ch, cfg := d.cfg w, hw := d.hw }

/-- Store the state that a routine run by caller `w` has produced. -/
def Duo.merge (d : Duo) (w : Bool) (s : St) : Duo :=
  { ch := s.ch, hw := s.hw, cfg := fun v => if v = w then s.cfg else d.cfg v }

/-- The sections of the send routine that exclude one another, and a step of the
coprocessor: `post w` is the section under `tx_lock` run by caller `w`, `check w` one
call of `check_response` (under `rx_lock`) by caller `w`. -/
inductive DuoAct where
  | post (w : Bool) (spins fuel : Nat)
  | check (w : Bool)
  | fw (f : Shared → Shared)

/-- Whether the action is a `post` of caller `w`. -/
def DuoAct.posts : DuoAct → Bool → Bool
  | .post v _ _, w => v == w
  | _, _ => false

/-- One action on the shared state; `none` when the routine does not return. -/
def duo_step (K : Consts) : DuoAct → Duo → Option Duo
  | .post w spins fuel, d =>
    match tx_section K spins fuel (d.view w) with
    | .ret _ s => some (d.merge w s)
    | _ => none
  | .check w, d =>
    match check_response K (d.view w) with
    | .ret _ s => some (d.merge w s)
    | _ => none
  | .fw f, d =>
    let s := fw_step f (d.view false)
    some { d with ch := s.ch, hw := s.hw }

/-- A schedule: the actions of the two callers and of the coprocessor in the order in
which they take place. The wait lock of an interrupt-mode channel only removes
schedules (a second `post` waits until the first caller has left its wait loop). -/
def duo_run (K : Consts) : List DuoAct → Duo → Option Duo
  | [], d => some d
  | a :: rest, d => (duo_step K a d).bind (duo_run K rest)

/-- The candidate that the allocation scan examines in its round `k + 1` when the last
used number is `s`: the cyclic order `s + 1, s + 2, ..., 63, 1, 2, ...`. -/
def seq_cycle (s k : Nat) : Nat := (s + k) % 63 + 1

/-- The slot numbers from `rear` (inclusive) to `front` (exclusive) in ring order. -/
def ring_range (len rear front : Nat) : List Nat :=
  (List.range ((front + len - rear) % len)).map (fun k => (rear + k) % len)

/-- The messages pending in a ring, in ring order from `rear` to `front`. -/
def pending (b : buff_info) : List (List Nat) :=
  (ring_range b.len b.rear b.front).map (slot_words b)

/-- Well-formed ring geometry: at least one slot, a slot count that fits a 32-bit word,
and both indices in range. -/
def buff_info.in_range (b : buff_info) : Prop :=
  0 < b.len ∧ b.len < 2 ^ 32 ∧ b.front < b.len ∧ b.rear < b.len

/-- The state in which the transmit section leaves a command without indirect payload
that it has published with sequence number `q`: `q` recorded (and marked in flight on
a polling channel when a response is expected), the command with `q` packed into word 0
copied into the slot at the old `front`, words 1..3 of the caller's buffer zeroed,
`front` advanced and the doorbell rung. -/
def tx_published (K : Consts) (s : St) (cmd : Nat → Nat) (q : Nat) : St :=
  let s1 := if s.ch.interrupt && s.cfg.response then s.emit (.mutex_lock_wait s.ch.id) else s
  let cmd1 := upd cmd 0 (pack_seq_num K (cmd 0) q)
  { ch := { s.ch with
      seq_num := q
      seq_num_flag := if s.ch.polling && s.cfg.response
        then upd s.ch.seq_num_flag q (u32 (cmd 0 ||| (1 <<< 31)))
        else s.ch.seq_num_flag
      tx_ch := { s.ch.tx_ch with
        base := upd s.ch.tx_ch.base s.ch.tx_ch.front
          (memcpy_align_4 (s.ch.tx_ch.base s.ch.tx_ch.front) cmd1 s.ch.tx_ch.size)
        front := next_index s.ch.tx_ch.front s.ch.tx_ch.len } }
    cfg := { s.cfg with cmd := some (upd (upd (upd cmd1 1 0) 2 0) 3 0) }
    hw := { s1.hw with events := s1.hw.events ++
      [.spin_lock_tx s.ch.id, .writel (u32 (u32 (1 <<< s.ch.id) <<< 16)) .INTGR0,
       .spin_unlock_tx s.ch.id] } }

/-- The state in which the transmit section leaves the channel when the TX ring stayed
full: only the event log and the debug level changed. -/
def tx_full_exit (s : St) : St :=
  let pre := if s.ch.interrupt && s.cfg.response then [Event.mutex_lock_wait s.ch.id] else []
  let post := if s.ch.interrupt && s.cfg.response then [Event.mutex_unlock_wait s.ch.id] else []
  { s with hw := { s.hw with
      debug_log_level := 1
      events := s.hw.events ++ (pre ++ [.spin_lock_tx s.ch.id, .acpm_log_print,
        .spin_unlock_tx s.ch.id] ++ post) } }

/-! ## Concrete configurations -/

/-- Sample values of the protocol constants, for concrete runs. -/
def K0 : Consts :=
  { ACPM_IPC_PROTOCOL_SEQ_NUM := 16, ACPM_IPC_PROTOCOL_INDIRECTION := 29, IPC_TIMEOUT := 15000000 }

/-- Slot memory holding the given messages, slot by slot. -/
def base_of (slots : List (List Nat)) : Nat → Nat → Nat :=
  fun i k => (slots.getD i []).getD k 0

/-- An empty ring of four 16-byte slots. -/
def ring0 : buff_info :=
  { rear := 0, front := 0, base := fun _ _ => 0, direction := fun _ => 0, size := 16, len := 4 }

/-- A polling channel with id 0, empty rings and no sequence number in flight. -/
def ch0 : acpm_ipc_ch :=
  { rx_ch := ring0, tx_ch := ring0, list := [], id := 0, type := 0, seq_num := 0,
    cmd := fun _ => 0, polling := true, interrupt := false, seq_num_flag := fun _ => 0 }

/-- The channel `ch0` with every sequence number 1..63 (and 0) marked in flight. -/
def ch_busy : acpm_ipc_ch := { ch0 with seq_num_flag := fun _ => 0x80000000 }

/-- The channel `ch0` with last-used sequence number 62 and the numbers 63 and 1 in
flight: the next free candidate is 2. -/
def ch_wrap : acpm_ipc_ch :=
  { ch0 with seq_num := 62, seq_num_flag := fun v => if v = 63 ∨ v = 1 then 0x80000000 else 0 }

/-- Quiet hardware: no interrupt pending, a clock that ticks once per reading. -/
def hw0 : Hw :=
  { INTSR1 := 0, debug_log_level := 0, is_acpm_stop_log := false, clk := fun k => k, nclk := 0,
    events := [] }

/-- A fire-and-forget command with payload words 0x11, 0x22, 0x33, 0x44. -/
def cfg0 : ipc_config :=
  { cmd := some (base_of [[0x11, 0x22, 0x33, 0x44]] 0), indirection_base := none,
    indirection_size := 0, response := false, indirection := false }

/-- A polling command that expects a response, with the payload of `cfg0`. -/
def cfg_resp : ipc_config := { cfg0 with response := true }

/-- Three response-expected sends with an idle coprocessor. -/
def three_pending : List (ipc_config × (Shared → Shared)) :=
  [(cfg_resp, fun v => v), (cfg_resp, fun v => v), (cfg_resp, fun v => v)]

/-- A coprocessor that consumes the command and echoes sequence number 1: it writes a
response whose word 0 carries sequence number 1 into RX slot 0, advances RX front to 1
and raises the status bit of channel 0. -/
def fw_echo (_ : Shared) : Shared :=
  { tx_rear := 1, rx_front := 1, rx_base := base_of [[0x10011, 0, 0, 0]], INTSR1 := 1 }

/-- The state of a response-expected send of the sample command on the sample channel. -/
def st_resp : St := { ch := ch0, cfg := cfg_resp, hw := hw0 }

/-- A channel whose RX ring (eight slots) holds three responses, in slots 1, 2 and 3,
with sequence numbers 1, 2 and 3, all three numbers being in flight. -/
def ch_rx : acpm_ipc_ch :=
  { rx_ch :=
      { rear := 1, front := 4,
        base := base_of [[], [0x10000, 0xA, 0, 0], [0x20000, 0xB, 0, 0], [0x30000, 0xC, 0, 0]],
        direction := fun _ => 0, size := 16, len := 8 },
    tx_ch := ring0, list := [], id := 0, type := 0, seq_num := 3, cmd := fun _ => 0,
    polling := true, interrupt := false,
    seq_num_flag := fun v => if v = 1 ∨ v = 2 ∨ v = 3 then 0x80000000 else 0 }

/-- A caller waiting on `ch_rx` for the response with sequence number 3. -/
def st_rx : St :=
  { ch := ch_rx, cfg := { cfg_resp with cmd := some (base_of [[0x30000, 0, 0, 0]] 0) }, hw := hw0 }

/-- A driver instance with the single channel `ch0`. -/
def ipc0 : acpm_ipc_info := { num_channels := 1, channel := [ch0], hw := hw0 }

/-- A driver instance with the single channel `ch_busy`. -/
def ipc_busy : acpm_ipc_info := { num_channels := 1, channel := [ch_busy], hw := hw0 }

/-- Issue the given commands one after the other on channel `channel_id`, with an idle
coprocessor, and collect the return values; the run stops at a call that does not
return. -/
def send_all (K : Consts) (spins fuel channel_id : Nat) :
    List ipc_config → acpm_ipc_info → List Int × acpm_ipc_info
  | [], ipc => ([], ipc)
  | c :: cs, ipc =>
    match __acpm_ipc_send_data K spins fuel (fun v => v) ipc channel_id (some c) false with
    | .ret v (ipc1, _) =>
      let r := send_all K spins fuel channel_id cs ipc1
      (v :: r.1, r.2)
    | _ => ([], ipc)

/-- The TX indices `(front, rear)` of channel `channel_id`. -/
def tx_indices (ipc : acpm_ipc_info) (channel_id : Nat) : Option (Nat × Nat) :=
  (ipc.channel[channel_id]?).map (fun ch => (ch.tx_ch.front, ch.tx_ch.rear))

/-- The effect of the allocation and copy steps of the transmit section on a state `s`
with command buffer `cmd` and allocated number `q`, as visible in a later state `s'`:
`q` is the last-used number, it is marked in flight exactly on a polling channel with a
response expected, the caller's buffer holds the packed word 0 and zeroed words 1..3,
the slot at the old front holds the command, and the rest of the channel is as in `s`. -/
def Written (K : Consts) (s s' : St) (cmd : Nat → Nat) (q : Nat) : Prop :=
  s'.ch.seq_num = q ∧
  s'.ch.seq_num_flag = (if s.ch.polling && s.cfg.response
    then upd s.ch.seq_num_flag q (u32 (cmd 0 ||| (1 <<< 31))) else s.ch.seq_num_flag) ∧
  s'.cfg = { s.cfg with cmd := some (upd (upd (upd (upd cmd 0 (pack_seq_num K (cmd 0) q)) 1 0) 2 0) 3 0) } ∧
  s'.ch.tx_ch.base = upd s.ch.tx_ch.base s.ch.tx_ch.front
    (memcpy_align_4 (s.ch.tx_ch.base s.ch.tx_ch.front) (upd cmd 0 (pack_seq_num K (cmd 0) q))
      s.ch.tx_ch.size) ∧
  s'.ch.tx_ch.rear = s.ch.tx_ch.rear ∧ s'.ch.tx_ch.len = s.ch.tx_ch.len ∧
  s'.ch.tx_ch.size = s.ch.tx_ch.size ∧
  s'.ch.rx_ch = s.ch.rx_ch ∧ s'.ch.polling = s.ch.polling ∧
  s'.ch.interrupt = s.ch.interrupt ∧ s'.ch.id = s.ch.id ∧ s'.ch.list = s.ch.list ∧
  s'.hw.INTSR1 = s.hw.INTSR1

/-- A property of the way a routine ends: it does not reach `BUG()`, and when it returns
the returned value and the final state satisfy `P`. -/
def Result.holds {β α : Type} (P : β → α → Prop) : Result β α → Prop
  | .ret v s => P v s
  | .bug _ => False
  | .fault => True
  | .hang => True

/-- The TX indices and slot count of a state: `(front, rear, len)`. -/
def tx_idx (s : St) : Nat × Nat × Nat := (s.ch.tx_ch.front, s.ch.tx_ch.rear, s.ch.tx_ch.len)

/-- Response-expected sends whose answers are still outstanding: for each command the
transmit section runs (its caller is then waiting for the answer) and the coprocessor
takes a step; no answer is matched in between. Returns the sequence numbers allocated,
in order, or `none` when some transmit section did not publish its command. -/
def pending_sends (K : Consts) (spins fuel : Nat) :
    List (ipc_config × (Shared → Shared)) → acpm_ipc_ch → Hw →
      Option (List Nat × acpm_ipc_ch × Hw)
  | [], ch, hw => some ([], ch, hw)
  | x :: rest, ch, hw =>
    match tx_section K spins fuel { ch := ch, cfg := x.1, hw := hw } with
    | .ret none s1 =>
      match pending_sends K spins fuel rest (fw_step x.2 s1).ch (fw_step x.2 s1).hw with
      | some r => some (s1.ch.seq_num :: r.1, r.2)
      | none => none
    | _ => none

/-- One step of the traffic on a TX ring: a call of the send routine, or the coprocessor
consuming one command. -/
inductive TxAction where
  | send (cfg : ipc_config) (fw : Shared → Shared) (w_mode : Bool) (spins fuel : Nat)
  | consume

/-- The coprocessor step inside a send leaves TX rear alone (consumption is a step of
its own). -/
def TxAction.keeps_rear : TxAction → Prop
  | .send _ fw _ _ _ => ∀ x, (fw x).tx_rear = x.tx_rear
  | .consume => True

/-- Run a sequence of sends and consumption steps, counting the commands written and not
yet consumed: a send that returns 0 has written one, a consumption step on a non-empty
ring has consumed one. The run ends (`none`) at a send that does not return. -/
def tx_run (K : Consts) : List TxAction → acpm_ipc_ch → Hw → Nat → Option (acpm_ipc_ch × Hw × Nat)
  | [], ch, hw, n => some (ch, hw, n)
  | .send cfg fw w_mode spins fuel :: rest, ch, hw, n =>
    match send_data K spins fuel fw w_mode { ch := ch, cfg := cfg, hw := hw } with
    | .ret v s => tx_run K rest s.ch s.hw (if v = 0 then n + 1 else n)
    | _ => none
  | .consume :: rest, ch, hw, n =>
    tx_run K rest (fw_consume ch) hw (if ch.tx_ch.rear ≠ ch.tx_ch.front then n - 1 else n)

/-- The final state of a routine that returned. -/
def Result.final {β α : Type} : Result β α → Option α
  | .ret _ s => some s
  | _ => none

/-- The value returned by a routine that returned. -/
def Result.value {β α : Type} : Result β α → Option β
  | .ret v _ => some v
  | _ => none

/-- Sample value of the constant `TYPE_BUFFER`. -/
def TYPE_BUFFER0 : Nat := 2

/-- The channel `ch_rx` (three responses pending) with two subscribers: handler 8 of
client 200 at the head of the list, then handler 7 of client 100. -/
def ch_sub : acpm_ipc_ch :=
  { ch_rx with list := [{ ipc_callback := some 8, client := 200 },
      { ipc_callback := some 7, client := 100 }] }

/-- A single-buffer channel with empty ring indices and one subscriber. -/
def ch_buf : acpm_ipc_ch :=
  { ch0 with type := TYPE_BUFFER0, list := [{ ipc_callback := some 7, client := 100 }] }

/-- The subscription that `acpm_ipc_request_channel` creates for a node and a handler. -/
def subscription (np : device_node) (h : Nat) : callback_info :=
  { ipc_callback := some h, client := np.addr }

/-- The driver instance in which channel `k`, with descriptor `ch`, has its subscriber
list replaced by `l`; nothing else differs. -/
def put_list (ipc : acpm_ipc_info) (k : Nat) (ch : acpm_ipc_ch) (l : List callback_info) :
    acpm_ipc_info :=
  { ipc with channel := ipc.channel.set k { ch with list := l } }

/-- The subscriber list after a request with the given handler: a new subscription at
the head when a handler is supplied, the old list otherwise. -/
def list_after_request (np : device_node) (handler : Option Nat) (l : List callback_info) :
    List callback_info :=
  match handler with
  | some h => subscription np h :: l
  | none => l

/-- A driver instance with two channels, with ids 3 and 7. -/
def ipc_two : acpm_ipc_info :=
  { num_channels := 2, channel := [{ ch0 with id := 3 }, { ch_rx with id := 7 }], hw := hw0 }

/-- A client node for channel 7. -/
def node_a : device_node := { addr := 100, acpm_ipc_channel := some 7 }

/-- Another client node for channel 7. -/
def node_b : device_node := { addr := 200, acpm_ipc_channel := some 7 }

/-- A client node that names a channel nobody has. -/
def node_c : device_node := { addr := 300, acpm_ipc_channel := some 9 }

/-- Register the given handlers one after the other, each through a request by its node
(allocation succeeding); `none` when some request does not return 0. -/
def register_all : acpm_ipc_info → List (device_node × Nat) → Option acpm_ipc_info
  | ipc, [] => some ipc
  | ipc, r :: rest =>
    match acpm_ipc_request_channel ipc (some r.1) (some r.2) true with
    | .ret v st => if v = 0 then register_all st.1 rest else none
    | _ => none

/-- The events of a drain of channel `k`, starting from an empty log. -/
def events_of_drain (TYPE_BUFFER : Nat) (ipc : acpm_ipc_info) (k : Nat) : Option (List Event) :=
  (ipc.channel[k]?).bind (fun ch =>
    (dequeue_policy TYPE_BUFFER ch { ipc.hw with events := [] }).final.map (fun r => r.2.events))

/-- A TX ring of four slots with three commands pending: it is full. -/
def ring_full : buff_info := { ring0 with front := 3 }

/-- The channel `ch0` with a full TX ring. -/
def ch_full : acpm_ipc_ch := { ch0 with tx_ch := ring_full }

/-- A descriptor whose command pointer is null. -/
def cfg_null : ipc_config := { cfg0 with cmd := none }

/-- The state in which the transmit section leaves the channel when the command pointer
is null and the ring has room: only the lock events were added to the log. -/
def tx_null_exit (s : St) : St :=
  let pre := if s.ch.interrupt && s.cfg.response then [Event.mutex_lock_wait s.ch.id] else []
  let post := if s.ch.interrupt && s.cfg.response then [Event.mutex_unlock_wait s.ch.id] else []
  { s with hw := { s.hw with
      events := s.hw.events ++ (pre ++ [.spin_lock_tx s.ch.id, .spin_unlock_tx s.ch.id] ++ post) } }

/-- The coprocessor only consumes: between two reads of the TX rear index the number of
pending commands (the ring distance from rear to `front`) never grows. -/
def consumes_only (len front : Nat) (rear_at : Nat → Nat) : Prop :=
  ∀ t, (front + len - rear_at (t + 1)) % len ≤ (front + len - rear_at t) % len

/-- A TX ring of four slots with three commands pending, the second of which (slot 1)
carries the indirection bit (bit 29) in word 0. -/
def ring_ind : buff_info :=
  { rear := 0, front := 3, base := base_of [[0x10000], [0x20020000], [0x30000]],
    direction := fun _ => 0, size := 16, len := 4 }

/-- The TX ring `ring_ind` after the coprocessor has consumed its first two commands. -/
def ring_ind_drained : buff_info := { ring_ind with rear := 2 }

/-- Reads of the TX rear index while the coprocessor consumes the first two commands of
`ring_ind`: 0 at the first read, 2 from then on. -/
def rear_drain (t : Nat) : Nat := if t = 0 then 0 else 2

/-- A command with an indirect payload of two words. -/
def cfg_ind : ipc_config :=
  { cmd := some (base_of [[0x20000011, 0x22, 0x33, 0x44]] 0),
    indirection_base := some (base_of [[0xAA, 0xBB]] 0), indirection_size := 8,
    response := false, indirection := true }

/-- An indirect send on a channel whose TX ring is `ring_ind_drained`. -/
def st_ind : St := { ch := { ch0 with tx_ch := ring_ind_drained }, cfg := cfg_ind, hw := hw0 }

/-- An indirect send on a channel whose TX ring is `ring_ind`, before the coprocessor has
consumed anything. -/
def st_ind_busy : St := { ch := { ch0 with tx_ch := ring_ind }, cfg := cfg_ind, hw := hw0 }

/-- A coprocessor that consumes the command and answers sequence number 1 with error
code 7 in word 1 of the response (RX slot 0), then raises the status bit of channel 0. -/
def fw_err (_ : Shared) : Shared :=
  { tx_rear := 1, rx_front := 1, rx_base := base_of [[0x10011, 7, 0x55, 0x66]], INTSR1 := 1 }

/-- The state `t` differs from `s` at most in the event log and in the number of clock
readings taken so far. -/
def St.same_but_log (s t : St) : Prop :=
  t.ch = s.ch ∧ t.cfg = s.cfg ∧ t.hw.clk = s.hw.clk ∧ t.hw.INTSR1 = s.hw.INTSR1 ∧
    t.hw.debug_log_level = s.hw.debug_log_level ∧
    t.hw.is_acpm_stop_log = s.hw.is_acpm_stop_log

/-- A scheduler clock of which every reading is 20 ms after the previous one. -/
def hw_fast : Hw := { hw0 with clk := fun k => 20000000 * k }

/-- A driver instance with the single polling channel `ch0` and the clock of `hw_fast`. -/
def ipc_fast : acpm_ipc_info := { num_channels := 1, channel := [ch0], hw := hw_fast }

/-- The channel `ch0` run in interrupt mode instead of polling mode. -/
def ch_intr : acpm_ipc_ch := { ch0 with polling := false, interrupt := true }

/-- A driver instance with the single interrupt-mode channel `ch_intr`. -/
def ipc_intr : acpm_ipc_info := { num_channels := 1, channel := [ch_intr], hw := hw0 }

/-- The channel `ch0` with three unread responses in its RX ring (RX rear 1, RX front
wrapped to 0) and an empty TX ring. -/
def ch_unread : acpm_ipc_ch := { ch0 with rx_ch := { ring0 with rear := 1 } }

/-- The channel `ch` with its RX rear index replaced by `r`. -/
def with_rx_rear (ch : acpm_ipc_ch) (r : Nat) : acpm_ipc_ch :=
  { ch with rx_ch := { ch.rx_ch with rear := r } }

/-- The driver instance with the channel at index `k` replaced by `ch`. -/
def put_channel (ipc : acpm_ipc_info) (k : Nat) (ch : acpm_ipc_ch) : acpm_ipc_info :=
  { ipc with channel := ipc.channel.set k ch }

/-- The events of the per-channel transmit lock and of the round-trip wait lock. -/
def Event.is_lock : Event → Bool
  | .mutex_lock_wait _ => true
  | .mutex_unlock_wait _ => true
  | .spin_lock_tx _ => true
  | .spin_unlock_tx _ => true
  | _ => false

/-- A property of states that the wait of a send keeps: it survives every change of the
hardware record that keeps the event log, every logged event other than a lock event,
and every call of `check_response`. -/
def Stable (K : Consts) (P : St → Prop) : Prop :=
  (∀ (s : St) (hw : Hw), P s → hw.events = s.hw.events → P { s with hw := hw }) ∧
  (∀ (s : St) (e : Event), P s → e.is_lock = false → P (s.emit e)) ∧
  (∀ s : St, P s → (check_response K s).holds (fun _ s' => P s'))

/-- The event log of `s` is `base` extended by events whose lock events are exactly
`locks`, in that order. -/
def lock_trace (base locks : List Event) (s : St) : Prop :=
  ∃ evs, s.hw.events = base ++ evs ∧ evs.filter Event.is_lock = locks

/-- Whether `__acpm_ipc_send_data` takes the round-trip wait lock: the channel is an
interrupt channel and a response is expected (`channel->interrupt && cfg->response`). -/
def wait_lock_taken (ch : acpm_ipc_ch) (cfg : Option ipc_config) : Bool :=
  match cfg with
  | some c => ch.interrupt && c.response
  | none => false

/-- An interrupt-mode channel whose TX ring is full. -/
def ch_intr_full : acpm_ipc_ch := { ch_intr with tx_ch := ring_full }

/-- A driver instance with the single channel `ch_intr_full`. -/
def ipc_intr_full : acpm_ipc_info := { num_channels := 1, channel := [ch_intr_full], hw := hw0 }

/-- A driver instance with the single interrupt-mode channel `ch_intr` and the clock of
`hw_fast`. -/
def ipc_intr_fast : acpm_ipc_info := { num_channels := 1, channel := [ch_intr], hw := hw_fast }

/-- An indirect command whose payload pointer is null. -/
def cfg_ind_null : ipc_config := { cfg_ind with indirection_base := none, response := true }

/-- A TX ring of four slots with two commands pending: slot 0 (at rear) without, slot 1
with the indirection bit in word 0. -/
def ring_ind_two : buff_info := { ring_ind with front := 2 }

/-- An indirect send on a channel whose TX ring is `ring_ind_two`. -/
def st_ind_wait : St := { ch := { ch0 with tx_ch := ring_ind_two }, cfg := cfg_ind, hw := hw0 }

/-- An indirect send on a channel whose TX ring has the earlier indirect command at
rear (slot 1 of `ring_ind`). -/
def st_ind_rear : St :=
  { ch := { ch0 with tx_ch := { ring_ind with rear := 1 } }, cfg := cfg_ind, hw := hw0 }

/-- A response-expected send waiting on the sample channel with the clock of `hw_fast`. -/
def st_fast : St := { ch := ch0, cfg := cfg_resp, hw := hw_fast }

/-- A hardware record with an empty event log, used to read off what a drain does. -/
def Hw.blank : Hw :=
  { INTSR1 := 0, debug_log_level := 0, is_acpm_stop_log := false, clk := fun _ => 0, nclk := 0,
    events := [] }

/-- The drain of the channel returns (its loop ends). -/
def drains (TYPE_BUFFER : Nat) (ch : acpm_ipc_ch) : Prop :=
  ∃ r, dequeue_policy TYPE_BUFFER ch Hw.blank = .ret () r

/-- The channel as `dequeue_policy` leaves it. -/
def drain_ch (TYPE_BUFFER : Nat) (ch : acpm_ipc_ch) : acpm_ipc_ch :=
  match dequeue_policy TYPE_BUFFER ch Hw.blank with
  | .ret _ r => r.1
  | _ => ch

/-- The events that `dequeue_policy` logs for the channel. -/
def drain_events (TYPE_BUFFER : Nat) (ch : acpm_ipc_ch) : List Event :=
  match dequeue_policy TYPE_BUFFER ch Hw.blank with
  | .ret _ r => r.2.events
  | _ => []

/-- The channel's bit (bit number = channel id) is set in the status word. -/
def irq_bit_set (status : Nat) (ch : acpm_ipc_ch) : Bool :=
  decide (status &&& u32 (1 <<< ch.id) ≠ 0)

/-- The top half as the specification words it, per channel: the events it logs. A set
bit on a direct-completion channel: pending-clear write and completion signal; a set bit
on a channel that is neither direct-completion nor polling: pending-clear write and the
drain; otherwise nothing. -/
def irq_spec_events (TYPE_BUFFER status : Nat) (ch : acpm_ipc_ch) : List Event :=
  if irq_bit_set status ch && ch.interrupt then
    [.writel (u32 (1 <<< ch.id)) .INTCR1, .complete ch.id]
  else if irq_bit_set status ch && !ch.interrupt && !ch.polling then
    .writel (u32 (1 <<< ch.id)) .INTCR1 :: drain_events TYPE_BUFFER ch
  else []

/-- The top half as the specification words it, per channel: the channel afterwards
(drained in the second case, untouched otherwise). -/
def irq_spec_channel (TYPE_BUFFER status : Nat) (ch : acpm_ipc_ch) : acpm_ipc_ch :=
  if irq_bit_set status ch && !ch.interrupt && !ch.polling then drain_ch TYPE_BUFFER ch else ch

/-- The top half as the specification words it, per channel: the interrupt status after
the pending-clear write, when there is one. -/
def irq_spec_status (status : Nat) (v : Nat) (ch : acpm_ipc_ch) : Nat :=
  if irq_bit_set status ch && (ch.interrupt || !ch.polling) then
    v &&& (0xFFFFFFFF ^^^ u32 (u32 (1 <<< ch.id)))
  else v

/-- The value of `ipc->intr_status` after the top half has visited the given channels,
the first of which has index `i`: each channel that is drained overwrites it with
`1 << i`. -/
def irq_flag (status : Nat) : List acpm_ipc_ch → Nat → Nat → Nat
  | [], _, v => v
  | ch :: rest, i, v =>
    irq_flag status rest (i + 1)
      (if irq_bit_set status ch && !ch.interrupt && !ch.polling then u32 (1 <<< i) else v)

/-- A queued channel with id 1 that is neither polling nor direct-completion, with the
three pending responses and the two subscribers of `ch_sub`. -/
def ch_q : acpm_ipc_ch := { ch_sub with id := 1, polling := false }

/-- A polling channel with id 2. -/
def ch_p : acpm_ipc_ch := { ch0 with id := 2 }

/-- A driver instance with a direct-completion channel (id 0), a drained channel (id 1)
and a polling channel (id 2), all three status bits set. -/
def ipc_irq : acpm_ipc_info :=
  { num_channels := 3, channel := [ch_intr, ch_q, ch_p], hw := { hw0 with INTSR1 := 7 } }

/-- A second response-expected command, with payload words 0x55, 0x66, 0x77, 0x88. -/
def cfg_resp_b : ipc_config :=
  { cfg_resp with cmd := some (base_of [[0x55, 0x66, 0x77, 0x88]] 0) }

/-- Two callers on the interrupt-mode channel `ch_intr`: caller `true` sends `cfg_resp`,
caller `false` sends `cfg_resp_b`. -/
def duo0 : Duo :=
  { ch := ch_intr, hw := hw0, cfg := fun w => if w then cfg_resp else cfg_resp_b }

/-- The coprocessor consumes both commands and answers the second one (sequence number
2) before the first one (sequence number 1). -/
def duo_fw (v : Shared) : Shared :=
  { v with tx_rear := 2, rx_front := 2, rx_base := base_of [[0x20099, 0xB], [0x10077, 0xA]] }

/-- The first caller posts and finds no response; the second caller posts; the
coprocessor answers both; the first caller checks again, then the second one. -/
def duo_sched_head : List DuoAct :=
  [.check true, .post false 0 4, .fw duo_fw]

/-- The first four words of each caller's command buffer. -/
def Duo.words (d : Duo) : List (Option (List Nat)) :=
  [true, false].map (fun w => (d.cfg w).cmd.map (fun c => (List.range 4).map c))

/-- A driver instance with the single polling channel `ch_full`, whose TX ring is full. -/
def ipc_full : acpm_ipc_info := { num_channels := 1, channel := [ch_full], hw := hw0 }

/-- Sample traffic on a TX ring: two sends, one consumption, three more sends (the last
one meets a full ring). -/
def demo_traffic : List TxAction :=
  [.send cfg0 (fun v => v) false 0 0, .send cfg0 (fun v => v) false 0 0, .consume,
   .send cfg0 (fun v => v) false 0 0, .send cfg0 (fun v => v) false 0 0,
   .send cfg0 (fun v => v) false 0 0]

/-! ## Basic facts -/

theorem UNTIL_EQUAL_const (c : Bool) (spins : Nat) :
    UNTIL_EQUAL true (fun _ => c) spins = !c := by
  unfold UNTIL_EQUAL
  cases c
  · simp
  · simp [List.any_eq_true]
    exact ⟨0, by omega⟩

theorem u32_of_lt {n : Nat} (h : n < 2 ^ 32) : u32 n = n := Nat.mod_eq_of_lt h

theorem next_index_eq_mod {front len : Nat} (hlen : len < 2 ^ 32) (hf : front < len) :
    next_index front len = (front + 1) % len := by
  unfold next_index
  have h1 : u32 (front + 1) = front + 1 := u32_of_lt (by omega)
  rw [h1]
  by_cases h : front + 1 ≥ len
  · have : front + 1 = len := by omega
    simp [this]
  · rw [if_neg h, Nat.mod_eq_of_lt (by omega)]

/-! ## Sequence-number allocation -/

theorem seq_cycle_range (s k : Nat) : 1 ≤ seq_cycle s k ∧ seq_cycle s k ≤ 63 := by
  unfold seq_cycle; omega

theorem scan_step_eq (t : Nat) (ht : t ≤ 63) :
    (if u32 (t + 1) = SEQUENCE_NUM_MAX then 1 else u32 (t + 1)) = seq_cycle t 0 := by
  have h1 : u32 (t + 1) = t + 1 := u32_of_lt (by omega)
  rw [h1]
  unfold SEQUENCE_NUM_MAX seq_cycle
  split <;> omega

theorem seq_cycle_succ (t k : Nat) : seq_cycle (seq_cycle t 0) k = seq_cycle t (k + 1) := by
  unfold seq_cycle; omega

theorem seq_num_scan_some (flag : Nat → Nat) :
    ∀ (left t v : Nat), t ≤ 63 → seq_num_scan flag t left = some v →
      ∃ k, k < left ∧ v = seq_cycle t k ∧ flag v = 0 ∧ ∀ j, j < k → flag (seq_cycle t j) ≠ 0 := by
  intro left
  induction left with
  | zero => intro t v _ h; simp [seq_num_scan] at h
  | succ n ih =>
    intro t v ht h
    rw [seq_num_scan, scan_step_eq t ht] at h
    by_cases hf : flag (seq_cycle t 0) ≠ 0
    · rw [if_pos hf] at h
      obtain ⟨k, hk, hv, h0, hj⟩ := ih (seq_cycle t 0) v (seq_cycle_range t 0).2 h
      refine ⟨k + 1, by omega, ?_, h0, ?_⟩
      · rw [hv, seq_cycle_succ]
      · intro j hjk
        cases j with
        | zero => exact hf
        | succ j =>
          have := hj j (by omega)
          rwa [seq_cycle_succ] at this
    · rw [if_neg hf] at h
      have hv : v = seq_cycle t 0 := by simpa using h.symm
      refine ⟨0, by omega, hv, ?_, ?_⟩
      · rw [hv]; simpa using hf
      · intro j hj; omega

theorem seq_num_scan_none (flag : Nat → Nat) :
    ∀ (left t : Nat), t ≤ 63 → seq_num_scan flag t left = none →
      ∀ k, k < left → flag (seq_cycle t k) ≠ 0 := by
  intro left
  induction left with
  | zero => intro t _ _ k hk; omega
  | succ n ih =>
    intro t ht h k hk
    rw [seq_num_scan, scan_step_eq t ht] at h
    by_cases hf : flag (seq_cycle t 0) ≠ 0
    · rw [if_pos hf] at h
      cases k with
      | zero => exact hf
      | succ k =>
        have := ih (seq_cycle t 0) (seq_cycle_range t 0).2 h k (by omega)
        rwa [seq_cycle_succ] at this
    · rw [if_neg hf] at h
      simp at h

theorem seq_cycle_surj (t v : Nat) (h1 : 1 ≤ v) (h2 : v ≤ 63) :
    ∃ k, k < 63 ∧ seq_cycle t k = v := by
  refine ⟨(v - 1 + 63 - t % 63) % 63, Nat.mod_lt _ (by omega), ?_⟩
  unfold seq_cycle
  omega

/-- The allocation scan ends in `BUG()` exactly when all of 1..63 are in flight. -/
theorem alloc_seq_num_none_iff (ch : acpm_ipc_ch) (hs : ch.seq_num ≤ 63) :
    alloc_seq_num ch = none ↔ ∀ v, 1 ≤ v → v ≤ 63 → ch.seq_num_flag v ≠ 0 := by
  unfold alloc_seq_num
  constructor
  · intro h v h1 h2
    obtain ⟨k, hk, hv⟩ := seq_cycle_surj ch.seq_num v h1 h2
    have := seq_num_scan_none ch.seq_num_flag SEQUENCE_NUM_MAX ch.seq_num hs h k
      (by unfold SEQUENCE_NUM_MAX; omega)
    rwa [hv] at this
  · intro h
    cases hsc : seq_num_scan ch.seq_num_flag ch.seq_num SEQUENCE_NUM_MAX with
    | none => rfl
    | some v =>
      obtain ⟨k, _, hv, h0, _⟩ := seq_num_scan_some ch.seq_num_flag _ _ v hs hsc
      have hr := seq_cycle_range ch.seq_num k
      rw [← hv] at hr
      exact absurd h0 (h v hr.1 hr.2)

/-- With a free number the scan returns the first free candidate of the cyclic order. -/
theorem alloc_seq_num_first_free (ch : acpm_ipc_ch) (hs : ch.seq_num ≤ 63)
    (hfree : ∃ v, 1 ≤ v ∧ v ≤ 63 ∧ ch.seq_num_flag v = 0) :
    ∃ k, k < 63 ∧ alloc_seq_num ch = some (seq_cycle ch.seq_num k) ∧
      ch.seq_num_flag (seq_cycle ch.seq_num k) = 0 ∧
      ∀ j, j < k → ch.seq_num_flag (seq_cycle ch.seq_num j) ≠ 0 := by
  cases hsc : alloc_seq_num ch with
  | none =>
    obtain ⟨v, h1, h2, h0⟩ := hfree
    exact absurd h0 ((alloc_seq_num_none_iff ch hs).1 hsc v h1 h2)
  | some v =>
    obtain ⟨k, _, hv, h0, hj⟩ := seq_num_scan_some ch.seq_num_flag _ _ v hs hsc
    obtain ⟨w, h1, h2, hw0⟩ := hfree
    obtain ⟨kw, hkw, hkwv⟩ := seq_cycle_surj ch.seq_num w h1 h2
    have hk63 : k < 63 := by
      by_contra hge
      have := hj kw (by omega)
      rw [hkwv] at this
      exact this hw0
    exact ⟨k, hk63, by rw [hv], by rw [← hv]; exact h0, hj⟩

/-! ## The sequence field of command word 0 -/

theorem u32_testBit (n b : Nat) : (u32 n).testBit b = (decide (b < 32) && n.testBit b) := by
  unfold u32
  rw [Nat.testBit_mod_two_pow]

theorem mask32_testBit (b : Nat) : (0xFFFFFFFF : Nat).testBit b = decide (b < 32) := by
  have : (0xFFFFFFFF : Nat) = 2 ^ 32 - 1 := by norm_num
  rw [this, Nat.testBit_two_pow_sub_one]

theorem mask6_testBit (b : Nat) : (0x3f : Nat).testBit b = decide (b < 6) := by
  have : (0x3f : Nat) = 2 ^ 6 - 1 := by norm_num
  rw [this, Nat.testBit_two_pow_sub_one]

theorem pack_seq_num_testBit (K : Consts) (w q b : Nat) (hS : K.ACPM_IPC_PROTOCOL_SEQ_NUM + 6 ≤ 32) :
    (pack_seq_num K w q).testBit b =
      if K.ACPM_IPC_PROTOCOL_SEQ_NUM ≤ b ∧ b < K.ACPM_IPC_PROTOCOL_SEQ_NUM + 6
      then q.testBit (b - K.ACPM_IPC_PROTOCOL_SEQ_NUM)
      else (decide (b < 32) && w.testBit b) := by
  unfold pack_seq_num
  simp only [Nat.testBit_or, Nat.testBit_and, Nat.testBit_xor, u32_testBit, Nat.testBit_shiftLeft,
    mask32_testBit, mask6_testBit]
  by_cases h1 : K.ACPM_IPC_PROTOCOL_SEQ_NUM ≤ b
  · by_cases h2 : b < K.ACPM_IPC_PROTOCOL_SEQ_NUM + 6
    · have h3 : b < 32 := by omega
      have h4 : b - K.ACPM_IPC_PROTOCOL_SEQ_NUM < 6 := by omega
      simp [h1, h2, h3, h4]
    · have h4 : ¬ (b - K.ACPM_IPC_PROTOCOL_SEQ_NUM < 6) := by omega
      simp [h1, h2, h4, Bool.and_comm]
  · have h1' : ¬ (b ≥ K.ACPM_IPC_PROTOCOL_SEQ_NUM) := by omega
    simp [h1, h1', Bool.and_comm]

theorem seq_field_testBit (K : Consts) (w b : Nat) :
    (seq_field K w).testBit b = (w.testBit (K.ACPM_IPC_PROTOCOL_SEQ_NUM + b) && decide (b < 6)) := by
  unfold seq_field
  rw [Nat.testBit_and, Nat.testBit_shiftRight, mask6_testBit]

theorem seq_field_le (K : Consts) (w : Nat) : seq_field K w ≤ 63 := by
  unfold seq_field
  have : (0x3f : Nat) = 2 ^ 6 - 1 := by norm_num
  rw [this, Nat.and_pow_two_sub_one_eq_mod]
  omega

theorem seq_field_pack (K : Consts) (w q : Nat) (hS : K.ACPM_IPC_PROTOCOL_SEQ_NUM + 6 ≤ 32)
    (hq : q ≤ 63) : seq_field K (pack_seq_num K w q) = q := by
  apply Nat.eq_of_testBit_eq
  intro b
  rw [seq_field_testBit, pack_seq_num_testBit K w q _ hS]
  by_cases hb : b < 6
  · simp [hb]
  · have : q.testBit b = false := by
      apply Nat.testBit_lt_two_pow
      calc q < 2 ^ 6 := by omega
        _ ≤ 2 ^ b := Nat.pow_le_pow_right (by omega) (by omega)
    simp [hb, this]

theorem flag_mark_ne_zero (w : Nat) : u32 (w ||| (1 <<< 31)) ≠ 0 := by
  intro h
  have h1 : (u32 (w ||| (1 <<< 31))).testBit 31 = true := by
    rw [u32_testBit, Nat.testBit_or, Nat.testBit_shiftLeft]
    simp
  rw [h] at h1
  simp at h1

/-! ## Ring order -/

theorem ring_dist {len i front : Nat} (hi : i < len) (hf : front < len) :
    (front + len - i) % len = if i ≤ front then front - i else front + len - i := by
  split
  · next h =>
    have : front + len - i = (front - i) + len := by omega
    rw [this, Nat.add_mod_right, Nat.mod_eq_of_lt (by omega)]
  · next h => rw [Nat.mod_eq_of_lt (by omega)]

theorem succ_mod_lt {len i : Nat} (hi : i < len) :
    (i + 1) % len = if i + 1 = len then 0 else i + 1 := by
  split
  · next h => rw [h, Nat.mod_self]
  · next h => rw [Nat.mod_eq_of_lt (by omega)]

theorem ring_dist_succ {len i front : Nat} (hi : i < len) (hf : front < len) (hne : i ≠ front) :
    (front + len - i) % len = (front + len - (i + 1) % len) % len + 1 := by
  have hlt : (i + 1) % len < len := Nat.mod_lt _ (by omega)
  rw [ring_dist hi hf, ring_dist hlt hf, succ_mod_lt hi]
  split <;> split <;> split <;> omega

theorem ring_range_self (len i : Nat) : ring_range len i i = [] := by
  unfold ring_range
  have : i + len - i = len := by omega
  rw [this, Nat.mod_self]
  rfl

theorem ring_range_cons {len i front : Nat} (hi : i < len) (hf : front < len) (hne : i ≠ front) :
    ring_range len i front = i :: ring_range len ((i + 1) % len) front := by
  unfold ring_range
  rw [ring_dist_succ hi hf hne, List.range_succ_eq_map, List.map_cons, List.map_map]
  congr 1
  · simp [Nat.mod_eq_of_lt hi]
  · apply List.map_congr_left
    intro k _
    simp only [Function.comp]
    rw [Nat.mod_add_mod]
    congr 1
    omega

theorem ring_range_lt {len rear front j : Nat} (hlen : 0 < len)
    (h : j ∈ ring_range len rear front) : j < len := by
  unfold ring_range at h
  obtain ⟨k, _, rfl⟩ := List.mem_map.1 h
  exact Nat.mod_lt _ hlen

theorem ring_range_nodup {len rear front : Nat} (hlen : 0 < len) :
    (ring_range len rear front).Nodup := by
  unfold ring_range
  apply List.Nodup.map_on
  · intro x hx y hy hxy
    have hx' : x < len := lt_trans (List.mem_range.1 hx) (Nat.mod_lt _ hlen)
    have hy' : y < len := lt_trans (List.mem_range.1 hy) (Nat.mod_lt _ hlen)
    have h1 : x ≡ y [MOD len] := Nat.ModEq.add_left_cancel' rear hxy
    exact Nat.ModEq.eq_of_lt_of_lt h1 hx' hy'
  · exact List.nodup_range _

/-- The scan of `check_response` finds the first slot in ring order that carries the
wanted sequence number. -/
theorem rx_scan_eq_find (K : Consts) (rx : buff_info) (c front : Nat) (hlen : rx.len < 2 ^ 32)
    (hf : front < rx.len) :
    ∀ (fuel i : Nat), i < rx.len → (front + rx.len - i) % rx.len < fuel →
      rx_scan K rx c front fuel i =
        some ((ring_range rx.len i front).find?
          (fun j => decide (seq_field K (rx.base j 0) = seq_field K c))) := by
  intro fuel
  induction fuel with
  | zero => intro i _ h; omega
  | succ n ih =>
    intro i hi hd
    rw [rx_scan]
    by_cases hif : i = front
    · rw [if_pos hif, hif, ring_range_self]; rfl
    · rw [if_neg hif, ring_range_cons hi hf hif, List.find?_cons]
      by_cases hm : seq_field K (rx.base i 0) = seq_field K c
      · simp [hm]
      · have h1 : u32 (i + 1) = i + 1 := u32_of_lt (by omega)
        have hd' := ring_dist_succ hi hf hif
        rw [if_neg hm, h1, ih ((i + 1) % rx.len) (Nat.mod_lt _ (by omega)) (by omega)]
        simp [hm]

/-! ## The response matcher -/

/-- With a non-null command and in-range RX indices, `check_response` is decided by the
first slot in ring order that carries the wanted sequence number. -/
theorem check_response_eq (K : Consts) (s : St) (cmd : Nat → Nat) (hc : s.cfg.cmd = some cmd)
    (hr : s.ch.rx_ch.in_range) :
    check_response K s =
      match (ring_range s.ch.rx_ch.len s.ch.rx_ch.rear s.ch.rx_ch.front).find?
          (fun j => decide (seq_field K (s.ch.rx_ch.base j 0) = seq_field K (cmd 0))) with
      | none => .ret true ((s.emit (.spin_lock_rx s.ch.id)).emit (.spin_unlock_rx s.ch.id))
      | some i => .ret false
          ((check_response_hit K (s.emit (.spin_lock_rx s.ch.id)) cmd i).emit
            (.spin_unlock_rx s.ch.id)) := by
  obtain ⟨h0, hlen, hf, hre⟩ := hr
  unfold check_response
  simp only [hc]
  rw [rx_scan_eq_find K s.ch.rx_ch (cmd 0) _ hlen hf _ _ hre
    (by have := Nat.mod_lt (s.ch.rx_ch.front + s.ch.rx_ch.len - s.ch.rx_ch.rear) h0; omega)]
  cases (ring_range s.ch.rx_ch.len s.ch.rx_ch.rear s.ch.rx_ch.front).find?
      (fun j => decide (seq_field K (s.ch.rx_ch.base j 0) = seq_field K (cmd 0))) <;> rfl

theorem perm_map_upd {α : Type} (M : Nat → α) (i : Nat) (a : α) :
    ∀ (R : List Nat), i ∈ R → R.Nodup →
      List.Perm (M i :: R.map (fun j => if j = i then a else M j)) (a :: R.map M) := by
  intro R
  induction R with
  | nil => intro h; simp at h
  | cons x R ih =>
    intro hmem hnd
    rw [List.nodup_cons] at hnd
    by_cases hx : x = i
    · subst hx
      have h1 : R.map (fun j => if j = x then a else M j) = R.map M := by
        apply List.map_congr_left
        intro j hj
        have : j ≠ x := fun h => hnd.1 (h ▸ hj)
        simp [this]
      simp only [List.map_cons, if_true, h1]
      exact List.Perm.swap _ _ _
    · have hi : i ∈ R := by
        rcases List.mem_cons.1 hmem with h | h
        · exact absurd h.symm hx
        · exact h
      simp only [List.map_cons, if_neg hx]
      have := ih hi hnd.2
      exact ((List.Perm.swap _ _ _).trans (this.cons (M x))).trans (List.Perm.swap _ _ _)

theorem slot_words_copy (b : buff_info) (base1 : Nat → Nat → Nat) (i r j : Nat)
    (h : base1 = upd b.base i (memcpy_align_4 (b.base i) (b.base r) b.size)) (rear1 : Nat) :
    slot_words { b with base := base1, rear := rear1 } j =
      if j = i then slot_words b r else slot_words b j := by
  subst h
  unfold slot_words upd
  by_cases hj : j = i
  · simp only [hj, if_true]
    apply List.map_congr_left
    intro k hk
    have := List.mem_range.1 hk
    simp [memcpy_align_4, this]
  · simp only [hj, if_false]

/-- C9: `check_response` returns `false` (match) exactly when some slot from RX rear
(inclusive) to RX front (exclusive), in ring order, carries in word 0 the six-bit
sequence number of the caller's command word 0; when it returns `true` (no match) the
channel (RX rear, RX slots, in-flight flags) and the caller's command are unchanged and
the only effects are taking and releasing the receive lock: no subscriber is invoked. -/
theorem check_response_match_iff (K : Consts) (s : St) (cmd : Nat → Nat)
    (hc : s.cfg.cmd = some cmd) (hr : s.ch.rx_ch.in_range) :
    ∃ b s', check_response K s = .ret b s' ∧
      (b = false ↔ ∃ j ∈ ring_range s.ch.rx_ch.len s.ch.rx_ch.rear s.ch.rx_ch.front,
        seq_field K (s.ch.rx_ch.base j 0) = seq_field K (cmd 0)) ∧
      (b = true → s'.ch = s.ch ∧ s'.cfg = s.cfg ∧ s'.hw.INTSR1 = s.hw.INTSR1 ∧
        s'.hw.events = s.hw.events ++ [.spin_lock_rx s.ch.id, .spin_unlock_rx s.ch.id]) := by
  rw [check_response_eq K s cmd hc hr]
  cases hfind : (ring_range s.ch.rx_ch.len s.ch.rx_ch.rear s.ch.rx_ch.front).find?
      (fun j => decide (seq_field K (s.ch.rx_ch.base j 0) = seq_field K (cmd 0))) with
  | none =>
    refine ⟨true, _, rfl, ?_, ?_⟩
    · constructor
      · intro h; cases h
      · rintro ⟨j, hj, hm⟩
        have := List.find?_eq_none.1 hfind j hj
        simp [hm] at this
    · intro _
      refine ⟨rfl, rfl, rfl, ?_⟩
      simp [St.emit, emit]
  | some i =>
    refine ⟨false, _, rfl, ?_, ?_⟩
    · constructor
      · intro _
        refine ⟨i, List.mem_of_find?_eq_some hfind, ?_⟩
        simpa using List.find?_some hfind
      · intro _; rfl
    · intro h; cases h

/-- C10: when `check_response` matches at slot `i`, the first matching slot in ring
order, RX rear advances to `(rear + 1) mod len` and RX front stays; the in-flight flag
of the matched sequence number is cleared and every other flag is kept; the messages
pending afterwards, together with the matched one, are a rearrangement of the messages
pending before; when `i` is not the old rear, slot `i` now holds the message formerly at
rear; every slot other than `i` is untouched. -/
theorem check_response_on_match (K : Consts) (s : St) (cmd : Nat → Nat) (i : Nat)
    (hc : s.cfg.cmd = some cmd) (hr : s.ch.rx_ch.in_range)
    (hi : (ring_range s.ch.rx_ch.len s.ch.rx_ch.rear s.ch.rx_ch.front).find?
      (fun j => decide (seq_field K (s.ch.rx_ch.base j 0) = seq_field K (cmd 0))) = some i) :
    ∃ s', check_response K s = .ret false s' ∧
      s'.ch.rx_ch.rear = (s.ch.rx_ch.rear + 1) % s.ch.rx_ch.len ∧
      s'.ch.rx_ch.front = s.ch.rx_ch.front ∧
      s'.ch.seq_num_flag (seq_field K (cmd 0)) = 0 ∧
      (∀ v, v ≠ seq_field K (cmd 0) → s'.ch.seq_num_flag v = s.ch.seq_num_flag v) ∧
      List.Perm (slot_words s.ch.rx_ch i :: pending s'.ch.rx_ch) (pending s.ch.rx_ch) ∧
      (i ≠ s.ch.rx_ch.rear → slot_words s'.ch.rx_ch i = slot_words s.ch.rx_ch s.ch.rx_ch.rear) ∧
      (∀ j, j ≠ i → s'.ch.rx_ch.base j = s.ch.rx_ch.base j) := by
  rw [check_response_eq K s cmd hc hr, hi]
  have hmatch : seq_field K (s.ch.rx_ch.base i 0) = seq_field K (cmd 0) := by
    simpa using List.find?_some hi
  have hmem := List.mem_of_find?_eq_some hi
  obtain ⟨h0, hlen, hf, hre⟩ := hr
  have hne : s.ch.rx_ch.rear ≠ s.ch.rx_ch.front := by
    intro h
    rw [h, ring_range_self] at hmem
    simp at hmem
  have hcons := ring_range_cons hre hf hne
  have hnd : (ring_range s.ch.rx_ch.len s.ch.rx_ch.rear s.ch.rx_ch.front).Nodup :=
    ring_range_nodup h0
  rw [hcons] at hmem hnd
  have hu : u32 (s.ch.rx_ch.rear + 1) = s.ch.rx_ch.rear + 1 := u32_of_lt (by omega)
  refine ⟨_, rfl, ?_, rfl, ?_, ?_, ?_, ?_, ?_⟩
  · simp [St.emit, check_response_hit, hu]
  · simp [St.emit, check_response_hit, upd, hmatch]
  · intro v hv
    simp [St.emit, check_response_hit, upd, hmatch, hv]
  · unfold pending
    simp only [St.emit, check_response_hit, hu]
    rw [hcons]
    by_cases hir : i = s.ch.rx_ch.rear
    · simp only [hir, ne_eq, not_true_eq_false, if_false, List.map_cons]
      exact List.Perm.refl _
    · have hiR : i ∈ ring_range s.ch.rx_ch.len ((s.ch.rx_ch.rear + 1) % s.ch.rx_ch.len)
          s.ch.rx_ch.front := by
        rcases List.mem_cons.1 hmem with h | h
        · exact absurd h hir
        · exact h
      simp only [ne_eq, hir, not_false_eq_true, if_true, List.map_cons]
      have hsw : ∀ j, slot_words { s.ch.rx_ch with
            base := upd s.ch.rx_ch.base i
              (memcpy_align_4 (s.ch.rx_ch.base i) (s.ch.rx_ch.base s.ch.rx_ch.rear) s.ch.rx_ch.size),
            rear := (s.ch.rx_ch.rear + 1) % s.ch.rx_ch.len } j =
          if j = i then slot_words s.ch.rx_ch s.ch.rx_ch.rear else slot_words s.ch.rx_ch j :=
        fun j => slot_words_copy s.ch.rx_ch _ i _ j rfl _
      rw [List.map_congr_left (fun j _ => hsw j)]
      exact perm_map_upd (slot_words s.ch.rx_ch) i _ _ hiR (List.nodup_cons.1 hnd).2
  · intro hir
    simp only [St.emit, check_response_hit, ne_eq, hir, not_false_eq_true, if_true]
    rw [slot_words_copy s.ch.rx_ch _ i _ i rfl _, if_pos rfl]
  · intro j hj
    simp only [St.emit, check_response_hit]
    by_cases hir : i = s.ch.rx_ch.rear
    · simp [hir]
    · simp [hir, upd, hj]

/-! ## The transmit section -/

/-- A full ring: the transmit section gives up with `-ETIMEDOUT`. -/
theorem tx_section_full (K : Consts) (spins fuel : Nat) (s : St)
    (hfull : next_index s.ch.tx_ch.front s.ch.tx_ch.len = s.ch.tx_ch.rear) :
    tx_section K spins fuel s = .ret (some (-ETIMEDOUT)) (tx_full_exit s) := by
  unfold tx_section
  simp only [UNTIL_EQUAL_const, hfull, ne_eq, not_true_eq_false, decide_False, Bool.not_false,
    if_true]
  unfold tx_full_exit tx_unlock_exit
  cases hb : (s.ch.interrupt && s.cfg.response) <;> simp [St.emit, emit, hb]

/-- A ring with room, a command without indirect payload and a free sequence number:
the transmit section publishes the command. -/
theorem tx_section_published (K : Consts) (spins fuel : Nat) (s : St) (cmd : Nat → Nat) (q : Nat)
    (hroom : next_index s.ch.tx_ch.front s.ch.tx_ch.len ≠ s.ch.tx_ch.rear)
    (hc : s.cfg.cmd = some cmd) (hq : alloc_seq_num s.ch = some q)
    (hind : s.cfg.indirection = false) :
    tx_section K spins fuel s = .ret none (tx_published K s cmd q) := by
  unfold tx_section
  simp only [UNTIL_EQUAL_const, hroom, ne_eq, not_false_eq_true, decide_True, Bool.not_true,
    hc, hq, enqueue_indirection_cmd, hind]
  unfold tx_published
  cases hb : (s.ch.interrupt && s.cfg.response) <;> simp [St.emit, emit, hb, hind]

/-- A ring with room and a command, but no free sequence number: `BUG()`. -/
theorem tx_section_bug (K : Consts) (spins fuel : Nat) (s : St) (cmd : Nat → Nat)
    (hroom : next_index s.ch.tx_ch.front s.ch.tx_ch.len ≠ s.ch.tx_ch.rear)
    (hc : s.cfg.cmd = some cmd) (hq : alloc_seq_num s.ch = none) :
    ∃ s', tx_section K spins fuel s = .bug s' := by
  unfold tx_section
  simp only [UNTIL_EQUAL_const, hroom, ne_eq, not_false_eq_true, decide_True, Bool.not_true,
    hc, hq]
  exact ⟨_, rfl⟩

/-! ## The send routine -/

/-- After the entry guard, `__acpm_ipc_send_data` with a descriptor runs the body on the
selected channel and stores the channel back. -/
theorem send_at (K : Consts) (spins fuel : Nat) (fw : Shared → Shared) (ipc : acpm_ipc_info)
    (id : Nat) (ch : acpm_ipc_ch) (c : ipc_config) (w_mode : Bool)
    (hch : ipc.channel[id]? = some ch) :
    __acpm_ipc_send_data K spins fuel fw ipc id (some c) w_mode =
      match send_data K spins fuel fw w_mode { ch := ch, cfg := c, hw := ipc.hw } with
      | .ret v s =>
        .ret v ({ ipc with channel := ipc.channel.set id s.ch, hw := s.hw }, some s.cfg)
      | .bug s =>
        .bug ({ ipc with channel := ipc.channel.set id s.ch, hw := s.hw }, some s.cfg)
      | .fault => .fault
      | .hang => .hang := by
  unfold __acpm_ipc_send_data
  simp [hch]

theorem getElem?_set_self_of_some {α : Type} (l : List α) (i : Nat) (a b : α)
    (h : l[i]? = some a) : (l.set i b)[i]? = some b := by
  have hi : i < l.length := by
    by_contra hge
    rw [List.getElem?_eq_none (by omega)] at h
    cases h
  simp [List.getElem?_set, hi]

theorem set_self_of_some {α : Type} (l : List α) (i : Nat) (a : α)
    (h : l[i]? = some a) : l.set i a = l := by
  apply List.ext_getElem?
  intro j
  by_cases hj : i = j
  · subst hj
    rw [getElem?_set_self_of_some l i a a h, h]
  · simp [List.getElem?_set, hj]

/-- A fire-and-forget send returns right after the transmit section. -/
theorem wait_section_no_response (K : Consts) (fuel : Nat) (fw : Shared → Shared) (w_mode : Bool)
    (s : St) (h : s.cfg.response = false) : wait_section K fuel fw w_mode s = .ret 0 s := by
  unfold wait_section
  simp [h]

/-- A fire-and-forget send of a command without indirect payload, on a ring with room
and with sequence number `q` allocated: the routine returns 0 in the published state. -/
theorem send_no_response_eq (K : Consts) (spins fuel : Nat) (fw : Shared → Shared)
    (ipc : acpm_ipc_info) (id : Nat) (ch : acpm_ipc_ch) (c : ipc_config) (cmd : Nat → Nat)
    (q : Nat) (w_mode : Bool) (hch : ipc.channel[id]? = some ch)
    (hroom : next_index ch.tx_ch.front ch.tx_ch.len ≠ ch.tx_ch.rear)
    (hc : c.cmd = some cmd) (hq : alloc_seq_num ch = some q)
    (hind : c.indirection = false) (hresp : c.response = false) :
    __acpm_ipc_send_data K spins fuel fw ipc id (some c) w_mode =
      .ret 0 ({ ipc with
          channel := ipc.channel.set id (tx_published K { ch := ch, cfg := c, hw := ipc.hw } cmd q).ch,
          hw := (tx_published K { ch := ch, cfg := c, hw := ipc.hw } cmd q).hw },
        some (tx_published K { ch := ch, cfg := c, hw := ipc.hw } cmd q).cfg) := by
  have htx := tx_section_published K spins fuel { ch := ch, cfg := c, hw := ipc.hw } cmd q
    hroom hc hq hind
  rw [send_at K spins fuel fw ipc id ch c w_mode hch]
  unfold send_data
  simp only [htx]
  rw [wait_section_no_response K fuel fw w_mode _ (by simpa [tx_published] using hresp)]

/-- A send on a full ring returns `-ETIMEDOUT`; only the log and the debug level change. -/
theorem send_full_eq (K : Consts) (spins fuel : Nat) (fw : Shared → Shared)
    (ipc : acpm_ipc_info) (id : Nat) (ch : acpm_ipc_ch) (c : ipc_config) (w_mode : Bool)
    (hch : ipc.channel[id]? = some ch)
    (hfull : next_index ch.tx_ch.front ch.tx_ch.len = ch.tx_ch.rear) :
    __acpm_ipc_send_data K spins fuel fw ipc id (some c) w_mode =
      .ret (-ETIMEDOUT)
        ({ ipc with hw := (tx_full_exit { ch := ch, cfg := c, hw := ipc.hw }).hw }, some c) := by
  have htx := tx_section_full K spins fuel { ch := ch, cfg := c, hw := ipc.hw } hfull
  rw [send_at K spins fuel fw ipc id ch c w_mode hch]
  unfold send_data
  simp only [htx]
  simp [tx_full_exit, set_self_of_some _ _ _ hch]

/-- C1 (amended): on a channel with an in-range TX front, room in the TX ring (in
particular on every channel with at least two slots and in-range indices that is not
full), a valid last-used sequence number and at least one sequence number of 1..63
not in flight, a fire-and-forget send of a command without indirect payload returns 0;
the slot at the old front holds the caller's words, word 0 differing only in the six-bit
sequence field, which holds the newly allocated number; TX front becomes
`(front + 1) mod len` and TX rear is unchanged. -/
theorem send_fire_and_forget (K : Consts) (spins fuel : Nat) (fw : Shared → Shared)
    (ipc : acpm_ipc_info) (id : Nat) (ch : acpm_ipc_ch) (c : ipc_config) (cmd : Nat → Nat)
    (w_mode : Bool)
    (hch : ipc.channel[id]? = some ch)
    (hlen32 : ch.tx_ch.len < 2 ^ 32) (hf : ch.tx_ch.front < ch.tx_ch.len)
    (hroom : (ch.tx_ch.front + 1) % ch.tx_ch.len ≠ ch.tx_ch.rear)
    (hc : c.cmd = some cmd) (hind : c.indirection = false) (hresp : c.response = false)
    (hseq : ch.seq_num ≤ 63) (hfree : ∃ v, 1 ≤ v ∧ v ≤ 63 ∧ ch.seq_num_flag v = 0)
    (hS : K.ACPM_IPC_PROTOCOL_SEQ_NUM + 6 ≤ 32) :
    ∃ q ipc' c' ch', alloc_seq_num ch = some q ∧
      __acpm_ipc_send_data K spins fuel fw ipc id (some c) w_mode = .ret 0 (ipc', some c') ∧
      ipc'.channel[id]? = some ch' ∧
      ch'.tx_ch.front = (ch.tx_ch.front + 1) % ch.tx_ch.len ∧
      ch'.tx_ch.rear = ch.tx_ch.rear ∧
      (∀ k, 0 < k → k < ch.tx_ch.size / 4 → ch'.tx_ch.base ch.tx_ch.front k = cmd k) ∧
      (0 < ch.tx_ch.size / 4 →
        seq_field K (ch'.tx_ch.base ch.tx_ch.front 0) = q ∧
        ∀ b, b < 32 →
          ¬ (K.ACPM_IPC_PROTOCOL_SEQ_NUM ≤ b ∧ b < K.ACPM_IPC_PROTOCOL_SEQ_NUM + 6) →
          (ch'.tx_ch.base ch.tx_ch.front 0).testBit b = (cmd 0).testBit b) := by
  obtain ⟨k, _, hq, _, _⟩ := alloc_seq_num_first_free ch hseq hfree
  have hq63 := (seq_cycle_range ch.seq_num k).2
  have hroom' : next_index ch.tx_ch.front ch.tx_ch.len ≠ ch.tx_ch.rear := by
    rw [next_index_eq_mod hlen32 hf]; exact hroom
  have hsend := send_no_response_eq K spins fuel fw ipc id ch c cmd _ w_mode hch hroom' hc hq
    hind hresp
  refine ⟨seq_cycle ch.seq_num k, _, _,
    (tx_published K { ch := ch, cfg := c, hw := ipc.hw } cmd (seq_cycle ch.seq_num k)).ch,
    hq, hsend, ?_, ?_, ?_, ?_, ?_⟩
  · exact getElem?_set_self_of_some _ _ _ _ hch
  · simp [tx_published, next_index_eq_mod hlen32 hf]
  · simp [tx_published]
  · intro j hj0 hj
    have hj0' : j ≠ 0 := by omega
    simp [tx_published, upd, memcpy_align_4, hj, hj0']
  · intro hsz
    constructor
    · simp only [tx_published, upd, memcpy_align_4, hsz, if_true]
      exact seq_field_pack K _ _ hS hq63
    · intro b hb hnot
      simp only [tx_published, upd, memcpy_align_4, hsz, if_true]
      rw [pack_seq_num_testBit K _ _ _ hS, if_neg hnot]
      simp [hb]

/-- Witness for C1 (amended): the sample channel and the sample command. -/
theorem send_fire_and_forget_witness :
    ∃ q ipc' c' ch', alloc_seq_num ch0 = some q ∧
      __acpm_ipc_send_data K0 0 0 id ipc0 0 (some cfg0) false = .ret 0 (ipc', some c') ∧
      ipc'.channel[0]? = some ch' ∧
      ch'.tx_ch.front = (ch0.tx_ch.front + 1) % ch0.tx_ch.len ∧
      ch'.tx_ch.rear = ch0.tx_ch.rear ∧
      (∀ k, 0 < k → k < ch0.tx_ch.size / 4 →
        ch'.tx_ch.base ch0.tx_ch.front k = base_of [[0x11, 0x22, 0x33, 0x44]] 0 k) ∧
      (0 < ch0.tx_ch.size / 4 →
        seq_field K0 (ch'.tx_ch.base ch0.tx_ch.front 0) = q ∧
        ∀ b, b < 32 →
          ¬ (K0.ACPM_IPC_PROTOCOL_SEQ_NUM ≤ b ∧ b < K0.ACPM_IPC_PROTOCOL_SEQ_NUM + 6) →
          (ch'.tx_ch.base ch0.tx_ch.front 0).testBit b =
            (base_of [[0x11, 0x22, 0x33, 0x44]] 0 0).testBit b) :=
  send_fire_and_forget K0 0 0 id ipc0 0 ch0 cfg0 (base_of [[0x11, 0x22, 0x33, 0x44]] 0) false
    rfl (by decide) (by decide) (by decide) rfl rfl rfl (by decide)
    ⟨1, by decide, by decide, rfl⟩ (by decide)

/-- C1 (counterexample): on the sample channel with all of 1..63 in flight (four slots,
empty TX ring) the fire-and-forget send of the sample command ends in `BUG()` and does
not return 0, although every condition of the claim holds. -/
theorem send_fire_and_forget_exhausted :
    ipc_busy.channel[0]? = some ch_busy ∧ 2 ≤ ch_busy.tx_ch.len ∧
      ch_busy.tx_ch.front < ch_busy.tx_ch.len ∧ ch_busy.tx_ch.rear < ch_busy.tx_ch.len ∧
      (ch_busy.tx_ch.front + 1) % ch_busy.tx_ch.len ≠ ch_busy.tx_ch.rear ∧
      cfg0.cmd.isSome = true ∧ cfg0.indirection = false ∧ cfg0.response = false ∧
      (∃ st, __acpm_ipc_send_data K0 0 0 id ipc_busy 0 (some cfg0) false = .bug st) ∧
      ¬ ∃ st, __acpm_ipc_send_data K0 0 0 id ipc_busy 0 (some cfg0) false = .ret 0 st := by
  have hbug : ∃ st, __acpm_ipc_send_data K0 0 0 id ipc_busy 0 (some cfg0) false = .bug st := by
    rw [send_at K0 0 0 id ipc_busy 0 ch_busy cfg0 false rfl]
    have hq : alloc_seq_num ch_busy = none := by
      rw [alloc_seq_num_none_iff ch_busy (by decide)]
      intro v _ _
      show (0x80000000 : Nat) ≠ 0
      decide
    obtain ⟨s', hs'⟩ := tx_section_bug K0 0 0 { ch := ch_busy, cfg := cfg0, hw := ipc_busy.hw }
      (base_of [[0x11, 0x22, 0x33, 0x44]] 0) (by decide) rfl hq
    unfold send_data
    simp only [hs']
    exact ⟨_, rfl⟩
  refine ⟨rfl, by decide, by decide, by decide, by decide, rfl, rfl, rfl, hbug, ?_⟩
  rintro ⟨st, hst⟩
  obtain ⟨st', hst'⟩ := hbug
  rw [hst'] at hst
  cases hst

/-- C4: when the TX ring is full (`(front + 1) mod len = rear`, front in range) and stays
full during the bounded wait, the send returns `-ETIMEDOUT`; every channel of the driver
(TX front, TX rear, TX slots, last-used sequence number, in-flight flags) and the
caller's descriptor are exactly as before, and the events of the call contain no write
to the doorbell register `INTGR0`. -/
theorem send_full_timeout (K : Consts) (spins fuel : Nat) (fw : Shared → Shared)
    (ipc : acpm_ipc_info) (id : Nat) (ch : acpm_ipc_ch) (c : ipc_config) (w_mode : Bool)
    (hch : ipc.channel[id]? = some ch)
    (hlen32 : ch.tx_ch.len < 2 ^ 32) (hf : ch.tx_ch.front < ch.tx_ch.len)
    (hfull : (ch.tx_ch.front + 1) % ch.tx_ch.len = ch.tx_ch.rear) :
    ∃ ipc' evs,
      __acpm_ipc_send_data K spins fuel fw ipc id (some c) w_mode =
        .ret (-ETIMEDOUT) (ipc', some c) ∧
      ipc'.channel = ipc.channel ∧
      ipc'.hw.events = ipc.hw.events ++ evs ∧
      (∀ v, Event.writel v Reg.INTGR0 ∉ evs) ∧
      ipc'.hw.INTSR1 = ipc.hw.INTSR1 := by
  have hfull' : next_index ch.tx_ch.front ch.tx_ch.len = ch.tx_ch.rear := by
    rw [next_index_eq_mod hlen32 hf]; exact hfull
  refine ⟨_, _, send_full_eq K spins fuel fw ipc id ch c w_mode hch hfull', rfl, rfl, ?_, rfl⟩
  intro v
  cases hb : (ch.interrupt && c.response) <;> simp [hb]

/-- Witness for C4: the sample channel with three commands pending out of four slots. -/
theorem send_full_timeout_witness :
    ∃ ipc' evs,
      __acpm_ipc_send_data K0 0 0 (fun v => v)
          { ipc0 with channel := [{ ch0 with tx_ch := { ring0 with front := 3 } }] } 0
          (some cfg0) false =
        .ret (-ETIMEDOUT) (ipc', some cfg0) ∧
      ipc'.channel = [{ ch0 with tx_ch := { ring0 with front := 3 } }] ∧
      ipc'.hw.events = ipc0.hw.events ++ evs ∧
      (∀ v, Event.writel v Reg.INTGR0 ∉ evs) ∧
      ipc'.hw.INTSR1 = ipc0.hw.INTSR1 :=
  send_full_timeout K0 0 0 (fun v => v)
    { ipc0 with channel := [{ ch0 with tx_ch := { ring0 with front := 3 } }] } 0
    { ch0 with tx_ch := { ring0 with front := 3 } } cfg0 false rfl (by decide) (by decide)
    (by decide)

/-- C5 (counterexample): on the sample channel (four slots, empty TX ring, idle
coprocessor) the first three fire-and-forget sends return 0 and leave front = 3,
rear = 0, but the fourth send does not succeed: it returns `-ETIMEDOUT`, and the indices
are still front = 3, rear = 0. -/
theorem four_sends_fourth_fails :
    (send_all K0 0 0 0 [cfg0, cfg0, cfg0] ipc0).1 = [0, 0, 0] ∧
      tx_indices (send_all K0 0 0 0 [cfg0, cfg0, cfg0] ipc0).2 0 = some (3, 0) ∧
      (send_all K0 0 0 0 [cfg0, cfg0, cfg0, cfg0] ipc0).1 = [0, 0, 0, -ETIMEDOUT] ∧
      (send_all K0 0 0 0 [cfg0, cfg0, cfg0, cfg0] ipc0).1 ≠ [0, 0, 0, 0] ∧
      tx_indices (send_all K0 0 0 0 [cfg0, cfg0, cfg0, cfg0] ipc0).2 0 = some (3, 0) := by
  refine ⟨?_, ?_, ?_, ?_, ?_⟩ <;> decide

/-- One fire-and-forget send on a ring with room, seen from the driver instance: it
returns 0, advances TX front to the next index and keeps TX rear, the geometry and the
in-flight flags; the new last-used sequence number is again at most 63. -/
theorem send_no_response_step (K : Consts) (spins fuel : Nat) (fw : Shared → Shared)
    (ipc : acpm_ipc_info) (id : Nat) (ch : acpm_ipc_ch) (c : ipc_config) (cmd : Nat → Nat)
    (w_mode : Bool) (hch : ipc.channel[id]? = some ch)
    (hroom : next_index ch.tx_ch.front ch.tx_ch.len ≠ ch.tx_ch.rear)
    (hc : c.cmd = some cmd) (hind : c.indirection = false) (hresp : c.response = false)
    (hseq : ch.seq_num ≤ 63) (hfree : ∃ v, 1 ≤ v ∧ v ≤ 63 ∧ ch.seq_num_flag v = 0) :
    ∃ ipc' c' ch',
      __acpm_ipc_send_data K spins fuel fw ipc id (some c) w_mode = .ret 0 (ipc', some c') ∧
      ipc'.channel[id]? = some ch' ∧
      ch'.tx_ch.len = ch.tx_ch.len ∧
      ch'.tx_ch.front = next_index ch.tx_ch.front ch.tx_ch.len ∧
      ch'.tx_ch.rear = ch.tx_ch.rear ∧
      ch'.seq_num ≤ 63 ∧
      ch'.seq_num_flag = ch.seq_num_flag := by
  obtain ⟨k, _, hq, _, _⟩ := alloc_seq_num_first_free ch hseq hfree
  refine ⟨_, _, _, send_no_response_eq K spins fuel fw ipc id ch c cmd _ w_mode hch hroom hc hq
    hind hresp, getElem?_set_self_of_some _ _ _ _ hch, rfl, rfl, rfl,
    (seq_cycle_range ch.seq_num k).2, ?_⟩
  simp [tx_published, hresp]

/-- C5 (amended): on a channel with four slots whose TX ring starts empty
(front = rear = 0), with a valid last-used sequence number and a free sequence number,
and with an idle coprocessor, three fire-and-forget sends of commands without indirect
payload return 0 and leave front = 3, rear = 0; a fourth send, of any command, fails
with `-ETIMEDOUT` and leaves front = 3, rear = 0. -/
theorem four_slot_ring_holds_three (K : Consts) (spins fuel : Nat) (ipc : acpm_ipc_info)
    (id : Nat) (ch : acpm_ipc_ch) (c1 c2 c3 c4 : ipc_config) (m1 m2 m3 : Nat → Nat)
    (hch : ipc.channel[id]? = some ch)
    (hlen : ch.tx_ch.len = 4) (hf : ch.tx_ch.front = 0) (hr : ch.tx_ch.rear = 0)
    (h1 : c1.cmd = some m1 ∧ c1.indirection = false ∧ c1.response = false)
    (h2 : c2.cmd = some m2 ∧ c2.indirection = false ∧ c2.response = false)
    (h3 : c3.cmd = some m3 ∧ c3.indirection = false ∧ c3.response = false)
    (hseq : ch.seq_num ≤ 63) (hfree : ∃ v, 1 ≤ v ∧ v ≤ 63 ∧ ch.seq_num_flag v = 0) :
    (send_all K spins fuel id [c1, c2, c3] ipc).1 = [0, 0, 0] ∧
      tx_indices (send_all K spins fuel id [c1, c2, c3] ipc).2 id = some (3, 0) ∧
      (send_all K spins fuel id [c1, c2, c3, c4] ipc).1 = [0, 0, 0, -ETIMEDOUT] ∧
      tx_indices (send_all K spins fuel id [c1, c2, c3, c4] ipc).2 id = some (3, 0) := by
  obtain ⟨ipc1, x1, ch1, hs1, hch1, hlen1, hf1, hr1, hq1, hfl1⟩ :=
    send_no_response_step K spins fuel (fun v => v) ipc id ch c1 m1 false hch
      (by rw [hlen, hf, hr]; decide) h1.1 h1.2.1 h1.2.2 hseq hfree
  rw [hlen, hf] at hf1
  rw [hlen] at hlen1
  rw [hr] at hr1
  obtain ⟨ipc2, x2, ch2, hs2, hch2, hlen2, hf2, hr2, hq2, hfl2⟩ :=
    send_no_response_step K spins fuel (fun v => v) ipc1 id ch1 c2 m2 false hch1
      (by rw [hlen1, hf1, hr1]; decide) h2.1 h2.2.1 h2.2.2 hq1 (by rw [hfl1]; exact hfree)
  rw [hlen1, hf1] at hf2
  rw [hlen1] at hlen2
  rw [hr1] at hr2
  obtain ⟨ipc3, x3, ch3, hs3, hch3, hlen3, hf3, hr3, hq3, hfl3⟩ :=
    send_no_response_step K spins fuel (fun v => v) ipc2 id ch2 c3 m3 false hch2
      (by rw [hlen2, hf2, hr2]; decide) h3.1 h3.2.1 h3.2.2 hq2
      (by rw [hfl2, hfl1]; exact hfree)
  rw [hlen2, hf2] at hf3
  rw [hlen2] at hlen3
  rw [hr2] at hr3
  have hs4 := send_full_eq K spins fuel (fun v => v) ipc3 id ch3 c4 false hch3
    (by rw [hlen3, hf3, hr3]; decide)
  have hidx : tx_indices ipc3 id = some (3, 0) := by
    have e1 : next_index (next_index (next_index 0 4) 4) 4 = 3 := by decide
    simp [tx_indices, hch3, hf3, hr3, e1]
  refine ⟨?_, ?_, ?_, ?_⟩
  · simp [send_all, hs1, hs2, hs3]
  · simpa [send_all, hs1, hs2, hs3] using hidx
  · simp [send_all, hs1, hs2, hs3, hs4]
  · simpa [send_all, hs1, hs2, hs3, hs4, tx_indices] using hidx

/-- Witness for C5 (amended): the sample channel and four copies of the sample command. -/
theorem four_slot_ring_holds_three_witness :
    (send_all K0 0 0 0 [cfg0, cfg0, cfg0] ipc0).1 = [0, 0, 0] ∧
      tx_indices (send_all K0 0 0 0 [cfg0, cfg0, cfg0] ipc0).2 0 = some (3, 0) ∧
      (send_all K0 0 0 0 [cfg0, cfg0, cfg0, cfg0] ipc0).1 = [0, 0, 0, -ETIMEDOUT] ∧
      tx_indices (send_all K0 0 0 0 [cfg0, cfg0, cfg0, cfg0] ipc0).2 0 = some (3, 0) :=
  four_slot_ring_holds_three K0 0 0 ipc0 0 ch0 cfg0 cfg0 cfg0 cfg0
    (base_of [[0x11, 0x22, 0x33, 0x44]] 0) (base_of [[0x11, 0x22, 0x33, 0x44]] 0)
    (base_of [[0x11, 0x22, 0x33, 0x44]] 0) rfl rfl rfl rfl ⟨rfl, rfl, rfl⟩ ⟨rfl, rfl, rfl⟩
    ⟨rfl, rfl, rfl⟩ (by decide) ⟨1, by decide, by decide, rfl⟩

/-- The indirect step either returns, having changed at most the indirect buffer and the
event log, or (only for an indirect command) is still looping when the fuel runs out. -/
theorem enqueue_indirection_cmd_frame (K : Consts) (spins fuel : Nat) (s : St) :
    (∃ v d evs, enqueue_indirection_cmd K spins fuel s = .ret v
      { s with
        ch := { s.ch with tx_ch := { s.ch.tx_ch with direction := d } }
        hw := { s.hw with events := s.hw.events ++ evs } }) ∨
    (enqueue_indirection_cmd K spins fuel s = .hang ∧ s.cfg.indirection = true) := by
  unfold enqueue_indirection_cmd
  by_cases hind : s.cfg.indirection = true
  · rw [if_pos hind]
    cases indirection_scan K spins s.ch.tx_ch s.ch.tx_ch.front fuel s.ch.tx_ch.rear with
    | none => exact Or.inr ⟨rfl, hind⟩
    | some b =>
      left
      cases b with
      | true => exact ⟨-ETIMEDOUT, s.ch.tx_ch.direction, [.acpm_log_print], rfl⟩
      | false =>
        cases s.cfg.indirection_base with
        | none => exact ⟨-EINVAL, s.ch.tx_ch.direction, [], by simp⟩
        | some src =>
          exact ⟨0, memcpy_align_4 s.ch.tx_ch.direction src s.cfg.indirection_size, [], by simp⟩
  · left
    rw [if_neg hind]
    exact ⟨0, s.ch.tx_ch.direction, [], by simp⟩

/-- Every way the transmit section can end. -/
theorem tx_section_cases (K : Consts) (spins fuel : Nat) (s : St) :
    (next_index s.ch.tx_ch.front s.ch.tx_ch.len = s.ch.tx_ch.rear ∧
      tx_section K spins fuel s = .ret (some (-ETIMEDOUT)) (tx_full_exit s)) ∨
    (next_index s.ch.tx_ch.front s.ch.tx_ch.len ≠ s.ch.tx_ch.rear ∧ s.cfg.cmd = none ∧
      ∃ s', tx_section K spins fuel s = .ret (some (- EIO)) s' ∧ s'.ch = s.ch ∧ s'.cfg = s.cfg) ∨
    (next_index s.ch.tx_ch.front s.ch.tx_ch.len ≠ s.ch.tx_ch.rear ∧
      ∃ cmd, s.cfg.cmd = some cmd ∧ alloc_seq_num s.ch = none ∧
        ∃ s', tx_section K spins fuel s = .bug s') ∨
    (next_index s.ch.tx_ch.front s.ch.tx_ch.len ≠ s.ch.tx_ch.rear ∧
      ∃ cmd q, s.cfg.cmd = some cmd ∧ alloc_seq_num s.ch = some q ∧
        ((∃ v s', v ≠ 0 ∧ tx_section K spins fuel s = .ret (some v) s' ∧ Written K s s' cmd q ∧
            s'.ch.tx_ch.front = s.ch.tx_ch.front) ∨
          (∃ s', tx_section K spins fuel s = .ret none s' ∧ Written K s s' cmd q ∧
            s'.ch.tx_ch.front = next_index s.ch.tx_ch.front s.ch.tx_ch.len) ∨
          (tx_section K spins fuel s = .hang ∧ s.cfg.indirection = true))) := by
  by_cases hroom : next_index s.ch.tx_ch.front s.ch.tx_ch.len = s.ch.tx_ch.rear
  · exact Or.inl ⟨hroom, tx_section_full K spins fuel s hroom⟩
  · right
    cases hc : s.cfg.cmd with
    | none =>
      left
      refine ⟨hroom, rfl, ?_⟩
      unfold tx_section
      simp only [UNTIL_EQUAL_const, hroom, ne_eq, not_false_eq_true, decide_True, Bool.not_true, hc]
      refine ⟨_, rfl, ?_, ?_⟩
      · unfold tx_unlock_exit
        cases hb : (s.ch.interrupt && s.cfg.response) <;> simp [St.emit, hb]
      · unfold tx_unlock_exit
        cases hb : (s.ch.interrupt && s.cfg.response) <;> simp [St.emit, hb]
    | some cmd =>
      right
      cases hq : alloc_seq_num s.ch with
      | none => exact Or.inl ⟨hroom, cmd, rfl, rfl, tx_section_bug K spins fuel s cmd hroom hc hq⟩
      | some q =>
        right
        refine ⟨hroom, cmd, q, rfl, rfl, ?_⟩
        unfold tx_section
        simp only [UNTIL_EQUAL_const, hroom, ne_eq, not_false_eq_true, decide_True,
          Bool.not_true, hc, hq]
        rcases enqueue_indirection_cmd_frame K spins fuel _ with ⟨v, d, evs, he⟩ | ⟨he, hi⟩
        · rw [he]
          by_cases hv : v = 0
          · right; left
            simp only [hv, not_true_eq_false, if_false]
            refine ⟨_, rfl, ?_, ?_⟩
            · unfold Written
              cases hb : (s.ch.interrupt && s.cfg.response) <;> simp [St.emit, emit, hb]
            · simp [St.emit]
          · left
            simp only [hv, not_false_eq_true, if_true]
            refine ⟨v, _, hv, rfl, ?_, ?_⟩
            · unfold Written tx_unlock_exit
              cases hb : (s.ch.interrupt && s.cfg.response) <;> simp [St.emit, emit, hb]
            · unfold tx_unlock_exit
              cases hb : (s.ch.interrupt && s.cfg.response) <;> simp [St.emit, hb]
        · right; right
          rw [he]
          exact ⟨rfl, by simpa using hi⟩

/-! ## The wait section leaves the TX ring alone -/

theorem check_response_tx (K : Consts) (s : St) :
    (check_response K s).holds (fun _ s' => tx_idx s' = tx_idx s) := by
  unfold check_response
  cases s.cfg.cmd with
  | none =>
    simp only
    split <;> simp [Result.holds, tx_idx, St.emit]
  | some cmd =>
    simp only
    cases rx_scan K s.ch.rx_ch (cmd 0) s.ch.rx_ch.front (s.ch.rx_ch.len + 2) s.ch.rx_ch.rear with
    | none => simp [Result.holds]
    | some r =>
      cases r with
      | none => simp [Result.holds, tx_idx, St.emit]
      | some i => simp [Result.holds, tx_idx, St.emit, check_response_hit]

theorem poll_wait_tx (K : Consts) (w_mode : Bool) (T : Nat × Nat × Nat) :
    ∀ (fuel timeout retry_cnt : Nat) (s : St), tx_idx s = T →
      (poll_wait K w_mode fuel timeout retry_cnt s).holds (fun _ s' => tx_idx s' = T) := by
  intro fuel
  induction fuel with
  | zero => intro _ _ s _; simp [poll_wait, Result.holds]
  | succ n ih =>
    intro timeout retry_cnt s hs
    have hround : ∀ s1 : St, tx_idx s1 = T →
        Result.holds (fun _ s' => tx_idx s' = T)
          (if timeout < (sched_clock s1.hw).1 then
            if retry_cnt > 5 then .ret true { s1 with hw := (sched_clock s1.hw).2 }
            else if retry_cnt > 0 then
              poll_wait K w_mode n
                (u64 ((sched_clock (sched_clock s1.hw).2).1 + K.IPC_TIMEOUT)) (u32 (retry_cnt + 1))
                { s1 with hw := (sched_clock (sched_clock s1.hw).2).2 }
            else poll_wait K w_mode n timeout (u32 (retry_cnt + 1))
              { s1 with hw := (sched_clock s1.hw).2 }
          else poll_wait K w_mode n timeout retry_cnt
            (poll_delay w_mode { s1 with hw := (sched_clock s1.hw).2 })) := by
      intro s1 h1
      split
      · split
        · simpa [Result.holds, tx_idx] using h1
        · split
          · exact ih _ _ _ (by simpa [tx_idx] using h1)
          · exact ih _ _ _ (by simpa [tx_idx] using h1)
      · apply ih
        unfold poll_delay
        split <;> simpa [tx_idx, St.emit] using h1
    rw [poll_wait]
    simp only
    split
    · exact hround s hs
    · have hc := check_response_tx K s
      cases hcr : check_response K s with
      | ret b s1 =>
        rw [hcr] at hc
        simp only [Result.holds] at hc
        cases b with
        | true => exact hround s1 (hc.trans hs)
        | false => simpa [Result.holds] using hc.trans hs
      | bug s1 => rw [hcr] at hc; exact absurd hc (by simp [Result.holds])
      | fault => simp [Result.holds]
      | hang => simp [Result.holds]

theorem intr_wait_tx (K : Consts) (T : Nat × Nat × Nat) :
    ∀ (fuel timeout : Nat) (s : St), tx_idx s = T →
      (intr_wait K fuel timeout s).holds (fun _ s' => tx_idx s' = T) := by
  intro fuel
  induction fuel with
  | zero => intro _ s _; simp [intr_wait, Result.holds]
  | succ n ih =>
    intro timeout s hs
    rw [intr_wait]
    simp only
    split
    · simpa [Result.holds, tx_idx, St.emit] using hs
    · have hc := check_response_tx K
        { s.emit (.wait_for_completion s.ch.id) with
          hw := (sched_clock (s.emit (.wait_for_completion s.ch.id)).hw).2 }
      have hs2 : tx_idx { s.emit (.wait_for_completion s.ch.id) with
          hw := (sched_clock (s.emit (.wait_for_completion s.ch.id)).hw).2 } = T := by
        simpa [tx_idx, St.emit] using hs
      cases hcr : check_response K { s.emit (.wait_for_completion s.ch.id) with
          hw := (sched_clock (s.emit (.wait_for_completion s.ch.id)).hw).2 } with
      | ret b s1 =>
        rw [hcr] at hc
        simp only [Result.holds] at hc
        cases b with
        | true => exact ih _ _ (hc.trans hs2)
        | false => simpa [Result.holds] using hc.trans hs2
      | bug s1 => rw [hcr] at hc; exact absurd hc (by simp [Result.holds])
      | fault => simp [Result.holds]
      | hang => simp [Result.holds]

theorem send_epilogue_tx (s : St) :
    (send_epilogue s).holds (fun v s' => v = 0 ∧ tx_idx s' = tx_idx s) := by
  unfold send_epilogue
  split
  · split <;> simp [Result.holds, tx_idx, St.emit]
  · simp [Result.holds]

theorem send_finish_tx (K : Consts) (flag : Bool) (s : St) :
    (send_finish K flag s).holds (fun v s' => v = 0 ∧ tx_idx s' = tx_idx s) := by
  unfold send_finish
  cases flag with
  | false => simpa using send_epilogue_tx s
  | true =>
    simp only [if_true]
    have hc := check_response_tx K s
    cases hcr : check_response K s with
    | ret b s1 =>
      rw [hcr] at hc
      simp only [Result.holds] at hc
      cases b with
      | false => simpa [Result.holds] using hc
      | true =>
        simp only
        have he := send_epilogue_tx ((((({ (({ s1 with hw := { s1.hw with debug_log_level := 1 } } :
          St).emit .acpm_log_print) with hw := { (({ s1 with hw := { s1.hw with
            debug_log_level := 1 } } : St).emit .acpm_log_print).hw with debug_log_level := 0 } } :
          St).emit .acpm_ramdump).emit .dump_stack).emit (.msleep 1000)).emit
          .dbg_snapshot_expire_watchdog)
        revert he
        cases send_epilogue _ with
        | ret v s2 =>
          simp only [Result.holds]
          rintro ⟨hv, h2⟩
          exact ⟨hv, by rw [h2, ← hc]; simp [tx_idx, St.emit]⟩
        | bug s2 => simp [Result.holds]
        | fault => simp [Result.holds]
        | hang => simp [Result.holds]
    | bug s1 => rw [hcr] at hc; exact absurd hc (by simp [Result.holds])
    | fault => simp [Result.holds]
    | hang => simp [Result.holds]

theorem holds_mono {β α : Type} {P Q : β → α → Prop} {r : Result β α}
    (h : ∀ v s, P v s → Q v s) (hr : r.holds P) : r.holds Q := by
  cases r with
  | ret v s => exact h v s hr
  | bug s => exact hr
  | fault => trivial
  | hang => trivial

/-- The wait section returns 0 whenever it returns and never reaches `BUG()`; its final
TX indices are those of the start or, when it waited, those left by the coprocessor
step. -/
theorem wait_section_tx (K : Consts) (fuel : Nat) (fw : Shared → Shared) (w_mode : Bool) (s : St) :
    (wait_section K fuel fw w_mode s).holds
      (fun v s' => v = 0 ∧ (tx_idx s' = tx_idx s ∨ tx_idx s' = tx_idx (fw_step fw s))) := by
  unfold wait_section
  split
  · simp only
    have hp := poll_wait_tx K w_mode (tx_idx (fw_step fw s)) fuel
      (u64 ((sched_clock (fw_step fw s).hw).1 + K.IPC_TIMEOUT)) 0
      { fw_step fw s with hw := (sched_clock (fw_step fw s).hw).2 } rfl
    revert hp
    generalize poll_wait K w_mode fuel _ 0 _ = r
    intro hp
    cases r with
    | ret b s1 =>
      simp only [Result.holds] at hp
      have := send_finish_tx K b s1
      rw [hp] at this
      exact holds_mono (fun v s2 h => ⟨h.1, Or.inr h.2⟩) this
    | bug s1 => exact absurd hp (by simp [Result.holds])
    | fault => simp [Result.holds]
    | hang => simp [Result.holds]
  · split
    · simp only
      have hp := intr_wait_tx K (tx_idx (fw_step fw s)) fuel
        (u64 ((sched_clock (fw_step fw s).hw).1 + K.IPC_TIMEOUT * 5))
        { fw_step fw s with hw := (sched_clock (fw_step fw s).hw).2 } rfl
      revert hp
      generalize intr_wait K fuel _ _ = r
      intro hp
      cases r with
      | ret b s1 =>
        simp only [Result.holds] at hp
        have := send_finish_tx K b (s1.emit (.mutex_unlock_wait (fw_step fw s).ch.id))
        have h2 : tx_idx (s1.emit (.mutex_unlock_wait (fw_step fw s).ch.id)) =
            tx_idx (fw_step fw s) := by
          rw [← hp]; simp [tx_idx, St.emit]
        rw [h2] at this
        exact holds_mono (fun v s2 h => ⟨h.1, Or.inr h.2⟩) this
      | bug s1 => exact absurd hp (by simp [Result.holds])
      | fault => simp [Result.holds]
      | hang => simp [Result.holds]
    · simp [Result.holds]

/-- The body of the send reaches `BUG()` only in the allocation scan of its transmit
section. -/
theorem send_data_bug_iff (K : Consts) (spins fuel : Nat) (fw : Shared → Shared) (w_mode : Bool)
    (s : St) :
    (∃ s', send_data K spins fuel fw w_mode s = .bug s') ↔
      ∃ s', tx_section K spins fuel s = .bug s' := by
  unfold send_data
  cases htx : tx_section K spins fuel s with
  | ret r s1 =>
    cases r with
    | some v => simp
    | none =>
      have hw := wait_section_tx K fuel fw w_mode s1
      simp only
      constructor
      · rintro ⟨s', hs'⟩
        rw [hs'] at hw
        exact absurd hw (by simp [Result.holds])
      · rintro ⟨s', hs'⟩
        cases hs'
  | bug s1 => simp
  | fault => simp
  | hang => simp

/-- What a returning send does to the TX ring, when the coprocessor step leaves TX rear
alone: a return value 0 means the command was published (front advanced to the next
index, which differs from rear); any other value means the indices are untouched. -/
theorem send_data_tx (K : Consts) (spins fuel : Nat) (fw : Shared → Shared) (w_mode : Bool)
    (s s' : St) (v : Int) (hfw : ∀ x, (fw x).tx_rear = x.tx_rear)
    (h : send_data K spins fuel fw w_mode s = .ret v s') :
    (v = 0 ∧ s'.ch.tx_ch.front = next_index s.ch.tx_ch.front s.ch.tx_ch.len ∧
        next_index s.ch.tx_ch.front s.ch.tx_ch.len ≠ s.ch.tx_ch.rear ∧
        s'.ch.tx_ch.rear = s.ch.tx_ch.rear ∧ s'.ch.tx_ch.len = s.ch.tx_ch.len) ∨
      (v ≠ 0 ∧ tx_idx s' = tx_idx s) := by
  unfold send_data at h
  rcases tx_section_cases K spins fuel s with ⟨_, htx⟩ | ⟨_, _, s1, htx, hch, _⟩ |
    ⟨_, _, _, _, s1, htx⟩ | ⟨hroom, cmd, q, _, _, hcase⟩
  · rw [htx] at h
    cases h
    exact Or.inr ⟨by simp [ETIMEDOUT], by simp [tx_idx, tx_full_exit]⟩
  · rw [htx] at h
    cases h
    exact Or.inr ⟨by simp [ EIO], by simp [tx_idx, hch]⟩
  · rw [htx] at h
    cases h
  · rcases hcase with ⟨v1, s1, hv1, htx, hW, hfr⟩ | ⟨s1, htx, hW, hfr⟩ | ⟨htx, _⟩
    · rw [htx] at h
      cases h
      obtain ⟨_, _, _, _, hr, hl, _⟩ := hW
      exact Or.inr ⟨hv1, by simp [tx_idx, hfr, hr, hl]⟩
    · rw [htx] at h
      simp only at h
      have hw := wait_section_tx K fuel fw w_mode s1
      rw [h] at hw
      simp only [Result.holds] at hw
      obtain ⟨_, _, _, _, hr, hl, _⟩ := hW
      have hstep : tx_idx (fw_step fw s1) = tx_idx s1 := by
        simp [tx_idx, fw_step, hfw, St.shared]
      have hidx : tx_idx s' = tx_idx s1 := by
        rcases hw.2 with h1 | h1
        · exact h1
        · exact h1.trans hstep
      simp only [tx_idx, Prod.mk.injEq] at hidx
      left
      exact ⟨hw.1, by rw [hidx.1, hfr], hroom, by rw [hidx.2.1, hr], by rw [hidx.2.2, hl]⟩
    · rw [htx] at h
      cases h

/-- On a ring with room and with a command, the transmit section reaches `BUG()` exactly
when the allocation scan does. -/
theorem tx_section_bug_iff (K : Consts) (spins fuel : Nat) (s : St) (cmd : Nat → Nat)
    (hroom : next_index s.ch.tx_ch.front s.ch.tx_ch.len ≠ s.ch.tx_ch.rear)
    (hc : s.cfg.cmd = some cmd) :
    (∃ s', tx_section K spins fuel s = .bug s') ↔ alloc_seq_num s.ch = none := by
  constructor
  · rintro ⟨s', hs'⟩
    rcases tx_section_cases K spins fuel s with ⟨_, htx⟩ | ⟨_, _, s1, htx, _⟩ |
      ⟨_, _, _, hq, _⟩ | ⟨_, _, q, _, _, hcase⟩
    · rw [htx] at hs'; cases hs'
    · rw [htx] at hs'; cases hs'
    · exact hq
    · rcases hcase with ⟨v1, s1, _, htx, _⟩ | ⟨s1, htx, _⟩ | ⟨htx, _⟩ <;>
        (rw [htx] at hs'; cases hs')
  · exact tx_section_bug K spins fuel s cmd hroom hc

/-- C6: with `SEQUENCE_NUM_MAX = 64`, a last-used number `s` in [0, 63] and some number
of 1..63 not in flight, the allocation step picks the first value of the cyclic order
`s + 1, ..., 63, 1, 2, ...` whose in-flight flag is clear (`seq_cycle s k` with every
earlier candidate in flight); the value lies in [1, 63]; whenever the transmit section
returns, it is the channel's new last-used number and the sequence field of word 0 of
the caller's command and of the slot written at the old front. The transmit section does
return, except that for an indirect command the indirect step may still be waiting. -/
theorem alloc_picks_first_free (K : Consts) (spins fuel : Nat) (s : St) (cmd : Nat → Nat)
    (hroom : next_index s.ch.tx_ch.front s.ch.tx_ch.len ≠ s.ch.tx_ch.rear)
    (hc : s.cfg.cmd = some cmd) (hseq : s.ch.seq_num ≤ 63)
    (hfree : ∃ v, 1 ≤ v ∧ v ≤ 63 ∧ s.ch.seq_num_flag v = 0)
    (hS : K.ACPM_IPC_PROTOCOL_SEQ_NUM + 6 ≤ 32) :
    ∃ k, k < 63 ∧ alloc_seq_num s.ch = some (seq_cycle s.ch.seq_num k) ∧
      s.ch.seq_num_flag (seq_cycle s.ch.seq_num k) = 0 ∧
      (∀ j, j < k → s.ch.seq_num_flag (seq_cycle s.ch.seq_num j) ≠ 0) ∧
      1 ≤ seq_cycle s.ch.seq_num k ∧ seq_cycle s.ch.seq_num k ≤ 63 ∧
      ((∃ r s' cmd', tx_section K spins fuel s = .ret r s' ∧
          s'.ch.seq_num = seq_cycle s.ch.seq_num k ∧
          s'.cfg.cmd = some cmd' ∧ seq_field K (cmd' 0) = seq_cycle s.ch.seq_num k ∧
          (0 < s.ch.tx_ch.size / 4 →
            seq_field K (s'.ch.tx_ch.base s.ch.tx_ch.front 0) = seq_cycle s.ch.seq_num k)) ∨
        (tx_section K spins fuel s = .hang ∧ s.cfg.indirection = true)) := by
  obtain ⟨k, hk, hq, h0, hj⟩ := alloc_seq_num_first_free s.ch hseq hfree
  have hrange := seq_cycle_range s.ch.seq_num k
  refine ⟨k, hk, hq, h0, hj, hrange.1, hrange.2, ?_⟩
  have hW : ∀ s', Written K s s' cmd (seq_cycle s.ch.seq_num k) →
      s'.ch.seq_num = seq_cycle s.ch.seq_num k ∧
      ∃ cmd', s'.cfg.cmd = some cmd' ∧ seq_field K (cmd' 0) = seq_cycle s.ch.seq_num k ∧
      (0 < s.ch.tx_ch.size / 4 →
        seq_field K (s'.ch.tx_ch.base s.ch.tx_ch.front 0) = seq_cycle s.ch.seq_num k) := by
    intro s' h
    obtain ⟨h1, _, h3, h4, _⟩ := h
    refine ⟨h1, _, by rw [h3], ?_, ?_⟩
    · simp only [upd]
      simpa using seq_field_pack K (cmd 0) _ hS hrange.2
    · intro hsz
      rw [h4]
      simp only [upd, memcpy_align_4, hsz, if_true]
      exact seq_field_pack K (cmd 0) _ hS hrange.2
  rcases tx_section_cases K spins fuel s with ⟨hfull, _⟩ | ⟨_, hnone, _⟩ |
    ⟨_, _, _, hq', _⟩ | ⟨_, cmd1, q, hc1, hq1, hcase⟩
  · exact absurd hfull hroom
  · rw [hc] at hnone; cases hnone
  · rw [hq] at hq'; cases hq'
  · rw [hc] at hc1
    rw [hq] at hq1
    cases hc1
    cases hq1
    rcases hcase with ⟨v1, s1, _, htx, hWr, _⟩ | ⟨s1, htx, hWr, _⟩ | ⟨htx, hind⟩
    · obtain ⟨a, cmd', b, c, d⟩ := hW s1 hWr
      exact Or.inl ⟨_, s1, cmd', htx, a, b, c, d⟩
    · obtain ⟨a, cmd', b, c, d⟩ := hW s1 hWr
      exact Or.inl ⟨_, s1, cmd', htx, a, b, c, d⟩
    · exact Or.inr ⟨htx, hind⟩

/-- Witness for C6: last-used number 62 with 63 and 1 in flight. -/
theorem alloc_picks_first_free_witness :
    ∃ k, k < 63 ∧ alloc_seq_num ch_wrap = some (seq_cycle 62 k) ∧
      ch_wrap.seq_num_flag (seq_cycle 62 k) = 0 ∧
      (∀ j, j < k → ch_wrap.seq_num_flag (seq_cycle 62 j) ≠ 0) ∧
      1 ≤ seq_cycle 62 k ∧ seq_cycle 62 k ≤ 63 ∧
      ((∃ r s' cmd', tx_section K0 0 0 { ch := ch_wrap, cfg := cfg0, hw := hw0 } = .ret r s' ∧
          s'.ch.seq_num = seq_cycle 62 k ∧
          s'.cfg.cmd = some cmd' ∧ seq_field K0 (cmd' 0) = seq_cycle 62 k ∧
          (0 < ch_wrap.tx_ch.size / 4 →
            seq_field K0 (s'.ch.tx_ch.base ch_wrap.tx_ch.front 0) = seq_cycle 62 k)) ∨
        (tx_section K0 0 0 { ch := ch_wrap, cfg := cfg0, hw := hw0 } = .hang ∧
          cfg0.indirection = true)) :=
  alloc_picks_first_free K0 0 0 { ch := ch_wrap, cfg := cfg0, hw := hw0 }
    (base_of [[0x11, 0x22, 0x33, 0x44]] 0) (by decide) rfl (by decide)
    ⟨2, by decide, by decide, by decide⟩ (by decide)

/-- C8: for a last-used number in [0, 63], a send that gets as far as the allocation scan
(ring with room, command present) ends in `BUG()` if and only if every sequence number
1..63 has its in-flight flag set. -/
theorem send_bug_iff_all_in_flight (K : Consts) (spins fuel : Nat) (fw : Shared → Shared)
    (ipc : acpm_ipc_info) (id : Nat) (ch : acpm_ipc_ch) (c : ipc_config) (cmd : Nat → Nat)
    (w_mode : Bool) (hch : ipc.channel[id]? = some ch)
    (hroom : next_index ch.tx_ch.front ch.tx_ch.len ≠ ch.tx_ch.rear)
    (hc : c.cmd = some cmd) (hseq : ch.seq_num ≤ 63) :
    (∃ st, __acpm_ipc_send_data K spins fuel fw ipc id (some c) w_mode = .bug st) ↔
      ∀ v, 1 ≤ v → v ≤ 63 → ch.seq_num_flag v ≠ 0 := by
  rw [← alloc_seq_num_none_iff ch hseq,
    ← tx_section_bug_iff K spins fuel { ch := ch, cfg := c, hw := ipc.hw } cmd hroom hc,
    ← send_data_bug_iff K spins fuel fw w_mode, send_at K spins fuel fw ipc id ch c w_mode hch]
  cases send_data K spins fuel fw w_mode { ch := ch, cfg := c, hw := ipc.hw } <;> simp

/-- Witness for C8: the sample channel with every number in flight. -/
theorem send_bug_iff_all_in_flight_witness :
    (∃ st, __acpm_ipc_send_data K0 0 0 (fun v => v) ipc_busy 0 (some cfg0) false = .bug st) ↔
      ∀ v, 1 ≤ v → v ≤ 63 → ch_busy.seq_num_flag v ≠ 0 :=
  send_bug_iff_all_in_flight K0 0 0 (fun v => v) ipc_busy 0 ch_busy cfg0
    (base_of [[0x11, 0x22, 0x33, 0x44]] 0) false rfl (by decide) rfl (by decide)

/-! ## Pending sends carry distinct sequence numbers -/

theorem seq_num_scan_flag_clear (flag : Nat → Nat) :
    ∀ (left t v : Nat), seq_num_scan flag t left = some v → flag v = 0 := by
  intro left
  induction left with
  | zero => intro t v h; simp [seq_num_scan] at h
  | succ n ih =>
    intro t v h
    rw [seq_num_scan] at h
    generalize (if u32 (t + 1) = SEQUENCE_NUM_MAX then 1 else u32 (t + 1)) = t1 at h
    by_cases hf : flag t1 ≠ 0
    · rw [if_pos hf] at h
      exact ih _ _ h
    · rw [if_neg hf] at h
      cases h
      simpa using hf

/-- A transmit section that publishes a command took a number whose flag was clear; on a
polling channel with a response expected it sets exactly that flag, to a non-zero
value. -/
theorem tx_section_marks (K : Consts) (spins fuel : Nat) (s s1 : St)
    (h : tx_section K spins fuel s = .ret none s1) :
    s.ch.seq_num_flag s1.ch.seq_num = 0 ∧ s1.ch.polling = s.ch.polling ∧
      ((s.ch.polling && s.cfg.response) = true →
        s1.ch.seq_num_flag s1.ch.seq_num ≠ 0 ∧
        ∀ v, v ≠ s1.ch.seq_num → s1.ch.seq_num_flag v = s.ch.seq_num_flag v) ∧
      ((s.ch.polling && s.cfg.response) = false → s1.ch.seq_num_flag = s.ch.seq_num_flag) := by
  rcases tx_section_cases K spins fuel s with ⟨_, htx⟩ | ⟨_, _, s2, htx, _⟩ |
    ⟨_, _, _, _, s2, htx⟩ | ⟨_, cmd, q, _, hq, hcase⟩
  · rw [htx] at h; cases h
  · rw [htx] at h; cases h
  · rw [htx] at h; cases h
  · rcases hcase with ⟨v1, s2, _, htx, _⟩ | ⟨s2, htx, hW, _⟩ | ⟨htx, _⟩
    · rw [htx] at h; cases h
    · rw [htx] at h
      cases h
      obtain ⟨h1, h2, _, _, _, _, _, _, h9, _⟩ := hW
      have h0 : s.ch.seq_num_flag q = 0 := seq_num_scan_flag_clear _ _ _ _ hq
      refine ⟨by rw [h1]; exact h0, h9, ?_, ?_⟩
      · intro hb
        rw [h2, h1]
        simp only [hb, if_true, upd]
        refine ⟨by simpa using flag_mark_ne_zero (cmd 0), ?_⟩
        intro v hv
        simp [hv]
      · intro hb
        rw [h2]
        simp [hb]
    · rw [htx] at h; cases h

theorem pending_sends_inv (K : Consts) (spins fuel : Nat) :
    ∀ (l : List (ipc_config × (Shared → Shared))) (ch : acpm_ipc_ch) (hw : Hw) (qs : List Nat)
      (ch' : acpm_ipc_ch) (hw' : Hw), ch.polling = true → (∀ x ∈ l, x.1.response = true) →
      pending_sends K spins fuel l ch hw = some (qs, ch', hw') →
      qs.length = l.length ∧ qs.Nodup ∧
      (∀ q ∈ qs, ch.seq_num_flag q = 0 ∧ ch'.seq_num_flag q ≠ 0) ∧
      (∀ v, ch.seq_num_flag v ≠ 0 → ch'.seq_num_flag v ≠ 0) := by
  intro l
  induction l with
  | nil =>
    intro ch hw qs ch' hw' _ _ h
    simp only [pending_sends, Option.some.injEq, Prod.mk.injEq] at h
    obtain ⟨rfl, rfl, rfl⟩ := h
    simp
  | cons x rest ih =>
    intro ch hw qs ch' hw' hpoll hresp h
    rw [pending_sends] at h
    cases htx : tx_section K spins fuel { ch := ch, cfg := x.1, hw := hw } with
    | ret r s1 =>
      cases r with
      | some v => rw [htx] at h; simp at h
      | none =>
        rw [htx] at h
        simp only at h
        cases hrest : pending_sends K spins fuel rest (fw_step x.2 s1).ch (fw_step x.2 s1).hw with
        | none => rw [hrest] at h; simp at h
        | some r =>
          rw [hrest] at h
          simp only [Option.some.injEq, Prod.mk.injEq] at h
          obtain ⟨rfl, hr2⟩ := h
          obtain ⟨hq0, hp1, hmark, _⟩ := tx_section_marks K spins fuel _ s1 htx
          have hb : (ch.polling && x.1.response) = true := by
            simp [hpoll, hresp x (List.mem_cons_self _ _)]
          obtain ⟨hq1, hother⟩ := hmark hb
          have hr : r = (r.1, ch', hw') := by rw [← hr2]
          rw [hr] at hrest
          obtain ⟨hlen, hnd, hall, hmono⟩ := ih (fw_step x.2 s1).ch (fw_step x.2 s1).hw r.1 ch' hw'
            (by simpa [fw_step] using hp1.trans hpoll)
            (fun y hy => hresp y (List.mem_cons_of_mem _ hy)) hrest
          have hflag2 : (fw_step x.2 s1).ch.seq_num_flag = s1.ch.seq_num_flag := by
            simp [fw_step]
          rw [hflag2] at hall hmono
          have hnotin : s1.ch.seq_num ∉ r.1 := fun hmem => hq1 (hall _ hmem).1
          refine ⟨by simp [hlen], List.nodup_cons.2 ⟨hnotin, hnd⟩, ?_, ?_⟩
          · intro q hq
            rcases List.mem_cons.1 hq with rfl | hq
            · exact ⟨hq0, hmono _ hq1⟩
            · have hne : q ≠ s1.ch.seq_num := fun e => hnotin (e ▸ hq)
              have := (hall q hq).1
              rw [hother q hne] at this
              exact ⟨this, (hall q hq).2⟩
          · intro v hv
            by_cases hvq : v = s1.ch.seq_num
            · rw [hvq]; exact hmono _ hq1
            · apply hmono
              rw [hother v hvq]
              exact hv
    | bug s1 => rw [htx] at h; simp at h
    | fault => rw [htx] at h; simp at h
    | hang => rw [htx] at h; simp at h

/-- C7: a send that publishes a command allocates a sequence number different from
every number whose in-flight flag is set at that moment; and in a run of
response-expected sends on a polling channel whose answers have not been consumed, the
allocated numbers are pairwise distinct, each was free before the run, each is marked in
flight after it, and none equals a number that was in flight before the run. -/
theorem pending_sends_distinct (K : Consts) (spins fuel : Nat)
    (l : List (ipc_config × (Shared → Shared))) (ch : acpm_ipc_ch) (hw : Hw) (qs : List Nat)
    (hpoll : ch.polling = true) (hresp : ∀ x ∈ l, x.1.response = true)
    (hrun : (pending_sends K spins fuel l ch hw).map (fun r => r.1) = some qs) :
    (∀ (s s1 : St), tx_section K spins fuel s = .ret none s1 →
        ∀ v, s.ch.seq_num_flag v ≠ 0 → s1.ch.seq_num ≠ v) ∧
      qs.length = l.length ∧ qs.Nodup ∧
      (∀ v, ch.seq_num_flag v ≠ 0 → v ∉ qs) ∧
      ∃ ch' hw', pending_sends K spins fuel l ch hw = some (qs, ch', hw') ∧
        ∀ q ∈ qs, ch.seq_num_flag q = 0 ∧ ch'.seq_num_flag q ≠ 0 := by
  obtain ⟨r, hr, hq⟩ := Option.map_eq_some'.1 hrun
  have hr' : pending_sends K spins fuel l ch hw = some (qs, r.2.1, r.2.2) := by
    rw [hr, ← hq]
  obtain ⟨hlen, hnd, hall, _⟩ := pending_sends_inv K spins fuel l ch hw qs r.2.1 r.2.2 hpoll
    hresp hr'
  refine ⟨?_, hlen, hnd, ?_, r.2.1, r.2.2, hr', hall⟩
  · intro s s1 h v hv e
    have := (tx_section_marks K spins fuel s s1 h).1
    rw [e] at this
    exact hv this
  · intro v hv hmem
    exact hv (hall v hmem).1

/-- Witness for C7: three response-expected sends on the sample polling channel. -/
theorem pending_sends_distinct_witness :
    (∀ (s s1 : St), tx_section K0 0 0 s = .ret none s1 →
        ∀ v, s.ch.seq_num_flag v ≠ 0 → s1.ch.seq_num ≠ v) ∧
      [1, 2, 3].length = three_pending.length ∧ [1, 2, 3].Nodup ∧
      (∀ v, ch0.seq_num_flag v ≠ 0 → v ∉ [1, 2, 3]) ∧
      ∃ ch' hw', pending_sends K0 0 0 three_pending ch0 hw0 = some ([1, 2, 3], ch', hw') ∧
        ∀ q ∈ [1, 2, 3], ch0.seq_num_flag q = 0 ∧ ch'.seq_num_flag q ≠ 0 :=
  pending_sends_distinct K0 0 0 three_pending ch0 hw0 [1, 2, 3] rfl (by decide) (by decide)

/-! ## The TX ring count -/

theorem next_index_lt {front len : Nat} (hlen : 0 < len) : next_index front len < len := by
  unfold next_index
  split
  · exact hlen
  · omega

theorem ring_dist_front_succ {len f r : Nat} (hlen32 : len < 2 ^ 32) (hf : f < len) (hr : r < len)
    (hne : next_index f len ≠ r) :
    (next_index f len + len - r) % len = (f + len - r) % len + 1 := by
  have hni : next_index f len = if f + 1 = len then 0 else f + 1 := by
    rw [next_index_eq_mod hlen32 hf, succ_mod_lt hf]
  have hlt : next_index f len < len := next_index_lt (by omega)
  rw [ring_dist hr hlt, ring_dist hr hf]
  rw [hni] at hne ⊢
  split_ifs at hne ⊢ <;> omega

/-- The ring invariant carried along a run: indices in range and the count of commands
written and not yet consumed equal to `(front - rear) mod len`. -/
theorem tx_run_inv (K : Consts) :
    ∀ (acts : List TxAction) (ch : acpm_ipc_ch) (hw : Hw) (n : Nat) (ch' : acpm_ipc_ch)
      (hw' : Hw) (n' : Nat), ch.tx_ch.in_range →
      n = (ch.tx_ch.front + ch.tx_ch.len - ch.tx_ch.rear) % ch.tx_ch.len →
      (∀ a ∈ acts, a.keeps_rear) → tx_run K acts ch hw n = some (ch', hw', n') →
      ch'.tx_ch.in_range ∧ ch'.tx_ch.len = ch.tx_ch.len ∧
      n' = (ch'.tx_ch.front + ch'.tx_ch.len - ch'.tx_ch.rear) % ch'.tx_ch.len := by
  intro acts
  induction acts with
  | nil =>
    intro ch hw n ch' hw' n' hin hn _ h
    simp only [tx_run, Option.some.injEq, Prod.mk.injEq] at h
    obtain ⟨rfl, rfl, rfl⟩ := h
    exact ⟨hin, rfl, hn⟩
  | cons a rest ih =>
    intro ch hw n ch' hw' n' hin hn hk h
    obtain ⟨h0, hlen32, hf, hr⟩ := hin
    cases a with
    | consume =>
      rw [tx_run] at h
      have hrest := fun a ha => hk a (List.mem_cons_of_mem _ ha)
      by_cases hne : ch.tx_ch.rear ≠ ch.tx_ch.front
      · have hfc : fw_consume ch = { ch with tx_ch := { ch.tx_ch with
            rear := (ch.tx_ch.rear + 1) % ch.tx_ch.len } } := by
          unfold fw_consume; rw [if_pos hne]
        rw [hfc, if_pos hne] at h
        have hd := ring_dist_succ hr hf hne
        obtain ⟨a1, a2, a3⟩ := ih
          { ch with tx_ch := { ch.tx_ch with rear := (ch.tx_ch.rear + 1) % ch.tx_ch.len } }
          hw (n - 1) ch' hw' n' ⟨h0, hlen32, hf, Nat.mod_lt _ h0⟩
          (by show n - 1 = (ch.tx_ch.front + ch.tx_ch.len - (ch.tx_ch.rear + 1) % ch.tx_ch.len) %
                ch.tx_ch.len
              omega) hrest h
        exact ⟨a1, a2, a3⟩
      · have hfc : fw_consume ch = ch := by
          unfold fw_consume; rw [if_neg hne]
        rw [hfc, if_neg hne] at h
        exact ih _ _ _ _ _ _ ⟨h0, hlen32, hf, hr⟩ hn hrest h
    | send cfg fw w_mode spins fuel =>
      rw [tx_run] at h
      have hfw : ∀ x, (fw x).tx_rear = x.tx_rear := hk _ (List.mem_cons_self _ _)
      have hrest := fun a ha => hk a (List.mem_cons_of_mem _ ha)
      cases hs : send_data K spins fuel fw w_mode { ch := ch, cfg := cfg, hw := hw } with
      | ret v s =>
        rw [hs] at h
        simp only at h
        rcases send_data_tx K spins fuel fw w_mode _ s v hfw hs with
          ⟨hv, hfr, hroom, hre, hl⟩ | ⟨hv, hidx⟩
        · simp only at hfr hroom hre hl
          have hin1 : s.ch.tx_ch.in_range := by
            simp only [buff_info.in_range, hfr, hre, hl]
            exact ⟨h0, hlen32, next_index_lt h0, hr⟩
          obtain ⟨a1, a2, a3⟩ := ih _ _ _ _ _ _ hin1
            (by rw [hfr, hre, hl, if_pos hv, ring_dist_front_succ hlen32 hf hr hroom, hn])
            hrest h
          exact ⟨a1, by rw [a2, hl], a3⟩
        · simp only [tx_idx, Prod.mk.injEq] at hidx
          obtain ⟨e1, e2, e3⟩ := hidx
          have hin1 : s.ch.tx_ch.in_range := by
            simp only [buff_info.in_range, e1, e2, e3]
            exact ⟨h0, hlen32, hf, hr⟩
          obtain ⟨a1, a2, a3⟩ := ih _ _ _ _ _ _ hin1
            (by rw [e1, e2, e3, if_neg hv, hn]) hrest h
          exact ⟨a1, by rw [a2, e3], a3⟩
      | bug s => rw [hs] at h; simp at h
      | fault => rw [hs] at h; simp at h
      | hang => rw [hs] at h; simp at h

/-- C3: in every state reached from an empty TX ring with in-range indices by sends
(returning 0 or failing) and coprocessor consumption steps, the number `n` of commands
written and not yet consumed equals `(front - rear) mod len` (computed as
`(front + len - rear) % len`) and is at most `len - 1`; the slot count never changes;
and a send that returns 0 never leaves front equal to rear. -/
theorem tx_count_invariant (K : Consts) (acts : List TxAction) (ch : acpm_ipc_ch) (hw : Hw)
    (f r l n : Nat) (hin : ch.tx_ch.in_range) (hempty : ch.tx_ch.front = ch.tx_ch.rear)
    (hk : ∀ a ∈ acts, a.keeps_rear)
    (hrun : (tx_run K acts ch hw 0).map
      (fun x => (x.1.tx_ch.front, x.1.tx_ch.rear, x.1.tx_ch.len, x.2.2)) = some (f, r, l, n)) :
    n = (f + l - r) % l ∧ n ≤ l - 1 ∧ l = ch.tx_ch.len ∧
      ∀ (s s' : St) (fw : Shared → Shared) (w_mode : Bool) (spins fuel : Nat),
        (∀ x, (fw x).tx_rear = x.tx_rear) →
        send_data K spins fuel fw w_mode s = .ret 0 s' → s'.ch.tx_ch.front ≠ s'.ch.tx_ch.rear := by
  obtain ⟨x, hx, hproj⟩ := Option.map_eq_some'.1 hrun
  simp only [Prod.mk.injEq] at hproj
  obtain ⟨rfl, rfl, rfl, rfl⟩ := hproj
  have hx' : tx_run K acts ch hw 0 = some (x.1, x.2.1, x.2.2) := by rw [hx]
  have h0 : 0 = (ch.tx_ch.front + ch.tx_ch.len - ch.tx_ch.rear) % ch.tx_ch.len := by
    rw [hempty]
    have : ch.tx_ch.rear + ch.tx_ch.len - ch.tx_ch.rear = ch.tx_ch.len := by omega
    rw [this, Nat.mod_self]
  obtain ⟨hin', hlen, hn⟩ := tx_run_inv K acts ch hw 0 x.1 x.2.1 x.2.2 hin h0 hk hx'
  refine ⟨hn, ?_, hlen, ?_⟩
  · have := Nat.mod_lt (x.1.tx_ch.front + x.1.tx_ch.len - x.1.tx_ch.rear) hin'.1
    omega
  · intro s s' fw w_mode spins fuel hfw hs
    rcases send_data_tx K spins fuel fw w_mode s s' 0 hfw hs with
      ⟨_, hfr, hroom, hre, _⟩ | ⟨hv, _⟩
    · rw [hfr, hre]; exact hroom
    · exact absurd rfl hv

/-- Witness for C3: the sample traffic on the sample channel ends with front = 0,
rear = 1 and three commands pending in four slots. -/
theorem tx_count_invariant_witness :
    3 = (0 + 4 - 1) % 4 ∧ 3 ≤ 4 - 1 ∧ 4 = ch0.tx_ch.len ∧
      ∀ (s s' : St) (fw : Shared → Shared) (w_mode : Bool) (spins fuel : Nat),
        (∀ x, (fw x).tx_rear = x.tx_rear) →
        send_data K0 spins fuel fw w_mode s = .ret 0 s' → s'.ch.tx_ch.front ≠ s'.ch.tx_ch.rear :=
  tx_count_invariant K0 demo_traffic ch0 hw0 0 1 4 3 (by unfold buff_info.in_range; decide) rfl
    (by
      intro a ha
      simp only [demo_traffic, List.mem_cons, List.mem_singleton, List.not_mem_nil,
        or_false] at ha
      rcases ha with rfl | rfl | rfl | rfl | rfl | rfl <;> first | trivial | exact fun _ => rfl)
    (by decide)

/-! ## Round trip -/

/-- When the RX ring holds a response carrying the sequence number of the caller's
command, `check_response` consumes it and clears that number's in-flight flag. -/
theorem check_response_echo (K : Consts) (s : St) (cmd : Nat → Nat) (q : Nat)
    (hc : s.cfg.cmd = some cmd) (hq : seq_field K (cmd 0) = q) (hr : s.ch.rx_ch.in_range)
    (hecho : ∃ j ∈ ring_range s.ch.rx_ch.len s.ch.rx_ch.rear s.ch.rx_ch.front,
      seq_field K (s.ch.rx_ch.base j 0) = q) :
    ∃ s', check_response K s = .ret false s' ∧ s'.ch.seq_num_flag q = 0 := by
  rw [check_response_eq K s cmd hc hr]
  cases hfind : (ring_range s.ch.rx_ch.len s.ch.rx_ch.rear s.ch.rx_ch.front).find?
      (fun j => decide (seq_field K (s.ch.rx_ch.base j 0) = seq_field K (cmd 0))) with
  | none =>
    obtain ⟨j, hj, hm⟩ := hecho
    have := List.find?_eq_none.1 hfind j hj
    simp [hm, hq] at this
  | some i =>
    have hm : seq_field K (s.ch.rx_ch.base i 0) = seq_field K (cmd 0) := by
      simpa using List.find?_some hfind
    refine ⟨_, rfl, ?_⟩
    simp [St.emit, check_response_hit, upd, hm, hq]

theorem send_epilogue_ret (s : St) : ∃ s', send_epilogue s = .ret 0 s' ∧ s'.ch = s.ch := by
  unfold send_epilogue
  split
  · split
    · exact ⟨_, rfl, rfl⟩
    · exact ⟨_, rfl, rfl⟩
  · exact ⟨_, rfl, rfl⟩

/-- The polling wait ends at once when the status bit is set and the response is there. -/
theorem poll_wait_hit (K : Consts) (w_mode : Bool) (n timeout retry_cnt : Nat) (s s' : St)
    (R : Result Bool St) (hbit : s.hw.INTSR1 &&& u32 (1 <<< s.ch.id) ≠ 0)
    (hc : check_response K s = .ret false s')
    (h : poll_wait K w_mode (n + 1) timeout retry_cnt s = R) : R = .ret false s' := by
  rw [poll_wait] at h
  simp only [hbit, if_false, hc] at h
  exact h.symm

/-- The interrupt wait either times out without touching anything but `hw`, or consumes
the response. -/
theorem intr_wait_hit (K : Consts) (n timeout : Nat) (s : St) (R : Result Bool St)
    (P : acpm_ipc_ch → Prop)
    (hm : ∀ hw, ∃ s', check_response K { s with hw := hw } = .ret false s' ∧ P s'.ch)
    (h : intr_wait K (n + 1) timeout s = R) :
    (∃ hw, R = .ret true { s with hw := hw }) ∨ (∃ s', R = .ret false s' ∧ P s'.ch) := by
  rw [intr_wait] at h
  simp only at h
  by_cases hc : timeout < (sched_clock (s.emit (.wait_for_completion s.ch.id)).hw).1
  · rw [if_pos hc] at h
    exact Or.inl ⟨_, h.symm⟩
  · rw [if_neg hc] at h
    obtain ⟨s', hs', hP⟩ := hm (sched_clock (s.emit (.wait_for_completion s.ch.id)).hw).2
    have hs2 : check_response K { s.emit (.wait_for_completion s.ch.id) with
        hw := (sched_clock (s.emit (.wait_for_completion s.ch.id)).hw).2 } = .ret false s' := hs'
    rw [hs2] at h
    exact Or.inr ⟨s', h.symm, hP⟩

/-- C2: round trip on a polling channel. A response-expected send whose command was
enqueued with sequence number `q` (the transmit section published it in state `s1`),
after which the coprocessor step leaves the channel's interrupt-status bit set and, in
an RX ring with in-range indices, a slot between rear and front whose word-0 sequence
field is `q`: the send returns 0 and the in-flight flag of `q` is clear afterwards. -/
theorem send_round_trip (K : Consts) (spins fuel : Nat) (fw : Shared → Shared) (w_mode : Bool)
    (s s1 : St) (q : Nat)
    (hpoll : s.ch.polling = true) (hresp : s.cfg.response = true)
    (hseq : s.ch.seq_num ≤ 63) (hS : K.ACPM_IPC_PROTOCOL_SEQ_NUM + 6 ≤ 32)
    (htx : tx_section K spins (fuel + 1) s = .ret none s1) (hq : s1.ch.seq_num = q)
    (hbit : (fw_step fw s1).hw.INTSR1 &&& u32 (1 <<< s.ch.id) ≠ 0)
    (hrx : (fw_step fw s1).ch.rx_ch.in_range)
    (hecho : ∃ j ∈ ring_range (fw_step fw s1).ch.rx_ch.len (fw_step fw s1).ch.rx_ch.rear
        (fw_step fw s1).ch.rx_ch.front,
      seq_field K ((fw_step fw s1).ch.rx_ch.base j 0) = q) :
    ∃ s', send_data K spins (fuel + 1) fw w_mode s = .ret 0 s' ∧ s'.ch.seq_num_flag q = 0 := by
  -- what the transmit section left behind
  obtain ⟨cmd, q', hWr⟩ : ∃ cmd q', alloc_seq_num s.ch = some q' ∧ Written K s s1 cmd q' := by
    rcases tx_section_cases K spins (fuel + 1) s with ⟨_, h⟩ | ⟨_, _, s2, h, _⟩ |
      ⟨_, _, _, _, s2, h⟩ | ⟨_, cmd, q', _, hq', hcase⟩
    · rw [h] at htx; cases htx
    · rw [h] at htx; cases htx
    · rw [h] at htx; cases htx
    · rcases hcase with ⟨v1, s2, _, h, _⟩ | ⟨s2, h, hW, _⟩ | ⟨h, _⟩
      · rw [h] at htx; cases htx
      · rw [h] at htx; cases htx; exact ⟨cmd, q', hq', hW⟩
      · rw [h] at htx; cases htx
  obtain ⟨halloc, hW⟩ := hWr
  obtain ⟨w1, _, w3, _, _, _, _, _, w9, w10, w11, _⟩ := hW
  have hqq : q' = q := by rw [← hq, w1]
  subst hqq
  have hq63 : q' ≤ 63 := by
    obtain ⟨k, _, hk, _⟩ := seq_num_scan_some _ _ _ _ hseq halloc
    rw [hk]; exact (seq_cycle_range _ _).2
  have hcmd0 : seq_field K (upd (upd (upd (upd cmd 0 (pack_seq_num K (cmd 0) q')) 1 0) 2 0) 3 0 0)
      = q' := by
    simpa [upd] using seq_field_pack K (cmd 0) q' hS hq63
  have hresp1 : s1.cfg.response = true := by rw [w3]; exact hresp
  have hpoll1 : s1.ch.polling = true := by rw [w9]; exact hpoll
  -- any state that differs from the one after the coprocessor step only in `hw`
  have hmatch : ∀ hw, ∃ s', check_response K { fw_step fw s1 with hw := hw } = .ret false s' ∧
      s'.ch.seq_num_flag q' = 0 := by
    intro hw
    exact check_response_echo K { fw_step fw s1 with hw := hw } _ q'
      (by simp [fw_step, w3]) hcmd0 hrx hecho
  have hfin : ∀ (hw : Hw), ∃ s', send_finish K true { fw_step fw s1 with hw := hw } =
      .ret 0 s' ∧ s'.ch.seq_num_flag q' = 0 := by
    intro hw
    unfold send_finish
    obtain ⟨s', hs', hfl⟩ := hmatch hw
    simp only [if_true, hs']
    exact ⟨s', rfl, hfl⟩
  have hepi : ∀ (s2 : St), s2.ch.seq_num_flag q' = 0 →
      ∃ s', send_finish K false s2 = .ret 0 s' ∧ s'.ch.seq_num_flag q' = 0 := by
    intro s2 h2
    obtain ⟨s', hs', hch⟩ := send_epilogue_ret s2
    refine ⟨s', ?_, by rw [hch]; exact h2⟩
    unfold send_finish
    simpa using hs'
  unfold send_data
  rw [htx]
  simp only
  unfold wait_section
  cases hint : s1.ch.interrupt with
  | false =>
    simp only [hpoll1, hresp1, Bool.and_self, Bool.not_false, if_true]
    generalize hR : poll_wait K w_mode (fuel + 1) _ 0 _ = R
    obtain ⟨s', hs', hfl⟩ := hmatch (sched_clock (fw_step fw s1).hw).2
    have hid : (fw_step fw s1).ch.id = s.ch.id := by simp [fw_step, w11]
    have := poll_wait_hit K w_mode fuel _ 0 _ s' R
      (by simpa [sched_clock, hid] using hbit) hs' hR
    subst this
    exact hepi s' hfl
  | true =>
    simp only [hpoll1, hresp1, Bool.and_self, Bool.not_true, Bool.and_false, if_true]
    generalize hR : intr_wait K (fuel + 1) _ _ = R
    rcases intr_wait_hit K fuel _
      { fw_step fw s1 with hw := (sched_clock (fw_step fw s1).hw).2 } R
      (fun c => c.seq_num_flag q' = 0) (fun hw => hmatch hw) hR with ⟨hw, rfl⟩ | ⟨s', rfl, hfl⟩
    · exact hfin _
    · exact hepi _ (by simpa [St.emit] using hfl)

/-- Witness for C2: the sample polling channel, the sample command with a response
expected, and a coprocessor that echoes sequence number 1. -/
theorem send_round_trip_witness :
    ∃ s', send_data K0 0 (0 + 1) fw_echo false st_resp = .ret 0 s' ∧ s'.ch.seq_num_flag 1 = 0 :=
  send_round_trip K0 0 0 fw_echo false st_resp
    (tx_published K0 st_resp (base_of [[0x11, 0x22, 0x33, 0x44]] 0) 1) 1 rfl rfl (by decide)
    (by decide)
    (tx_section_published K0 0 1 st_resp (base_of [[0x11, 0x22, 0x33, 0x44]] 0) 1 (by decide) rfl
      (by decide) rfl)
    rfl (by decide) (by unfold buff_info.in_range; decide) ⟨0, by decide, by decide⟩

/-- Witness for C9: three responses pending, the caller waits for sequence number 3. -/
theorem check_response_match_iff_witness :
    ∃ b s', check_response K0 st_rx = .ret b s' ∧
      (b = false ↔ ∃ j ∈ ring_range st_rx.ch.rx_ch.len st_rx.ch.rx_ch.rear st_rx.ch.rx_ch.front,
        seq_field K0 (st_rx.ch.rx_ch.base j 0) = seq_field K0 (base_of [[0x30000, 0, 0, 0]] 0 0)) ∧
      (b = true → s'.ch = st_rx.ch ∧ s'.cfg = st_rx.cfg ∧ s'.hw.INTSR1 = st_rx.hw.INTSR1 ∧
        s'.hw.events = st_rx.hw.events ++
          [.spin_lock_rx st_rx.ch.id, .spin_unlock_rx st_rx.ch.id]) :=
  check_response_match_iff K0 st_rx (base_of [[0x30000, 0, 0, 0]] 0) rfl
    (by unfold buff_info.in_range; decide)

/-- Witness for C10: the response with sequence number 3 sits in slot 3, behind two
other pending responses; afterwards slot 3 holds the message that was at rear. -/
theorem check_response_on_match_witness :
    ∃ s', check_response K0 st_rx = .ret false s' ∧
      s'.ch.rx_ch.rear = (st_rx.ch.rx_ch.rear + 1) % st_rx.ch.rx_ch.len ∧
      s'.ch.rx_ch.front = st_rx.ch.rx_ch.front ∧
      s'.ch.seq_num_flag (seq_field K0 (base_of [[0x30000, 0, 0, 0]] 0 0)) = 0 ∧
      (∀ v, v ≠ seq_field K0 (base_of [[0x30000, 0, 0, 0]] 0 0) →
        s'.ch.seq_num_flag v = st_rx.ch.seq_num_flag v) ∧
      List.Perm (slot_words st_rx.ch.rx_ch 3 :: pending s'.ch.rx_ch) (pending st_rx.ch.rx_ch) ∧
      (3 ≠ st_rx.ch.rx_ch.rear →
        slot_words s'.ch.rx_ch 3 = slot_words st_rx.ch.rx_ch st_rx.ch.rx_ch.rear) ∧
      (∀ j, j ≠ 3 → s'.ch.rx_ch.base j = st_rx.ch.rx_ch.base j) :=
  check_response_on_match K0 st_rx (base_of [[0x30000, 0, 0, 0]] 0) 3 rfl
    (by unfold buff_info.in_range; decide) (by decide)

/-! ## Drain -/

theorem run_callbacks_eq (list : List callback_info) (cmd : List Nat) (size : Nat) :
    ∀ hw : Hw, run_callbacks list cmd size hw =
      { hw with events := hw.events ++ callback_events list cmd size } := by
  induction list with
  | nil => intro hw; simp [run_callbacks, callback_events]
  | cons cb rest ih =>
    intro hw
    have hstep : run_callbacks (cb :: rest) cmd size hw =
        run_callbacks rest cmd size (match cb.ipc_callback with
          | some f => emit (.ipc_callback f cb.client cmd size) hw
          | none => hw) := by
      simp [run_callbacks]
    rw [hstep, ih]
    cases hcb : cb.ipc_callback with
    | none => simp [callback_events, hcb]
    | some f => simp [callback_events, hcb, emit]

/-- With in-range RX indices the drain loop ends with rear = front, having delivered the
pending slots in ring order; nothing but `rear`, the scratch buffer and the event log
changes. -/
theorem dequeue_loop_spec :
    ∀ (d fuel : Nat) (ch : acpm_ipc_ch) (hw : Hw), ch.rx_ch.in_range →
      (ch.rx_ch.front + ch.rx_ch.len - ch.rx_ch.rear) % ch.rx_ch.len = d → d < fuel →
      ∃ ch' hw', dequeue_loop fuel ch hw = some (ch', hw') ∧
        ch'.rx_ch.rear = ch.rx_ch.front ∧ ch'.rx_ch.front = ch.rx_ch.front ∧
        ch'.rx_ch.base = ch.rx_ch.base ∧ ch'.rx_ch.len = ch.rx_ch.len ∧
        ch'.rx_ch.size = ch.rx_ch.size ∧ ch'.tx_ch = ch.tx_ch ∧ ch'.list = ch.list ∧
        ch'.id = ch.id ∧ ch'.seq_num_flag = ch.seq_num_flag ∧
        hw'.events = hw.events ++
          (ring_range ch.rx_ch.len ch.rx_ch.rear ch.rx_ch.front).flatMap (fun j =>
            callback_events ch.list (slot_words ch.rx_ch j) ch.rx_ch.size ++
              (if !ch.polling then [Event.complete ch.id] else [])) := by
  intro d
  induction d with
  | zero =>
    intro fuel ch hw hin hd hfuel
    obtain ⟨h0, hlen, hf, hr⟩ := hin
    have hrf : ch.rx_ch.rear = ch.rx_ch.front := by
      by_contra hne
      have := ring_dist_succ hr hf hne
      omega
    obtain ⟨n, rfl⟩ : ∃ n, fuel = n + 1 := ⟨fuel - 1, by omega⟩
    refine ⟨ch, hw, ?_, hrf, rfl, rfl, rfl, rfl, rfl, rfl, rfl, rfl, ?_⟩
    · rw [dequeue_loop, if_pos hrf]
    · rw [hrf, ring_range_self]; simp
  | succ d ih =>
    intro fuel ch hw hin hd hfuel
    obtain ⟨h0, hlen, hf, hr⟩ := hin
    have hne : ch.rx_ch.rear ≠ ch.rx_ch.front := by
      intro h
      rw [h] at hd
      have : ch.rx_ch.front + ch.rx_ch.len - ch.rx_ch.front = ch.rx_ch.len := by omega
      rw [this, Nat.mod_self] at hd
      omega
    obtain ⟨n, rfl⟩ : ∃ n, fuel = n + 1 := ⟨fuel - 1, by omega⟩
    have hu : u32 (ch.rx_ch.rear + 1) = ch.rx_ch.rear + 1 := u32_of_lt (by omega)
    have hd' := ring_dist_succ hr hf hne
    rw [dequeue_loop, if_neg hne]
    simp only [hu]
    obtain ⟨ch', hw', hrun, a1, a2, a3, a4, a5, a6, a7, a8, a9, a10⟩ := ih n
      { ch with
        cmd := memcpy_align_4 ch.cmd (ch.rx_ch.base ch.rx_ch.rear) ch.rx_ch.size,
        rx_ch := { ch.rx_ch with rear := (ch.rx_ch.rear + 1) % ch.rx_ch.len } }
      (if !ch.polling then emit (.complete ch.id)
          (run_callbacks ch.list ((List.range (ch.rx_ch.size / 4)).map
            (memcpy_align_4 ch.cmd (ch.rx_ch.base ch.rx_ch.rear) ch.rx_ch.size)) ch.rx_ch.size hw)
        else run_callbacks ch.list ((List.range (ch.rx_ch.size / 4)).map
            (memcpy_align_4 ch.cmd (ch.rx_ch.base ch.rx_ch.rear) ch.rx_ch.size)) ch.rx_ch.size hw)
      ⟨h0, hlen, hf, Nat.mod_lt _ h0⟩ (by simp only; omega) (by omega)
    refine ⟨ch', hw', hrun, a1, a2, a3, a4, a5, a6, a7, a8, a9, ?_⟩
    rw [a10, ring_range_cons hr hf hne, List.flatMap_cons]
    have hmsg : (List.range (ch.rx_ch.size / 4)).map
        (memcpy_align_4 ch.cmd (ch.rx_ch.base ch.rx_ch.rear) ch.rx_ch.size) =
        slot_words ch.rx_ch ch.rx_ch.rear := by
      unfold slot_words
      apply List.map_congr_left
      intro k hk
      simp [memcpy_align_4, List.mem_range.1 hk]
    rw [hmsg, run_callbacks_eq]
    have hsw : ∀ j, slot_words { ch.rx_ch with rear := (ch.rx_ch.rear + 1) % ch.rx_ch.len } j =
        slot_words ch.rx_ch j := fun j => rfl
    cases hp : ch.polling <;> simp [emit, hsw, List.append_assoc]

/-- C14: on a queued channel with in-range RX indices and an idle coprocessor,
`dequeue_policy` returns with RX rear equal to RX front, RX front and the RX slots
unchanged; between taking the receive lock and the final log update and unlock, its
events are, for each of the `(front - rear) mod len` pending slots in ring order from
the old rear, the callbacks of all subscribers (in list order) with that slot's message,
followed by the completion signal when the channel is not polling. -/
theorem dequeue_policy_drains (TYPE_BUFFER : Nat) (ch : acpm_ipc_ch) (hw : Hw)
    (hq : ch.type ≠ TYPE_BUFFER) (hin : ch.rx_ch.in_range) :
    ∃ ch' hw', dequeue_policy TYPE_BUFFER ch hw = .ret () (ch', hw') ∧
      ch'.rx_ch.rear = ch.rx_ch.front ∧ ch'.rx_ch.front = ch.rx_ch.front ∧
      ch'.rx_ch.base = ch.rx_ch.base ∧
      (ring_range ch.rx_ch.len ch.rx_ch.rear ch.rx_ch.front).length =
        (ch.rx_ch.front + ch.rx_ch.len - ch.rx_ch.rear) % ch.rx_ch.len ∧
      hw'.events = hw.events ++ [Event.spin_lock_rx ch.id] ++
        (ring_range ch.rx_ch.len ch.rx_ch.rear ch.rx_ch.front).flatMap (fun j =>
          callback_events ch.list (slot_words ch.rx_ch j) ch.rx_ch.size ++
            (if !ch.polling then [Event.complete ch.id] else [])) ++
        [Event.acpm_log_idx_update, Event.spin_unlock_rx ch.id] := by
  have hd := Nat.mod_lt (ch.rx_ch.front + ch.rx_ch.len - ch.rx_ch.rear) hin.1
  obtain ⟨ch', hw', hrun, a1, a2, a3, _, _, _, _, _, _, a10⟩ :=
    dequeue_loop_spec _ (ch.rx_ch.len + 2) ch (emit (.spin_lock_rx ch.id) hw) hin rfl (by omega)
  refine ⟨ch', emit (.spin_unlock_rx ch.id) (emit .acpm_log_idx_update hw'), ?_, a1, a2, a3, ?_, ?_⟩
  · unfold dequeue_policy
    simp only [hq, if_false, hrun]
  · simp [ring_range]
  · simp [emit, a10, List.append_assoc]

/-- Witness for C14: three pending responses, two subscribers. -/
theorem dequeue_policy_drains_witness :
    ∃ ch' hw', dequeue_policy TYPE_BUFFER0 ch_sub hw0 = .ret () (ch', hw') ∧
      ch'.rx_ch.rear = ch_sub.rx_ch.front ∧ ch'.rx_ch.front = ch_sub.rx_ch.front ∧
      ch'.rx_ch.base = ch_sub.rx_ch.base ∧
      (ring_range ch_sub.rx_ch.len ch_sub.rx_ch.rear ch_sub.rx_ch.front).length =
        (ch_sub.rx_ch.front + ch_sub.rx_ch.len - ch_sub.rx_ch.rear) % ch_sub.rx_ch.len ∧
      hw'.events = hw0.events ++ [Event.spin_lock_rx ch_sub.id] ++
        (ring_range ch_sub.rx_ch.len ch_sub.rx_ch.rear ch_sub.rx_ch.front).flatMap (fun j =>
          callback_events ch_sub.list (slot_words ch_sub.rx_ch j) ch_sub.rx_ch.size ++
            (if !ch_sub.polling then [Event.complete ch_sub.id] else [])) ++
        [Event.acpm_log_idx_update, Event.spin_unlock_rx ch_sub.id] :=
  dequeue_policy_drains TYPE_BUFFER0 ch_sub hw0 (by decide) (by unfold buff_info.in_range; decide)

/-- C15 (counterexample): on the sample single-buffer channel RX rear equals RX front,
yet a drain invokes the subscriber (with the contents of the fixed slot). -/
theorem drain_buffer_channel_calls_back :
    ch_buf.rx_ch.rear = ch_buf.rx_ch.front ∧
      (dequeue_policy TYPE_BUFFER0 ch_buf hw0).final.map (fun r => r.2.events) =
        some [Event.spin_lock_rx 0, Event.spin_unlock_rx 0,
          Event.ipc_callback 7 100 [0, 0, 0, 0] 16] := by
  constructor <;> decide

/-- C15 (amended): when RX rear equals RX front, `dequeue_policy` returns with both RX
indices unchanged. On a queued channel it is a no-op: the channel is unchanged and the
only events are the receive lock, the log-index update and the unlock, so no subscriber
is invoked. On a single-buffer channel every subscriber with a handler is invoked once
with the contents of the fixed slot. -/
theorem dequeue_policy_empty (TYPE_BUFFER : Nat) (ch : acpm_ipc_ch) (hw : Hw)
    (hempty : ch.rx_ch.rear = ch.rx_ch.front) :
    ∃ ch' hw', dequeue_policy TYPE_BUFFER ch hw = .ret () (ch', hw') ∧
      ch'.rx_ch = ch.rx_ch ∧
      (ch.type ≠ TYPE_BUFFER → ch' = ch ∧
        hw'.events = hw.events ++
          [Event.spin_lock_rx ch.id, Event.acpm_log_idx_update, Event.spin_unlock_rx ch.id]) ∧
      (ch.type = TYPE_BUFFER →
        hw'.events = hw.events ++ [Event.spin_lock_rx ch.id, Event.spin_unlock_rx ch.id] ++
          callback_events ch.list (slot_words ch.rx_ch 0) ch.rx_ch.size) := by
  unfold dequeue_policy
  by_cases hq : ch.type = TYPE_BUFFER
  · rw [if_pos hq]
    refine ⟨_, _, rfl, rfl, fun h => absurd hq h, fun _ => ?_⟩
    have hmsg : (List.range (ch.rx_ch.size / 4)).map
        (memcpy_align_4 ch.cmd (ch.rx_ch.base 0) ch.rx_ch.size) = slot_words ch.rx_ch 0 := by
      unfold slot_words
      apply List.map_congr_left
      intro k hk
      simp [memcpy_align_4, List.mem_range.1 hk]
    rw [hmsg, run_callbacks_eq]
    simp [emit]
  · rw [if_neg hq]
    have hl : dequeue_loop (ch.rx_ch.len + 2) ch (emit (.spin_lock_rx ch.id) hw) =
        some (ch, emit (.spin_lock_rx ch.id) hw) := by
      rw [dequeue_loop, if_pos hempty]
    rw [hl]
    refine ⟨_, _, rfl, rfl, fun _ => ⟨rfl, ?_⟩, fun h => absurd h hq⟩
    simp [emit]

/-- Witness for C15 (amended): the sample queued channel with an empty RX ring. -/
theorem dequeue_policy_empty_witness :
    ∃ ch' hw', dequeue_policy TYPE_BUFFER0 ch0 hw0 = .ret () (ch', hw') ∧
      ch'.rx_ch = ch0.rx_ch ∧
      (ch0.type ≠ TYPE_BUFFER0 → ch' = ch0 ∧
        hw'.events = hw0.events ++
          [Event.spin_lock_rx ch0.id, Event.acpm_log_idx_update, Event.spin_unlock_rx ch0.id]) ∧
      (ch0.type = TYPE_BUFFER0 →
        hw'.events = hw0.events ++ [Event.spin_lock_rx ch0.id, Event.spin_unlock_rx ch0.id] ++
          callback_events ch0.list (slot_words ch0.rx_ch 0) ch0.rx_ch.size) :=
  dequeue_policy_empty TYPE_BUFFER0 ch0 hw0 rfl

/-! ## Registration -/

theorem request_channel_scan_none (ipc : acpm_ipc_info) (np : device_node) (handler : Option Nat)
    (alloc_ok : Bool) (req : Nat) :
    ∀ (left i : Nat), i + left = ipc.channel.length →
      (∀ j c, i ≤ j → ipc.channel[j]? = some c → c.id ≠ req) →
      request_channel_scan ipc np handler alloc_ok req left i = .ret (-ENODEV) (ipc, none) := by
  intro left
  induction left with
  | zero => intro i _ _; rfl
  | succ n ih =>
    intro i hi hno
    rw [request_channel_scan]
    have hlt : i < ipc.channel.length := by omega
    rw [List.getElem?_eq_getElem hlt]
    simp only
    rw [if_neg (hno i _ (le_refl _) (List.getElem?_eq_getElem hlt))]
    exact ih (i + 1) (by omega) (fun j c hj hc => hno j c (by omega) hc)

theorem request_channel_scan_first (ipc : acpm_ipc_info) (np : device_node) (handler : Option Nat)
    (req k : Nat) (ch : acpm_ipc_ch) (hk : ipc.channel[k]? = some ch) (hid : ch.id = req) :
    ∀ (left i : Nat), i + left = ipc.channel.length → i ≤ k →
      (∀ j c, i ≤ j → j < k → ipc.channel[j]? = some c → c.id ≠ req) →
      request_channel_scan ipc np handler true req left i =
        .ret 0 (put_list ipc k ch (list_after_request np handler ch.list),
          some (ch.id, ch.tx_ch.size)) := by
  have hklt : k < ipc.channel.length := by
    by_contra hge
    rw [List.getElem?_eq_none (by omega)] at hk
    cases hk
  intro left
  induction left with
  | zero => intro i hi hik _; omega
  | succ n ih =>
    intro i hi hik hno
    rw [request_channel_scan]
    by_cases hik' : i = k
    · subst hik'
      rw [hk]
      simp only
      rw [if_pos hid]
      cases handler with
      | none =>
        simp only [put_list, list_after_request]
        have : ipc.channel.set i ch = ipc.channel := set_self_of_some _ _ _ hk
        have hch : ({ ch with list := ch.list } : acpm_ipc_ch) = ch := rfl
        rw [hch, this]
      | some h => simp [subscription, put_list, list_after_request]
    · have hlt : i < ipc.channel.length := by omega
      rw [List.getElem?_eq_getElem hlt]
      simp only
      rw [if_neg (hno i _ (le_refl _) (by omega) (List.getElem?_eq_getElem hlt))]
      exact ih (i + 1) (by omega) (by omega) (fun j c hj hjk hc => hno j c (by omega) hjk hc)

/-- C19: for a descriptor that carries a channel identifier `req`, with the allocation
succeeding and `num_channels` the length of the channel array, the request returns 0
exactly when some channel has id `req`. With `ch` at index `k` the first channel of
that id, it returns 0, reports `ch.id` and the TX slot size of `ch`, and the channel
array changes only at index `k`, where the list gains exactly one subscription (at its
head) when a handler is supplied and nothing otherwise. When no channel has id `req` it
returns `-ENODEV` and leaves the driver unchanged. -/
theorem request_channel_spec (ipc : acpm_ipc_info) (np : device_node) (handler : Option Nat)
    (req : Nat) (hprop : np.acpm_ipc_channel = some req)
    (hnum : ipc.num_channels = ipc.channel.length) :
    ((∃ st, acpm_ipc_request_channel ipc (some np) handler true = .ret 0 st) ↔
        ∃ c ∈ ipc.channel, c.id = req) ∧
      (∀ k ch, ipc.channel[k]? = some ch → ch.id = req →
        (∀ j c, j < k → ipc.channel[j]? = some c → c.id ≠ req) →
        acpm_ipc_request_channel ipc (some np) handler true =
          .ret 0 (put_list ipc k ch (list_after_request np handler ch.list),
            some (ch.id, ch.tx_ch.size))) ∧
      ((∀ c ∈ ipc.channel, c.id ≠ req) →
        acpm_ipc_request_channel ipc (some np) handler true = .ret (-ENODEV) (ipc, none)) := by
  have hunf : acpm_ipc_request_channel ipc (some np) handler true =
      request_channel_scan ipc np handler true req ipc.channel.length 0 := by
    simp [acpm_ipc_request_channel, hprop, hnum]
  have hfirst : ∀ k ch, ipc.channel[k]? = some ch → ch.id = req →
      (∀ j c, j < k → ipc.channel[j]? = some c → c.id ≠ req) →
      acpm_ipc_request_channel ipc (some np) handler true =
        .ret 0 (put_list ipc k ch (list_after_request np handler ch.list),
          some (ch.id, ch.tx_ch.size)) := by
    intro k ch hk hid hno
    rw [hunf]
    exact request_channel_scan_first ipc np handler req k ch hk hid _ 0 (by omega) (by omega)
      (fun j c _ hjk hc => hno j c hjk hc)
  have hnone : (∀ c ∈ ipc.channel, c.id ≠ req) →
      acpm_ipc_request_channel ipc (some np) handler true = .ret (-ENODEV) (ipc, none) := by
    intro hno
    rw [hunf]
    exact request_channel_scan_none ipc np handler true req _ 0 (by omega)
      (fun j c _ hc => hno c (List.getElem?_mem hc))
  refine ⟨?_, hfirst, hnone⟩
  constructor
  · rintro ⟨st, hst⟩
    by_contra hex
    have hno : ∀ c ∈ ipc.channel, c.id ≠ req := fun c hc hid => hex ⟨c, hc, hid⟩
    rw [hnone hno] at hst
    simp only [Result.ret.injEq] at hst
    have : (-ENODEV : Int) ≠ 0 := by simp [ENODEV]
    exact this hst.1
  · rintro ⟨c, hc, hid⟩
    -- the first index whose channel has the requested id
    have hex : ∃ k : Nat, ∃ ch : acpm_ipc_ch, ipc.channel[k]? = some ch ∧ ch.id = req := by
      obtain ⟨k, hkc⟩ := List.mem_iff_getElem?.1 hc
      exact ⟨k, c, hkc, hid⟩
    classical
    obtain ⟨ch, hk, hchid⟩ := Nat.find_spec hex
    have hmin : ∀ j c', j < Nat.find hex → ipc.channel[j]? = some c' → c'.id ≠ req :=
      fun j c' hj hc' hid' => Nat.find_min hex hj ⟨c', hc', hid'⟩
    exact ⟨_, hfirst _ ch hk hchid hmin⟩

/-- Witness for C19: the node `node_a` asks for channel 7 of the two-channel driver. -/
theorem request_channel_spec_witness :
    ((∃ st, acpm_ipc_request_channel ipc_two (some node_a) (some 7) true = .ret 0 st) ↔
        ∃ c ∈ ipc_two.channel, c.id = 7) ∧
      (∀ k ch, ipc_two.channel[k]? = some ch → ch.id = 7 →
        (∀ j c, j < k → ipc_two.channel[j]? = some c → c.id ≠ 7) →
        acpm_ipc_request_channel ipc_two (some node_a) (some 7) true =
          .ret 0 (put_list ipc_two k ch (list_after_request node_a (some 7) ch.list),
            some (ch.id, ch.tx_ch.size))) ∧
      ((∀ c ∈ ipc_two.channel, c.id ≠ 7) →
        acpm_ipc_request_channel ipc_two (some node_a) (some 7) true =
          .ret (-ENODEV) (ipc_two, none)) :=
  request_channel_spec ipc_two node_a (some 7) 7 rfl rfl

theorem release_scan_spec (np : Option Nat) :
    ∀ l : List callback_info,
      (∃ l1 cb l2, l = l1 ++ cb :: l2 ∧ some cb.client = np ∧ (∀ x ∈ l1, some x.client ≠ np) ∧
          release_scan np l = l1 ++ l2) ∨
        ((∀ x ∈ l, some x.client ≠ np) ∧ release_scan np l = l) := by
  intro l
  induction l with
  | nil => exact Or.inr ⟨by simp, rfl⟩
  | cons cb rest ih =>
    rw [release_scan]
    by_cases hcb : some cb.client = np
    · rw [if_pos hcb]
      exact Or.inl ⟨[], cb, rest, rfl, hcb, by simp, rfl⟩
    · rw [if_neg hcb]
      rcases ih with ⟨l1, c, l2, h1, h2, h3, h4⟩ | ⟨h1, h2⟩
      · refine Or.inl ⟨cb :: l1, c, l2, by rw [h1]; rfl, h2, ?_, by rw [h4]; rfl⟩
        intro x hx
        rcases List.mem_cons.1 hx with rfl | hx
        · exact hcb
        · exact h3 x hx
      · refine Or.inr ⟨?_, by rw [h2]⟩
        intro x hx
        rcases List.mem_cons.1 hx with rfl | hx
        · exact hcb
        · exact h1 x hx

/-- C20: for a channel `ch` at index `channel_id` and a client `np`,
`acpm_ipc_release_channel` returns 0 and changes nothing but the subscriber list of that
channel: when the client owns a subscription, the first one in list order is removed and
every other subscription stays, in the same relative order; when it owns none, the list
is unchanged. -/
theorem release_channel_spec (ipc : acpm_ipc_info) (np : Option Nat) (channel_id : Nat)
    (ch : acpm_ipc_ch) (hch : ipc.channel[channel_id]? = some ch) :
    ∃ l', acpm_ipc_release_channel ipc np channel_id = .ret 0 (put_list ipc channel_id ch l') ∧
      ((∃ l1 cb l2, ch.list = l1 ++ cb :: l2 ∧ some cb.client = np ∧
          (∀ x ∈ l1, some x.client ≠ np) ∧ l' = l1 ++ l2) ∨
        ((∀ x ∈ ch.list, some x.client ≠ np) ∧ l' = ch.list)) := by
  refine ⟨release_scan np ch.list, ?_, release_scan_spec np ch.list⟩
  simp [acpm_ipc_release_channel, hch, put_list]

/-- Witness for C20: releasing the subscription of client 100 on the channel `ch_sub`. -/
theorem release_channel_spec_witness :
    ∃ l', acpm_ipc_release_channel { ipc0 with channel := [ch_sub] } (some 100) 0 =
        .ret 0 (put_list { ipc0 with channel := [ch_sub] } 0 ch_sub l') ∧
      ((∃ l1 cb l2, ch_sub.list = l1 ++ cb :: l2 ∧ some cb.client = some 100 ∧
          (∀ x ∈ l1, some x.client ≠ some 100) ∧ l' = l1 ++ l2) ∨
        ((∀ x ∈ ch_sub.list, some x.client ≠ some 100) ∧ l' = ch_sub.list)) :=
  release_channel_spec { ipc0 with channel := [ch_sub] } (some 100) 0 ch_sub rfl

/-! ## Order of delivery -/

theorem put_list_getElem? (ipc : acpm_ipc_info) (k : Nat) (ch : acpm_ipc_ch)
    (l : List callback_info) (hk : ipc.channel[k]? = some ch) :
    (put_list ipc k ch l).channel[k]? = some { ch with list := l } := by
  unfold put_list
  exact getElem?_set_self_of_some _ _ _ _ hk

theorem put_list_getElem?_ne (ipc : acpm_ipc_info) (k j : Nat) (ch : acpm_ipc_ch)
    (l : List callback_info) (hj : j ≠ k) :
    (put_list ipc k ch l).channel[j]? = ipc.channel[j]? := by
  unfold put_list
  simp [List.getElem?_set, hj.symm]

theorem put_list_put_list (ipc : acpm_ipc_info) (k : Nat) (ch : acpm_ipc_ch)
    (l1 l2 : List callback_info) :
    put_list (put_list ipc k ch l1) k { ch with list := l1 } l2 = put_list ipc k ch l2 := by
  simp [put_list, List.set_set]

/-- Registering handlers one after the other on the first channel of the requested id
puts them in front of the subscriber list in reverse order of registration. -/
theorem register_all_spec (req k : Nat) :
    ∀ (regs : List (device_node × Nat)) (ipc : acpm_ipc_info) (ch : acpm_ipc_ch),
      ipc.num_channels = ipc.channel.length → ipc.channel[k]? = some ch → ch.id = req →
      (∀ j c, j < k → ipc.channel[j]? = some c → c.id ≠ req) →
      (∀ r ∈ regs, r.1.acpm_ipc_channel = some req) →
      register_all ipc regs =
        some (put_list ipc k ch
          (regs.reverse.map (fun r => subscription r.1 r.2) ++ ch.list)) := by
  intro regs
  induction regs with
  | nil =>
    intro ipc ch _ hk _ _ _
    simp only [register_all, List.reverse_nil, List.map_nil, List.nil_append, put_list]
    have hch : ({ ch with list := ch.list } : acpm_ipc_ch) = ch := rfl
    rw [hch, set_self_of_some _ _ _ hk]
  | cons r rest ih =>
    intro ipc ch hnum hk hid hno hreq
    have hr := hreq r (List.mem_cons_self _ _)
    have hstep : acpm_ipc_request_channel ipc (some r.1) (some r.2) true =
        .ret 0 (put_list ipc k ch (list_after_request r.1 (some r.2) ch.list),
          some (ch.id, ch.tx_ch.size)) := by
      have hunf : acpm_ipc_request_channel ipc (some r.1) (some r.2) true =
          request_channel_scan ipc r.1 (some r.2) true req ipc.channel.length 0 := by
        simp [acpm_ipc_request_channel, hr, hnum]
      rw [hunf]
      exact request_channel_scan_first ipc r.1 (some r.2) req k ch hk hid _ 0 (by omega)
        (by omega) (fun j c _ hjk hc => hno j c hjk hc)
    rw [register_all, hstep]
    simp only [if_true, list_after_request]
    rw [ih (put_list ipc k ch (subscription r.1 r.2 :: ch.list))
      { ch with list := subscription r.1 r.2 :: ch.list }
      (by simp [put_list, hnum]) (put_list_getElem? ipc k ch _ hk) hid
      (fun j c hj hc => hno j c hj (by rw [← put_list_getElem?_ne ipc k j ch _ (by omega)]; exact hc))
      (fun x hx => hreq x (List.mem_cons_of_mem _ hx))]
    rw [put_list_put_list]
    simp [List.reverse_cons, List.map_append, List.append_assoc]

/-- C16 (counterexample): on channel 7 of the two-channel driver, handler 7 (client 100)
is registered first and handler 8 (client 200) second; in the drain of the three pending
messages each message goes to both handlers once, but handler 8, registered last, is
invoked first. -/
theorem drain_calls_last_registered_first :
    (register_all ipc_two [(node_a, 7), (node_b, 8)]).bind
        (fun ipc => events_of_drain TYPE_BUFFER0 ipc 1) =
      some [Event.spin_lock_rx 7,
        Event.ipc_callback 8 200 [0x10000, 0xA, 0, 0] 16,
        Event.ipc_callback 7 100 [0x10000, 0xA, 0, 0] 16,
        Event.ipc_callback 8 200 [0x20000, 0xB, 0, 0] 16,
        Event.ipc_callback 7 100 [0x20000, 0xB, 0, 0] 16,
        Event.ipc_callback 8 200 [0x30000, 0xC, 0, 0] 16,
        Event.ipc_callback 7 100 [0x30000, 0xC, 0, 0] 16,
        Event.acpm_log_idx_update, Event.spin_unlock_rx 7] := by
  decide

/-- C16 (amended): when handlers are registered one after the other on a channel (the
first channel of the requested id), the subscriber list holds them in reverse order of
registration in front of the earlier subscribers, and a message delivered to the list
(as the drain and the response matcher do, through `run_callbacks`) goes to each of them
once, the last registered first. -/
theorem delivery_in_reverse_registration_order (req k : Nat) (regs : List (device_node × Nat))
    (ipc : acpm_ipc_info) (ch : acpm_ipc_ch)
    (hnum : ipc.num_channels = ipc.channel.length) (hk : ipc.channel[k]? = some ch)
    (hid : ch.id = req) (hno : ∀ j c, j < k → ipc.channel[j]? = some c → c.id ≠ req)
    (hreq : ∀ r ∈ regs, r.1.acpm_ipc_channel = some req) :
    ∃ ipc' ch', register_all ipc regs = some ipc' ∧ ipc'.channel[k]? = some ch' ∧
      ch'.list = regs.reverse.map (fun r => subscription r.1 r.2) ++ ch.list ∧
      ∀ (msg : List Nat) (size : Nat) (hw : Hw),
        (run_callbacks ch'.list msg size hw).events = hw.events ++
          (regs.reverse.map (fun r => Event.ipc_callback r.2 r.1.addr msg size) ++
            callback_events ch.list msg size) := by
  refine ⟨_, _, register_all_spec req k regs ipc ch hnum hk hid hno hreq,
    put_list_getElem? ipc k ch _ hk, rfl, ?_⟩
  intro msg size hw
  rw [run_callbacks_eq]
  simp only
  congr 1
  unfold callback_events
  rw [List.filterMap_append]
  congr 1
  induction regs.reverse with
  | nil => rfl
  | cons r rest ih =>
    rw [List.map_cons, List.filterMap_cons, List.map_cons, ih]
    simp [subscription]

/-- Witness for C16 (amended): two registrations on channel 7 of the two-channel
driver. -/
theorem delivery_in_reverse_registration_order_witness :
    ∃ ipc' ch', register_all ipc_two [(node_a, 7), (node_b, 8)] = some ipc' ∧
      ipc'.channel[1]? = some ch' ∧
      ch'.list = [(node_a, 7), (node_b, 8)].reverse.map (fun r => subscription r.1 r.2) ++
        ({ ch_rx with id := 7 } : acpm_ipc_ch).list ∧
      ∀ (msg : List Nat) (size : Nat) (hw : Hw),
        (run_callbacks ch'.list msg size hw).events = hw.events ++
          ([(node_a, 7), (node_b, 8)].reverse.map
              (fun r => Event.ipc_callback r.2 r.1.addr msg size) ++
            callback_events ({ ch_rx with id := 7 } : acpm_ipc_ch).list msg size) :=
  delivery_in_reverse_registration_order 7 1 [(node_a, 7), (node_b, 8)] ipc_two
    { ch_rx with id := 7 } rfl rfl rfl
    (by
      intro j c hj hc
      have hj0 : j = 0 := by omega
      subst hj0
      have : c = { ch0 with id := 3 } := by
        have h : ipc_two.channel[0]? = some { ch0 with id := 3 } := rfl
        rw [h] at hc
        exact (Option.some.inj hc).symm
      rw [this]
      decide)
    (by decide)

/-! ## Missing command payload -/

/-- With room in the ring, a null command pointer makes the transmit section return
`-EIO` after taking and releasing its locks. -/
theorem tx_section_null_cmd (K : Consts) (spins fuel : Nat) (s : St)
    (hroom : next_index s.ch.tx_ch.front s.ch.tx_ch.len ≠ s.ch.tx_ch.rear)
    (hc : s.cfg.cmd = none) :
    tx_section K spins fuel s = .ret (some (- EIO)) (tx_null_exit s) := by
  unfold tx_section
  simp only [UNTIL_EQUAL_const, hroom, ne_eq, not_false_eq_true, decide_True, Bool.not_true, hc]
  unfold tx_null_exit tx_unlock_exit
  cases hb : (s.ch.interrupt && s.cfg.response) <;> simp [St.emit, emit, hb]

/-- C17 (counterexample): on the sample channel with a full TX ring, a send with a null
command pointer returns `-ETIMEDOUT`, not `-EIO`. -/
theorem send_null_cmd_full_ring :
    cfg_null.cmd.isNone = true ∧
      next_index ch_full.tx_ch.front ch_full.tx_ch.len = ch_full.tx_ch.rear ∧
      (__acpm_ipc_send_data K0 0 0 (fun v => v) { ipc0 with channel := [ch_full] } 0
        (some cfg_null) false).value = some (-ETIMEDOUT) ∧
      (__acpm_ipc_send_data K0 0 0 (fun v => v) { ipc0 with channel := [ch_full] } 0
        (some cfg_null) false).value ≠ some (- EIO) := by
  refine ⟨rfl, by decide, by decide, by decide⟩

/-- C17 (amended): a send whose command pointer is null returns `-EIO` when the TX ring
has room, and `-ETIMEDOUT` (after the bounded wait) when the ring is full; in both cases
the channel array (ring indices, TX slots, last-used sequence number, in-flight flags)
and the descriptor are unchanged and the doorbell register is not written. -/
theorem send_null_cmd (K : Consts) (spins fuel : Nat) (fw : Shared → Shared)
    (ipc : acpm_ipc_info) (id : Nat) (ch : acpm_ipc_ch) (c : ipc_config) (w_mode : Bool)
    (hch : ipc.channel[id]? = some ch) (hc : c.cmd = none) :
    ∃ ipc' evs,
      __acpm_ipc_send_data K spins fuel fw ipc id (some c) w_mode =
        .ret (if next_index ch.tx_ch.front ch.tx_ch.len = ch.tx_ch.rear then -ETIMEDOUT else - EIO)
          (ipc', some c) ∧
      ipc'.channel = ipc.channel ∧ ipc'.hw.events = ipc.hw.events ++ evs ∧
      (∀ v, Event.writel v Reg.INTGR0 ∉ evs) ∧ ipc'.hw.INTSR1 = ipc.hw.INTSR1 := by
  by_cases hfull : next_index ch.tx_ch.front ch.tx_ch.len = ch.tx_ch.rear
  · rw [if_pos hfull]
    refine ⟨_, _, send_full_eq K spins fuel fw ipc id ch c w_mode hch hfull, rfl, rfl, ?_, rfl⟩
    intro v
    cases hb : (ch.interrupt && c.response) <;> simp [hb]
  · rw [if_neg hfull]
    have htx := tx_section_null_cmd K spins fuel { ch := ch, cfg := c, hw := ipc.hw } hfull hc
    refine ⟨{ ipc with hw := (tx_null_exit { ch := ch, cfg := c, hw := ipc.hw }).hw }, _, ?_,
      rfl, rfl, ?_, rfl⟩
    · rw [send_at K spins fuel fw ipc id ch c w_mode hch]
      unfold send_data
      simp only [htx]
      simp [tx_null_exit, set_self_of_some _ _ _ hch]
    · intro v
      cases hb : (ch.interrupt && c.response) <;> simp [hb]

/-- Witness for C17 (amended): the sample channel, with room, and a null command
pointer. -/
theorem send_null_cmd_witness :
    ∃ ipc' evs,
      __acpm_ipc_send_data K0 0 0 (fun v => v) ipc0 0 (some cfg_null) false =
        .ret (if next_index ch0.tx_ch.front ch0.tx_ch.len = ch0.tx_ch.rear then -ETIMEDOUT
          else - EIO) (ipc', some cfg_null) ∧
      ipc'.channel = ipc0.channel ∧ ipc'.hw.events = ipc0.hw.events ++ evs ∧
      (∀ v, Event.writel v Reg.INTGR0 ∉ evs) ∧ ipc'.hw.INTSR1 = ipc0.hw.INTSR1 :=
  send_null_cmd K0 0 0 (fun v => v) ipc0 0 ch0 cfg_null false rfl rfl

/-! ## One indirect command at a time -/

theorem mem_ring_range {len r front j : Nat} (hr : r < len) (hf : front < len) :
    j ∈ ring_range len r front ↔
      j < len ∧ (if r ≤ j then j - r else j + len - r) <
        (if r ≤ front then front - r else front + len - r) := by
  unfold ring_range
  rw [ring_dist hr hf, List.mem_map]
  constructor
  · rintro ⟨k, hk, rfl⟩
    have hk := List.mem_range.1 hk
    have hklen : k < len := by split_ifs at hk <;> omega
    by_cases hlt : r + k < len
    · rw [Nat.mod_eq_of_lt hlt]
      refine ⟨hlt, ?_⟩
      split_ifs at hk ⊢ <;> omega
    · have hm : (r + k) % len = r + k - len := by
        rw [Nat.mod_eq_sub_mod (by omega), Nat.mod_eq_of_lt (by omega)]
      rw [hm]
      refine ⟨by omega, ?_⟩
      split_ifs at hk ⊢ <;> omega
  · rintro ⟨hj, h⟩
    refine ⟨if r ≤ j then j - r else j + len - r, List.mem_range.2 h, ?_⟩
    by_cases hrj : r ≤ j
    · rw [if_pos hrj, Nat.mod_eq_of_lt (by omega)]
      omega
    · rw [if_neg hrj]
      have : r + (j + len - r) = j + len := by omega
      rw [this, Nat.add_mod_right, Nat.mod_eq_of_lt hj]

/-- A rear index that is closer to `front` leaves a sub-range pending. -/
theorem ring_range_subset {len r r2 front j : Nat} (hr : r < len) (hr2 : r2 < len)
    (hf : front < len)
    (hd : (front + len - r2) % len ≤ (front + len - r) % len)
    (hj : j ∈ ring_range len r2 front) : j ∈ ring_range len r front := by
  rw [ring_dist hr hf, ring_dist hr2 hf] at hd
  rw [mem_ring_range hr2 hf] at hj
  rw [mem_ring_range hr hf]
  refine ⟨hj.1, ?_⟩
  have h2 := hj.2
  split_ifs at hd h2 ⊢ <;> omega

theorem consumes_only_le {len front : Nat} {rear_at : Nat → Nat}
    (h : consumes_only len front rear_at) (t : Nat) :
    ∀ d, (front + len - rear_at (t + d)) % len ≤ (front + len - rear_at t) % len
  | 0 => le_refl _
  | d + 1 => le_trans (h (t + d)) (consumes_only_le h t d)

/-- The live scan ends without timeout only after a pass, started at its last read of
the rear index, that found no indirection bit up to `front`. -/
theorem indirection_scan_live_clear (K : Consts) (spins : Nat) (tx : buff_info) (front : Nat)
    (rear_at : Nat → Nat) (hlen32 : tx.len < 2 ^ 32) (hf : front < tx.len)
    (hr : ∀ t, rear_at t < tx.len) (T : Nat) :
    ∀ (fuel t r : Nat), r < tx.len →
      (r = front ∨ r ∈ ring_range tx.len (rear_at t) front) →
      (∀ j ∈ ring_range tx.len (rear_at t) front,
        j ∈ ring_range tx.len r front ∨
          tx.base j 0 &&& u32 (1 <<< K.ACPM_IPC_PROTOCOL_INDIRECTION) = 0) →
      indirection_scan_live K spins tx front rear_at fuel t r = some (false, T) →
      ∀ j ∈ ring_range tx.len (rear_at T) front,
        tx.base j 0 &&& u32 (1 <<< K.ACPM_IPC_PROTOCOL_INDIRECTION) = 0 := by
  intro fuel
  induction fuel with
  | zero => intro t r _ _ _ h; simp [indirection_scan_live] at h
  | succ n ih =>
    intro t r hrl hpos hinv h
    unfold indirection_scan_live at h
    by_cases hrf : r = front
    · rw [if_pos hrf] at h
      have hT : t = T := by simpa using h
      subst hT
      intro j hj
      rcases hinv j hj with h1 | h1
      · rw [hrf, ring_range_self] at h1
        exact absurd h1 (List.not_mem_nil _)
      · exact h1
    · rw [if_neg hrf] at h
      by_cases hbit : tx.base r 0 &&& u32 (1 <<< K.ACPM_IPC_PROTOCOL_INDIRECTION) ≠ 0
      · rw [if_pos hbit] at h
        split at h
        · simp at h
        · refine ih _ _ (hr _) ?_ ?_ h
          · by_cases hq : rear_at (t + spins + 2) = front
            · exact Or.inl hq
            · right
              rw [ring_range_cons (hr _) hf hq]
              exact List.mem_cons_self _ _
          · intro j hj
            exact Or.inl hj
      · rw [if_neg hbit] at h
        have hbit0 : tx.base r 0 &&& u32 (1 <<< K.ACPM_IPC_PROTOCOL_INDIRECTION) = 0 := by
          by_contra hc
          exact hbit hc
        have hu : u32 (r + 1) = r + 1 := u32_of_lt (by omega)
        have hnext : (if tx.len = u32 (r + 1) then 0 else u32 (r + 1)) = (r + 1) % tx.len := by
          rw [hu, succ_mod_lt hrl]
          by_cases hq : r + 1 = tx.len
          · rw [if_pos hq.symm, if_pos hq]
          · rw [if_neg (fun hc => hq hc.symm), if_neg hq]
        rw [hnext] at h
        have hnl : (r + 1) % tx.len < tx.len := Nat.mod_lt _ (by omega)
        have hrin : r ∈ ring_range tx.len (rear_at t) front := by
          rcases hpos with h1 | h1
          · exact absurd h1 hrf
          · exact h1
        refine ih _ _ hnl ?_ ?_ h
        · by_cases hq : (r + 1) % tx.len = front
          · exact Or.inl hq
          · right
            have h1 := (mem_ring_range (hr t) hf).1 hrin
            rw [mem_ring_range (hr t) hf]
            refine ⟨hnl, ?_⟩
            rw [succ_mod_lt hrl] at hq ⊢
            have h2 := h1.2
            split_ifs at hq h2 ⊢ <;> omega
        · intro j hj
          rcases hinv j hj with h1 | h1
          · rw [ring_range_cons hrl hf hrf] at h1
            rcases List.mem_cons.1 h1 with h2 | h2
            · right
              rw [h2]
              exact hbit0
            · exact Or.inl h2
          · exact Or.inr h1

/-- With an idle coprocessor the live scan is the scan of the quiescent model. -/
theorem indirection_scan_live_idle (K : Consts) (spins : Nat) (tx : buff_info) (front : Nat) :
    ∀ (fuel t r : Nat),
      (indirection_scan_live K spins tx front (fun _ => tx.rear) fuel t r).map Prod.fst =
        indirection_scan K spins tx front fuel r := by
  intro fuel
  induction fuel with
  | zero => intro t r; rfl
  | succ n ih =>
    intro t r
    unfold indirection_scan_live indirection_scan
    by_cases hrf : r = front
    · rw [if_pos hrf, if_pos hrf]
      rfl
    · rw [if_neg hrf, if_neg hrf]
      by_cases hbit : tx.base r 0 &&& u32 (1 <<< K.ACPM_IPC_PROTOCOL_INDIRECTION) ≠ 0
      · rw [if_pos hbit, if_pos hbit]
        split
        · rfl
        · exact ih _ _
      · rw [if_neg hbit, if_neg hbit]
        exact ih _ _

/-- C18: at most one indirect command is outstanding. While the coprocessor only consumes
(the TX rear index only moves towards the front, pending slots are not rewritten), if the
scan of `enqueue_indirection_cmd` ends without timeout after its last read of the rear
index at tick `T`, then at every later tick (in particular when the payload is copied
into the indirect buffer) no slot between the current TX rear and the TX front has the
indirection bit set in word 0. In the quiescent model: when the indirect step of a send
returns 0, no pending TX slot has the bit, and the payload was copied into the channel's
indirect buffer. -/
theorem indirect_step_exclusive (K : Consts) (spins fuel : Nat) (s : St) (rear_at : Nat → Nat)
    (hin : s.ch.tx_ch.in_range) (hr : ∀ t, rear_at t < s.ch.tx_ch.len)
    (hfw : consumes_only s.ch.tx_ch.len s.ch.tx_ch.front rear_at) :
    (∀ T, indirection_scan_live K spins s.ch.tx_ch s.ch.tx_ch.front rear_at fuel 0 (rear_at 0) =
        some (false, T) →
      ∀ t, T ≤ t → ∀ j ∈ ring_range s.ch.tx_ch.len (rear_at t) s.ch.tx_ch.front,
        s.ch.tx_ch.base j 0 &&& u32 (1 <<< K.ACPM_IPC_PROTOCOL_INDIRECTION) = 0) ∧
    (∀ s', s.cfg.indirection = true → enqueue_indirection_cmd K spins fuel s = .ret 0 s' →
      (∀ j ∈ ring_range s.ch.tx_ch.len s.ch.tx_ch.rear s.ch.tx_ch.front,
        s.ch.tx_ch.base j 0 &&& u32 (1 <<< K.ACPM_IPC_PROTOCOL_INDIRECTION) = 0) ∧
      ∃ src, s.cfg.indirection_base = some src ∧
        s'.ch.tx_ch.direction =
          memcpy_align_4 s.ch.tx_ch.direction src s.cfg.indirection_size ∧
        s'.ch.tx_ch.base = s.ch.tx_ch.base ∧ s'.ch.tx_ch.front = s.ch.tx_ch.front ∧
        s'.ch.tx_ch.rear = s.ch.tx_ch.rear) := by
  obtain ⟨hlen, hlen32, hf, hrear⟩ := hin
  have start : ∀ (ra : Nat → Nat), (∀ t, ra t < s.ch.tx_ch.len) → ∀ T,
      indirection_scan_live K spins s.ch.tx_ch s.ch.tx_ch.front ra fuel 0 (ra 0) =
        some (false, T) →
      ∀ j ∈ ring_range s.ch.tx_ch.len (ra T) s.ch.tx_ch.front,
        s.ch.tx_ch.base j 0 &&& u32 (1 <<< K.ACPM_IPC_PROTOCOL_INDIRECTION) = 0 := by
    intro ra hra T hT
    refine indirection_scan_live_clear K spins s.ch.tx_ch s.ch.tx_ch.front ra hlen32 hf hra T
      fuel 0 (ra 0) (hra 0) ?_ (fun j hj => Or.inl hj) hT
    by_cases hq : ra 0 = s.ch.tx_ch.front
    · exact Or.inl hq
    · right
      rw [ring_range_cons (hra 0) hf hq]
      exact List.mem_cons_self _ _
  constructor
  · intro T hT t htT j hj
    apply start rear_at hr T hT
    obtain ⟨d, rfl⟩ := Nat.exists_eq_add_of_le htT
    exact ring_range_subset (hr T) (hr _) hf (consumes_only_le hfw T d) hj
  · intro s' hind hret
    unfold enqueue_indirection_cmd at hret
    rw [if_pos hind] at hret
    have hidle := indirection_scan_live_idle K spins s.ch.tx_ch s.ch.tx_ch.front fuel 0
      s.ch.tx_ch.rear
    cases hscan : indirection_scan K spins s.ch.tx_ch s.ch.tx_ch.front fuel s.ch.tx_ch.rear with
    | none => rw [hscan] at hret; simp at hret
    | some b =>
      rw [hscan] at hret hidle
      cases b with
      | true =>
        simp only [Result.ret.injEq] at hret
        exact absurd hret.1 (by decide)
      | false =>
        constructor
        · cases hl : indirection_scan_live K spins s.ch.tx_ch s.ch.tx_ch.front
            (fun _ => s.ch.tx_ch.rear) fuel 0 s.ch.tx_ch.rear with
          | none => rw [hl] at hidle; simp at hidle
          | some p =>
            rw [hl] at hidle
            obtain ⟨b, T⟩ := p
            simp only [Option.map_some', Option.some.injEq] at hidle
            subst hidle
            exact start (fun _ => s.ch.tx_ch.rear) (fun _ => hrear) T hl
        · cases hb : s.cfg.indirection_base with
          | none =>
            rw [hb] at hret
            simp only [Result.ret.injEq] at hret
            exact absurd hret.1 (by decide)
          | some src =>
            rw [hb] at hret
            simp only [Result.ret.injEq, true_and] at hret
            subst hret
            exact ⟨src, rfl, rfl, rfl, rfl, rfl⟩

/-- Witness for C18: on `ring_ind` the scan meets the indirect command in slot 1, waits for
the coprocessor to consume it and ends at tick 2 with no indirection bit pending; on the
drained ring the indirect step of the quiescent model returns 0. -/
theorem indirect_step_exclusive_witness :
    indirection_scan_live K0 0 ring_ind 3 rear_drain 6 0 0 = some (false, 2) ∧
      (∀ t, 2 ≤ t → ∀ j ∈ ring_range 4 (rear_drain t) 3,
        ring_ind.base j 0 &&& u32 (1 <<< 29) = 0) ∧
      (enqueue_indirection_cmd K0 0 6 st_ind).value = some 0 ∧
      (∀ j ∈ ring_range 4 2 3, ring_ind.base j 0 &&& u32 (1 <<< 29) = 0) :=
  ⟨by decide,
    (indirect_step_exclusive K0 0 6 st_ind_busy rear_drain
      ⟨by decide, by decide, by decide, by decide⟩
      (fun t => by unfold rear_drain; split <;> decide)
      (fun t => by
        unfold rear_drain
        by_cases h : t = 0
        · subst h; decide
        · simp [h])).1 2 (by decide),
    by decide,
    ((indirect_step_exclusive K0 0 6 st_ind (fun _ => 2)
      ⟨by decide, by decide, by decide, by decide⟩ (fun _ => (by decide : 2 < 4))
      (fun _ => le_refl _)).2 _ rfl rfl).1⟩

/-! ## The response replaces the request -/

theorem send_epilogue_ret_cfg (s : St) :
    ∃ s', send_epilogue s = .ret 0 s' ∧ s'.ch = s.ch ∧ s'.cfg = s.cfg := by
  unfold send_epilogue
  split
  · split
    · exact ⟨_, rfl, rfl, rfl⟩
    · exact ⟨_, rfl, rfl, rfl⟩
  · exact ⟨_, rfl, rfl, rfl⟩

/-- The interrupt wait either times out without touching anything but `hw`, or consumes
the response. -/
theorem intr_wait_hit_st (K : Consts) (n timeout : Nat) (s : St) (R : Result Bool St)
    (P : St → Prop)
    (hm : ∀ hw, ∃ s', check_response K { s with hw := hw } = .ret false s' ∧ P s')
    (h : intr_wait K (n + 1) timeout s = R) :
    (∃ hw, R = .ret true { s with hw := hw }) ∨ (∃ s', R = .ret false s' ∧ P s') := by
  rw [intr_wait] at h
  simp only at h
  by_cases hc : timeout < (sched_clock (s.emit (.wait_for_completion s.ch.id)).hw).1
  · rw [if_pos hc] at h
    exact Or.inl ⟨_, h.symm⟩
  · rw [if_neg hc] at h
    obtain ⟨s', hs', hP⟩ := hm (sched_clock (s.emit (.wait_for_completion s.ch.id)).hw).2
    have hs2 : check_response K { s.emit (.wait_for_completion s.ch.id) with
        hw := (sched_clock (s.emit (.wait_for_completion s.ch.id)).hw).2 } = .ret false s' := hs'
    rw [hs2] at h
    exact Or.inr ⟨s', h.symm, hP⟩

/-- A match of `check_response` is the first pending slot with the sequence number of
the caller's word 0, and the caller's buffer receives that whole slot. -/
theorem check_response_copies (K : Consts) (s s' : St) (cmd : Nat → Nat)
    (hc : s.cfg.cmd = some cmd) (hr : s.ch.rx_ch.in_range)
    (h : check_response K s = .ret false s') :
    ∃ i, (ring_range s.ch.rx_ch.len s.ch.rx_ch.rear s.ch.rx_ch.front).find?
        (fun j => decide (seq_field K (s.ch.rx_ch.base j 0) = seq_field K (cmd 0))) = some i ∧
      s'.cfg.cmd = some (memcpy_align_4 cmd (s.ch.rx_ch.base i) s.ch.rx_ch.size) := by
  rw [check_response_eq K s cmd hc hr] at h
  cases hfind : (ring_range s.ch.rx_ch.len s.ch.rx_ch.rear s.ch.rx_ch.front).find?
      (fun j => decide (seq_field K (s.ch.rx_ch.base j 0) = seq_field K (cmd 0))) with
  | none => rw [hfind] at h; simp at h
  | some i =>
    rw [hfind] at h
    simp only [Result.ret.injEq, true_and] at h
    subst h
    exact ⟨i, rfl, rfl⟩

/-- C11: the response replaces the request. When `check_response` matches (returns false)
it has copied the whole matched RX slot, `size / 4` words, into the caller's command
buffer. Hence after a round trip on a polling channel (the command was published with
sequence number `q`, the coprocessor step left the status bit set and a response with
sequence number `q` pending) the send returns 0 and the caller's words `0 .. size/4 - 1`
are those of the first pending RX slot carrying `q`: the coprocessor's response, with
its error code in word 1, not the request that was sent. -/
theorem send_returns_response (K : Consts) (spins fuel : Nat) (fw : Shared → Shared)
    (w_mode : Bool) (s s1 : St) (q : Nat)
    (hpoll : s.ch.polling = true) (hresp : s.cfg.response = true)
    (hseq : s.ch.seq_num ≤ 63) (hS : K.ACPM_IPC_PROTOCOL_SEQ_NUM + 6 ≤ 32)
    (htx : tx_section K spins (fuel + 1) s = .ret none s1) (hq : s1.ch.seq_num = q)
    (hbit : (fw_step fw s1).hw.INTSR1 &&& u32 (1 <<< s.ch.id) ≠ 0)
    (hrx : (fw_step fw s1).ch.rx_ch.in_range)
    (hecho : ∃ j ∈ ring_range (fw_step fw s1).ch.rx_ch.len (fw_step fw s1).ch.rx_ch.rear
        (fw_step fw s1).ch.rx_ch.front,
      seq_field K ((fw_step fw s1).ch.rx_ch.base j 0) = q) :
    (∀ (t t' : St) (cmd : Nat → Nat), t.cfg.cmd = some cmd → t.ch.rx_ch.in_range →
      check_response K t = .ret false t' →
      ∃ i ∈ ring_range t.ch.rx_ch.len t.ch.rx_ch.rear t.ch.rx_ch.front,
        seq_field K (t.ch.rx_ch.base i 0) = seq_field K (cmd 0) ∧
        ∃ cmd', t'.cfg.cmd = some cmd' ∧
          (∀ k, k < t.ch.rx_ch.size / 4 → cmd' k = t.ch.rx_ch.base i k) ∧
          (∀ k, t.ch.rx_ch.size / 4 ≤ k → cmd' k = cmd k)) ∧
    ∃ s' i cmd', send_data K spins (fuel + 1) fw w_mode s = .ret 0 s' ∧
      (ring_range (fw_step fw s1).ch.rx_ch.len (fw_step fw s1).ch.rx_ch.rear
        (fw_step fw s1).ch.rx_ch.front).find?
          (fun j => decide (seq_field K ((fw_step fw s1).ch.rx_ch.base j 0) = q)) = some i ∧
      s'.cfg.cmd = some cmd' ∧
      ∀ k, k < (fw_step fw s1).ch.rx_ch.size / 4 → cmd' k = (fw_step fw s1).ch.rx_ch.base i k := by
  constructor
  · intro t t' cmd hc hr h
    obtain ⟨i, hfind, hcmd⟩ := check_response_copies K t t' cmd hc hr h
    refine ⟨i, List.mem_of_find?_eq_some hfind, by simpa using List.find?_some hfind,
      _, hcmd, ?_, ?_⟩
    · intro k hk
      simp [memcpy_align_4, hk]
    · intro k hk
      simp [memcpy_align_4, Nat.not_lt.2 hk]
  -- what the transmit section left behind
  obtain ⟨cmd, q', hWr⟩ : ∃ cmd q', alloc_seq_num s.ch = some q' ∧ Written K s s1 cmd q' := by
    rcases tx_section_cases K spins (fuel + 1) s with ⟨_, h⟩ | ⟨_, _, s2, h, _⟩ |
      ⟨_, _, _, _, s2, h⟩ | ⟨_, cmd, q', _, hq', hcase⟩
    · rw [h] at htx; cases htx
    · rw [h] at htx; cases htx
    · rw [h] at htx; cases htx
    · rcases hcase with ⟨v1, s2, _, h, _⟩ | ⟨s2, h, hW, _⟩ | ⟨h, _⟩
      · rw [h] at htx; cases htx
      · rw [h] at htx; cases htx; exact ⟨cmd, q', hq', hW⟩
      · rw [h] at htx; cases htx
  obtain ⟨halloc, hW⟩ := hWr
  obtain ⟨w1, _, w3, _, _, _, _, _, w9, w10, w11, _⟩ := hW
  have hqq : q' = q := by rw [← hq, w1]
  subst hqq
  have hq63 : q' ≤ 63 := by
    obtain ⟨k, _, hk, _⟩ := seq_num_scan_some _ _ _ _ hseq halloc
    rw [hk]; exact (seq_cycle_range _ _).2
  have hcmd0 : seq_field K (upd (upd (upd (upd cmd 0 (pack_seq_num K (cmd 0) q')) 1 0) 2 0) 3 0 0)
      = q' := by
    simpa [upd] using seq_field_pack K (cmd 0) q' hS hq63
  have hresp1 : s1.cfg.response = true := by rw [w3]; exact hresp
  have hpoll1 : s1.ch.polling = true := by rw [w9]; exact hpoll
  -- the slot that will be matched
  obtain ⟨i, hfind⟩ : ∃ i, (ring_range (fw_step fw s1).ch.rx_ch.len (fw_step fw s1).ch.rx_ch.rear
      (fw_step fw s1).ch.rx_ch.front).find?
        (fun j => decide (seq_field K ((fw_step fw s1).ch.rx_ch.base j 0) = q')) = some i := by
    cases hf : (ring_range (fw_step fw s1).ch.rx_ch.len (fw_step fw s1).ch.rx_ch.rear
      (fw_step fw s1).ch.rx_ch.front).find?
        (fun j => decide (seq_field K ((fw_step fw s1).ch.rx_ch.base j 0) = q')) with
    | none =>
      obtain ⟨j, hj, hm⟩ := hecho
      have := List.find?_eq_none.1 hf j hj
      simp [hm] at this
    | some i => exact ⟨i, rfl⟩
  -- the property of the final state
  let P : St → Prop := fun t => ∃ cmd', t.cfg.cmd = some cmd' ∧
    ∀ k, k < (fw_step fw s1).ch.rx_ch.size / 4 → cmd' k = (fw_step fw s1).ch.rx_ch.base i k
  have hmatch : ∀ hw, ∃ s', check_response K { fw_step fw s1 with hw := hw } = .ret false s' ∧
      P s' := by
    intro hw
    obtain ⟨s', hs', _⟩ := check_response_echo K { fw_step fw s1 with hw := hw } _ q'
      (by simp [fw_step, w3]) hcmd0 hrx hecho
    obtain ⟨i2, hfind2, hcmd2⟩ := check_response_copies K { fw_step fw s1 with hw := hw } s'
      (upd (upd (upd (upd cmd 0 (pack_seq_num K (cmd 0) q')) 1 0) 2 0) 3 0)
      (by simp [fw_step, w3]) hrx hs'
    rw [hcmd0] at hfind2
    have hi : i2 = i := by
      have h3 : some i2 = some i := by rw [← hfind2, ← hfind]
      exact Option.some.inj h3
    subst hi
    refine ⟨s', hs', _, hcmd2, ?_⟩
    intro k hk
    have hk2 : k < ({ fw_step fw s1 with hw := hw } : St).ch.rx_ch.size / 4 := hk
    simp only [memcpy_align_4, hk2, if_true]
  have hfin : ∀ (hw : Hw), ∃ s', send_finish K true { fw_step fw s1 with hw := hw } =
      .ret 0 s' ∧ P s' := by
    intro hw
    unfold send_finish
    obtain ⟨s', hs', hfl⟩ := hmatch hw
    simp only [if_true, hs']
    exact ⟨s', rfl, hfl⟩
  have hepi : ∀ (s2 : St), P s2 → ∃ s', send_finish K false s2 = .ret 0 s' ∧ P s' := by
    intro s2 h2
    obtain ⟨s', hs', _, hcfg⟩ := send_epilogue_ret_cfg s2
    refine ⟨s', ?_, ?_⟩
    · unfold send_finish
      simpa using hs'
    · obtain ⟨c, hc1, hc2⟩ := h2
      exact ⟨c, by rw [hcfg]; exact hc1, hc2⟩
  have key : ∃ s', send_data K spins (fuel + 1) fw w_mode s = .ret 0 s' ∧ P s' := by
    unfold send_data
    rw [htx]
    simp only
    unfold wait_section
    cases hint : s1.ch.interrupt with
    | false =>
      simp only [hpoll1, hresp1, Bool.and_self, Bool.not_false, if_true]
      generalize hR : poll_wait K w_mode (fuel + 1) _ 0 _ = R
      obtain ⟨s', hs', hfl⟩ := hmatch (sched_clock (fw_step fw s1).hw).2
      have hid : (fw_step fw s1).ch.id = s.ch.id := by simp [fw_step, w11]
      have := poll_wait_hit K w_mode fuel _ 0 _ s' R
        (by simpa [sched_clock, hid] using hbit) hs' hR
      subst this
      exact hepi s' hfl
    | true =>
      simp only [hpoll1, hresp1, Bool.and_self, Bool.not_true, Bool.and_false, if_true]
      generalize hR : intr_wait K (fuel + 1) _ _ = R
      rcases intr_wait_hit_st K fuel _
        { fw_step fw s1 with hw := (sched_clock (fw_step fw s1).hw).2 } R
        P (fun hw => hmatch hw) hR with ⟨hw, rfl⟩ | ⟨s', rfl, hfl⟩
      · exact hfin _
      · exact hepi _ (by simpa [St.emit] using hfl)
  obtain ⟨s', hs', c, hc1, hc2⟩ := key
  exact ⟨s', i, c, hs', hfind, hc1, hc2⟩

/-- Witness for C11: the sample polling channel and command, and a coprocessor that
answers with error code 7 in word 1: after the send has returned 0 the caller's buffer
holds the response words 0x10011, 7, 0x55, 0x66 (the request was 0x11, 0x22, 0x33, 0x44). -/
theorem send_returns_response_witness :
    ∃ s' cmd', send_data K0 0 (0 + 1) fw_err false st_resp = .ret 0 s' ∧
      s'.cfg.cmd = some cmd' ∧ cmd' 0 = 0x10011 ∧ cmd' 1 = 7 ∧ cmd' 2 = 0x55 ∧ cmd' 3 = 0x66 := by
  obtain ⟨s', i, cmd', h1, hfind, h2, h3⟩ :=
    (send_returns_response K0 0 0 fw_err false st_resp
      (tx_published K0 st_resp (base_of [[0x11, 0x22, 0x33, 0x44]] 0) 1) 1 rfl rfl (by decide)
      (by decide)
      (tx_section_published K0 0 1 st_resp (base_of [[0x11, 0x22, 0x33, 0x44]] 0) 1 (by decide)
        rfl (by decide) rfl)
      rfl (by decide) (by unfold buff_info.in_range; decide) ⟨0, by decide, by decide⟩).2
  have hi : i = 0 := by
    have h0 : (ring_range 4 0 1).find?
        (fun j => decide (seq_field K0 (base_of [[0x10011, 7, 0x55, 0x66]] j 0) = 1)) = some 0 := by
      decide
    exact Option.some.inj (hfind.symm.trans h0)
  subst hi
  exact ⟨s', cmd', h1, h2, h3 0 (by decide), h3 1 (by decide), h3 2 (by decide), h3 3 (by decide)⟩

/-! ## Hard timeout -/

/-- Without a matching response `check_response` only takes and releases the RX lock. -/
theorem check_response_none (K : Consts) (s : St) (cmd : Nat → Nat) (hc : s.cfg.cmd = some cmd)
    (hr : s.ch.rx_ch.in_range)
    (hno : ∀ j ∈ ring_range s.ch.rx_ch.len s.ch.rx_ch.rear s.ch.rx_ch.front,
      seq_field K (s.ch.rx_ch.base j 0) ≠ seq_field K (cmd 0)) :
    check_response K s =
      .ret true ((s.emit (.spin_lock_rx s.ch.id)).emit (.spin_unlock_rx s.ch.id)) := by
  rw [check_response_eq K s cmd hc hr]
  have hfind : (ring_range s.ch.rx_ch.len s.ch.rx_ch.rear s.ch.rx_ch.front).find?
      (fun j => decide (seq_field K (s.ch.rx_ch.base j 0) = seq_field K (cmd 0))) = none := by
    rw [List.find?_eq_none]
    intro j hj
    simpa using hno j hj
  rw [hfind]

theorem same_but_log_refl (s : St) : s.same_but_log s := ⟨rfl, rfl, rfl, rfl, rfl, rfl⟩

theorem same_but_log_trans {s t u : St} (h1 : s.same_but_log t) (h2 : t.same_but_log u) :
    s.same_but_log u :=
  ⟨h2.1.trans h1.1, h2.2.1.trans h1.2.1, h2.2.2.1.trans h1.2.2.1,
    h2.2.2.2.1.trans h1.2.2.2.1, h2.2.2.2.2.1.trans h1.2.2.2.2.1,
    h2.2.2.2.2.2.trans h1.2.2.2.2.2⟩

theorem same_but_log_emit (s : St) (e : Event) : s.same_but_log (s.emit e) :=
  ⟨rfl, rfl, rfl, rfl, rfl, rfl⟩

theorem same_but_log_nclk (s : St) (n : Nat) :
    s.same_but_log { s with hw := { s.hw with nclk := n } } :=
  ⟨rfl, rfl, rfl, rfl, rfl, rfl⟩

theorem same_but_log_delay (w_mode : Bool) (s : St) : s.same_but_log (poll_delay w_mode s) := by
  unfold poll_delay
  split
  · exact same_but_log_emit _ _
  · exact same_but_log_emit _ _

theorem poll_delay_nclk (w_mode : Bool) (s : St) : (poll_delay w_mode s).hw.nclk = s.hw.nclk := by
  unfold poll_delay
  split <;> rfl

/-- The state `s0`, and with it every state that differs only in the log, has no
matching response pending. -/
theorem check_response_none_of_same (K : Consts) (s0 s : St) (cmd : Nat → Nat)
    (hc : s0.cfg.cmd = some cmd) (hr : s0.ch.rx_ch.in_range)
    (hno : ∀ j ∈ ring_range s0.ch.rx_ch.len s0.ch.rx_ch.rear s0.ch.rx_ch.front,
      seq_field K (s0.ch.rx_ch.base j 0) ≠ seq_field K (cmd 0))
    (hs : s0.same_but_log s) :
    check_response K s =
      .ret true ((s.emit (.spin_lock_rx s.ch.id)).emit (.spin_unlock_rx s.ch.id)) := by
  obtain ⟨a1, a2, _⟩ := hs
  apply check_response_none K s cmd
  · rw [a2]; exact hc
  · rw [a1]; exact hr
  · rw [a1]; exact hno

/-- One round of the polling wait when no matching response is pending. -/
theorem poll_wait_round (K : Consts) (w_mode : Bool) (timeout retry_cnt : Nat) (s : St)
    (hcr : check_response K s =
      .ret true ((s.emit (.spin_lock_rx s.ch.id)).emit (.spin_unlock_rx s.ch.id))) :
    ∃ s1 : St, s.same_but_log s1 ∧ ∀ n,
      poll_wait K w_mode (n + 1) timeout retry_cnt s =
        if timeout < s.hw.clk s.hw.nclk then
          if retry_cnt > 5 then .ret true { s1 with hw := { s1.hw with nclk := s.hw.nclk + 1 } }
          else if retry_cnt > 0 then
            poll_wait K w_mode n (u64 (s.hw.clk (s.hw.nclk + 1) + K.IPC_TIMEOUT))
              (u32 (retry_cnt + 1)) { s1 with hw := { s1.hw with nclk := s.hw.nclk + 1 + 1 } }
          else poll_wait K w_mode n timeout (u32 (retry_cnt + 1))
            { s1 with hw := { s1.hw with nclk := s.hw.nclk + 1 } }
        else poll_wait K w_mode n timeout retry_cnt
          (poll_delay w_mode { s1 with hw := { s1.hw with nclk := s.hw.nclk + 1 } }) := by
  by_cases hI : s.hw.INTSR1 &&& u32 (1 <<< s.ch.id) = 0
  · refine ⟨s, same_but_log_refl s, ?_⟩
    intro n
    rw [poll_wait]
    simp only [hI, if_true, sched_clock]
  · refine ⟨(s.emit (.spin_lock_rx s.ch.id)).emit (.spin_unlock_rx s.ch.id),
      ⟨rfl, rfl, rfl, rfl, rfl, rfl⟩, ?_⟩
    intro n
    rw [poll_wait]
    simp only [hI, if_false, hcr, sched_clock]
    rfl

/-- The polling wait at retry count `retry_cnt` gives up once the clock has passed the
deadline, provided the wait at the next retry count does. -/
theorem poll_wait_expires_step (K : Consts) (w_mode : Bool) (s0 : St) (cmd : Nat → Nat)
    (hc : s0.cfg.cmd = some cmd) (hr : s0.ch.rx_ch.in_range)
    (hno : ∀ j ∈ ring_range s0.ch.rx_ch.len s0.ch.rx_ch.rear s0.ch.rx_ch.front,
      seq_field K (s0.ch.rx_ch.base j 0) ≠ seq_field K (cmd 0))
    (hclk : ∀ k, s0.hw.clk k < s0.hw.clk (k + 1)) (retry_cnt : Nat)
    (hnext : retry_cnt ≤ 5 → ∀ (timeout : Nat) (s : St), s0.same_but_log s →
      ∃ F s', (∀ fuel, F ≤ fuel →
        poll_wait K w_mode fuel timeout (retry_cnt + 1) s = .ret true s') ∧ s0.same_but_log s') :
    ∀ (g timeout : Nat) (s : St), s0.same_but_log s →
      timeout + 1 ≤ s0.hw.clk s.hw.nclk + g →
      ∃ F s', (∀ fuel, F ≤ fuel → poll_wait K w_mode fuel timeout retry_cnt s = .ret true s') ∧
        s0.same_but_log s' := by
  have hexpired : ∀ (timeout : Nat) (s : St), s0.same_but_log s →
      timeout < s.hw.clk s.hw.nclk →
      ∃ F s', (∀ fuel, F ≤ fuel → poll_wait K w_mode fuel timeout retry_cnt s = .ret true s') ∧
        s0.same_but_log s' := by
    intro timeout s hs hexp
    obtain ⟨s1, hs1, hround⟩ := poll_wait_round K w_mode timeout retry_cnt s
      (check_response_none_of_same K s0 s cmd hc hr hno hs)
    by_cases h5 : retry_cnt > 5
    · refine ⟨1, { s1 with hw := { s1.hw with nclk := s.hw.nclk + 1 } }, ?_,
        same_but_log_trans hs (same_but_log_trans hs1 (same_but_log_nclk _ _))⟩
      intro fuel hfuel
      obtain ⟨d, rfl⟩ := Nat.exists_eq_add_of_le hfuel
      rw [Nat.add_comm 1 d, hround d, if_pos hexp, if_pos h5]
    · have hu : u32 (retry_cnt + 1) = retry_cnt + 1 := u32_of_lt (by omega)
      by_cases h0 : retry_cnt > 0
      · obtain ⟨F, s', hF, hs'⟩ := hnext (by omega)
          (u64 (s.hw.clk (s.hw.nclk + 1) + K.IPC_TIMEOUT))
          { s1 with hw := { s1.hw with nclk := s.hw.nclk + 1 + 1 } }
          (same_but_log_trans hs (same_but_log_trans hs1 (same_but_log_nclk _ _)))
        refine ⟨F + 1, s', ?_, hs'⟩
        intro fuel hfuel
        obtain ⟨d, rfl⟩ := Nat.exists_eq_add_of_le hfuel
        have : F + 1 + d = (F + d) + 1 := by omega
        rw [this, hround (F + d), if_pos hexp, if_neg h5, if_pos h0, hu]
        exact hF _ (by omega)
      · obtain ⟨F, s', hF, hs'⟩ := hnext (by omega) timeout
          { s1 with hw := { s1.hw with nclk := s.hw.nclk + 1 } }
          (same_but_log_trans hs (same_but_log_trans hs1 (same_but_log_nclk _ _)))
        refine ⟨F + 1, s', ?_, hs'⟩
        intro fuel hfuel
        obtain ⟨d, rfl⟩ := Nat.exists_eq_add_of_le hfuel
        have : F + 1 + d = (F + d) + 1 := by omega
        rw [this, hround (F + d), if_pos hexp, if_neg h5, if_neg h0, hu]
        exact hF _ (by omega)
  intro g
  induction g with
  | zero =>
    intro timeout s hs hg
    have hclks : s.hw.clk = s0.hw.clk := hs.2.2.1
    exact hexpired timeout s hs (by rw [hclks]; omega)
  | succ g ih =>
    intro timeout s hs hg
    have hclks : s.hw.clk = s0.hw.clk := hs.2.2.1
    by_cases hexp : timeout < s.hw.clk s.hw.nclk
    · exact hexpired timeout s hs hexp
    · obtain ⟨s1, hs1, hround⟩ := poll_wait_round K w_mode timeout retry_cnt s
        (check_response_none_of_same K s0 s cmd hc hr hno hs)
      have hk := hclk s.hw.nclk
      obtain ⟨F, s', hF, hs'⟩ := ih timeout
        (poll_delay w_mode { s1 with hw := { s1.hw with nclk := s.hw.nclk + 1 } })
        (same_but_log_trans hs (same_but_log_trans hs1
          (same_but_log_trans (same_but_log_nclk _ _) (same_but_log_delay _ _))))
        (by rw [poll_delay_nclk]; rw [hclks] at hexp; simp only; omega)
      refine ⟨F + 1, s', ?_, hs'⟩
      intro fuel hfuel
      obtain ⟨d, rfl⟩ := Nat.exists_eq_add_of_le hfuel
      have : F + 1 + d = (F + d) + 1 := by omega
      rw [this, hround (F + d), if_neg hexp]
      exact hF _ (by omega)

/-- With a strictly increasing clock and no matching response pending, the polling wait
ends with the timeout flag set, whatever the deadline and the retry count. -/
theorem poll_wait_expires (K : Consts) (w_mode : Bool) (s0 : St) (cmd : Nat → Nat)
    (hc : s0.cfg.cmd = some cmd) (hr : s0.ch.rx_ch.in_range)
    (hno : ∀ j ∈ ring_range s0.ch.rx_ch.len s0.ch.rx_ch.rear s0.ch.rx_ch.front,
      seq_field K (s0.ch.rx_ch.base j 0) ≠ seq_field K (cmd 0))
    (hclk : ∀ k, s0.hw.clk k < s0.hw.clk (k + 1)) :
    ∀ (r retry_cnt : Nat), 6 ≤ retry_cnt + r → ∀ (timeout : Nat) (s : St), s0.same_but_log s →
      ∃ F s', (∀ fuel, F ≤ fuel → poll_wait K w_mode fuel timeout retry_cnt s = .ret true s') ∧
        s0.same_but_log s' := by
  intro r
  induction r with
  | zero =>
    intro retry_cnt h6 timeout s hs
    exact poll_wait_expires_step K w_mode s0 cmd hc hr hno hclk retry_cnt
      (fun h5 => absurd h5 (by omega)) (timeout + 1) timeout s hs (by omega)
  | succ r ih =>
    intro retry_cnt h6 timeout s hs
    exact poll_wait_expires_step K w_mode s0 cmd hc hr hno hclk retry_cnt
      (fun _ => ih (retry_cnt + 1) (by omega)) (timeout + 1) timeout s hs (by omega)

/-- With a strictly increasing clock and no matching response pending, the interrupt
wait ends with the timeout flag set. -/
theorem intr_wait_expires (K : Consts) (s0 : St) (cmd : Nat → Nat)
    (hc : s0.cfg.cmd = some cmd) (hr : s0.ch.rx_ch.in_range)
    (hno : ∀ j ∈ ring_range s0.ch.rx_ch.len s0.ch.rx_ch.rear s0.ch.rx_ch.front,
      seq_field K (s0.ch.rx_ch.base j 0) ≠ seq_field K (cmd 0))
    (hclk : ∀ k, s0.hw.clk k < s0.hw.clk (k + 1)) (timeout : Nat) :
    ∀ (g : Nat) (s : St), s0.same_but_log s → timeout + 1 ≤ s0.hw.clk s.hw.nclk + g →
      ∃ F s', (∀ fuel, F ≤ fuel → intr_wait K fuel timeout s = .ret true s') ∧
        s0.same_but_log s' := by
  have hexpired : ∀ (s : St), s0.same_but_log s → timeout < s.hw.clk s.hw.nclk →
      ∃ F s', (∀ fuel, F ≤ fuel → intr_wait K fuel timeout s = .ret true s') ∧
        s0.same_but_log s' := by
    intro s hs hexp
    refine ⟨1, { s.emit (.wait_for_completion s.ch.id) with
      hw := (sched_clock (s.emit (.wait_for_completion s.ch.id)).hw).2 }, ?_,
      same_but_log_trans hs ⟨rfl, rfl, rfl, rfl, rfl, rfl⟩⟩
    intro fuel hfuel
    obtain ⟨d, rfl⟩ := Nat.exists_eq_add_of_le hfuel
    rw [Nat.add_comm 1 d, intr_wait]
    simp only
    rw [if_pos (by simpa [sched_clock, St.emit, emit] using hexp)]
  intro g
  induction g with
  | zero =>
    intro s hs hg
    have hclks : s.hw.clk = s0.hw.clk := hs.2.2.1
    exact hexpired s hs (by rw [hclks]; omega)
  | succ g ih =>
    intro s hs hg
    have hclks : s.hw.clk = s0.hw.clk := hs.2.2.1
    by_cases hexp : timeout < s.hw.clk s.hw.nclk
    · exact hexpired s hs hexp
    · have hs2 : s0.same_but_log { s.emit (.wait_for_completion s.ch.id) with
          hw := (sched_clock (s.emit (.wait_for_completion s.ch.id)).hw).2 } :=
        same_but_log_trans hs ⟨rfl, rfl, rfl, rfl, rfl, rfl⟩
      have hcr := check_response_none_of_same K s0 _ cmd hc hr hno hs2
      have hk := hclk s.hw.nclk
      obtain ⟨F, s', hF, hs'⟩ := ih _
        (same_but_log_trans hs2 (same_but_log_trans (same_but_log_emit _ _)
          (same_but_log_emit _ _)))
        (by
          rw [hclks] at hexp
          simp only [St.emit, emit, sched_clock]
          omega)
      refine ⟨F + 1, s', ?_, hs'⟩
      intro fuel hfuel
      obtain ⟨d, rfl⟩ := Nat.exists_eq_add_of_le hfuel
      have : F + 1 + d = (F + d) + 1 := by omega
      rw [this, intr_wait]
      simp only
      rw [if_neg (by simpa [sched_clock, St.emit, emit] using hexp), hcr]
      exact hF _ (by omega)

theorem tx_unlock_exit_clk (s : St) :
    (tx_unlock_exit s).hw.clk = s.hw.clk ∧ (tx_unlock_exit s).hw.nclk = s.hw.nclk := by
  unfold tx_unlock_exit
  cases hb : (s.ch.interrupt && s.cfg.response) <;> simp [St.emit, emit]

/-- The transmit section does not read the clock. -/
theorem tx_section_clk (K : Consts) (spins fuel : Nat) (s s1 : St) (v : Option Int)
    (h : tx_section K spins fuel s = .ret v s1) :
    s1.hw.clk = s.hw.clk ∧ s1.hw.nclk = s.hw.nclk := by
  unfold tx_section at h
  simp only at h
  split at h
  · simp only [Result.ret.injEq] at h
    obtain ⟨_, rfl⟩ := h
    have := tx_unlock_exit_clk
      { (((if s.ch.interrupt && s.cfg.response then s.emit (.mutex_lock_wait s.ch.id) else s).emit
          (.spin_lock_tx s.ch.id)).emit .acpm_log_print) with
        hw := { (((if s.ch.interrupt && s.cfg.response then s.emit (.mutex_lock_wait s.ch.id)
          else s).emit (.spin_lock_tx s.ch.id)).emit .acpm_log_print).hw with
            debug_log_level := 1 } }
    rw [this.1, this.2]
    cases hb : (s.ch.interrupt && s.cfg.response) <;> simp [St.emit, emit]
  · split at h
    · simp only [Result.ret.injEq] at h
      obtain ⟨_, rfl⟩ := h
      have := tx_unlock_exit_clk
        ((if s.ch.interrupt && s.cfg.response then s.emit (.mutex_lock_wait s.ch.id) else s).emit
          (.spin_lock_tx s.ch.id))
      rw [this.1, this.2]
      cases hb : (s.ch.interrupt && s.cfg.response) <;> simp [St.emit, emit]
    · split at h
      · cases h
      · generalize hs3 : ({ ch := _, cfg := _, hw := _ } : St) = s3 at h
        have hs3hw : s3.hw.clk = s.hw.clk ∧ s3.hw.nclk = s.hw.nclk := by
          subst hs3
          cases hb : (s.ch.interrupt && s.cfg.response) <;> simp [St.emit, emit]
        rcases enqueue_indirection_cmd_frame K spins fuel s3 with ⟨v2, d, evs, he⟩ | ⟨he, _⟩
        · rw [he] at h
          simp only at h
          split at h
          · simp only [Result.ret.injEq] at h
            obtain ⟨_, rfl⟩ := h
            have := tx_unlock_exit_clk { s3 with
              ch := { s3.ch with tx_ch := { s3.ch.tx_ch with direction := d } }
              hw := { s3.hw with events := s3.hw.events ++ evs } }
            rw [this.1, this.2]
            exact hs3hw
          · simp only [Result.ret.injEq] at h
            obtain ⟨_, rfl⟩ := h
            exact hs3hw
        · rw [he] at h
          cases h

theorem send_epilogue_spec (s : St) :
    ∃ s', send_epilogue s = .ret 0 s' ∧ s'.ch = s.ch ∧ s'.cfg = s.cfg ∧
      ∃ evs, s'.hw.events = s.hw.events ++ evs := by
  unfold send_epilogue
  split
  · split
    · exact ⟨_, rfl, rfl, rfl, [.queue_work], rfl⟩
    · exact ⟨_, rfl, rfl, rfl, [.acpm_log_idx_update], rfl⟩
  · exact ⟨_, rfl, rfl, rfl, [], by simp⟩

/-- The `if (timeout_flag)` block when the final check finds no response either: the
diagnostics run, the watchdog is expired and the routine returns 0. -/
theorem send_finish_hard_timeout (K : Consts) (s0 s : St) (cmd : Nat → Nat)
    (hc : s0.cfg.cmd = some cmd) (hr : s0.ch.rx_ch.in_range)
    (hno : ∀ j ∈ ring_range s0.ch.rx_ch.len s0.ch.rx_ch.rear s0.ch.rx_ch.front,
      seq_field K (s0.ch.rx_ch.base j 0) ≠ seq_field K (cmd 0))
    (hs : s0.same_but_log s) :
    ∃ s', send_finish K true s = .ret 0 s' ∧ s'.ch = s0.ch ∧ s'.cfg = s0.cfg ∧
      Event.dbg_snapshot_expire_watchdog ∈ s'.hw.events := by
  unfold send_finish
  rw [if_pos rfl, check_response_none_of_same K s0 s cmd hc hr hno hs]
  simp only
  generalize hs6 : St.emit _ Event.dbg_snapshot_expire_watchdog = s6
  obtain ⟨s', h1, h2, h3, evs, h4⟩ := send_epilogue_spec s6
  refine ⟨s', h1, ?_, ?_, ?_⟩
  · rw [h2, ← hs6]
    exact hs.1
  · rw [h3, ← hs6]
    exact hs.2.1
  · rw [h4, ← hs6]
    simp [St.emit, emit]

/-- A response-expected send on a channel that waits (polling or interrupt), with no
matching response pending after the coprocessor step and a strictly increasing clock:
with enough fuel the send returns 0 after the timeout diagnostics, and the channel is
the one the coprocessor step left. -/
theorem send_data_hard_timeout (K : Consts) (spins : Nat) (fw : Shared → Shared) (w_mode : Bool)
    (s s1 : St) (cmd1 : Nat → Nat) (F0 : Nat)
    (htx : ∀ fuel, F0 ≤ fuel → tx_section K spins fuel s = .ret none s1)
    (hresp : s1.cfg.response = true)
    (hwait : s1.ch.polling = true ∨ s1.ch.interrupt = true)
    (hc : s1.cfg.cmd = some cmd1)
    (hrx : (fw_step fw s1).ch.rx_ch.in_range)
    (hno : ∀ j ∈ ring_range (fw_step fw s1).ch.rx_ch.len (fw_step fw s1).ch.rx_ch.rear
        (fw_step fw s1).ch.rx_ch.front,
      seq_field K ((fw_step fw s1).ch.rx_ch.base j 0) ≠ seq_field K (cmd1 0))
    (hclk : ∀ k, s1.hw.clk k < s1.hw.clk (k + 1)) :
    ∃ F s', (∀ fuel, F ≤ fuel → send_data K spins fuel fw w_mode s = .ret 0 s') ∧
      s'.ch = (fw_step fw s1).ch ∧ s'.cfg = s1.cfg ∧
      Event.dbg_snapshot_expire_watchdog ∈ s'.hw.events := by
  have hc0 : (fw_step fw s1).cfg.cmd = some cmd1 := hc
  have hclk0 : ∀ k, (fw_step fw s1).hw.clk k < (fw_step fw s1).hw.clk (k + 1) := hclk
  by_cases hint : s1.ch.interrupt = true
  · -- interrupt wait
    obtain ⟨F, s2, hF, hs2⟩ := intr_wait_expires K (fw_step fw s1) cmd1 hc0 hrx hno hclk0
      (u64 ((sched_clock (fw_step fw s1).hw).1 + K.IPC_TIMEOUT * 5))
      (u64 ((sched_clock (fw_step fw s1).hw).1 + K.IPC_TIMEOUT * 5) + 1)
      { fw_step fw s1 with hw := (sched_clock (fw_step fw s1).hw).2 }
      ⟨rfl, rfl, rfl, rfl, rfl, rfl⟩ (by omega)
    obtain ⟨s', h1, h2, h3, h4⟩ := send_finish_hard_timeout K (fw_step fw s1)
      (s2.emit (.mutex_unlock_wait (fw_step fw s1).ch.id)) cmd1 hc0 hrx hno
      (same_but_log_trans hs2 (same_but_log_emit _ _))
    refine ⟨max F0 F, s', ?_, h2, h3, h4⟩
    intro fuel hfuel
    unfold send_data
    rw [htx fuel (le_trans (le_max_left _ _) hfuel)]
    simp only
    unfold wait_section
    simp only [hint, hresp, Bool.not_true, Bool.and_false, Bool.and_self, if_true]
    rw [if_neg (by simp)]
    rw [hF fuel (le_trans (le_max_right _ _) hfuel)]
    exact h1
  · -- polling wait
    have hint0 : s1.ch.interrupt = false := by
      cases hi : s1.ch.interrupt
      · rfl
      · exact absurd hi hint
    have hpoll : s1.ch.polling = true := by
      rcases hwait with h | h
      · exact h
      · exact absurd h hint
    obtain ⟨F, s2, hF, hs2⟩ := poll_wait_expires K w_mode (fw_step fw s1) cmd1 hc0 hrx hno hclk0
      6 0 (by omega) (u64 ((sched_clock (fw_step fw s1).hw).1 + K.IPC_TIMEOUT))
      { fw_step fw s1 with hw := (sched_clock (fw_step fw s1).hw).2 }
      ⟨rfl, rfl, rfl, rfl, rfl, rfl⟩
    obtain ⟨s', h1, h2, h3, h4⟩ := send_finish_hard_timeout K (fw_step fw s1) s2 cmd1 hc0 hrx hno
      hs2
    refine ⟨max F0 F, s', ?_, h2, h3, h4⟩
    intro fuel hfuel
    unfold send_data
    rw [htx fuel (le_trans (le_max_left _ _) hfuel)]
    simp only
    unfold wait_section
    simp only [hint0, hpoll, hresp, Bool.not_false, Bool.and_self, if_true]
    rw [hF fuel (le_trans (le_max_right _ _) hfuel)]
    exact h1

/-- What the transmit section leaves behind when it has published a command. -/
theorem tx_section_none_facts (K : Consts) (spins fuel : Nat) (s s1 : St)
    (hseq : s.ch.seq_num ≤ 63) (hS : K.ACPM_IPC_PROTOCOL_SEQ_NUM + 6 ≤ 32)
    (htx : tx_section K spins fuel s = .ret none s1) :
    ∃ cmd c1, s.cfg.cmd = some cmd ∧ alloc_seq_num s.ch = some s1.ch.seq_num ∧
      s1.cfg.cmd = some c1 ∧ seq_field K (c1 0) = s1.ch.seq_num ∧
      s1.cfg.response = s.cfg.response ∧ s1.ch.polling = s.ch.polling ∧
      s1.ch.interrupt = s.ch.interrupt ∧ s1.ch.id = s.ch.id ∧
      s1.ch.seq_num_flag = (if s.ch.polling && s.cfg.response
        then upd s.ch.seq_num_flag s1.ch.seq_num (u32 (cmd 0 ||| (1 <<< 31)))
        else s.ch.seq_num_flag) := by
  obtain ⟨cmd, q', hc, hWr⟩ : ∃ cmd q', s.cfg.cmd = some cmd ∧ alloc_seq_num s.ch = some q' ∧
      Written K s s1 cmd q' := by
    rcases tx_section_cases K spins fuel s with ⟨_, h⟩ | ⟨_, _, s2, h, _⟩ |
      ⟨_, _, _, _, s2, h⟩ | ⟨_, cmd, q', hc, hq', hcase⟩
    · rw [h] at htx; cases htx
    · rw [h] at htx; cases htx
    · rw [h] at htx; cases htx
    · rcases hcase with ⟨v1, s2, _, h, _⟩ | ⟨s2, h, hW, _⟩ | ⟨h, _⟩
      · rw [h] at htx; cases htx
      · rw [h] at htx; cases htx; exact ⟨cmd, q', hc, hq', hW⟩
      · rw [h] at htx; cases htx
  obtain ⟨halloc, hW⟩ := hWr
  obtain ⟨w1, w2, w3, _, _, _, _, _, w9, w10, w11, _⟩ := hW
  have hq63 : q' ≤ 63 := by
    obtain ⟨k, _, hk, _⟩ := seq_num_scan_some _ _ _ _ hseq halloc
    rw [hk]; exact (seq_cycle_range _ _).2
  have hcmd0 : seq_field K (upd (upd (upd (upd cmd 0 (pack_seq_num K (cmd 0) q')) 1 0) 2 0) 3 0 0)
      = q' := by
    simpa [upd] using seq_field_pack K (cmd 0) q' hS hq63
  refine ⟨cmd, _, hc, by rw [w1]; exact halloc, by rw [w3], by rw [w1]; exact hcmd0, by rw [w3],
    w9, w10, w11, by rw [w1]; exact w2⟩

/-- C13 (counterexample): on the sample polling channel, with an idle coprocessor, an
empty RX ring and a clock that advances 20 ms per reading, the response-expected send
times out in every retry and in the final check, runs the timeout diagnostics and
returns 0; sequence number 1, which it allocated, is still marked in flight
(flag `0x80000011`), and the next send on the channel is given number 2. -/
theorem hard_timeout_leaves_flag_set :
    (__acpm_ipc_send_data K0 0 20 (fun v => v) ipc_fast 0 (some cfg_resp) false).value = some 0 ∧
      (__acpm_ipc_send_data K0 0 20 (fun v => v) ipc_fast 0 (some cfg_resp) false).final.map
        (fun st => (st.1.channel.map (fun ch => (ch.seq_num, ch.seq_num_flag 1)),
          decide (Event.dbg_snapshot_expire_watchdog ∈ st.1.hw.events))) =
        some ([(1, 0x80000011)], true) ∧
      ((__acpm_ipc_send_data K0 0 20 (fun v => v) ipc_fast 0 (some cfg_resp) false).final.bind
        (fun st => (__acpm_ipc_send_data K0 0 20 (fun v => v) st.1 0 (some cfg0) false).final)).map
        (fun st => st.1.channel.map (fun ch => (ch.seq_num, ch.seq_num_flag 1))) =
        some [(2, 0x80000011)] := by
  refine ⟨by decide, by decide, by decide⟩

/-- C13 (amended): when a response-expected send on a polling channel hard-times-out (the
command was published with sequence number `q`, no response carrying `q` is pending after
the coprocessor step, the clock is strictly increasing), then with enough fuel the send
returns 0 after expiring the watchdog, and the in-flight flag of `q` is still set: the
flag is cleared only by a matching response, so the allocation scan does not hand out
`q` in the resulting channel state. -/
theorem hard_timeout_keeps_flag (K : Consts) (spins : Nat) (fw : Shared → Shared) (w_mode : Bool)
    (s s1 : St) (q F0 : Nat)
    (hpoll : s.ch.polling = true) (hresp : s.cfg.response = true)
    (hseq : s.ch.seq_num ≤ 63) (hS : K.ACPM_IPC_PROTOCOL_SEQ_NUM + 6 ≤ 32)
    (htx : ∀ fuel, F0 ≤ fuel → tx_section K spins fuel s = .ret none s1)
    (hq : s1.ch.seq_num = q)
    (hrx : (fw_step fw s1).ch.rx_ch.in_range)
    (hno : ∀ j ∈ ring_range (fw_step fw s1).ch.rx_ch.len (fw_step fw s1).ch.rx_ch.rear
        (fw_step fw s1).ch.rx_ch.front,
      seq_field K ((fw_step fw s1).ch.rx_ch.base j 0) ≠ q)
    (hclk : ∀ k, s.hw.clk k < s.hw.clk (k + 1)) :
    ∃ F s', (∀ fuel, F ≤ fuel → send_data K spins fuel fw w_mode s = .ret 0 s') ∧
      s'.ch.seq_num = q ∧ s'.ch.seq_num_flag q ≠ 0 ∧ alloc_seq_num s'.ch ≠ some q ∧
      Event.dbg_snapshot_expire_watchdog ∈ s'.hw.events := by
  obtain ⟨cmd, c1, hc, _, hc1, hf1, hr1, hp1, _, _, hflag⟩ :=
    tx_section_none_facts K spins F0 s s1 hseq hS (htx F0 (le_refl _))
  have hclk1 : ∀ k, s1.hw.clk k < s1.hw.clk (k + 1) := by
    rw [(tx_section_clk K spins F0 s s1 none (htx F0 (le_refl _))).1]
    exact hclk
  obtain ⟨F, s', hF, h1, _, h3⟩ := send_data_hard_timeout K spins fw w_mode s s1 c1 F0 htx
    (by rw [hr1]; exact hresp) (Or.inl (by rw [hp1]; exact hpoll)) hc1 hrx
    (by rw [hf1, hq]; exact hno) hclk1
  have hfl : s'.ch.seq_num_flag q ≠ 0 := by
    rw [h1]
    show s1.ch.seq_num_flag q ≠ 0
    rw [hflag, hpoll, hresp, hq]
    simp only [Bool.and_self, if_true, upd]
    exact flag_mark_ne_zero _
  refine ⟨F, s', hF, by rw [h1]; exact hq, hfl, ?_, h3⟩
  intro ha
  exact hfl (seq_num_scan_flag_clear _ _ _ _ ha)

/-- Witness for C13 (amended): the sample polling channel, the sample response-expected
command, an idle coprocessor and the clock whose k-th reading is k. -/
theorem hard_timeout_keeps_flag_witness :
    ∃ F s', (∀ fuel, F ≤ fuel → send_data K0 0 fuel (fun v => v) false st_resp = .ret 0 s') ∧
      s'.ch.seq_num = 1 ∧ s'.ch.seq_num_flag 1 ≠ 0 ∧ alloc_seq_num s'.ch ≠ some 1 ∧
      Event.dbg_snapshot_expire_watchdog ∈ s'.hw.events :=
  hard_timeout_keeps_flag K0 0 (fun v => v) false st_resp
    (tx_published K0 st_resp (base_of [[0x11, 0x22, 0x33, 0x44]] 0) 1) 1 0 rfl rfl (by decide)
    (by decide)
    (fun fuel _ => tx_section_published K0 0 fuel st_resp (base_of [[0x11, 0x22, 0x33, 0x44]] 0) 1
      (by decide) rfl (by decide) rfl)
    rfl (by unfold buff_info.in_range; decide) (by decide) (fun k => Nat.lt_succ_self k)

/-- C12 (counterexample): on the sample polling channel, with an idle coprocessor, an
empty RX ring and a clock that advances 20 ms per reading, the synchronous
response-expected send exhausts its deadline and retries, runs the timeout diagnostics,
and returns 0, not `-ETIMEDOUT`. -/
theorem sync_polling_timeout_returns_zero :
    (acpm_ipc_send_data_sync K0 0 20 (fun v => v) 0 ipc_fast 0 (some cfg_resp)).value = some 0 ∧
      (acpm_ipc_send_data_sync K0 0 20 (fun v => v) 0 ipc_fast 0 (some cfg_resp)).final.map
        (fun st => (st.1.hw.events, st.1.hw.nclk)) =
        some ([.spin_lock_tx 0, .writel 65536 .INTGR0, .spin_unlock_tx 0, .spin_lock_rx 0,
          .spin_unlock_rx 0, .acpm_log_print, .acpm_ramdump, .dump_stack, .msleep 1000,
          .dbg_snapshot_expire_watchdog, .acpm_log_idx_update], 13) := by
  refine ⟨by decide, by decide⟩

/-- A synchronous response-expected send whose command was published with sequence number
`q`, when no response carrying `q` is pending after the coprocessor step and the clock is
strictly increasing: with enough fuel it returns 0 on a polling channel and, on a channel
that is not polling, `-ETIMEDOUT` exactly when the 50 ms completion wait of
`acpm_ipc_send_data_sync` itself times out (`completed = 0`). When the underlying send
waited (polling or interrupt channel) it has exhausted its deadline and expired the
watchdog before returning 0. -/
theorem sync_published_no_response (K : Consts) (spins : Nat) (fw : Shared → Shared)
    (completed : Int)
    (ipc : acpm_ipc_info) (id : Nat) (ch : acpm_ipc_ch) (c : ipc_config) (s1 : St) (q F0 : Nat)
    (hch : ipc.channel[id]? = some ch) (hresp : c.response = true)
    (hseq : ch.seq_num ≤ 63) (hS : K.ACPM_IPC_PROTOCOL_SEQ_NUM + 6 ≤ 32)
    (htx : ∀ fuel, F0 ≤ fuel →
      tx_section K spins fuel { ch := ch, cfg := c, hw := ipc.hw } = .ret none s1)
    (hq : s1.ch.seq_num = q)
    (hrx : (fw_step fw s1).ch.rx_ch.in_range)
    (hno : ∀ j ∈ ring_range (fw_step fw s1).ch.rx_ch.len (fw_step fw s1).ch.rx_ch.rear
        (fw_step fw s1).ch.rx_ch.front,
      seq_field K ((fw_step fw s1).ch.rx_ch.base j 0) ≠ q)
    (hclk : ∀ k, ipc.hw.clk k < ipc.hw.clk (k + 1)) :
    ∃ F ipc' cfg', (∀ fuel, F ≤ fuel →
        acpm_ipc_send_data_sync K spins fuel fw completed ipc id (some c) =
          .ret (if ch.polling = true then 0 else if completed = 0 then -ETIMEDOUT else 0)
            (ipc', some cfg')) ∧
      (ch.polling = true ∨ ch.interrupt = true →
        Event.dbg_snapshot_expire_watchdog ∈ ipc'.hw.events) := by
  obtain ⟨cmd, c1, hc, _, hc1, hf1, hr1, hp1, hi1, _, _⟩ :=
    tx_section_none_facts K spins F0 { ch := ch, cfg := c, hw := ipc.hw } s1 hseq hS
      (htx F0 (le_refl _))
  have hclk1 : ∀ k, s1.hw.clk k < s1.hw.clk (k + 1) := by
    rw [(tx_section_clk K spins F0 _ s1 none (htx F0 (le_refl _))).1]
    exact hclk
  have hresp1 : s1.cfg.response = true := by rw [hr1]; exact hresp
  -- the send itself returns 0
  obtain ⟨F, s', hF, hpol, hrs, hwd⟩ : ∃ F s', (∀ fuel, F ≤ fuel →
      send_data K spins fuel fw false { ch := ch, cfg := c, hw := ipc.hw } = .ret 0 s') ∧
      s'.ch.polling = ch.polling ∧ s'.cfg.response = true ∧
      (ch.polling = true ∨ ch.interrupt = true →
        Event.dbg_snapshot_expire_watchdog ∈ s'.hw.events) := by
    by_cases hwait : ch.polling = true ∨ ch.interrupt = true
    · obtain ⟨F, s', hF, h1, h2, h3⟩ := send_data_hard_timeout K spins fw false _ s1 c1 F0 htx
        hresp1 (by rw [hp1, hi1]; exact hwait) hc1 hrx (by rw [hf1, hq]; exact hno) hclk1
      refine ⟨F, s', hF, ?_, by rw [h2]; exact hresp1, fun _ => h3⟩
      rw [h1]
      exact hp1
    · refine ⟨F0, s1, ?_, hp1, hresp1, fun h => absurd h hwait⟩
      intro fuel hfuel
      have hp0 : s1.ch.polling = false := by
        rw [hp1]
        cases hp : ch.polling
        · rfl
        · exact absurd (Or.inl hp) hwait
      have hi0 : s1.ch.interrupt = false := by
        rw [hi1]
        cases hp : ch.interrupt
        · rfl
        · exact absurd (Or.inr hp) hwait
      unfold send_data
      rw [htx fuel hfuel]
      simp only
      unfold wait_section
      simp [hp0, hi0]
  have hsend : ∀ fuel, F ≤ fuel →
      acpm_ipc_send_data K spins fuel fw ipc id (some c) =
        .ret 0 ({ ipc with channel := ipc.channel.set id s'.ch, hw := s'.hw }, some s'.cfg) := by
    intro fuel hfuel
    unfold acpm_ipc_send_data
    rw [send_at K spins fuel fw ipc id ch c false hch, hF fuel hfuel]
  have hget : (ipc.channel.set id s'.ch)[id]? = some s'.ch :=
    getElem?_set_self_of_some _ _ _ _ hch
  cases hp : ch.polling with
  | true =>
    refine ⟨F, { ipc with channel := ipc.channel.set id s'.ch, hw := s'.hw }, s'.cfg, ?_, ?_⟩
    · intro fuel hfuel
      unfold acpm_ipc_send_data_sync
      rw [hsend fuel hfuel]
      simp only [if_true, hget]
      rw [hpol, hp]
      simp
    · intro h
      exact hwd (by rw [hp]; exact h)
  | false =>
    refine ⟨F,
      { ipc with
        channel := ipc.channel.set id s'.ch
        hw := emit (.wait_for_completion s'.ch.id) s'.hw }, s'.cfg, ?_, ?_⟩
    · intro fuel hfuel
      unfold acpm_ipc_send_data_sync
      rw [hsend fuel hfuel]
      simp only [if_true, hget]
      rw [hpol, hp, hrs]
      by_cases hcomp : completed = 0
      · simp [hcomp]
      · simp [hcomp]
    · intro h
      have := hwd (by rw [hp]; exact h)
      simp [emit, this]

/-! ## The busy probe -/

/-- C21 (counterexample): on the channel `ch_unread` the four ring indices are not all
equal (RX rear is 1, the other three are 0), yet `is_acpm_ipc_busy` returns false. -/
theorem busy_ignores_rx_rear :
    ¬ (ch_unread.tx_ch.front = ch_unread.tx_ch.rear ∧ ch_unread.tx_ch.rear = ch_unread.rx_ch.front ∧
        ch_unread.rx_ch.front = ch_unread.rx_ch.rear) ∧
      is_acpm_ipc_busy { ipc0 with channel := [ch_unread] } 0 = some false := by
  constructor <;> decide

/-- C21 (amended): `is_acpm_ipc_busy` returns true exactly when TX front, TX rear and RX
front are not all equal, and false exactly when these three are equal; RX rear is not
read, so the answer is the same for every value of RX rear. -/
theorem busy_iff_three_indices_differ (ipc : acpm_ipc_info) (ch_id : Nat) (ch : acpm_ipc_ch)
    (hch : ipc.channel[ch_id]? = some ch) :
    (is_acpm_ipc_busy ipc ch_id = some true ↔
        ¬ (ch.tx_ch.front = ch.tx_ch.rear ∧ ch.tx_ch.rear = ch.rx_ch.front)) ∧
      (is_acpm_ipc_busy ipc ch_id = some false ↔
        (ch.tx_ch.front = ch.tx_ch.rear ∧ ch.tx_ch.rear = ch.rx_ch.front)) ∧
      ∀ r : Nat, is_acpm_ipc_busy (put_channel ipc ch_id (with_rx_rear ch r)) ch_id =
        is_acpm_ipc_busy ipc ch_id := by
  have h1 : is_acpm_ipc_busy ipc ch_id = some (!(decide (ch.tx_ch.front = ch.tx_ch.rear) &&
      decide (ch.tx_ch.front = ch.rx_ch.front))) := by
    simp [is_acpm_ipc_busy, hch]
  refine ⟨?_, ?_, ?_⟩
  · rw [h1]
    simp only [Option.some.injEq, Bool.not_eq_true', Bool.and_eq_false_iff, decide_eq_false_iff_not]
    constructor
    · rintro (h | h) hc
      · exact h hc.1
      · exact h (hc.1.trans hc.2)
    · intro hc
      by_cases ha : ch.tx_ch.front = ch.tx_ch.rear
      · exact Or.inr (fun hb => hc ⟨ha, ha.symm.trans hb⟩)
      · exact Or.inl ha
  · rw [h1]
    simp only [Option.some.injEq, Bool.not_eq_false', Bool.and_eq_true, decide_eq_true_eq]
    constructor
    · rintro ⟨ha, hb⟩
      exact ⟨ha, ha.symm.trans hb⟩
    · rintro ⟨ha, hb⟩
      exact ⟨ha, ha.trans hb⟩
  · intro r
    rw [h1]
    simp [is_acpm_ipc_busy, put_channel, with_rx_rear, getElem?_set_self_of_some _ _ _ _ hch]

/-- Witness for C21 (amended): the sample channel, whose indices are all 0. -/
theorem busy_iff_three_indices_differ_witness :
    (is_acpm_ipc_busy ipc0 0 = some true ↔
        ¬ (ch0.tx_ch.front = ch0.tx_ch.rear ∧ ch0.tx_ch.rear = ch0.rx_ch.front)) ∧
      (is_acpm_ipc_busy ipc0 0 = some false ↔
        (ch0.tx_ch.front = ch0.tx_ch.rear ∧ ch0.tx_ch.rear = ch0.rx_ch.front)) ∧
      ∀ r : Nat, is_acpm_ipc_busy (put_channel ipc0 0 (with_rx_rear ch0 r)) 0 =
        is_acpm_ipc_busy ipc0 0 :=
  busy_iff_three_indices_differ ipc0 0 ch0 rfl

/-! ## Properties kept by the wait of a send -/

theorem stable_clock {K : Consts} {P : St → Prop} (hP : Stable K P) (s : St) (h : P s) :
    P { s with hw := (sched_clock s.hw).2 } :=
  hP.1 s _ h rfl

theorem stable_delay {K : Consts} {P : St → Prop} (hP : Stable K P) (w_mode : Bool) (s : St)
    (h : P s) : P (poll_delay w_mode s) := by
  unfold poll_delay
  split
  · exact hP.2.1 s _ h rfl
  · exact hP.2.1 s _ h rfl

theorem poll_wait_stable {K : Consts} {P : St → Prop} (hP : Stable K P) (w_mode : Bool) :
    ∀ (fuel timeout retry_cnt : Nat) (s : St), P s →
      (poll_wait K w_mode fuel timeout retry_cnt s).holds (fun _ s' => P s') := by
  intro fuel
  induction fuel with
  | zero => intro _ _ s _; simp [poll_wait, Result.holds]
  | succ n ih =>
    intro timeout retry_cnt s hs
    have hround : ∀ s1 : St, P s1 →
        Result.holds (fun _ s' => P s')
          (if timeout < (sched_clock s1.hw).1 then
            if retry_cnt > 5 then .ret true { s1 with hw := (sched_clock s1.hw).2 }
            else if retry_cnt > 0 then
              poll_wait K w_mode n
                (u64 ((sched_clock (sched_clock s1.hw).2).1 + K.IPC_TIMEOUT)) (u32 (retry_cnt + 1))
                { s1 with hw := (sched_clock (sched_clock s1.hw).2).2 }
            else poll_wait K w_mode n timeout (u32 (retry_cnt + 1))
              { s1 with hw := (sched_clock s1.hw).2 }
          else poll_wait K w_mode n timeout retry_cnt
            (poll_delay w_mode { s1 with hw := (sched_clock s1.hw).2 })) := by
      intro s1 h1
      split
      · split
        · exact stable_clock hP s1 h1
        · split
          · exact ih _ _ _ (hP.1 s1 _ h1 rfl)
          · exact ih _ _ _ (stable_clock hP s1 h1)
      · exact ih _ _ _ (stable_delay hP w_mode _ (stable_clock hP s1 h1))
    rw [poll_wait]
    simp only
    split
    · exact hround s hs
    · have hc := hP.2.2 s hs
      cases hcr : check_response K s with
      | ret b s1 =>
        rw [hcr] at hc
        simp only [Result.holds] at hc
        cases b with
        | true => exact hround s1 hc
        | false => simpa [Result.holds] using hc
      | bug s1 => rw [hcr] at hc; exact absurd hc (by simp [Result.holds])
      | fault => simp [Result.holds]
      | hang => simp [Result.holds]

theorem intr_wait_stable {K : Consts} {P : St → Prop} (hP : Stable K P) :
    ∀ (fuel timeout : Nat) (s : St), P s →
      (intr_wait K fuel timeout s).holds (fun _ s' => P s') := by
  intro fuel
  induction fuel with
  | zero => intro _ s _; simp [intr_wait, Result.holds]
  | succ n ih =>
    intro timeout s hs
    have hs2 : P { s.emit (.wait_for_completion s.ch.id) with
        hw := (sched_clock (s.emit (.wait_for_completion s.ch.id)).hw).2 } :=
      stable_clock hP _ (hP.2.1 s _ hs rfl)
    rw [intr_wait]
    simp only
    split
    · exact hs2
    · have hc := hP.2.2 _ hs2
      cases hcr : check_response K { s.emit (.wait_for_completion s.ch.id) with
          hw := (sched_clock (s.emit (.wait_for_completion s.ch.id)).hw).2 } with
      | ret b s1 =>
        rw [hcr] at hc
        simp only [Result.holds] at hc
        cases b with
        | true => exact ih _ _ hc
        | false => simpa [Result.holds] using hc
      | bug s1 => rw [hcr] at hc; exact absurd hc (by simp [Result.holds])
      | fault => simp [Result.holds]
      | hang => simp [Result.holds]

theorem send_epilogue_stable {K : Consts} {P : St → Prop} (hP : Stable K P) (s : St) (h : P s) :
    (send_epilogue s).holds (fun v s' => v = 0 ∧ P s') := by
  unfold send_epilogue
  split
  · split
    · exact ⟨rfl, hP.2.1 s _ h rfl⟩
    · exact ⟨rfl, hP.2.1 s _ h rfl⟩
  · exact ⟨rfl, h⟩

theorem send_finish_stable {K : Consts} {P : St → Prop} (hP : Stable K P) (flag : Bool) (s : St)
    (h : P s) : (send_finish K flag s).holds (fun v s' => v = 0 ∧ P s') := by
  unfold send_finish
  cases flag with
  | false => simpa using send_epilogue_stable hP s h
  | true =>
    simp only [if_true]
    have hc := hP.2.2 s h
    cases hcr : check_response K s with
    | ret b s1 =>
      rw [hcr] at hc
      simp only [Result.holds] at hc
      cases b with
      | false => exact ⟨rfl, hc⟩
      | true =>
        simp only
        have h3 : P { s1 with hw := { s1.hw with debug_log_level := 1 } } := hP.1 s1 _ hc rfl
        have h4 := hP.2.1 _ Event.acpm_log_print h3 rfl
        have h5 : P { (({ s1 with hw := { s1.hw with debug_log_level := 1 } } : St).emit
            .acpm_log_print) with hw := { (({ s1 with hw := { s1.hw with
              debug_log_level := 1 } } : St).emit .acpm_log_print).hw with
                debug_log_level := 0 } } := hP.1 _ _ h4 rfl
        have h6 := hP.2.1 _ Event.acpm_ramdump h5 rfl
        have h7 := hP.2.1 _ Event.dump_stack h6 rfl
        have h8 := hP.2.1 _ (Event.msleep 1000) h7 rfl
        have h9 := hP.2.1 _ Event.dbg_snapshot_expire_watchdog h8 rfl
        exact send_epilogue_stable hP _ h9
    | bug s1 => rw [hcr] at hc; exact absurd hc (by simp [Result.holds])
    | fault => simp [Result.holds]
    | hang => simp [Result.holds]

/-- The wait section keeps a stable property `P`; on the interrupt path, where the
round-trip lock is released after the wait, `P` turns into `Q` at the release. -/
theorem wait_section_stable {K : Consts} {P Q : St → Prop} (hP : Stable K P) (hQ : Stable K Q)
    (fuel : Nat) (fw : Shared → Shared) (w_mode : Bool) (s0 : St)
    (hfw : ∀ s, P s → P (fw_step fw s))
    (hrel : ∀ s, P s → Q (s.emit (.mutex_unlock_wait s0.ch.id)))
    (h : P s0) :
    (wait_section K fuel fw w_mode s0).holds (fun v s' => v = 0 ∧
      ((s0.ch.interrupt && s0.cfg.response) = true → Q s') ∧
      ((s0.ch.interrupt && s0.cfg.response) = false → P s')) := by
  unfold wait_section
  by_cases h1 : (s0.ch.polling && s0.cfg.response && !s0.ch.interrupt) = true
  · rw [if_pos h1]
    simp only
    have hni : (s0.ch.interrupt && s0.cfg.response) = false := by
      cases hi : s0.ch.interrupt
      · rfl
      · rw [hi] at h1; simp at h1
    have hp := poll_wait_stable hP w_mode fuel
      (u64 ((sched_clock (fw_step fw s0).hw).1 + K.IPC_TIMEOUT)) 0
      { fw_step fw s0 with hw := (sched_clock (fw_step fw s0).hw).2 }
      (stable_clock hP _ (hfw s0 h))
    cases hr : poll_wait K w_mode fuel
      (u64 ((sched_clock (fw_step fw s0).hw).1 + K.IPC_TIMEOUT)) 0
      { fw_step fw s0 with hw := (sched_clock (fw_step fw s0).hw).2 } with
    | ret flag s1 =>
      rw [hr] at hp
      exact holds_mono (fun v s' hv => ⟨hv.1, fun hc => absurd (hni.symm.trans hc) (by simp),
        fun _ => hv.2⟩) (send_finish_stable hP flag s1 hp)
    | bug s1 => rw [hr] at hp; exact absurd hp (by simp [Result.holds])
    | fault => simp [Result.holds]
    | hang => simp [Result.holds]
  · rw [if_neg h1]
    by_cases h2 : (s0.ch.interrupt && s0.cfg.response) = true
    · rw [if_pos h2]
      simp only
      have hp := intr_wait_stable hP fuel
        (u64 ((sched_clock (fw_step fw s0).hw).1 + K.IPC_TIMEOUT * 5))
        { fw_step fw s0 with hw := (sched_clock (fw_step fw s0).hw).2 }
        (stable_clock hP _ (hfw s0 h))
      cases hr : intr_wait K fuel
        (u64 ((sched_clock (fw_step fw s0).hw).1 + K.IPC_TIMEOUT * 5))
        { fw_step fw s0 with hw := (sched_clock (fw_step fw s0).hw).2 } with
      | ret flag s1 =>
        rw [hr] at hp
        exact holds_mono (fun v s' hv => ⟨hv.1, fun _ => hv.2,
          fun hc => absurd (h2.symm.trans hc) (by simp)⟩)
          (send_finish_stable hQ flag _ (hrel s1 hp))
      | bug s1 => rw [hr] at hp; exact absurd hp (by simp [Result.holds])
      | fault => simp [Result.holds]
      | hang => simp [Result.holds]
    · rw [if_neg h2]
      exact ⟨rfl, fun hc => absurd hc h2, fun _ => h⟩

/-! ## Lock events -/

theorem rx_scan_match (K : Consts) (rx : buff_info) (c front : Nat) :
    ∀ (fuel i j : Nat), rx_scan K rx c front fuel i = some (some j) →
      seq_field K (rx.base j 0) = seq_field K c := by
  intro fuel
  induction fuel with
  | zero => intro i j h; simp [rx_scan] at h
  | succ n ih =>
    intro i j h
    rw [rx_scan] at h
    split at h
    · cases h
    · split at h
      · next hm =>
        simp only [Option.some.injEq] at h
        rw [← h]
        exact hm
      · exact ih _ _ h

/-- Every way `check_response` can end. -/
theorem check_response_forms (K : Consts) (s : St) :
    check_response K s = .fault ∨ check_response K s = .hang ∨
      check_response K s =
        .ret true ((s.emit (.spin_lock_rx s.ch.id)).emit (.spin_unlock_rx s.ch.id)) ∨
      ∃ cmd i, s.cfg.cmd = some cmd ∧
        seq_field K (s.ch.rx_ch.base i 0) = seq_field K (cmd 0) ∧
        check_response K s = .ret false
          ((check_response_hit K (s.emit (.spin_lock_rx s.ch.id)) cmd i).emit
            (.spin_unlock_rx s.ch.id)) := by
  unfold check_response
  cases hc : s.cfg.cmd with
  | none =>
    simp only
    split
    · exact Or.inr (Or.inr (Or.inl rfl))
    · exact Or.inl rfl
  | some cmd =>
    simp only
    cases hr : rx_scan K s.ch.rx_ch (cmd 0) s.ch.rx_ch.front (s.ch.rx_ch.len + 2)
        s.ch.rx_ch.rear with
    | none => exact Or.inr (Or.inl rfl)
    | some r =>
      cases r with
      | none => exact Or.inr (Or.inr (Or.inl rfl))
      | some i =>
        exact Or.inr (Or.inr (Or.inr ⟨cmd, i, rfl, rx_scan_match K _ _ _ _ _ _ hr, rfl⟩))

theorem callback_events_quiet (list : List callback_info) (cmd : List Nat) (size : Nat) :
    (callback_events list cmd size).filter Event.is_lock = [] := by
  rw [List.filter_eq_nil_iff]
  intro e he
  unfold callback_events at he
  obtain ⟨cb, _, hcb⟩ := List.mem_filterMap.1 he
  cases hf : cb.ipc_callback with
  | none => rw [hf] at hcb; cases hcb
  | some f =>
    rw [hf] at hcb
    simp only [Option.map_some', Option.some.injEq] at hcb
    rw [← hcb]
    simp [Event.is_lock]

/-- The events that a match of `check_response` adds between taking and releasing the
receive lock: the callbacks and, on a channel without interrupt whose RX ring became
empty, the pending-clear write. -/
theorem check_response_hit_events (K : Consts) (s : St) (cmd : Nat → Nat) (i : Nat) :
    ∃ evs, (check_response_hit K s cmd i).hw.events = s.hw.events ++ evs ∧
      evs.filter Event.is_lock = [] := by
  unfold check_response_hit
  simp only
  rw [run_callbacks_eq]
  split
  · refine ⟨callback_events s.ch.list ((List.range (s.ch.rx_ch.size / 4)).map
      (memcpy_align_4 s.ch.cmd (s.ch.rx_ch.base i) s.ch.rx_ch.size)) s.ch.rx_ch.size ++
      [Event.writel (u32 (1 <<< s.ch.id)) Reg.INTCR1], by simp [write_INTCR1, emit], ?_⟩
    rw [List.filter_append, callback_events_quiet]
    simp [Event.is_lock]
  · exact ⟨_, rfl, callback_events_quiet _ _ _⟩

theorem lock_trace_emit {base locks : List Event} {s : St} (h : lock_trace base locks s)
    (e : Event) :
    lock_trace base (locks ++ (if e.is_lock then [e] else [])) (s.emit e) := by
  obtain ⟨evs, h1, h2⟩ := h
  refine ⟨evs ++ [e], by simp [St.emit, emit, h1], ?_⟩
  rw [List.filter_append, h2]
  cases he : e.is_lock <;> simp [he]

theorem lock_trace_quiet {base locks : List Event} {s : St} (h : lock_trace base locks s)
    (s' : St) (evs : List Event) (h1 : s'.hw.events = s.hw.events ++ evs)
    (h2 : evs.filter Event.is_lock = []) : lock_trace base locks s' := by
  obtain ⟨evs0, h3, h4⟩ := h
  refine ⟨evs0 ++ evs, by rw [h1, h3, List.append_assoc], ?_⟩
  rw [List.filter_append, h4, h2, List.append_nil]

/-- The lock events of a log are not changed by the wait of a send. -/
theorem lock_trace_stable (K : Consts) (base locks : List Event) :
    Stable K (lock_trace base locks) := by
  refine ⟨?_, ?_, ?_⟩
  · intro s hw h he
    exact lock_trace_quiet h _ [] (by simp [he]) rfl
  · intro s e h he
    have := lock_trace_emit h e
    rw [he] at this
    simpa using this
  · intro s h
    have hq : lock_trace base locks (s.emit (.spin_lock_rx s.ch.id)) := by
      simpa [Event.is_lock] using lock_trace_emit h (.spin_lock_rx s.ch.id)
    rcases check_response_forms K s with hf | hf | hf | ⟨cmd, i, _, _, hf⟩
    · rw [hf]; trivial
    · rw [hf]; trivial
    · rw [hf]
      simpa [Event.is_lock] using lock_trace_emit hq (.spin_unlock_rx s.ch.id)
    · rw [hf]
      obtain ⟨evs, h1, h2⟩ := check_response_hit_events K (s.emit (.spin_lock_rx s.ch.id)) cmd i
      have h3 := lock_trace_quiet hq (check_response_hit K (s.emit (.spin_lock_rx s.ch.id)) cmd i)
        evs h1 h2
      simpa [Event.is_lock] using lock_trace_emit h3 (.spin_unlock_rx s.ch.id)

theorem enqueue_indirection_cmd_log (K : Consts) (spins fuel : Nat) (s : St) :
    (∃ v d evs, enqueue_indirection_cmd K spins fuel s = .ret v
      { s with
        ch := { s.ch with tx_ch := { s.ch.tx_ch with direction := d } }
        hw := { s.hw with events := s.hw.events ++ evs } } ∧
      (evs = [] ∨ evs = [Event.acpm_log_print])) ∨
    (enqueue_indirection_cmd K spins fuel s = .hang ∧ s.cfg.indirection = true) := by
  unfold enqueue_indirection_cmd
  by_cases hind : s.cfg.indirection = true
  · rw [if_pos hind]
    cases indirection_scan K spins s.ch.tx_ch s.ch.tx_ch.front fuel s.ch.tx_ch.rear with
    | none => exact Or.inr ⟨rfl, hind⟩
    | some b =>
      left
      cases b with
      | true => exact ⟨-ETIMEDOUT, s.ch.tx_ch.direction, [.acpm_log_print], rfl, Or.inr rfl⟩
      | false =>
        cases s.cfg.indirection_base with
        | none => exact ⟨-EINVAL, s.ch.tx_ch.direction, [], by simp, Or.inl rfl⟩
        | some src =>
          exact ⟨0, memcpy_align_4 s.ch.tx_ch.direction src s.cfg.indirection_size, [],
            by simp, Or.inl rfl⟩
  · left
    rw [if_neg hind]
    exact ⟨0, s.ch.tx_ch.direction, [], by simp, Or.inl rfl⟩

/-- The lock events of the transmit section: the round-trip lock is taken first on an
interrupt channel with a response expected, the transmit lock is taken and released
once, and the round-trip lock is released again exactly on the early exits. Only the
publishing path rings the doorbell. -/
theorem tx_section_locks (K : Consts) (spins fuel : Nat) (s s1 : St) (v : Option Int)
    (h : tx_section K spins fuel s = .ret v s1) :
    s1.ch.id = s.ch.id ∧ s1.ch.interrupt = s.ch.interrupt ∧ s1.cfg.response = s.cfg.response ∧
      ∃ evs, s1.hw.events = s.hw.events ++ evs ∧
        evs.filter Event.is_lock =
          (if (s.ch.interrupt && s.cfg.response) = true then [Event.mutex_lock_wait s.ch.id]
            else []) ++
          [Event.spin_lock_tx s.ch.id, Event.spin_unlock_tx s.ch.id] ++
          (if (s.ch.interrupt && s.cfg.response) = true ∧ v ≠ none
            then [Event.mutex_unlock_wait s.ch.id] else []) ∧
        (v ≠ none → ∀ val, Event.writel val Reg.INTGR0 ∉ evs) := by
  unfold tx_section at h
  simp only at h
  split at h
  · simp only [Result.ret.injEq] at h
    obtain ⟨rfl, rfl⟩ := h
    refine ⟨?_, ?_, ?_, ?_⟩
    · unfold tx_unlock_exit
      cases hb : (s.ch.interrupt && s.cfg.response) <;> simp [St.emit, hb]
    · unfold tx_unlock_exit
      cases hb : (s.ch.interrupt && s.cfg.response) <;> simp [St.emit, hb]
    · unfold tx_unlock_exit
      cases hb : (s.ch.interrupt && s.cfg.response) <;> simp [St.emit, hb]
    · unfold tx_unlock_exit
      cases hb : (s.ch.interrupt && s.cfg.response)
      · exact ⟨[.spin_lock_tx s.ch.id, .acpm_log_print, .spin_unlock_tx s.ch.id],
          by simp [St.emit, emit, hb], by simp [Event.is_lock], by simp⟩
      · exact ⟨[.mutex_lock_wait s.ch.id, .spin_lock_tx s.ch.id, .acpm_log_print,
          .spin_unlock_tx s.ch.id, .mutex_unlock_wait s.ch.id],
          by simp [St.emit, emit, hb], by simp [Event.is_lock], by simp⟩
  · split at h
    · simp only [Result.ret.injEq] at h
      obtain ⟨rfl, rfl⟩ := h
      refine ⟨?_, ?_, ?_, ?_⟩
      · unfold tx_unlock_exit
        cases hb : (s.ch.interrupt && s.cfg.response) <;> simp [St.emit, hb]
      · unfold tx_unlock_exit
        cases hb : (s.ch.interrupt && s.cfg.response) <;> simp [St.emit, hb]
      · unfold tx_unlock_exit
        cases hb : (s.ch.interrupt && s.cfg.response) <;> simp [St.emit, hb]
      · unfold tx_unlock_exit
        cases hb : (s.ch.interrupt && s.cfg.response)
        · exact ⟨[.spin_lock_tx s.ch.id, .spin_unlock_tx s.ch.id],
            by simp [St.emit, emit, hb], by simp [Event.is_lock], by simp⟩
        · exact ⟨[.mutex_lock_wait s.ch.id, .spin_lock_tx s.ch.id,
            .spin_unlock_tx s.ch.id, .mutex_unlock_wait s.ch.id],
            by simp [St.emit, emit, hb], by simp [Event.is_lock], by simp⟩
    · split at h
      · cases h
      · generalize hs3 : ({ ch := _, cfg := _, hw := _ } : St) = s3 at h
        have hs3id : s3.ch.id = s.ch.id ∧ s3.ch.interrupt = s.ch.interrupt ∧
            s3.cfg.response = s.cfg.response := by
          subst hs3
          exact ⟨rfl, rfl, rfl⟩
        have hs3ev : s3.hw.events = s.hw.events ++
            ((if (s.ch.interrupt && s.cfg.response) = true then [Event.mutex_lock_wait s.ch.id]
              else []) ++ [Event.spin_lock_tx s.ch.id]) := by
          subst hs3
          cases hb : (s.ch.interrupt && s.cfg.response) <;> simp [St.emit, emit]
        rcases enqueue_indirection_cmd_log K spins fuel s3 with ⟨v2, d, evs, he, hevs⟩ | ⟨he, _⟩
        · rw [he] at h
          simp only at h
          split at h
          · simp only [Result.ret.injEq] at h
            obtain ⟨rfl, rfl⟩ := h
            refine ⟨?_, ?_, ?_, ?_⟩
            · unfold tx_unlock_exit
              simp only
              split <;> simp [St.emit, hs3id.1]
            · unfold tx_unlock_exit
              simp only
              split <;> simp [St.emit, hs3id.2.1]
            · unfold tx_unlock_exit
              simp only
              split <;> simp [St.emit, hs3id.2.2]
            · unfold tx_unlock_exit
              simp only [hs3id.1, hs3id.2.1, hs3id.2.2]
              cases hb : (s.ch.interrupt && s.cfg.response)
              · refine ⟨[.spin_lock_tx s.ch.id] ++ evs ++ [.spin_unlock_tx s.ch.id], ?_, ?_, ?_⟩
                · simp [St.emit, emit, hs3ev, hb]
                · rcases hevs with rfl | rfl <;> simp [Event.is_lock]
                · rcases hevs with rfl | rfl <;> simp
              · refine ⟨[.mutex_lock_wait s.ch.id, .spin_lock_tx s.ch.id] ++ evs ++
                  [.spin_unlock_tx s.ch.id, .mutex_unlock_wait s.ch.id], ?_, ?_, ?_⟩
                · simp [St.emit, emit, hs3ev, hb]
                · rcases hevs with rfl | rfl <;> simp [Event.is_lock]
                · rcases hevs with rfl | rfl <;> simp
          · simp only [Result.ret.injEq] at h
            obtain ⟨rfl, rfl⟩ := h
            refine ⟨hs3id.1, hs3id.2.1, hs3id.2.2, ?_⟩
            cases hb : (s.ch.interrupt && s.cfg.response)
            · refine ⟨[.spin_lock_tx s.ch.id] ++ evs ++
                [.writel (u32 (u32 (1 <<< s.ch.id) <<< 16)) .INTGR0, .spin_unlock_tx s.ch.id],
                ?_, ?_, ?_⟩
              · simp [St.emit, emit, hs3ev, hb]
              · rcases hevs with rfl | rfl <;> simp [Event.is_lock]
              · intro hc; exact absurd rfl hc
            · refine ⟨[.mutex_lock_wait s.ch.id, .spin_lock_tx s.ch.id] ++ evs ++
                [.writel (u32 (u32 (1 <<< s.ch.id) <<< 16)) .INTGR0, .spin_unlock_tx s.ch.id],
                ?_, ?_, ?_⟩
              · simp [St.emit, emit, hs3ev, hb]
              · rcases hevs with rfl | rfl <;> simp [Event.is_lock]
              · intro hc; exact absurd rfl hc
        · rw [he] at h
          cases h

/-- The lock events of one send that returns, at the level of one channel. -/
theorem send_data_locks (K : Consts) (spins fuel : Nat) (fw : Shared → Shared) (w_mode : Bool)
    (s s' : St) (v : Int) (h : send_data K spins fuel fw w_mode s = .ret v s') :
    lock_trace s.hw.events
      (if (s.ch.interrupt && s.cfg.response) = true then
        [Event.mutex_lock_wait s.ch.id, Event.spin_lock_tx s.ch.id, Event.spin_unlock_tx s.ch.id,
          Event.mutex_unlock_wait s.ch.id]
      else [Event.spin_lock_tx s.ch.id, Event.spin_unlock_tx s.ch.id]) s' := by
  unfold send_data at h
  cases htx : tx_section K spins fuel s with
  | ret r s1 =>
    rw [htx] at h
    obtain ⟨hid, hint, hresp, evs, hev, hfil, _⟩ := tx_section_locks K spins fuel s s1 r htx
    cases r with
    | some v1 =>
      simp only [Result.ret.injEq] at h
      obtain ⟨_, rfl⟩ := h
      refine ⟨evs, hev, ?_⟩
      rw [hfil]
      cases hb : (s.ch.interrupt && s.cfg.response) <;> simp
    | none =>
      simp only at h
      have h1 : lock_trace s.hw.events
          ((if (s.ch.interrupt && s.cfg.response) = true then [Event.mutex_lock_wait s.ch.id]
            else []) ++ [Event.spin_lock_tx s.ch.id, Event.spin_unlock_tx s.ch.id]) s1 := by
        refine ⟨evs, hev, ?_⟩
        rw [hfil]
        simp
      have hw := wait_section_stable (lock_trace_stable K s.hw.events _)
        (lock_trace_stable K s.hw.events (((if (s.ch.interrupt && s.cfg.response) = true then
          [Event.mutex_lock_wait s.ch.id] else []) ++
            [Event.spin_lock_tx s.ch.id, Event.spin_unlock_tx s.ch.id]) ++
            [Event.mutex_unlock_wait s.ch.id])) fuel fw w_mode s1
        (fun t ht => ht)
        (fun t ht => by
          have := lock_trace_emit ht (.mutex_unlock_wait s1.ch.id)
          rw [hid] at this ⊢
          simpa [Event.is_lock] using this)
        h1
      rw [h] at hw
      obtain ⟨_, hq, hp⟩ := hw
      rw [hint, hresp] at hq hp
      cases hb : (s.ch.interrupt && s.cfg.response)
      · simpa [hb] using hp hb
      · simpa [hb] using hq hb
  | bug s1 => rw [htx] at h; cases h
  | fault => rw [htx] at h; cases h
  | hang => rw [htx] at h; cases h

/-- C30: every return of `__acpm_ipc_send_data` leaves the locks balanced. Among the
events that a returning call adds to the log, the lock events are: none when the entry
guard rejects the call; otherwise the transmit lock taken once and released once and,
exactly when the channel is an interrupt channel and a response is expected, the
round-trip wait lock taken once before the transmit lock and released once after it.
This covers the full-ring, missing-payload, indirect-failure, no-wait and post-wait
returns, which are all the returns of the routine. -/
theorem send_releases_locks (K : Consts) (spins fuel : Nat) (fw : Shared → Shared)
    (ipc : acpm_ipc_info) (id : Nat) (cfg : Option ipc_config) (w_mode : Bool) (v : Int)
    (st : acpm_ipc_info × Option ipc_config)
    (h : __acpm_ipc_send_data K spins fuel fw ipc id cfg w_mode = .ret v st) :
    ∃ evs, st.1.hw.events = ipc.hw.events ++ evs ∧
      evs.filter Event.is_lock =
        if id ≥ ipc.num_channels ∧ cfg.isNone = true then []
        else match ipc.channel[id]? with
          | none => []
          | some ch =>
            if wait_lock_taken ch cfg = true then
              [Event.mutex_lock_wait ch.id, Event.spin_lock_tx ch.id, Event.spin_unlock_tx ch.id,
                Event.mutex_unlock_wait ch.id]
            else [Event.spin_lock_tx ch.id, Event.spin_unlock_tx ch.id] := by
  unfold __acpm_ipc_send_data at h
  by_cases hg : id ≥ ipc.num_channels ∧ cfg.isNone = true
  · have hgb : (decide (id ≥ ipc.num_channels) && cfg.isNone) = true := by
      simp [hg.1, hg.2]
    rw [if_pos hgb] at h
    simp only [Result.ret.injEq] at h
    obtain ⟨_, rfl⟩ := h
    exact ⟨[], by simp, by simp [hg]⟩
  · have hgb : ¬ (decide (id ≥ ipc.num_channels) && cfg.isNone) = true := by
      intro hc
      simp only [Bool.and_eq_true, decide_eq_true_eq] at hc
      exact hg hc
    rw [if_neg hgb] at h
    rw [if_neg hg]
    cases hch : ipc.channel[id]? with
    | none => rw [hch] at h; cases h
    | some ch =>
      rw [hch] at h
      cases cfg with
      | none =>
        simp only at h
        split at h
        · cases h
        · next hni =>
          split at h
          · simp only [Result.ret.injEq] at h
            obtain ⟨_, rfl⟩ := h
            exact ⟨[.spin_lock_tx ch.id, .acpm_log_print, .spin_unlock_tx ch.id], rfl,
              by simp [wait_lock_taken, Event.is_lock]⟩
          · cases h
      | some c =>
        simp only at h
        cases hs : send_data K spins fuel fw w_mode { ch := ch, cfg := c, hw := ipc.hw } with
        | ret v1 s1 =>
          rw [hs] at h
          simp only [Result.ret.injEq] at h
          obtain ⟨_, rfl⟩ := h
          obtain ⟨evs, h1, h2⟩ := send_data_locks K spins fuel fw w_mode _ s1 v1 hs
          exact ⟨evs, h1, by simpa [wait_lock_taken] using h2⟩
        | bug s1 => rw [hs] at h; cases h
        | fault => rw [hs] at h; cases h
        | hang => rw [hs] at h; cases h

/-- Witness for C30: on interrupt-mode channels, a response-expected send that meets a
full TX ring returns `-ETIMEDOUT`, and one that waits until its deadline has passed
returns 0, each with both locks taken once and released once. -/
theorem send_releases_locks_witness :
    (∃ evs, (tx_full_exit { ch := ch_intr_full, cfg := cfg_resp, hw := hw0 }).hw.events =
        hw0.events ++ evs ∧
      evs.filter Event.is_lock =
        [Event.mutex_lock_wait 0, Event.spin_lock_tx 0, Event.spin_unlock_tx 0,
          Event.mutex_unlock_wait 0]) ∧
    ∃ st evs,
      __acpm_ipc_send_data K0 0 20 (fun v => v) ipc_intr_fast 0 (some cfg_resp) false =
        .ret 0 st ∧
      st.1.hw.events = ipc_intr_fast.hw.events ++ evs ∧
      evs.filter Event.is_lock =
        [Event.mutex_lock_wait 0, Event.spin_lock_tx 0, Event.spin_unlock_tx 0,
          Event.mutex_unlock_wait 0] := by
  constructor
  · obtain ⟨evs, h1, h2⟩ := send_releases_locks K0 0 0 (fun v => v) ipc_intr_full 0
      (some cfg_resp) false (-ETIMEDOUT) _
      (send_full_eq K0 0 0 (fun v => v) ipc_intr_full 0 ch_intr_full cfg_resp false rfl
        (by decide))
    exact ⟨evs, h1, h2⟩
  · obtain ⟨st, hst⟩ : ∃ st,
        __acpm_ipc_send_data K0 0 20 (fun v => v) ipc_intr_fast 0 (some cfg_resp) false =
          .ret 0 st := ⟨_, rfl⟩
    obtain ⟨evs, h1, h2⟩ := send_releases_locks K0 0 20 (fun v => v) ipc_intr_fast 0
      (some cfg_resp) false 0 st hst
    exact ⟨st, evs, hst, h1, h2⟩

/-! ## The entry guard -/

theorem append_ne_self_of_filter {evs base : List Event} {l : List Event}
    (h1 : l = base ++ evs) (h2 : evs.filter Event.is_lock ≠ []) : l ≠ base := by
  intro hc
  rw [hc] at h1
  have : evs = [] := by simpa using h1
  rw [this] at h2
  exact h2 rfl

/-- A call that returns after the entry guard let it pass has taken the transmit lock. -/
theorem send_data_locks_of_ret (K : Consts) (spins fuel : Nat) (fw : Shared → Shared)
    (ipc : acpm_ipc_info) (id : Nat) (cfg : Option ipc_config) (w_mode : Bool) (v : Int)
    (st : acpm_ipc_info × Option ipc_config)
    (h : __acpm_ipc_send_data K spins fuel fw ipc id cfg w_mode = .ret v st)
    (hg : ¬ (id ≥ ipc.num_channels ∧ cfg.isNone = true)) :
    ∃ evs, st.1.hw.events = ipc.hw.events ++ evs ∧ evs.filter Event.is_lock ≠ [] := by
  unfold __acpm_ipc_send_data at h
  have hgb : ¬ (decide (id ≥ ipc.num_channels) && cfg.isNone) = true := by
    intro hc
    simp only [Bool.and_eq_true, decide_eq_true_eq] at hc
    exact hg hc
  rw [if_neg hgb] at h
  cases hch : ipc.channel[id]? with
  | none => rw [hch] at h; cases h
  | some ch =>
    rw [hch] at h
    cases cfg with
    | none =>
      simp only at h
      split at h
      · cases h
      · split at h
        · simp only [Result.ret.injEq] at h
          obtain ⟨_, rfl⟩ := h
          exact ⟨[.spin_lock_tx ch.id, .acpm_log_print, .spin_unlock_tx ch.id], rfl,
            by simp [Event.is_lock]⟩
        · cases h
    | some c =>
      simp only at h
      cases hs : send_data K spins fuel fw w_mode { ch := ch, cfg := c, hw := ipc.hw } with
      | ret v1 s1 =>
        rw [hs] at h
        simp only [Result.ret.injEq] at h
        obtain ⟨_, rfl⟩ := h
        obtain ⟨evs, h1, h2⟩ := send_data_locks K spins fuel fw w_mode _ s1 v1 hs
        refine ⟨evs, h1, ?_⟩
        rw [h2]
        split <;> simp
      | bug s1 => rw [hs] at h; cases h
      | fault => rw [hs] at h; cases h
      | hang => rw [hs] at h; cases h

/-- C29: the entry guard of `__acpm_ipc_send_data` rejects a call (returns `-EIO` with
nothing done: no event logged, driver and descriptor unchanged) if and only if the
channel id is out of range and the descriptor is null at the same time. With an
out-of-range id and a non-null descriptor the call goes on to index the channel array
(an invalid access when the index is outside it, the send proper otherwise); with an
in-range id and a null descriptor it also goes on: the null pointer is dereferenced at
once on an interrupt channel, and otherwise after the full-ring check, unless the ring
stays full, in which case `-ETIMEDOUT` is returned first. -/
theorem entry_guard_iff (K : Consts) (spins fuel : Nat) (fw : Shared → Shared)
    (ipc : acpm_ipc_info) (id : Nat) (cfg : Option ipc_config) (w_mode : Bool) :
    ((∃ st, __acpm_ipc_send_data K spins fuel fw ipc id cfg w_mode = .ret (- EIO) st ∧
        st.1.hw.events = ipc.hw.events) ↔
      (id ≥ ipc.num_channels ∧ cfg.isNone = true)) ∧
    (id ≥ ipc.num_channels → cfg.isNone = true →
      __acpm_ipc_send_data K spins fuel fw ipc id cfg w_mode = .ret (- EIO) (ipc, cfg)) ∧
    (∀ c, id ≥ ipc.num_channels → cfg = some c →
      (ipc.channel[id]? = none →
        __acpm_ipc_send_data K spins fuel fw ipc id cfg w_mode = .fault) ∧
      (∀ ch, ipc.channel[id]? = some ch →
        (__acpm_ipc_send_data K spins fuel fw ipc id cfg w_mode).value =
          (send_data K spins fuel fw w_mode { ch := ch, cfg := c, hw := ipc.hw }).value)) ∧
    (∀ ch, id < ipc.num_channels → cfg.isNone = true → ipc.channel[id]? = some ch →
      (ch.interrupt = true →
        __acpm_ipc_send_data K spins fuel fw ipc id cfg w_mode = .fault) ∧
      (ch.interrupt = false → next_index ch.tx_ch.front ch.tx_ch.len ≠ ch.tx_ch.rear →
        __acpm_ipc_send_data K spins fuel fw ipc id cfg w_mode = .fault) ∧
      (ch.interrupt = false → next_index ch.tx_ch.front ch.tx_ch.len = ch.tx_ch.rear →
        (__acpm_ipc_send_data K spins fuel fw ipc id cfg w_mode).value = some (-ETIMEDOUT))) := by
  have hrej : id ≥ ipc.num_channels → cfg.isNone = true →
      __acpm_ipc_send_data K spins fuel fw ipc id cfg w_mode = .ret (- EIO) (ipc, cfg) := by
    intro h1 h2
    unfold __acpm_ipc_send_data
    rw [if_pos (by simp [h1, h2])]
  refine ⟨⟨?_, fun hg => ⟨_, hrej hg.1 hg.2, rfl⟩⟩, hrej, ?_, ?_⟩
  · rintro ⟨st, hst, hev⟩
    by_contra hg
    obtain ⟨evs, h1, h2⟩ := send_data_locks_of_ret K spins fuel fw ipc id cfg w_mode (- EIO) st hst hg
    exact append_ne_self_of_filter h1 h2 hev
  · intro c h1 hc
    subst hc
    refine ⟨?_, ?_⟩
    · intro hn
      simp [__acpm_ipc_send_data, hn]
    · intro ch hch
      rw [send_at K spins fuel fw ipc id ch c w_mode hch]
      cases send_data K spins fuel fw w_mode { ch := ch, cfg := c, hw := ipc.hw } <;> rfl
  · intro ch h1 hc hch
    have hcn : cfg = none := by
      cases cfg with
      | none => rfl
      | some c => simp at hc
    subst hcn
    have hng : ¬ (decide (id ≥ ipc.num_channels) && (none : Option ipc_config).isNone) = true := by
      simp
      omega
    refine ⟨?_, ?_, ?_⟩
    · intro hi
      unfold __acpm_ipc_send_data
      rw [if_neg hng, hch]
      simp [hi]
    · intro hi hroom
      unfold __acpm_ipc_send_data
      rw [if_neg hng, hch]
      simp [hi, UNTIL_EQUAL_const, hroom]
    · intro hi hfull
      unfold __acpm_ipc_send_data
      rw [if_neg hng, hch]
      simp [hi, UNTIL_EQUAL_const, hfull, Result.value]

/-- Witness for C29: on the one-channel driver, channel id 5 with a null descriptor is
rejected with `-EIO`; channel id 5 with a descriptor is an invalid access; channel id 0
with a null descriptor is not rejected and dereferences the null pointer. -/
theorem entry_guard_iff_witness :
    __acpm_ipc_send_data K0 0 0 (fun v => v) ipc0 5 none false = .ret (- EIO) (ipc0, none) ∧
      __acpm_ipc_send_data K0 0 0 (fun v => v) ipc0 5 (some cfg0) false = .fault ∧
      __acpm_ipc_send_data K0 0 0 (fun v => v) ipc0 0 none false = .fault :=
  ⟨(entry_guard_iff K0 0 0 (fun v => v) ipc0 5 none false).2.1 (by decide) rfl,
    ((entry_guard_iff K0 0 0 (fun v => v) ipc0 5 (some cfg0) false).2.2.1 cfg0 (by decide) rfl).1
      rfl,
    ((entry_guard_iff K0 0 0 (fun v => v) ipc0 0 none false).2.2.2 ch0 (by decide) rfl rfl).2.1
      rfl (by decide)⟩

/-! ## Marking a sequence number in flight -/

/-- No in-flight flag is set during the wait of a send: `check_response` only clears. -/
theorem flags_stable (K : Consts) (F : Nat → Nat) :
    Stable K (fun s => ∀ u, s.ch.seq_num_flag u ≠ 0 → F u ≠ 0) := by
  refine ⟨fun s hw h _ => h, fun s e h _ => h, ?_⟩
  intro s h
  rcases check_response_forms K s with hf | hf | hf | ⟨cmd, i, _, _, hf⟩
  · rw [hf]; trivial
  · rw [hf]; trivial
  · rw [hf]; exact h
  · rw [hf]
    intro u hu
    apply h u
    simp only [Result.holds, St.emit, check_response_hit, upd] at hu
    by_cases hq : u = seq_field K (s.ch.rx_ch.base i 0)
    · simp [hq] at hu
    · simpa [hq] using hu

/-- C23: the enqueue step (the transmit section) of a send that returns changes no
in-flight flag other than that of the last-used sequence number, and none at all unless
the channel is polling and a response is expected. When the ring has room and the
command pointer is not null, the step has allocated the sequence number it leaves as
last-used, and the flag of that number is non-zero afterwards if and only if the
channel is polling and a response is expected. A whole send on a non-polling channel or
without response expected leaves no flag set that was clear before. -/
theorem enqueue_marks_flag_iff (K : Consts) (spins fuel : Nat) (s s1 : St) (r : Option Int)
    (h : tx_section K spins fuel s = .ret r s1) :
    (∀ u, u ≠ s1.ch.seq_num → s1.ch.seq_num_flag u = s.ch.seq_num_flag u) ∧
    ((s.ch.polling && s.cfg.response) = false → s1.ch.seq_num_flag = s.ch.seq_num_flag) ∧
    (next_index s.ch.tx_ch.front s.ch.tx_ch.len ≠ s.ch.tx_ch.rear → s.cfg.cmd.isSome = true →
      alloc_seq_num s.ch = some s1.ch.seq_num ∧ s.ch.seq_num_flag s1.ch.seq_num = 0 ∧
      (s1.ch.seq_num_flag s1.ch.seq_num ≠ 0 ↔
        (s.ch.polling = true ∧ s.cfg.response = true))) ∧
    (∀ (fw : Shared → Shared) (w_mode : Bool) (v : Int) (s' : St),
      (s.ch.polling && s.cfg.response) = false →
      send_data K spins fuel fw w_mode s = .ret v s' →
      ∀ u, s'.ch.seq_num_flag u ≠ 0 → s.ch.seq_num_flag u ≠ 0) := by
  have hsame : ∀ t : St, t.ch = s.ch →
      (∀ u, u ≠ t.ch.seq_num → t.ch.seq_num_flag u = s.ch.seq_num_flag u) ∧
      ((s.ch.polling && s.cfg.response) = false → t.ch.seq_num_flag = s.ch.seq_num_flag) := by
    intro t ht
    rw [ht]
    exact ⟨fun _ _ => rfl, fun _ => rfl⟩
  have hwr : ∀ (t : St) (cmd : Nat → Nat) (q : Nat), alloc_seq_num s.ch = some q →
      Written K s t cmd q →
      (∀ u, u ≠ t.ch.seq_num → t.ch.seq_num_flag u = s.ch.seq_num_flag u) ∧
      ((s.ch.polling && s.cfg.response) = false → t.ch.seq_num_flag = s.ch.seq_num_flag) ∧
      alloc_seq_num s.ch = some t.ch.seq_num ∧ s.ch.seq_num_flag t.ch.seq_num = 0 ∧
      (t.ch.seq_num_flag t.ch.seq_num ≠ 0 ↔ (s.ch.polling = true ∧ s.cfg.response = true)) := by
    intro t cmd q hq hW
    obtain ⟨h1, h2, _⟩ := hW
    have h0 : s.ch.seq_num_flag q = 0 := seq_num_scan_flag_clear _ _ _ _ hq
    rw [h1, h2]
    refine ⟨?_, ?_, hq, h0, ?_⟩
    · intro u hu
      split
      · simp [upd, hu]
      · rfl
    · intro hb
      simp [hb]
    · cases hb : (s.ch.polling && s.cfg.response)
      · have : ¬ (s.ch.polling = true ∧ s.cfg.response = true) := by
          intro hc
          simp [hc.1, hc.2] at hb
        simp [h0, this]
      · have hpr : s.ch.polling = true ∧ s.cfg.response = true := by
          simpa using hb
        simp only [if_true, upd, hpr, and_self, iff_true]
        exact flag_mark_ne_zero (cmd 0)
  have key : ((∀ u, u ≠ s1.ch.seq_num → s1.ch.seq_num_flag u = s.ch.seq_num_flag u) ∧
      ((s.ch.polling && s.cfg.response) = false → s1.ch.seq_num_flag = s.ch.seq_num_flag)) ∧
      (next_index s.ch.tx_ch.front s.ch.tx_ch.len ≠ s.ch.tx_ch.rear → s.cfg.cmd.isSome = true →
        alloc_seq_num s.ch = some s1.ch.seq_num ∧ s.ch.seq_num_flag s1.ch.seq_num = 0 ∧
        (s1.ch.seq_num_flag s1.ch.seq_num ≠ 0 ↔
          (s.ch.polling = true ∧ s.cfg.response = true))) := by
    rcases tx_section_cases K spins fuel s with ⟨hfull, htx⟩ | ⟨_, hnone, s2, htx, hch, _⟩ |
      ⟨_, _, _, _, s2, htx⟩ | ⟨_, cmd, q, _, hq, hcase⟩
    · rw [htx] at h
      cases h
      exact ⟨hsame _ rfl, fun hroom => absurd hfull hroom⟩
    · rw [htx] at h
      cases h
      exact ⟨hsame _ hch, fun _ hc => by simp [hnone] at hc⟩
    · rw [htx] at h; cases h
    · rcases hcase with ⟨v1, s2, _, htx, hW, _⟩ | ⟨s2, htx, hW, _⟩ | ⟨htx, _⟩
      · rw [htx] at h
        cases h
        obtain ⟨a, b, c⟩ := hwr _ cmd q hq hW
        exact ⟨⟨a, b⟩, fun _ _ => c⟩
      · rw [htx] at h
        cases h
        obtain ⟨a, b, c⟩ := hwr _ cmd q hq hW
        exact ⟨⟨a, b⟩, fun _ _ => c⟩
      · rw [htx] at h; cases h
  refine ⟨key.1.1, key.1.2, key.2, ?_⟩
  intro fw w_mode v s' hb hs
  unfold send_data at hs
  rw [h] at hs
  have h1 : ∀ u, s1.ch.seq_num_flag u ≠ 0 → s.ch.seq_num_flag u ≠ 0 := by
    intro u hu
    rw [key.1.2 hb] at hu
    exact hu
  cases r with
  | some v1 =>
    simp only [Result.ret.injEq] at hs
    obtain ⟨_, rfl⟩ := hs
    exact h1
  | none =>
    simp only at hs
    have hw := wait_section_stable (flags_stable K s.ch.seq_num_flag)
      (flags_stable K s.ch.seq_num_flag) fuel fw w_mode s1 (fun t ht => ht)
      (fun t ht => ht) h1
    rw [hs] at hw
    obtain ⟨_, hq, hp⟩ := hw
    cases hi : (s1.ch.interrupt && s1.cfg.response)
    · exact hp hi
    · exact hq hi

/-- Witness for C23: the sample polling channel with a response expected: the flag of
the allocated number 1 is set by the transmit section. -/
theorem enqueue_marks_flag_iff_witness :
    alloc_seq_num st_resp.ch = some 1 ∧ st_resp.ch.seq_num_flag 1 = 0 ∧
      ((tx_published K0 st_resp (base_of [[0x11, 0x22, 0x33, 0x44]] 0) 1).ch.seq_num_flag 1 ≠ 0 ↔
        (st_resp.ch.polling = true ∧ st_resp.cfg.response = true)) :=
  (enqueue_marks_flag_iff K0 0 0 st_resp
    (tx_published K0 st_resp (base_of [[0x11, 0x22, 0x33, 0x44]] 0) 1) none
    (tx_section_published K0 0 0 st_resp (base_of [[0x11, 0x22, 0x33, 0x44]] 0) 1 (by decide) rfl
      (by decide) rfl)).2.2.1 (by decide) rfl

/-! ## Failure of the indirect step -/

theorem enqueue_indirection_cmd_err (K : Consts) (spins fuel : Nat) (s s' : St) (v : Int)
    (h : enqueue_indirection_cmd K spins fuel s = .ret v s') (hv : v ≠ 0) :
    s.cfg.indirection = true ∧
      (v = -ETIMEDOUT ∨ (v = -EINVAL ∧ s.cfg.indirection_base = none)) := by
  unfold enqueue_indirection_cmd at h
  by_cases hind : s.cfg.indirection = true
  · refine ⟨hind, ?_⟩
    rw [if_pos hind] at h
    cases hsc : indirection_scan K spins s.ch.tx_ch s.ch.tx_ch.front fuel s.ch.tx_ch.rear with
    | none => rw [hsc] at h; cases h
    | some b =>
      rw [hsc] at h
      cases b with
      | true =>
        simp only [Result.ret.injEq] at h
        exact Or.inl h.1.symm
      | false =>
        cases hb : s.cfg.indirection_base with
        | none =>
          rw [hb] at h
          simp only [Result.ret.injEq] at h
          exact Or.inr ⟨h.1.symm, rfl⟩
        | some src =>
          rw [hb] at h
          simp only [Result.ret.injEq] at h
          exact absurd h.1.symm hv
  · rw [if_neg hind] at h
    simp only [Result.ret.injEq] at h
    exact absurd h.1.symm hv

/-- With room and a command, the transmit section returns an error only from the
indirect step. -/
theorem tx_section_err (K : Consts) (spins fuel : Nat) (s s1 : St) (v : Int) (cmd : Nat → Nat)
    (hroom : next_index s.ch.tx_ch.front s.ch.tx_ch.len ≠ s.ch.tx_ch.rear)
    (hc : s.cfg.cmd = some cmd)
    (h : tx_section K spins fuel s = .ret (some v) s1) :
    v ≠ 0 ∧ s.cfg.indirection = true ∧
      (v = -ETIMEDOUT ∨ (v = -EINVAL ∧ s.cfg.indirection_base = none)) := by
  unfold tx_section at h
  simp only at h
  split at h
  · next hu =>
    rw [UNTIL_EQUAL_const] at hu
    simp [hroom] at hu
  · split at h
    · next hn =>
      rw [hc] at hn
      cases hn
    · split at h
      · cases h
      · generalize hs3 : ({ ch := _, cfg := _, hw := _ } : St) = s3 at h
        have hs3c : s3.cfg.indirection = s.cfg.indirection ∧
            s3.cfg.indirection_base = s.cfg.indirection_base := by
          subst hs3
          exact ⟨rfl, rfl⟩
        cases he : enqueue_indirection_cmd K spins fuel s3 with
        | ret v2 s4 =>
          rw [he] at h
          simp only at h
          split at h
          · next hv =>
            simp only [Result.ret.injEq, Option.some.injEq] at h
            obtain ⟨rfl, _⟩ := h
            have := enqueue_indirection_cmd_err K spins fuel s3 s4 v2 he hv
            rw [hs3c.1, hs3c.2] at this
            exact ⟨hv, this⟩
          · cases h
        | bug s4 => rw [he] at h; cases h
        | fault => rw [he] at h; cases h
        | hang => rw [he] at h; cases h

/-- C28: when the indirect step of a send fails (the ring has room, the command pointer is
not null, and the transmit section returns an error `v`), the error is that of
`enqueue_indirection_cmd` (`-ETIMEDOUT` from the wait for an earlier indirect command,
or `-EINVAL` for a null payload pointer), the send returns it, TX front and TX rear are
unchanged and no doorbell write is logged; but the allocation stays: the last-used
sequence number is the newly allocated one, the slot at front holds the command with that
number packed into word 0, the caller's words 1..3 are zero, and on a polling channel
with a response expected the in-flight flag of the number is set. -/
theorem indirect_failure_keeps_allocation (K : Consts) (spins fuel : Nat) (fw : Shared → Shared)
    (w_mode : Bool) (s s1 : St) (v : Int) (cmd : Nat → Nat)
    (hroom : next_index s.ch.tx_ch.front s.ch.tx_ch.len ≠ s.ch.tx_ch.rear)
    (hc : s.cfg.cmd = some cmd)
    (h : tx_section K spins fuel s = .ret (some v) s1) :
    v ≠ 0 ∧ s.cfg.indirection = true ∧
      (v = -ETIMEDOUT ∨ (v = -EINVAL ∧ s.cfg.indirection_base = none)) ∧
      send_data K spins fuel fw w_mode s = .ret v s1 ∧
      alloc_seq_num s.ch = some s1.ch.seq_num ∧
      s1.ch.tx_ch.front = s.ch.tx_ch.front ∧ s1.ch.tx_ch.rear = s.ch.tx_ch.rear ∧
      (∀ k, k < s.ch.tx_ch.size / 4 →
        s1.ch.tx_ch.base s.ch.tx_ch.front k =
          upd cmd 0 (pack_seq_num K (cmd 0) s1.ch.seq_num) k) ∧
      s1.cfg.cmd =
        some (upd (upd (upd (upd cmd 0 (pack_seq_num K (cmd 0) s1.ch.seq_num)) 1 0) 2 0) 3 0) ∧
      ((s.ch.polling && s.cfg.response) = true → s1.ch.seq_num_flag s1.ch.seq_num ≠ 0) ∧
      ∃ evs, s1.hw.events = s.hw.events ++ evs ∧
        ∀ val, Event.writel val Reg.INTGR0 ∉ evs := by
  obtain ⟨hv, hind, herr⟩ := tx_section_err K spins fuel s s1 v cmd hroom hc h
  obtain ⟨_, _, _, evs, hev, _, hbell⟩ := tx_section_locks K spins fuel s s1 (some v) h
  have hsend : send_data K spins fuel fw w_mode s = .ret v s1 := by
    unfold send_data
    rw [h]
  refine ⟨hv, hind, herr, hsend, ?_⟩
  rcases tx_section_cases K spins fuel s with ⟨hfull, _⟩ | ⟨_, hnone, _⟩ |
    ⟨_, _, _, _, s2, htx⟩ | ⟨_, cmd2, q, hc2, hq, hcase⟩
  · exact absurd hfull hroom
  · rw [hc] at hnone; cases hnone
  · rw [htx] at h; cases h
  · have hcc : cmd2 = cmd := by
      rw [hc] at hc2
      exact (Option.some.inj hc2).symm
    subst hcc
    rcases hcase with ⟨v1, s2, _, htx, hW, hfront⟩ | ⟨s2, htx, _, _⟩ | ⟨htx, _⟩
    · rw [htx] at h
      cases h
      obtain ⟨w1, w2, w3, w4, w5, _⟩ := hW
      refine ⟨by rw [w1]; exact hq, hfront, w5, ?_, ?_, ?_, evs, hev,
        hbell (by simp)⟩
      · intro k hk
        rw [w4, w1]
        simp [upd, memcpy_align_4, hk]
      · rw [w3, w1]
      · intro hb
        rw [w2, w1]
        simp only [hb, if_true, upd]
        exact flag_mark_ne_zero (cmd2 0)
    · rw [htx] at h; cases h
    · rw [htx] at h; cases h

/-- Witness for C28: an indirect command with a null payload pointer on the sample
polling channel: the send returns `-EINVAL`, sequence number 1 stays allocated and
marked in flight, TX front is still 0. -/
theorem indirect_failure_keeps_allocation_witness :
    ∃ s1, send_data K0 0 1 (fun v => v) false { ch := ch0, cfg := cfg_ind_null, hw := hw0 } =
        .ret (-EINVAL) s1 ∧
      alloc_seq_num ch0 = some s1.ch.seq_num ∧ s1.ch.tx_ch.front = ch0.tx_ch.front ∧
      s1.ch.seq_num_flag s1.ch.seq_num ≠ 0 := by
  obtain ⟨s1, hs1⟩ : ∃ s1, tx_section K0 0 1 { ch := ch0, cfg := cfg_ind_null, hw := hw0 } =
      .ret (some (-EINVAL)) s1 := ⟨_, rfl⟩
  obtain ⟨_, _, _, h4, h5, h6, _, _, _, h10, _⟩ :=
    indirect_failure_keeps_allocation K0 0 1 (fun v => v) false
      { ch := ch0, cfg := cfg_ind_null, hw := hw0 } s1 (-EINVAL)
      (base_of [[0x20000011, 0x22, 0x33, 0x44]] 0) (by decide) rfl hs1
  exact ⟨s1, h4, h5, h6, h10 rfl⟩

/-! ## The wait for an earlier indirect command -/

theorem front_not_mem_ring_range {len r front : Nat} (hr : r < len) (hf : front < len) :
    front ∉ ring_range len r front := by
  intro h
  have := ((mem_ring_range hr hf).1 h).2
  omega

/-- With an idle coprocessor, when the slot at TX rear carries no indirection bit but a
later pending slot does, the scan of `enqueue_indirection_cmd` never ends: at the later
slot the bounded spin succeeds at once (the local index already differs from the shared
rear), the scan restarts from rear, and so on. -/
theorem indirection_scan_livelock (K : Consts) (spins : Nat) (tx : buff_info) (front : Nat)
    (hlen32 : tx.len < 2 ^ 32) (hf : front < tx.len) (hr : tx.rear < tx.len)
    (hrear : tx.base tx.rear 0 &&& u32 (1 <<< K.ACPM_IPC_PROTOCOL_INDIRECTION) = 0)
    (hbit : ∃ j ∈ ring_range tx.len tx.rear front,
      tx.base j 0 &&& u32 (1 <<< K.ACPM_IPC_PROTOCOL_INDIRECTION) ≠ 0) :
    ∀ (fuel r : Nat), r < tx.len →
      (∃ j ∈ ring_range tx.len r front,
        tx.base j 0 &&& u32 (1 <<< K.ACPM_IPC_PROTOCOL_INDIRECTION) ≠ 0) →
      indirection_scan K spins tx front fuel r = none := by
  intro fuel
  induction fuel with
  | zero => intro r _ _; rfl
  | succ n ih =>
    intro r hrl hj
    have hrf : r ≠ front := by
      intro hc
      obtain ⟨j, hj1, _⟩ := hj
      rw [hc, ring_range_self] at hj1
      exact absurd hj1 (List.not_mem_nil _)
    unfold indirection_scan
    rw [if_neg hrf]
    by_cases hb : tx.base r 0 &&& u32 (1 <<< K.ACPM_IPC_PROTOCOL_INDIRECTION) ≠ 0
    · rw [if_pos hb]
      have hne : r ≠ tx.rear := by
        intro hc
        rw [hc] at hb
        exact hb hrear
      rw [UNTIL_EQUAL_const]
      simp only [hne, ne_eq, not_false_eq_true, decide_True, Bool.not_true, Bool.false_eq_true,
        if_false]
      exact ih tx.rear hr hbit
    · rw [if_neg hb]
      have hu : u32 (r + 1) = r + 1 := u32_of_lt (by omega)
      have hnext : (if tx.len = u32 (r + 1) then 0 else u32 (r + 1)) = (r + 1) % tx.len := by
        rw [hu, succ_mod_lt hrl]
        by_cases hq : r + 1 = tx.len
        · rw [if_pos hq.symm, if_pos hq]
        · rw [if_neg (fun hc => hq hc.symm), if_neg hq]
      rw [hnext]
      apply ih _ (Nat.mod_lt _ (by omega))
      obtain ⟨j, hj1, hj2⟩ := hj
      rw [ring_range_cons hrl hf hrf] at hj1
      rcases List.mem_cons.1 hj1 with h1 | h1
      · rw [h1] at hj2
        exact absurd hj2 hb
      · exact ⟨j, h1, hj2⟩

/-- An indirect command at TX rear that the coprocessor does not consume: the bounded
spin times out and the scan reports the timeout. -/
theorem indirection_scan_at_rear (K : Consts) (spins : Nat) (tx : buff_info) (front : Nat)
    (hrf : tx.rear ≠ front)
    (hrear : tx.base tx.rear 0 &&& u32 (1 <<< K.ACPM_IPC_PROTOCOL_INDIRECTION) ≠ 0)
    (fuel : Nat) :
    indirection_scan K spins tx front (fuel + 1) tx.rear = some true := by
  unfold indirection_scan
  rw [if_neg hrf, if_pos hrear, UNTIL_EQUAL_const]
  simp

theorem enqueue_indirection_cmd_livelock (K : Consts) (spins fuel : Nat) (s : St)
    (hin : s.ch.tx_ch.in_range) (hind : s.cfg.indirection = true)
    (hrear : s.ch.tx_ch.base s.ch.tx_ch.rear 0 &&&
      u32 (1 <<< K.ACPM_IPC_PROTOCOL_INDIRECTION) = 0)
    (hbit : ∃ j ∈ ring_range s.ch.tx_ch.len s.ch.tx_ch.rear s.ch.tx_ch.front,
      s.ch.tx_ch.base j 0 &&& u32 (1 <<< K.ACPM_IPC_PROTOCOL_INDIRECTION) ≠ 0) :
    enqueue_indirection_cmd K spins fuel s = .hang := by
  obtain ⟨_, hlen32, hf, hr⟩ := hin
  unfold enqueue_indirection_cmd
  rw [if_pos hind, indirection_scan_livelock K spins s.ch.tx_ch _ hlen32 hf hr hrear hbit
    fuel _ hr hbit]

theorem tx_section_livelock (K : Consts) (spins fuel : Nat) (s : St)
    (hin : s.ch.tx_ch.in_range) (hind : s.cfg.indirection = true)
    (hrear : s.ch.tx_ch.base s.ch.tx_ch.rear 0 &&&
      u32 (1 <<< K.ACPM_IPC_PROTOCOL_INDIRECTION) = 0)
    (hbit : ∃ j ∈ ring_range s.ch.tx_ch.len s.ch.tx_ch.rear s.ch.tx_ch.front,
      s.ch.tx_ch.base j 0 &&& u32 (1 <<< K.ACPM_IPC_PROTOCOL_INDIRECTION) ≠ 0)
    (hroom : next_index s.ch.tx_ch.front s.ch.tx_ch.len ≠ s.ch.tx_ch.rear)
    (cmd : Nat → Nat) (hc : s.cfg.cmd = some cmd) (q : Nat) (hq : alloc_seq_num s.ch = some q) :
    tx_section K spins fuel s = .hang := by
  have hrf : s.ch.tx_ch.rear ≠ s.ch.tx_ch.front := by
    intro hcq
    obtain ⟨j, hj1, _⟩ := hbit
    rw [hcq, ring_range_self] at hj1
    exact absurd hj1 (List.not_mem_nil _)
  have he : ∀ s3 : St, s3.ch.tx_ch.len = s.ch.tx_ch.len → s3.ch.tx_ch.rear = s.ch.tx_ch.rear →
      s3.ch.tx_ch.front = s.ch.tx_ch.front → s3.cfg.indirection = true →
      (∀ j, j ≠ s.ch.tx_ch.front → s3.ch.tx_ch.base j = s.ch.tx_ch.base j) →
      enqueue_indirection_cmd K spins fuel s3 = .hang := by
    intro s3 h1 h2 h3 h4 h5
    apply enqueue_indirection_cmd_livelock K spins fuel s3 _ h4
    · rw [h2, h5 _ hrf]
      exact hrear
    · rw [h1, h2, h3]
      obtain ⟨j, hj1, hj2⟩ := hbit
      refine ⟨j, hj1, ?_⟩
      have hjf : j ≠ s.ch.tx_ch.front := fun hcq =>
        front_not_mem_ring_range hin.2.2.2 hin.2.2.1 (hcq ▸ hj1)
      rw [h5 j hjf]
      exact hj2
    · unfold buff_info.in_range
      rw [h1, h2, h3]
      exact hin
  unfold tx_section
  simp only [UNTIL_EQUAL_const, hroom, ne_eq, not_false_eq_true, decide_True, Bool.not_true,
    Bool.false_eq_true, if_false, hc, hq]
  generalize hs3 : ({ ch := _, cfg := _, hw := _ } : St) = s3
  rw [he s3 (by subst hs3; rfl) (by subst hs3; rfl) (by subst hs3; rfl)
    (by subst hs3; exact hind) (fun j hj => by subst hs3; simp [upd, hj])]

/-- C24: with an idle coprocessor the wait of an indirect send for an earlier indirect
command is bounded only when that command sits at TX rear: then `enqueue_indirection_cmd`
returns `-ETIMEDOUT` after the bounded spin. When the earlier indirect command sits
behind a command without the indirection bit, `enqueue_indirection_cmd`, and with it the
send, is still looping after any number of rounds. -/
theorem indirect_wait_bounded_only_at_rear (K : Consts) (spins : Nat) (fw : Shared → Shared)
    (w_mode : Bool) (s : St) (hin : s.ch.tx_ch.in_range) (hind : s.cfg.indirection = true) :
    (s.ch.tx_ch.rear ≠ s.ch.tx_ch.front →
      s.ch.tx_ch.base s.ch.tx_ch.rear 0 &&& u32 (1 <<< K.ACPM_IPC_PROTOCOL_INDIRECTION) ≠ 0 →
      ∀ fuel, enqueue_indirection_cmd K spins (fuel + 1) s =
        .ret (-ETIMEDOUT) (s.emit .acpm_log_print)) ∧
    (s.ch.tx_ch.base s.ch.tx_ch.rear 0 &&& u32 (1 <<< K.ACPM_IPC_PROTOCOL_INDIRECTION) = 0 →
      (∃ j ∈ ring_range s.ch.tx_ch.len s.ch.tx_ch.rear s.ch.tx_ch.front,
        s.ch.tx_ch.base j 0 &&& u32 (1 <<< K.ACPM_IPC_PROTOCOL_INDIRECTION) ≠ 0) →
      (∀ fuel, enqueue_indirection_cmd K spins fuel s = .hang) ∧
      (next_index s.ch.tx_ch.front s.ch.tx_ch.len ≠ s.ch.tx_ch.rear → s.cfg.cmd.isSome = true →
        (alloc_seq_num s.ch).isSome = true →
        ∀ fuel, send_data K spins fuel fw w_mode s = .hang)) := by
  constructor
  · intro hrf hrear fuel
    unfold enqueue_indirection_cmd
    rw [if_pos hind, indirection_scan_at_rear K spins s.ch.tx_ch _ hrf hrear fuel]
  · intro hrear hbit
    constructor
    · intro fuel
      exact enqueue_indirection_cmd_livelock K spins fuel s hin hind hrear hbit
    · intro hroom hc hq fuel
      obtain ⟨cmd, hc⟩ := Option.isSome_iff_exists.1 hc
      obtain ⟨q, hq⟩ := Option.isSome_iff_exists.1 hq
      unfold send_data
      rw [tx_section_livelock K spins fuel s hin hind hrear hbit hroom cmd hc q hq]

/-- Witness for C24: on the TX ring `ring_ind_two` (slot 0, at rear, without and slot 1
with the indirection bit, front 2) an indirect send is still looping after any number of
rounds; with the indirect command at rear (`st_ind_rear`) the wait times out. -/
theorem indirect_wait_bounded_only_at_rear_witness :
    (∀ fuel, send_data K0 0 fuel (fun v => v) false st_ind_wait = .hang) ∧
      (∀ fuel, (enqueue_indirection_cmd K0 0 (fuel + 1) st_ind_rear).value =
        some (-ETIMEDOUT)) :=
  ⟨((indirect_wait_bounded_only_at_rear K0 0 (fun v => v) false st_ind_wait
      ⟨by decide, by decide, by decide, by decide⟩ rfl).2 (by decide)
      ⟨1, by decide, by decide⟩).2 (by decide) rfl (by decide),
    fun fuel => by
      rw [(indirect_wait_bounded_only_at_rear K0 0 (fun v => v) false st_ind_rear
        ⟨by decide, by decide, by decide, by decide⟩ rfl).1 (by decide) (by decide) fuel]
      rfl⟩

/-! ## Retries of the polling wait -/

/-- The recording loop is the polling wait. -/
theorem poll_wait_log_fst (K : Consts) (w_mode : Bool) :
    ∀ (fuel timeout retry_cnt : Nat) (s : St),
      (poll_wait_log K w_mode fuel timeout retry_cnt s).1 =
        poll_wait K w_mode fuel timeout retry_cnt s := by
  intro fuel
  induction fuel with
  | zero => intro _ _ _; rfl
  | succ n ih =>
    intro timeout retry_cnt s
    rw [poll_wait_log, poll_wait]
    simp only
    have hround : ∀ s1 : St,
        (if timeout < (sched_clock s1.hw).1 then
          if retry_cnt > 5 then
            ((.ret true { s1 with hw := (sched_clock s1.hw).2 } : Result Bool St), ([] : List Nat))
          else if retry_cnt > 0 then
            ((poll_wait_log K w_mode n
              (u64 ((sched_clock (sched_clock s1.hw).2).1 + K.IPC_TIMEOUT)) (u32 (retry_cnt + 1))
              { s1 with hw := (sched_clock (sched_clock s1.hw).2).2 }).1,
             u64 ((sched_clock (sched_clock s1.hw).2).1 + K.IPC_TIMEOUT) ::
              (poll_wait_log K w_mode n
                (u64 ((sched_clock (sched_clock s1.hw).2).1 + K.IPC_TIMEOUT))
                (u32 (retry_cnt + 1))
                { s1 with hw := (sched_clock (sched_clock s1.hw).2).2 }).2)
          else poll_wait_log K w_mode n timeout (u32 (retry_cnt + 1))
            { s1 with hw := (sched_clock s1.hw).2 }
        else poll_wait_log K w_mode n timeout retry_cnt
          (poll_delay w_mode { s1 with hw := (sched_clock s1.hw).2 })).1 =
        (if timeout < (sched_clock s1.hw).1 then
          if retry_cnt > 5 then .ret true { s1 with hw := (sched_clock s1.hw).2 }
          else if retry_cnt > 0 then
            poll_wait K w_mode n
              (u64 ((sched_clock (sched_clock s1.hw).2).1 + K.IPC_TIMEOUT)) (u32 (retry_cnt + 1))
              { s1 with hw := (sched_clock (sched_clock s1.hw).2).2 }
          else poll_wait K w_mode n timeout (u32 (retry_cnt + 1))
            { s1 with hw := (sched_clock s1.hw).2 }
        else poll_wait K w_mode n timeout retry_cnt
          (poll_delay w_mode { s1 with hw := (sched_clock s1.hw).2 })) := by
      intro s1
      split
      · split
        · rfl
        · split
          · exact ih _ _ _
          · exact ih _ _ _
      · exact ih _ _ _
    split
    · exact hround s
    · cases hcr : check_response K s with
      | ret b s1 =>
        cases b with
        | true => exact hround s1
        | false => rfl
      | bug s1 => rfl
      | fault => rfl
      | hang => rfl

/-- The number of deadlines armed after the initial one is at most `6 - retry_cnt` (at
most 5 when the retry counter is still 0), whatever the clock and the coprocessor do. -/
theorem poll_wait_log_length (K : Consts) (w_mode : Bool) :
    ∀ (fuel timeout retry_cnt : Nat) (s : St),
      (poll_wait_log K w_mode fuel timeout retry_cnt s).2.length ≤ 6 - max retry_cnt 1 := by
  intro fuel
  induction fuel with
  | zero => intro _ _ _; simp [poll_wait_log]
  | succ n ih =>
    intro timeout retry_cnt s
    rw [poll_wait_log]
    simp only
    have hround : ∀ s1 : St,
        (if timeout < (sched_clock s1.hw).1 then
          if retry_cnt > 5 then
            ((.ret true { s1 with hw := (sched_clock s1.hw).2 } : Result Bool St), ([] : List Nat))
          else if retry_cnt > 0 then
            ((poll_wait_log K w_mode n
              (u64 ((sched_clock (sched_clock s1.hw).2).1 + K.IPC_TIMEOUT)) (u32 (retry_cnt + 1))
              { s1 with hw := (sched_clock (sched_clock s1.hw).2).2 }).1,
             u64 ((sched_clock (sched_clock s1.hw).2).1 + K.IPC_TIMEOUT) ::
              (poll_wait_log K w_mode n
                (u64 ((sched_clock (sched_clock s1.hw).2).1 + K.IPC_TIMEOUT))
                (u32 (retry_cnt + 1))
                { s1 with hw := (sched_clock (sched_clock s1.hw).2).2 }).2)
          else poll_wait_log K w_mode n timeout (u32 (retry_cnt + 1))
            { s1 with hw := (sched_clock s1.hw).2 }
        else poll_wait_log K w_mode n timeout retry_cnt
          (poll_delay w_mode { s1 with hw := (sched_clock s1.hw).2 })).2.length ≤
        6 - max retry_cnt 1 := by
      intro s1
      split
      · split
        · simp
        · next h5 =>
          have hu : u32 (retry_cnt + 1) = retry_cnt + 1 := u32_of_lt (by omega)
          split
          · next h0 =>
            have := ih (u64 ((sched_clock (sched_clock s1.hw).2).1 + K.IPC_TIMEOUT))
              (u32 (retry_cnt + 1)) { s1 with hw := (sched_clock (sched_clock s1.hw).2).2 }
            rw [hu] at this ⊢
            simp only [List.length_cons]
            have h1 : max (retry_cnt + 1) 1 = retry_cnt + 1 := by omega
            have h2 : max retry_cnt 1 = retry_cnt := by omega
            rw [h1] at this
            rw [h2]
            omega
          · next h0 =>
            have := ih timeout (u32 (retry_cnt + 1)) { s1 with hw := (sched_clock s1.hw).2 }
            rw [hu] at this ⊢
            have h1 : retry_cnt = 0 := by omega
            rw [h1] at this ⊢
            simpa using this
      · exact ih _ _ _
    split
    · exact hround s
    · cases hcr : check_response K s with
      | ret b s1 =>
        cases b with
        | true => exact hround s1
        | false => simp
      | bug s1 => simp
      | fault => simp
      | hang => simp

/-- One round of the recording loop when no matching response is pending. -/
theorem poll_wait_log_round (K : Consts) (w_mode : Bool) (timeout retry_cnt : Nat) (s : St)
    (hcr : check_response K s =
      .ret true ((s.emit (.spin_lock_rx s.ch.id)).emit (.spin_unlock_rx s.ch.id))) :
    ∃ s1 : St, s.same_but_log s1 ∧ ∀ n,
      poll_wait_log K w_mode (n + 1) timeout retry_cnt s =
        if timeout < s.hw.clk s.hw.nclk then
          if retry_cnt > 5 then
            (.ret true { s1 with hw := { s1.hw with nclk := s.hw.nclk + 1 } }, [])
          else if retry_cnt > 0 then
            ((poll_wait_log K w_mode n (u64 (s.hw.clk (s.hw.nclk + 1) + K.IPC_TIMEOUT))
              (u32 (retry_cnt + 1))
              { s1 with hw := { s1.hw with nclk := s.hw.nclk + 1 + 1 } }).1,
             u64 (s.hw.clk (s.hw.nclk + 1) + K.IPC_TIMEOUT) ::
              (poll_wait_log K w_mode n (u64 (s.hw.clk (s.hw.nclk + 1) + K.IPC_TIMEOUT))
                (u32 (retry_cnt + 1))
                { s1 with hw := { s1.hw with nclk := s.hw.nclk + 1 + 1 } }).2)
          else poll_wait_log K w_mode n timeout (u32 (retry_cnt + 1))
            { s1 with hw := { s1.hw with nclk := s.hw.nclk + 1 } }
        else poll_wait_log K w_mode n timeout retry_cnt
          (poll_delay w_mode { s1 with hw := { s1.hw with nclk := s.hw.nclk + 1 } }) := by
  by_cases hI : s.hw.INTSR1 &&& u32 (1 <<< s.ch.id) = 0
  · refine ⟨s, same_but_log_refl s, ?_⟩
    intro n
    rw [poll_wait_log]
    simp only [hI, if_true, sched_clock]
  · refine ⟨(s.emit (.spin_lock_rx s.ch.id)).emit (.spin_unlock_rx s.ch.id),
      ⟨rfl, rfl, rfl, rfl, rfl, rfl⟩, ?_⟩
    intro n
    rw [poll_wait_log]
    simp only [hI, if_false, hcr, sched_clock]
    rfl

/-- The recording loop at retry count `retry_cnt` gives up once the clock has passed the
deadline, having armed `6 - max retry_cnt 1` further deadlines, provided the loop at the
next retry count does. -/
theorem poll_wait_log_expires_step (K : Consts) (w_mode : Bool) (s0 : St) (cmd : Nat → Nat)
    (hc : s0.cfg.cmd = some cmd) (hr : s0.ch.rx_ch.in_range)
    (hno : ∀ j ∈ ring_range s0.ch.rx_ch.len s0.ch.rx_ch.rear s0.ch.rx_ch.front,
      seq_field K (s0.ch.rx_ch.base j 0) ≠ seq_field K (cmd 0))
    (hclk : ∀ k, s0.hw.clk k < s0.hw.clk (k + 1)) (retry_cnt : Nat)
    (hnext : retry_cnt ≤ 5 → ∀ (timeout : Nat) (s : St), s0.same_but_log s →
      ∃ F s' L, (∀ fuel, F ≤ fuel →
        poll_wait_log K w_mode fuel timeout (retry_cnt + 1) s = (.ret true s', L)) ∧
        L.length = 6 - (retry_cnt + 1) ∧ s0.same_but_log s') :
    ∀ (g timeout : Nat) (s : St), s0.same_but_log s →
      timeout + 1 ≤ s0.hw.clk s.hw.nclk + g →
      ∃ F s' L, (∀ fuel, F ≤ fuel →
        poll_wait_log K w_mode fuel timeout retry_cnt s = (.ret true s', L)) ∧
        L.length = 6 - max retry_cnt 1 ∧ s0.same_but_log s' := by
  have hexpired : ∀ (timeout : Nat) (s : St), s0.same_but_log s →
      timeout < s.hw.clk s.hw.nclk →
      ∃ F s' L, (∀ fuel, F ≤ fuel →
        poll_wait_log K w_mode fuel timeout retry_cnt s = (.ret true s', L)) ∧
        L.length = 6 - max retry_cnt 1 ∧ s0.same_but_log s' := by
    intro timeout s hs hexp
    obtain ⟨s1, hs1, hround⟩ := poll_wait_log_round K w_mode timeout retry_cnt s
      (check_response_none_of_same K s0 s cmd hc hr hno hs)
    by_cases h5 : retry_cnt > 5
    · refine ⟨1, { s1 with hw := { s1.hw with nclk := s.hw.nclk + 1 } }, [], ?_, ?_,
        same_but_log_trans hs (same_but_log_trans hs1 (same_but_log_nclk _ _))⟩
      · intro fuel hfuel
        obtain ⟨d, rfl⟩ := Nat.exists_eq_add_of_le hfuel
        rw [Nat.add_comm 1 d, hround d, if_pos hexp, if_pos h5]
      · have : max retry_cnt 1 = retry_cnt := by omega
        rw [this]
        simp
        omega
    · have hu : u32 (retry_cnt + 1) = retry_cnt + 1 := u32_of_lt (by omega)
      by_cases h0 : retry_cnt > 0
      · obtain ⟨F, s', L, hF, hL, hs'⟩ := hnext (by omega)
          (u64 (s.hw.clk (s.hw.nclk + 1) + K.IPC_TIMEOUT))
          { s1 with hw := { s1.hw with nclk := s.hw.nclk + 1 + 1 } }
          (same_but_log_trans hs (same_but_log_trans hs1 (same_but_log_nclk _ _)))
        refine ⟨F + 1, s', u64 (s.hw.clk (s.hw.nclk + 1) + K.IPC_TIMEOUT) :: L, ?_, ?_, hs'⟩
        · intro fuel hfuel
          obtain ⟨d, rfl⟩ := Nat.exists_eq_add_of_le hfuel
          have : F + 1 + d = (F + d) + 1 := by omega
          rw [this, hround (F + d), if_pos hexp, if_neg h5, if_pos h0, hu, hF _ (by omega)]
        · have : max retry_cnt 1 = retry_cnt := by omega
          rw [this, List.length_cons, hL]
          omega
      · obtain ⟨F, s', L, hF, hL, hs'⟩ := hnext (by omega) timeout
          { s1 with hw := { s1.hw with nclk := s.hw.nclk + 1 } }
          (same_but_log_trans hs (same_but_log_trans hs1 (same_but_log_nclk _ _)))
        refine ⟨F + 1, s', L, ?_, ?_, hs'⟩
        · intro fuel hfuel
          obtain ⟨d, rfl⟩ := Nat.exists_eq_add_of_le hfuel
          have : F + 1 + d = (F + d) + 1 := by omega
          rw [this, hround (F + d), if_pos hexp, if_neg h5, if_neg h0, hu]
          exact hF _ (by omega)
        · have h1 : retry_cnt = 0 := by omega
          rw [hL, h1]
          rfl
  intro g
  induction g with
  | zero =>
    intro timeout s hs hg
    have hclks : s.hw.clk = s0.hw.clk := hs.2.2.1
    exact hexpired timeout s hs (by rw [hclks]; omega)
  | succ g ih =>
    intro timeout s hs hg
    have hclks : s.hw.clk = s0.hw.clk := hs.2.2.1
    by_cases hexp : timeout < s.hw.clk s.hw.nclk
    · exact hexpired timeout s hs hexp
    · obtain ⟨s1, hs1, hround⟩ := poll_wait_log_round K w_mode timeout retry_cnt s
        (check_response_none_of_same K s0 s cmd hc hr hno hs)
      have hk := hclk s.hw.nclk
      obtain ⟨F, s', L, hF, hL, hs'⟩ := ih timeout
        (poll_delay w_mode { s1 with hw := { s1.hw with nclk := s.hw.nclk + 1 } })
        (same_but_log_trans hs (same_but_log_trans hs1
          (same_but_log_trans (same_but_log_nclk _ _) (same_but_log_delay _ _))))
        (by rw [poll_delay_nclk]; rw [hclks] at hexp; simp only; omega)
      refine ⟨F + 1, s', L, ?_, hL, hs'⟩
      intro fuel hfuel
      obtain ⟨d, rfl⟩ := Nat.exists_eq_add_of_le hfuel
      have : F + 1 + d = (F + d) + 1 := by omega
      rw [this, hround (F + d), if_neg hexp]
      exact hF _ (by omega)

/-- With a strictly increasing clock and no matching response pending, the recording
loop ends with the timeout flag set after arming `6 - max retry_cnt 1` further
deadlines. -/
theorem poll_wait_log_expires (K : Consts) (w_mode : Bool) (s0 : St) (cmd : Nat → Nat)
    (hc : s0.cfg.cmd = some cmd) (hr : s0.ch.rx_ch.in_range)
    (hno : ∀ j ∈ ring_range s0.ch.rx_ch.len s0.ch.rx_ch.rear s0.ch.rx_ch.front,
      seq_field K (s0.ch.rx_ch.base j 0) ≠ seq_field K (cmd 0))
    (hclk : ∀ k, s0.hw.clk k < s0.hw.clk (k + 1)) :
    ∀ (r retry_cnt : Nat), 6 ≤ retry_cnt + r → ∀ (timeout : Nat) (s : St), s0.same_but_log s →
      ∃ F s' L, (∀ fuel, F ≤ fuel →
        poll_wait_log K w_mode fuel timeout retry_cnt s = (.ret true s', L)) ∧
        L.length = 6 - max retry_cnt 1 ∧ s0.same_but_log s' := by
  intro r
  induction r with
  | zero =>
    intro retry_cnt h6 timeout s hs
    exact poll_wait_log_expires_step K w_mode s0 cmd hc hr hno hclk retry_cnt
      (fun h5 => absurd h5 (by omega)) (timeout + 1) timeout s hs (by omega)
  | succ r ih =>
    intro retry_cnt h6 timeout s hs
    exact poll_wait_log_expires_step K w_mode s0 cmd hc hr hno hclk retry_cnt
      (fun _ t s1 hs1 => by
        obtain ⟨F, s', L, hF, hL, hs'⟩ := ih (retry_cnt + 1) (by omega) t s1 hs1
        refine ⟨F, s', L, hF, ?_, hs'⟩
        rw [hL]
        have : max (retry_cnt + 1) 1 = retry_cnt + 1 := by omega
        rw [this])
      (timeout + 1) timeout s hs (by omega)

/-- C27: the retries of the polling wait are bounded. Whatever the clock and the
coprocessor do, a wait that starts with retry counter 0 re-arms its deadline at most 5
times, so that it runs through at most 6 deadline windows. With a strictly increasing
clock and no matching response pending, the wait ends (with enough fuel) with the
timeout flag set, after exactly 5 re-armed deadlines. -/
theorem poll_retries_bounded (K : Consts) (w_mode : Bool) (s0 : St) (cmd : Nat → Nat)
    (timeout : Nat)
    (hc : s0.cfg.cmd = some cmd) (hr : s0.ch.rx_ch.in_range)
    (hno : ∀ j ∈ ring_range s0.ch.rx_ch.len s0.ch.rx_ch.rear s0.ch.rx_ch.front,
      seq_field K (s0.ch.rx_ch.base j 0) ≠ seq_field K (cmd 0))
    (hclk : ∀ k, s0.hw.clk k < s0.hw.clk (k + 1)) :
    (∀ (fuel t : Nat) (s : St),
      (poll_wait_log K w_mode fuel t 0 s).1 = poll_wait K w_mode fuel t 0 s ∧
      (poll_wait_log K w_mode fuel t 0 s).2.length ≤ 5) ∧
    ∃ F s' L, L.length = 5 ∧ ∀ fuel, F ≤ fuel →
      poll_wait_log K w_mode fuel timeout 0 s0 = (.ret true s', L) ∧
      poll_wait K w_mode fuel timeout 0 s0 = .ret true s' := by
  constructor
  · intro fuel t s
    exact ⟨poll_wait_log_fst K w_mode fuel t 0 s,
      by simpa using poll_wait_log_length K w_mode fuel t 0 s⟩
  · obtain ⟨F, s', L, hF, hL, _⟩ := poll_wait_log_expires K w_mode s0 cmd hc hr hno hclk 6 0
      (by omega) timeout s0 (same_but_log_refl s0)
    refine ⟨F, s', L, by simpa using hL, ?_⟩
    intro fuel hfuel
    refine ⟨hF fuel hfuel, ?_⟩
    rw [← poll_wait_log_fst, hF fuel hfuel]

/-- Witness for C27: the sample polling channel with an empty RX ring and a clock that
advances 20 ms per reading; the first deadline is 15 ms. -/
theorem poll_retries_bounded_witness :
    (poll_wait_log K0 false 20 15000000 0 st_fast).2 =
        [75000000, 115000000, 155000000, 195000000, 235000000] ∧
      ∃ F s' L, L.length = 5 ∧ ∀ fuel, F ≤ fuel →
        poll_wait_log K0 false fuel 15000000 0 st_fast = (.ret true s', L) ∧
        poll_wait K0 false fuel 15000000 0 st_fast = .ret true s' :=
  ⟨by decide,
    (poll_retries_bounded K0 false st_fast (base_of [[0x11, 0x22, 0x33, 0x44]] 0) 15000000 rfl
      (by unfold buff_info.in_range; decide) (by decide)
      (fun k => by show 20000000 * k < 20000000 * (k + 1); omega)).2⟩

/-! ## Interrupt handlers -/

/-- The drain loop only appends to the event log, and what it appends and what it does
to the channel do not depend on the hardware record. -/
theorem dequeue_loop_frame :
    ∀ (fuel : Nat) (ch : acpm_ipc_ch) (hw : Hw),
      dequeue_loop fuel ch hw =
        (dequeue_loop fuel ch Hw.blank).map
          (fun r => (r.1, { hw with events := hw.events ++ r.2.events })) := by
  intro fuel
  induction fuel with
  | zero => intro ch hw; rfl
  | succ n ih =>
    intro ch hw
    unfold dequeue_loop
    by_cases hrf : ch.rx_ch.rear = ch.rx_ch.front
    · rw [if_pos hrf, if_pos hrf]
      simp [Hw.blank]
    · rw [if_neg hrf, if_neg hrf]
      simp only
      rw [ih _ (if (!ch.polling) = true then _ else _)]
      conv_rhs => rw [ih _ (if (!ch.polling) = true then _ else _)]
      rw [Option.map_map]
      congr 1
      funext r
      simp only [Function.comp, run_callbacks_eq]
      cases ch.polling <;> simp [emit, Hw.blank, List.append_assoc]

theorem dequeue_policy_frame (TYPE_BUFFER : Nat) (ch : acpm_ipc_ch) (hw : Hw)
    (h : drains TYPE_BUFFER ch) :
    dequeue_policy TYPE_BUFFER ch hw =
      .ret () (drain_ch TYPE_BUFFER ch,
        { hw with events := hw.events ++ drain_events TYPE_BUFFER ch }) := by
  obtain ⟨r, hr⟩ := h
  unfold drain_ch drain_events
  rw [hr]
  unfold dequeue_policy at hr ⊢
  by_cases ht : ch.type = TYPE_BUFFER
  · rw [if_pos ht] at hr ⊢
    simp only [Result.ret.injEq, true_and] at hr
    rw [← hr]
    simp [run_callbacks_eq, emit, Hw.blank, List.append_assoc]
  · rw [if_neg ht] at hr ⊢
    simp only at hr ⊢
    rw [dequeue_loop_frame _ _ (emit (.spin_lock_rx ch.id) hw)]
    rw [dequeue_loop_frame _ _ (emit (.spin_lock_rx ch.id) Hw.blank)] at hr
    cases hl : dequeue_loop (ch.rx_ch.len + 2) ch Hw.blank with
    | none => rw [hl] at hr; cases hr
    | some p =>
      rw [hl] at hr
      simp only [Option.map_some', Result.ret.injEq, true_and] at hr ⊢
      rw [← hr]
      simp [emit, Hw.blank, List.append_assoc]

theorem drains_of_in_range (TYPE_BUFFER : Nat) (ch : acpm_ipc_ch)
    (h : ch.type = TYPE_BUFFER ∨ ch.rx_ch.in_range) : drains TYPE_BUFFER ch := by
  unfold drains dequeue_policy
  by_cases ht : ch.type = TYPE_BUFFER
  · rw [if_pos ht]
    exact ⟨_, rfl⟩
  · rw [if_neg ht]
    have hin : ch.rx_ch.in_range := by
      rcases h with h | h
      · exact absurd h ht
      · exact h
    have hd := Nat.mod_lt (ch.rx_ch.front + ch.rx_ch.len - ch.rx_ch.rear) hin.1
    obtain ⟨ch', hw', hrun, _⟩ := dequeue_loop_spec _ (ch.rx_ch.len + 2) ch
      (emit (.spin_lock_rx ch.id) Hw.blank) hin rfl (by omega)
    simp only [hrun]
    exact ⟨_, rfl⟩

theorem set_append_cons {α : Type} (pre rest : List α) (a b : α) :
    (pre ++ a :: rest).set pre.length b = pre ++ b :: rest := by
  induction pre with
  | nil => rfl
  | cons x xs ih => simp [ih]

theorem getElem?_append_cons {α : Type} (pre rest : List α) (a : α) :
    (pre ++ a :: rest)[pre.length]? = some a := by
  rw [List.getElem?_append_right (le_refl _)]
  simp

/-- The top half, from any position of its loop on, does to each remaining channel what
the specification says, in channel order. -/
theorem irq_handler_loop_spec (TYPE_BUFFER status : Nat) :
    ∀ (rest pre : List acpm_ipc_ch) (ipc : acpm_ipc_info) (st : Nat),
      ipc.channel = pre ++ rest → (∀ ch ∈ rest, drains TYPE_BUFFER ch) →
      irq_handler_loop TYPE_BUFFER status rest.length pre.length ipc st =
        .ret () ({ ipc with
          channel := pre ++ rest.map (irq_spec_channel TYPE_BUFFER status)
          hw := { ipc.hw with
            INTSR1 := rest.foldl (irq_spec_status status) ipc.hw.INTSR1
            events := ipc.hw.events ++ rest.flatMap (irq_spec_events TYPE_BUFFER status) } },
          irq_flag status rest pre.length st) := by
  intro rest
  induction rest with
  | nil =>
    intro pre ipc st hch _
    simp [irq_handler_loop, irq_flag, ← hch]
  | cons ch rest ih =>
    intro pre ipc st hch hdr
    have hget : ipc.channel[pre.length]? = some ch := by
      rw [hch]
      exact getElem?_append_cons pre rest ch
    have hdr' : ∀ c ∈ rest, drains TYPE_BUFFER c := fun c hc => hdr c (List.mem_cons_of_mem _ hc)
    have hlen : (pre ++ [ch]).length = pre.length + 1 := by simp
    rw [List.length_cons, irq_handler_loop, hget]
    simp only
    by_cases hbit : status &&& u32 (1 <<< ch.id) ≠ 0
    · rw [if_pos hbit]
      have hb : irq_bit_set status ch = true := by simp [irq_bit_set, hbit]
      by_cases hint : ch.interrupt = true
      · rw [if_pos hint, ← hlen, ih (pre ++ [ch]) _ st (by simp [hch]) hdr']
        simp [irq_spec_channel, irq_spec_events, irq_spec_status, irq_flag, hb, hint,
          write_INTCR1, emit, hlen]
      · have hint0 : ch.interrupt = false := by
          cases hi : ch.interrupt
          · rfl
          · exact absurd hi hint
        rw [if_neg hint]
        by_cases hpol : ch.polling = true
        · rw [if_neg (by simp [hpol]), ← hlen, ih (pre ++ [ch]) ipc st (by simp [hch]) hdr']
          simp [irq_spec_channel, irq_spec_events, irq_spec_status, irq_flag, hb, hint0, hpol,
            hlen]
        · have hpol0 : ch.polling = false := by
            cases hi : ch.polling
            · rfl
            · exact absurd hi hpol
          rw [if_pos (by simp [hpol0]),
            dequeue_policy_frame TYPE_BUFFER ch _ (hdr ch (List.mem_cons_self _ _))]
          simp only
          have hset : ipc.channel.set pre.length (drain_ch TYPE_BUFFER ch) =
              (pre ++ [drain_ch TYPE_BUFFER ch]) ++ rest := by
            rw [hch, set_append_cons]
            simp
          have hlen2 : (pre ++ [drain_ch TYPE_BUFFER ch]).length = pre.length + 1 := by simp
          rw [← hlen2, ih (pre ++ [drain_ch TYPE_BUFFER ch]) _ _ hset hdr']
          simp [irq_spec_channel, irq_spec_events, irq_spec_status, irq_flag, hb, hint0, hpol0,
            write_INTCR1, emit, hlen2]
    · rw [if_neg hbit, ← hlen, ih (pre ++ [ch]) ipc st (by simp [hch]) hdr']
      have hb : irq_bit_set status ch = false := by simp [irq_bit_set, hbit]
      simp [irq_spec_channel, irq_spec_events, irq_spec_status, irq_flag, hb, hlen]

/-- C25: the top half reads the interrupt status once (`status`, the value of `INTSR1`
at entry) and then treats the channels in index order, each according to `status`: with
its bit set, a direct-completion channel gets the pending-clear write and the completion
signal and is not drained; a channel that is neither direct-completion nor polling gets
the pending-clear write and is drained; every other channel (bit clear, or polling
without direct completion) is left alone, with no event logged for it. -/
theorem irq_handler_per_channel (TYPE_BUFFER : Nat) (ipc : acpm_ipc_info)
    (hnum : ipc.num_channels = ipc.channel.length)
    (hdr : ∀ ch ∈ ipc.channel, ch.type = TYPE_BUFFER ∨ ch.rx_ch.in_range) :
    ∃ ipc' st, acpm_ipc_irq_handler TYPE_BUFFER ipc = .ret () (ipc', st) ∧
      ipc'.channel = ipc.channel.map (irq_spec_channel TYPE_BUFFER ipc.hw.INTSR1) ∧
      ipc'.hw.events = ipc.hw.events ++
        ipc.channel.flatMap (irq_spec_events TYPE_BUFFER ipc.hw.INTSR1) ∧
      ipc'.hw.INTSR1 = ipc.channel.foldl (irq_spec_status ipc.hw.INTSR1) ipc.hw.INTSR1 ∧
      ∀ ch ∈ ipc.channel,
        (ipc.hw.INTSR1 &&& u32 (1 <<< ch.id) ≠ 0 → ch.interrupt = true →
          irq_spec_events TYPE_BUFFER ipc.hw.INTSR1 ch =
            [.writel (u32 (1 <<< ch.id)) .INTCR1, .complete ch.id] ∧
          irq_spec_channel TYPE_BUFFER ipc.hw.INTSR1 ch = ch) ∧
        (ipc.hw.INTSR1 &&& u32 (1 <<< ch.id) ≠ 0 → ch.interrupt = false → ch.polling = false →
          irq_spec_events TYPE_BUFFER ipc.hw.INTSR1 ch =
            .writel (u32 (1 <<< ch.id)) .INTCR1 :: drain_events TYPE_BUFFER ch ∧
          irq_spec_channel TYPE_BUFFER ipc.hw.INTSR1 ch = drain_ch TYPE_BUFFER ch ∧
          ∀ hw, dequeue_policy TYPE_BUFFER ch hw =
            .ret () (drain_ch TYPE_BUFFER ch,
              { hw with events := hw.events ++ drain_events TYPE_BUFFER ch })) ∧
        ((ipc.hw.INTSR1 &&& u32 (1 <<< ch.id) = 0 ∨
            (ch.interrupt = false ∧ ch.polling = true)) →
          irq_spec_events TYPE_BUFFER ipc.hw.INTSR1 ch = [] ∧
          irq_spec_channel TYPE_BUFFER ipc.hw.INTSR1 ch = ch) := by
  have hd : ∀ ch ∈ ipc.channel, drains TYPE_BUFFER ch :=
    fun ch hch => drains_of_in_range TYPE_BUFFER ch (hdr ch hch)
  have hloop := irq_handler_loop_spec TYPE_BUFFER ipc.hw.INTSR1 ipc.channel [] ipc 0 rfl hd
  have h0 : acpm_ipc_irq_handler TYPE_BUFFER ipc =
      irq_handler_loop TYPE_BUFFER ipc.hw.INTSR1 ipc.channel.length 0 ipc 0 := by
    unfold acpm_ipc_irq_handler
    simp only
    rw [hnum]
  refine ⟨_, _, h0.trans hloop, by simp, rfl, rfl, ?_⟩
  · intro ch hch
    refine ⟨?_, ?_, ?_⟩
    · intro hb hi
      simp [irq_spec_events, irq_spec_channel, irq_bit_set, hb, hi]
    · intro hb hi hp
      refine ⟨?_, ?_, fun hw => dequeue_policy_frame TYPE_BUFFER ch hw (hd ch hch)⟩
      · simp [irq_spec_events, irq_bit_set, hb, hi, hp]
      · simp [irq_spec_channel, irq_bit_set, hb, hi, hp]
    · rintro (hb | ⟨hi, hp⟩)
      · simp [irq_spec_events, irq_spec_channel, irq_bit_set, hb]
      · simp [irq_spec_events, irq_spec_channel, hi, hp]

/-- Witness for C25: three channels with their status bits set: the direct-completion
channel 0 is signalled, the channel 1 is drained (three messages, two subscribers), the
polling channel 2 is left alone and keeps its status bit. -/
theorem irq_handler_per_channel_witness :
    (acpm_ipc_irq_handler TYPE_BUFFER0 ipc_irq).final.map
        (fun r => (r.1.hw.events, r.1.hw.INTSR1)) =
      some ([.writel 1 .INTCR1, .complete 0, .writel 2 .INTCR1, .spin_lock_rx 1,
        .ipc_callback 8 200 [0x10000, 0xA, 0, 0] 16, .ipc_callback 7 100 [0x10000, 0xA, 0, 0] 16,
        .complete 1,
        .ipc_callback 8 200 [0x20000, 0xB, 0, 0] 16, .ipc_callback 7 100 [0x20000, 0xB, 0, 0] 16,
        .complete 1,
        .ipc_callback 8 200 [0x30000, 0xC, 0, 0] 16, .ipc_callback 7 100 [0x30000, 0xC, 0, 0] 16,
        .complete 1, .acpm_log_idx_update, .spin_unlock_rx 1], 4) ∧
      ∃ ipc' st, acpm_ipc_irq_handler TYPE_BUFFER0 ipc_irq = .ret () (ipc', st) ∧
        ipc'.channel = ipc_irq.channel.map (irq_spec_channel TYPE_BUFFER0 ipc_irq.hw.INTSR1) ∧
        ipc'.hw.events = ipc_irq.hw.events ++
          ipc_irq.channel.flatMap (irq_spec_events TYPE_BUFFER0 ipc_irq.hw.INTSR1) := by
  refine ⟨by decide, ?_⟩
  obtain ⟨ipc', st, h1, h2, h3, _⟩ := irq_handler_per_channel TYPE_BUFFER0 ipc_irq rfl
    (by
      intro ch hch
      right
      simp only [ipc_irq, List.mem_cons, List.mem_singleton, List.not_mem_nil, or_false] at hch
      rcases hch with rfl | rfl | rfl <;> (unfold buff_info.in_range; decide))
  exact ⟨ipc', st, h1, h2, h3⟩

/-- What one action does to the command buffer of a caller that is not posting. -/
theorem duo_step_buffer (K : Consts) (w : Bool) (act : DuoAct) (d d1 : Duo) (c : Nat → Nat)
    (hact : duo_step K act d = some d1) (hp : act.posts w = false)
    (hc : (d.cfg w).cmd = some c) :
    ∃ c1, (d1.cfg w).cmd = some c1 ∧ seq_field K (c1 0) = seq_field K (c 0) ∧
      (c1 = c ∨ (act = .check w ∧ ∃ i,
        seq_field K (d.ch.rx_ch.base i 0) = seq_field K (c 0) ∧
        c1 = memcpy_align_4 c (d.ch.rx_ch.base i) d.ch.rx_ch.size)) := by
  cases act with
  | post v spins fuel =>
    have hv : ¬ (w = v) := by
      intro h
      subst h
      simp [DuoAct.posts] at hp
    simp only [duo_step] at hact
    split at hact
    · next s _ =>
      simp only [Option.some.injEq] at hact
      subst hact
      exact ⟨c, by simp [Duo.merge, hv, hc], rfl, Or.inl rfl⟩
    · cases hact
  | fw f =>
    simp only [duo_step, Option.some.injEq] at hact
    subst hact
    exact ⟨c, hc, rfl, Or.inl rfl⟩
  | check v =>
    simp only [duo_step] at hact
    by_cases hv : w = v
    · subst hv
      rcases check_response_forms K (d.view w) with h | h | h | ⟨cmd, i, h1, h2, h3⟩
      · rw [h] at hact
        cases hact
      · rw [h] at hact
        cases hact
      · rw [h] at hact
        simp only [Option.some.injEq] at hact
        subst hact
        exact ⟨c, by simp [Duo.merge, St.emit, Duo.view, hc], rfl, Or.inl rfl⟩
      · rw [h3] at hact
        simp only [Option.some.injEq] at hact
        subst hact
        have hcmd : cmd = c := by
          have h4 : (d.cfg w).cmd = some cmd := h1
          rw [hc] at h4
          exact (Option.some.inj h4).symm
        subst hcmd
        refine ⟨memcpy_align_4 cmd (d.ch.rx_ch.base i) d.ch.rx_ch.size, ?_, ?_,
          Or.inr ⟨rfl, i, h2, rfl⟩⟩
        · simp [Duo.merge, St.emit, Duo.view, check_response_hit]
        · unfold memcpy_align_4
          split
          · exact h2
          · rfl
    · split at hact
      · next s _ =>
        simp only [Option.some.injEq] at hact
        subst hact
        exact ⟨c, by simp [Duo.merge, hv, hc], rfl, Or.inl rfl⟩
      · cases hact

/-- Along a schedule without a post of caller `w`, word 0 of its buffer keeps its
sequence field. -/
theorem duo_run_buffer (K : Consts) (w : Bool) :
    ∀ (sched : List DuoAct) (d0 d : Duo) (c0 : Nat → Nat),
      duo_run K sched d0 = some d → (∀ a ∈ sched, a.posts w = false) →
      (d0.cfg w).cmd = some c0 →
      ∃ c, (d.cfg w).cmd = some c ∧ seq_field K (c 0) = seq_field K (c0 0) := by
  intro sched
  induction sched with
  | nil =>
    intro d0 d c0 h _ hc
    simp only [duo_run, Option.some.injEq] at h
    subst h
    exact ⟨c0, hc, rfl⟩
  | cons a rest ih =>
    intro d0 d c0 h hp hc
    simp only [duo_run] at h
    cases hs : duo_step K a d0 with
    | none => simp [hs] at h
    | some d1 =>
      rw [hs] at h
      obtain ⟨c1, h1, h2, _⟩ := duo_step_buffer K w a d0 d1 c0 hs
        (hp a (List.mem_cons_self _ _)) hc
      obtain ⟨c, h3, h4⟩ := ih d1 d c1 h (fun b hb => hp b (List.mem_cons_of_mem _ hb)) h1
      exact ⟨c, h3, h4.trans h2⟩

/-- C22: two callers on one channel, in any schedule of their transmit sections, their
`check_response` calls and the steps of the coprocessor. Once caller `w` has posted its
command (buffer `c0`, which carries its sequence number), then as long as it does not
post again its buffer keeps that number in word 0, no action of the other caller or of
the coprocessor changes the buffer, and its own `check_response` changes it only by
copying an RX slot whose sequence field is that number; so the slot never carries the
different number of the other caller. -/
theorem callers_receive_own_response (K : Consts) (w : Bool) (pre : List DuoAct)
    (act : DuoAct) (d0 d d1 : Duo) (c0 : Nat → Nat)
    (hc0 : (d0.cfg w).cmd = some c0)
    (hpre : duo_run K pre d0 = some d) (hact : duo_step K act d = some d1)
    (hposts : ∀ a ∈ pre ++ [act], a.posts w = false) :
    ∃ c c1, (d.cfg w).cmd = some c ∧ (d1.cfg w).cmd = some c1 ∧
      seq_field K (c 0) = seq_field K (c0 0) ∧ seq_field K (c1 0) = seq_field K (c0 0) ∧
      (c1 = c ∨ (act = .check w ∧ ∃ i,
        seq_field K (d.ch.rx_ch.base i 0) = seq_field K (c0 0) ∧
        c1 = memcpy_align_4 c (d.ch.rx_ch.base i) d.ch.rx_ch.size ∧
        ∀ cv, (d.cfg (!w)).cmd = some cv → seq_field K (cv 0) ≠ seq_field K (c0 0) →
          seq_field K (d.ch.rx_ch.base i 0) ≠ seq_field K (cv 0))) := by
  obtain ⟨c, h1, h2⟩ := duo_run_buffer K w pre d0 d c0 hpre
    (fun a ha => hposts a (List.mem_append_left _ ha)) hc0
  obtain ⟨c1, h3, h4, h5⟩ := duo_step_buffer K w act d d1 c hact
    (hposts act (List.mem_append_right _ (List.mem_singleton_self _))) h1
  refine ⟨c, c1, h1, h3, h2, h4.trans h2, ?_⟩
  rcases h5 with h5 | ⟨h5, i, h6, h7⟩
  · exact Or.inl h5
  · refine Or.inr ⟨h5, i, h6.trans h2, h7, ?_⟩
    intro cv _ hne heq
    exact hne ((heq.symm.trans h6).trans h2)

/-- Witness for C22: caller `true` posts (number 1) and finds nothing, caller `false`
posts (number 2), the coprocessor answers number 2 before number 1; then each caller's
check copies the response with its own number, whichever order the checks come in. -/
theorem callers_receive_own_response_witness :
    ((duo_run K0 (.post true 0 4 :: duo_sched_head ++ [.check true, .check false]) duo0).map
        Duo.words =
      some [some [0x10077, 0xA, 0, 0], some [0x20099, 0xB, 0, 0]]) ∧
    ((duo_run K0 (.post true 0 4 :: duo_sched_head ++ [.check false, .check true]) duo0).map
        Duo.words =
      some [some [0x10077, 0xA, 0, 0], some [0x20099, 0xB, 0, 0]]) ∧
    ∃ d0 d d1 c0 c c1, duo_step K0 (.post true 0 4) duo0 = some d0 ∧
      (d0.cfg true).cmd = some c0 ∧ seq_field K0 (c0 0) = 1 ∧
      duo_run K0 duo_sched_head d0 = some d ∧ duo_step K0 (.check true) d = some d1 ∧
      (d.cfg true).cmd = some c ∧ (d1.cfg true).cmd = some c1 ∧
      seq_field K0 (c1 0) = seq_field K0 (c0 0) ∧
      (c1 = c ∨ ∃ i, seq_field K0 (d.ch.rx_ch.base i 0) = seq_field K0 (c0 0) ∧
        c1 = memcpy_align_4 c (d.ch.rx_ch.base i) d.ch.rx_ch.size) := by
  refine ⟨by decide, by decide, ?_⟩
  obtain ⟨d0, hd0⟩ : ∃ d0, duo_step K0 (.post true 0 4) duo0 = some d0 := ⟨_, rfl⟩
  obtain ⟨c0, hc0, hn⟩ : ∃ c0, (d0.cfg true).cmd = some c0 ∧ seq_field K0 (c0 0) = 1 := by
    have h := Option.some.inj hd0
    subst h
    exact ⟨_, rfl, by decide⟩
  obtain ⟨d, hd⟩ : ∃ d, duo_run K0 duo_sched_head d0 = some d := by
    have h := Option.some.inj hd0
    subst h
    exact ⟨_, rfl⟩
  obtain ⟨d1, hd1⟩ : ∃ d1, duo_step K0 (.check true) d = some d1 := by
    have h := Option.some.inj hd0
    subst h
    have h := Option.some.inj hd
    subst h
    exact ⟨_, rfl⟩
  obtain ⟨c, c1, h1, h2, _, h4, h5⟩ :=
    callers_receive_own_response K0 true duo_sched_head (.check true) d0 d d1 c0 hc0 hd hd1
      (by
        intro a ha
        simp only [duo_sched_head, List.cons_append, List.nil_append, List.mem_cons,
          List.mem_singleton, List.not_mem_nil, or_false] at ha
        rcases ha with rfl | rfl | rfl | rfl <;> rfl)
  refine ⟨d0, d, d1, c0, c, c1, hd0, hc0, hn, hd, hd1, h1, h2, h4, ?_⟩
  rcases h5 with h5 | ⟨_, i, h6, h7, _⟩
  · exact Or.inl h5
  · exact Or.inr ⟨i, h6, h7⟩

/-! ## The synchronous send without a responder -/

/-- The polling attribute of the channel does not change during the wait of a send. -/
theorem polling_stable (K : Consts) (p : Bool) : Stable K (fun s => s.ch.polling = p) := by
  refine ⟨fun s hw h _ => h, fun s e h _ => h, ?_⟩
  intro s h
  rcases check_response_forms K s with hf | hf | hf | ⟨cmd, i, _, _, hf⟩
  · rw [hf]; trivial
  · rw [hf]; trivial
  · rw [hf]; exact h
  · rw [hf]; exact h

/-- The transmit section never returns the value 0: it either publishes the command
(`none`) or ends the routine with an error. -/
theorem tx_section_some_ne_zero (K : Consts) (spins fuel : Nat) (s s1 : St) (v : Int)
    (h : tx_section K spins fuel s = .ret (some v) s1) : v ≠ 0 := by
  rcases tx_section_cases K spins fuel s with ⟨_, htx⟩ | ⟨_, _, s2, htx, _⟩ |
    ⟨_, _, _, _, s2, htx⟩ | ⟨_, cmd, q, _, _, hcase⟩
  · rw [htx] at h
    cases h
    decide
  · rw [htx] at h
    cases h
    decide
  · rw [htx] at h
    cases h
  · rcases hcase with ⟨v1, s2, hv1, htx, _⟩ | ⟨s2, htx, _⟩ | ⟨htx, _⟩
    · rw [htx] at h
      cases h
      exact hv1
    · rw [htx] at h
      cases h
    · rw [htx] at h
      cases h

/-- Where a non-zero return value of the synchronous send comes from: the transmit
section (nothing was published), or the completion wait of the synchronous routine
itself on a channel that is not polling. The wait of the underlying send returns 0
only. -/
theorem sync_nonzero_origin (K : Consts) (spins fuel : Nat) (fw : Shared → Shared)
    (completed : Int) (ipc : acpm_ipc_info) (id : Nat) (ch : acpm_ipc_ch) (c : ipc_config)
    (hch : ipc.channel[id]? = some ch)
    (hseq : ch.seq_num ≤ 63) (hS : K.ACPM_IPC_PROTOCOL_SEQ_NUM + 6 ≤ 32)
    (v : Int) (st : acpm_ipc_info × Option ipc_config)
    (h : acpm_ipc_send_data_sync K spins fuel fw completed ipc id (some c) = .ret v st)
    (hv : v ≠ 0) :
    (∃ s1, tx_section K spins fuel { ch := ch, cfg := c, hw := ipc.hw } = .ret (some v) s1) ∨
      (v = -ETIMEDOUT ∧ completed = 0 ∧ ch.polling = false ∧ c.response = true ∧
        ∃ s1, tx_section K spins fuel { ch := ch, cfg := c, hw := ipc.hw } = .ret none s1) := by
  unfold acpm_ipc_send_data_sync acpm_ipc_send_data at h
  rw [send_at K spins fuel fw ipc id ch c false hch] at h
  unfold send_data at h
  cases htx : tx_section K spins fuel { ch := ch, cfg := c, hw := ipc.hw } with
  | ret r s1 =>
    rw [htx] at h
    cases r with
    | some v1 =>
      have hv1 := tx_section_some_ne_zero K spins fuel _ s1 v1 htx
      simp only [hv1, if_false] at h
      cases h
      exact Or.inl ⟨s1, rfl⟩
    | none =>
      simp only at h
      obtain ⟨_, _, _, _, _, _, hr1, hp1, _⟩ :=
        tx_section_none_facts K spins fuel _ s1 hseq hS htx
      have hw := wait_section_stable (polling_stable K ch.polling) (polling_stable K ch.polling)
        fuel fw false s1 (fun s hs => hs) (fun s hs => hs) hp1
      have hw2 := wait_section_stable
        (P := fun s => s.cfg.response = c.response) (Q := fun s => s.cfg.response = c.response)
        ⟨fun s hw h _ => h, fun s e h _ => h, fun s hs => by
          rcases check_response_forms K s with hf | hf | hf | ⟨cmd, i, _, _, hf⟩
          · rw [hf]; trivial
          · rw [hf]; trivial
          · rw [hf]; exact hs
          · rw [hf]; exact hs⟩
        ⟨fun s hw h _ => h, fun s e h _ => h, fun s hs => by
          rcases check_response_forms K s with hf | hf | hf | ⟨cmd, i, _, _, hf⟩
          · rw [hf]; trivial
          · rw [hf]; trivial
          · rw [hf]; exact hs
          · rw [hf]; exact hs⟩
        fuel fw false s1 (fun s hs => hs) (fun s hs => hs) hr1
      cases hws : wait_section K fuel fw false s1 with
      | ret v2 s2 =>
        rw [hws] at h hw hw2
        obtain ⟨hv2, hq, hp⟩ := hw
        obtain ⟨_, hq2, hp2⟩ := hw2
        have hpol : s2.ch.polling = ch.polling := by
          cases hb : (s1.ch.interrupt && s1.cfg.response)
          · exact hp hb
          · exact hq hb
        have hres : s2.cfg.response = c.response := by
          cases hb : (s1.ch.interrupt && s1.cfg.response)
          · exact hp2 hb
          · exact hq2 hb
        subst hv2
        simp only [if_true, getElem?_set_self_of_some _ _ _ _ hch, hpol, hres] at h
        by_cases hb : (!ch.polling && c.response) = true
        · rw [if_pos hb] at h
          simp only [Bool.and_eq_true, Bool.not_eq_true'] at hb
          by_cases hcomp : completed = 0
          · rw [if_pos hcomp] at h
            cases h
            exact Or.inr ⟨rfl, hcomp, hb.1, hb.2, s1, rfl⟩
          · rw [if_neg hcomp] at h
            cases h
            exact absurd rfl hv
        · rw [if_neg hb] at h
          cases h
          exact absurd rfl hv
      | bug s2 => rw [hws] at h; cases h
      | fault => rw [hws] at h; cases h
      | hang => rw [hws] at h; cases h
  | bug s1 => rw [htx] at h; cases h
  | fault => rw [htx] at h; cases h
  | hang => rw [htx] at h; cases h

/-- C12 (amended): a synchronous response-expected send on a channel with no responder,
under a strictly increasing clock. (1) When the command is published (sequence number
`q`) and no response carrying `q` is pending after the coprocessor step, the call
returns, with enough fuel, 0 on a polling channel and, on a channel that is not polling,
`-ETIMEDOUT` exactly when the 50 ms completion wait of `acpm_ipc_send_data_sync` itself
times out (`completed = 0`); when the underlying send waited it has exhausted its
deadline and expired the watchdog first. (2) When the TX ring is full the call returns
`-ETIMEDOUT` on any channel, from the full-ring check, with the channels unchanged.
(3) Whenever the call returns a non-zero value, that value either is the one with which
the transmit section ended the routine (nothing was published), or it is `-ETIMEDOUT`
from the completion wait of the synchronous routine on a channel that is not polling:
the exhausted wait for the response never yields an error. -/
theorem sync_no_responder (K : Consts) (spins : Nat) (fw : Shared → Shared) (completed : Int)
    (ipc : acpm_ipc_info) (id : Nat) (ch : acpm_ipc_ch) (c : ipc_config)
    (hch : ipc.channel[id]? = some ch) (hresp : c.response = true)
    (hseq : ch.seq_num ≤ 63) (hS : K.ACPM_IPC_PROTOCOL_SEQ_NUM + 6 ≤ 32)
    (hclk : ∀ k, ipc.hw.clk k < ipc.hw.clk (k + 1)) :
    (∀ (s1 : St) (q F0 : Nat),
      (∀ fuel, F0 ≤ fuel →
        tx_section K spins fuel { ch := ch, cfg := c, hw := ipc.hw } = .ret none s1) →
      s1.ch.seq_num = q → (fw_step fw s1).ch.rx_ch.in_range →
      (∀ j ∈ ring_range (fw_step fw s1).ch.rx_ch.len (fw_step fw s1).ch.rx_ch.rear
          (fw_step fw s1).ch.rx_ch.front,
        seq_field K ((fw_step fw s1).ch.rx_ch.base j 0) ≠ q) →
      ∃ F ipc' cfg', (∀ fuel, F ≤ fuel →
          acpm_ipc_send_data_sync K spins fuel fw completed ipc id (some c) =
            .ret (if ch.polling = true then 0 else if completed = 0 then -ETIMEDOUT else 0)
              (ipc', some cfg')) ∧
        (ch.polling = true ∨ ch.interrupt = true →
          Event.dbg_snapshot_expire_watchdog ∈ ipc'.hw.events)) ∧
    (next_index ch.tx_ch.front ch.tx_ch.len = ch.tx_ch.rear →
      ∀ fuel, ∃ ipc', ipc'.channel = ipc.channel ∧
        acpm_ipc_send_data_sync K spins fuel fw completed ipc id (some c) =
          .ret (-ETIMEDOUT) (ipc', some c)) ∧
    (∀ (fuel : Nat) (v : Int) (st : acpm_ipc_info × Option ipc_config),
      acpm_ipc_send_data_sync K spins fuel fw completed ipc id (some c) = .ret v st → v ≠ 0 →
      (∃ s1, tx_section K spins fuel { ch := ch, cfg := c, hw := ipc.hw } = .ret (some v) s1) ∨
        (v = -ETIMEDOUT ∧ completed = 0 ∧ ch.polling = false ∧ c.response = true ∧
          ∃ s1, tx_section K spins fuel { ch := ch, cfg := c, hw := ipc.hw } =
            .ret none s1)) := by
  refine ⟨?_, ?_, ?_⟩
  · intro s1 q F0 htx hq hrx hno
    exact sync_published_no_response K spins fw completed ipc id ch c s1 q F0 hch hresp hseq hS
      htx hq hrx hno hclk
  · intro hfull fuel
    refine ⟨{ ipc with hw := (tx_full_exit { ch := ch, cfg := c, hw := ipc.hw }).hw }, rfl, ?_⟩
    unfold acpm_ipc_send_data_sync acpm_ipc_send_data
    rw [send_full_eq K spins fuel fw ipc id ch c false hch hfull]
    have hne : ¬ (-ETIMEDOUT = 0) := by decide
    simp only [hne, if_false]
  · intro fuel v st h hv
    exact sync_nonzero_origin K spins fuel fw completed ipc id ch c hch hseq hS v st h hv

/-- Witness for C12 (amended): the sample channel in interrupt mode with an idle
coprocessor, the clock whose k-th reading is k and a completion that is never signalled:
the synchronous send returns `-ETIMEDOUT` from its own completion wait, after the
watchdog has been expired; and the sample polling channel with a full TX ring: the
synchronous send returns `-ETIMEDOUT` from the full-ring check, the value with which the
transmit section ended. -/
theorem sync_no_responder_witness :
    (∃ F ipc' cfg', (∀ fuel, F ≤ fuel →
        acpm_ipc_send_data_sync K0 0 fuel (fun v => v) 0 ipc_intr 0 (some cfg_resp) =
          .ret (-ETIMEDOUT) (ipc', some cfg')) ∧
      Event.dbg_snapshot_expire_watchdog ∈ ipc'.hw.events) ∧
    (∀ fuel, ∃ ipc', ipc'.channel = ipc_full.channel ∧
      acpm_ipc_send_data_sync K0 0 fuel (fun v => v) 0 ipc_full 0 (some cfg_resp) =
        .ret (-ETIMEDOUT) (ipc', some cfg_resp)) ∧
    ((∃ s1, tx_section K0 0 0 { ch := ch_full, cfg := cfg_resp, hw := ipc_full.hw } =
        .ret (some (-ETIMEDOUT)) s1) ∨
      (-ETIMEDOUT = -ETIMEDOUT ∧ (0 : Int) = 0 ∧ ch_full.polling = false ∧
        cfg_resp.response = true ∧
        ∃ s1, tx_section K0 0 0 { ch := ch_full, cfg := cfg_resp, hw := ipc_full.hw } =
          .ret none s1)) := by
  refine ⟨?_, ?_, ?_⟩
  · obtain ⟨F, ipc', cfg', h1, h2⟩ :=
      (sync_no_responder K0 0 (fun v => v) 0 ipc_intr 0 ch_intr cfg_resp rfl rfl (by decide)
        (by decide) (fun k => Nat.lt_succ_self k)).1
        (tx_published K0 { ch := ch_intr, cfg := cfg_resp, hw := hw0 }
          (base_of [[0x11, 0x22, 0x33, 0x44]] 0) 1) 1 0
        (fun fuel _ => tx_section_published K0 0 fuel { ch := ch_intr, cfg := cfg_resp, hw := hw0 }
          (base_of [[0x11, 0x22, 0x33, 0x44]] 0) 1 (by decide) rfl (by decide) rfl)
        rfl (by unfold buff_info.in_range; decide) (by decide)
    exact ⟨F, ipc', cfg', h1, h2 (Or.inr rfl)⟩
  · exact (sync_no_responder K0 0 (fun v => v) 0 ipc_full 0 ch_full cfg_resp rfl rfl (by decide)
      (by decide) (fun k => Nat.lt_succ_self k)).2.1 (by decide)
  · obtain ⟨ipc1, _, hrun⟩ :=
      (sync_no_responder K0 0 (fun v => v) 0 ipc_full 0 ch_full cfg_resp rfl rfl (by decide)
        (by decide) (fun k => Nat.lt_succ_self k)).2.1 (by decide) 0
    exact (sync_no_responder K0 0 (fun v => v) 0 ipc_full 0 ch_full cfg_resp rfl rfl (by decide)
      (by decide) (fun k => Nat.lt_succ_self k)).2.2 0 _ _ hrun (by decide)

end AcpmIpc
